import Mathlib

/-! # OWAMP session statistics (`owamp/stats.c`)

A shallow embedding of the statistics engine of `owamp/stats.c`: the packet
window (`PacketAlloc`, `PacketGet`, `PacketBeginFlush`), the delay histogram
(`BucketIncrementDelay`, `BucketBufferSortPercentile`), the per-record
callbacks (`IterateSummarizeSession`, `IterateSummarizeTWSession`) and the
driver `OWPStatsParse`.

Conventions of the embedding.

* The packet buffer of the source is a linked list `pbegin -> ... -> pend`
  whose nodes are also the entries of the hash `ptable`.  Here it is the list
  `pnodes` (head = `pbegin`); `pend` is kept as the sequence number that
  `stats->pend->seq` reads (`none` for a NULL pointer, `some 0` for a node that
  `PacketFree` has reset).  The free lists and `calloc` are memory management
  and are not modelled: an allocation never fails for lack of memory.
* Counters (`sent`, `lost`, `dups`, `seen`, sequence numbers) are `uint32_t`
  in the source and natural numbers here; the number of records of one parse
  is itself a `uint32_t`, so the counters cannot wrap.  Time stamps are
  `OWPNum64` (unsigned 64 bit fixed point) with wrapping arithmetic.
* `double` values (delays, bucket width, percentiles) are rationals.  The
  division `d /= stats->bucketwidth` that picks the bucket of a delay is
  rounded to the nearest double (`roundDouble`) and converted to a 32-bit
  `int`; the other operations on doubles are exact.
* Properties of "every state reachable during a parse" are stated over the
  step relation `ParseStep`, whose steps are the calls of `PacketBeginFlush`
  and `PacketGet` and the updates of the callbacks; `parse_reach` shows that
  the states `OWPStatsParse` returns are reached by such steps.
-/

namespace Owamp

/-! ## Collaborators that are not part of the sources -/

/-- Modelled from the spec: `OWPNum64Add` of owamp.h is missing; time stamps are
64-bit fixed point numbers, addition wraps at 64 bits. -/
def OWPNum64Add (x y : Nat) : Nat := (x + y) % 2 ^ 64

/-- Modelled from the spec: `OWPNum64Sub` of owamp.h is missing; unsigned 64-bit
fixed point subtraction, wrapping at 64 bits. -/
def OWPNum64Sub (x y : Nat) : Nat := (x % 2 ^ 64 + 2 ^ 64 - y % 2 ^ 64) % 2 ^ 64

/-- Modelled from the spec: `OWPNum64Cmp` of owamp.h is missing; three-way
comparison of two 64-bit fixed point numbers. -/
def OWPNum64Cmp (x y : Nat) : Int := if x < y then -1 else if x > y then 1 else 0

/-- Modelled from the spec: `OWPNum64ToDouble` is missing; the high 32 bits are
seconds and the low 32 bits the fraction of a second. -/
def OWPNum64ToDouble (x : Nat) : ℚ := (x : ℚ) / 2 ^ 32

/-- Modelled from the spec: the declaration of `OWPTimeStamp` is missing; a time
stamp is a 64-bit fixed point time, a sync flag and an error estimate (kept as
the value `OWPGetTimeStampError` returns for it). -/
structure OWPTimeStamp where
  owptime : Nat := 0
  sync : Bool := true
  errest : ℚ := 0

/-- Modelled from the spec: `OWPGetTimeStampError` is missing; it returns the
error estimate carried by the time stamp. -/
def OWPGetTimeStampError (t : OWPTimeStamp) : ℚ := t.errest

/-- Modelled from the spec: the declaration of `OWPDataRec` is missing; a
one-way record is a sequence number, the send and receive time stamps and the
ttl.  The sentinel lost-timestamp pattern of the collaborator is kept as the
flag `lostmark`. -/
structure OWPDataRec where
  seq_no : Nat
  send : OWPTimeStamp := {}
  recv : OWPTimeStamp := {}
  ttl : Nat := 255
  lostmark : Bool := false

/-- Modelled from the spec: `OWPIsLostRecord` is missing; a record is lost when
it carries the sentinel lost-timestamp pattern. -/
def OWPIsLostRecord (rec : OWPDataRec) : Bool := rec.lostmark

/-- Modelled from the spec: `OWPDelay` is missing; the delay is `recv - send`
of the two fixed point times, in seconds. -/
def OWPDelay (send recv : OWPTimeStamp) : ℚ :=
  OWPNum64ToDouble recv.owptime - OWPNum64ToDouble send.owptime

/-- Modelled from the spec: the declaration of `OWPTWDataRec` is missing; a
two-way record nests the one-way record `sent` and the reflected send and
receive time stamps. -/
structure OWPTWDataRec where
  sent : OWPDataRec
  reflected_send : OWPTimeStamp := {}
  reflected_recv : OWPTimeStamp := {}

/-- Modelled from the spec: the declaration of `OWPSkipRec` is missing; a skip
record is an inclusive range of sequence numbers. -/
structure OWPSkipRec where
  begin_ : Nat
  end_ : Nat

/-- Modelled from the spec: the declaration of `OWPTestSpec` is missing; the
fields of the test specification the statistics engine reads. -/
structure OWPTestSpec where
  start_time : Nat := 0
  loss_timeout : Nat := 0
  npackets : Nat := 0
  typeP : Nat := 0
  packet_size_padding : Nat := 0

/-- Modelled from the spec: the declaration of `OWPSessionHeader` is missing;
the fields of the session header the statistics engine reads. -/
structure OWPSessionHeader where
  version : Nat := 3
  twoway : Bool := false
  rec_size : Nat := 25
  oset_datarecs : Nat := 0
  oset_skiprecs : Nat := 0
  test_spec : OWPTestSpec := {}

/-- Modelled from the spec: the schedule generator is an external collaborator;
it is a cursor `pos` over a deterministic sequence `deltas` of inter-packet
deltas (64-bit fixed point), the same sequence after every reset. -/
structure OWPScheduleContext where
  deltas : Nat → Nat
  pos : Nat := 0

/-- Modelled from the spec: `OWPScheduleContextGenerateNextDelta` draws the next
delta and advances the cursor. -/
def OWPScheduleContextGenerateNextDelta (sctx : OWPScheduleContext) :
    Nat × OWPScheduleContext :=
  (sctx.deltas sctx.pos % 2 ^ 64, { sctx with pos := sctx.pos + 1 })

/-- Modelled from the spec: `OWPScheduleContextReset` puts the cursor back to the
start of the sequence. -/
def OWPScheduleContextReset (sctx : OWPScheduleContext) : OWPScheduleContext :=
  { sctx with pos := 0 }

/-! ## Data model of `stats.c` -/

/-- One node of the packet buffer (`OWPPacketRec`). -/
structure OWPPacketRec where
  seq : Nat
  schedtime : Nat := 0
  seen : Nat := 0
  lost : Bool := false
deriving DecidableEq, Repr

/-- One bucket of the delay histogram (`OWPBucketRec`). -/
structure OWPBucketRec where
  b : Int
  n : Nat
deriving DecidableEq, Repr

/-- The statistics object (`OWPStatsRec`), restricted to the fields `stats.c`
computes with. -/
structure OWPStatsRec where
  hdr : OWPSessionHeader
  skips : List OWPSkipRec := []
  sctx : OWPScheduleContext
  isctx : Nat := 0
  endnum : Nat := 0
  plistlen : Nat := 10
  blistlen : Nat := 10
  rlistlen : Nat := 10
  bucketwidth : ℚ := 1
  pnodes : List OWPPacketRec := []
  pend : Option Nat := none
  btable : List OWPBucketRec := []
  bsort : List OWPBucketRec := []
  rseqno : List Nat := []
  rn : List Nat := []
  rindex : Nat := 0
  rnumseqno : Nat := 0
  first : Nat := 0
  last : Nat := 0
  iskip : Nat := 0
  sent : Nat := 0
  lost : Nat := 0
  dups : Nat := 0
  i : Nat := 0
  begin_oset : Nat := 0
  next_oset : Nat := 0
  start_time : Nat := 0
  end_time : Nat := 0
  inf_delay : ℚ := 0
  min_delay : ℚ := 0
  max_delay : ℚ := 0
  min_proc_delay : ℚ := 0
  max_proc_delay : ℚ := 0
  sync : Nat := 0
  maxerr : ℚ := 0
  ttl_count : Nat → Nat := fun _ => 0

/-- Result of a step of the engine: `ok` (the C function returns 0 / True),
`fatal` (it returns -1 / False, with the state it leaves) and `crash` (the C
code dereferences a NULL pointer, fails an `assert`, or a loop of the model
runs out of fuel). -/
inductive Ret where
  | ok (st : OWPStatsRec)
  | fatal (st : OWPStatsRec)
  | crash

/-! ## Packet buffer -/

/-- Source `PacketFree`: the node is removed from the hash (here: from `pnodes`) and
its `seq` is reset to 0, which a `pend` pointer still aimed at it then reads. -/
def PacketFree (st : OWPStatsRec) (node : OWPPacketRec) : OWPStatsRec :=
  { st with
    pnodes := st.pnodes.filter (fun p => p.seq ≠ node.seq)
    pend := if st.pend = some node.seq then some 0 else st.pend }

/-- Source `PacketBufferClean` over the whole hash (`I2HashIterate`): every node of
the buffer is freed. -/
def PacketBufferClean (st : OWPStatsRec) : OWPStatsRec :=
  { st with
    pnodes := []
    pend := match st.pend with
      | none => none
      | some _ => some 0 }

/-- Write through a node pointer: `f` is applied to the node of the buffer that
carries the sequence number `seq`. -/
def nodeUpdate (seq : Nat) (f : OWPPacketRec → OWPPacketRec)
    (l : List OWPPacketRec) : List OWPPacketRec :=
  l.map (fun p => if p.seq = seq then f p else p)

/-- Source `PacketAlloc`: refuses `seq > last` and `seq <= pend->seq`; otherwise a
fresh node for `seq` is stored in the hash.  Linking the node (`next`) is done
by the caller; in the list `pnodes` the new node is the last one. -/
def PacketAlloc (st : OWPStatsRec) (seq : Nat) : Option (OWPStatsRec × OWPPacketRec) :=
  let behind : Bool :=
    match st.pend with
    | some pe => decide (seq ≤ pe)
    | none => false
  if seq > st.last ∨ behind = true then
    none
  else
    let node : OWPPacketRec := { seq := seq, schedtime := 0, seen := 0, lost := false }
    some ({ st with pnodes := st.pnodes ++ [node] }, node)

/-- The `while(node->seq < seq)` loop of `PacketGet`, run `k = seq - pend->seq`
times from the node with sequence number `nseq`: draw the next delta, allocate
the node `nseq + 1` and give it the scheduled time `endnum`. -/
def PacketGetLoop : Nat → OWPStatsRec → Nat → Option (OWPStatsRec × Nat)
  | 0, st, nseq => some (st, nseq)
  | k + 1, st, nseq =>
    if nseq + 1 ≠ st.isctx then none
    else
      let g := OWPScheduleContextGenerateNextDelta st.sctx
      let st1 := { st with endnum := OWPNum64Add st.endnum g.1, sctx := g.2,
                           isctx := st.isctx + 1 }
      match PacketAlloc st1 (nseq + 1) with
      | none => none
      | some (st2, node) =>
        let st3 := { st2 with
          pnodes := nodeUpdate node.seq (fun p => { p with schedtime := st2.endnum })
            st2.pnodes }
        PacketGetLoop k st3 (nseq + 1)

/-- Source `PacketGet`: the record of `seq`, creating the records between the current
end of the buffer and `seq` when needed.  The outer `none` is a crash (NULL
`pend`, failed `assert`); the inner option is the pointer returned. -/
def PacketGet (st : OWPStatsRec) (seq : Nat) :
    Option (OWPStatsRec × Option OWPPacketRec) :=
  match st.pend with
  | none => none
  | some pe =>
    if seq = pe then some (st, st.pnodes.find? (fun p => p.seq = seq))
    else if seq < st.first ∨ seq > st.last then some (st, none)
    else if seq > pe then
      match PacketGetLoop (seq - pe) st pe with
      | none => none
      | some (st1, nseq) =>
        let st2 := { st1 with pend := some nseq }
        some (st2, st2.pnodes.find? (fun p => p.seq = nseq))
    else
      match st.pnodes.head? with
      | none => none
      | some pb =>
        if seq < pb.seq then some (st, none)
        else some (st, st.pnodes.find? (fun p => p.seq = seq))

/-- The loop of `PacketBeginFlush` that moves `iskip` past the skip ranges that
end before `seq`; `rest` is `skips[iskip ..]`. -/
def skipForward (seq : Nat) : List OWPSkipRec → Nat → Nat
  | [], k => k
  | r :: rest, k => if seq > r.end_ then skipForward seq rest (k + 1) else k

/-- The accounting part of `PacketBeginFlush` for the node `node` at the
beginning of the buffer: move `iskip` forward, count the loss or the
duplicates unless the node is in the current skip range, and retain the
scheduled time of the node. -/
def flushAcct (st : OWPStatsRec) (node : OWPPacketRec) : OWPStatsRec :=
  let st1 := { st with iskip := skipForward node.seq (st.skips.drop st.iskip) st.iskip }
  let inskip : Bool :=
    match st1.skips.get? st1.iskip with
    | some r => decide (node.seq ≥ r.begin_)
    | none => false
  let st2 :=
    if inskip then st1
    else if node.lost then { st1 with lost := st1.lost + 1 }
    else if node.seen ≠ 0 then { st1 with dups := st1.dups + (node.seen - 1) }
    else st1
  { st2 with end_time := node.schedtime }

/-- Source `PacketBeginFlush`: account for the node at the beginning of the
buffer, move `pbegin` on (to the next node, or to `PacketGet(seq+1)` while
that is below `last`) and free the node.  The boolean is the value returned
(`keep_parsing`); `none` is a crash inside `PacketGet`. -/
def PacketBeginFlush (st : OWPStatsRec) : Option (OWPStatsRec × Bool) :=
  match st.pnodes with
  | [] => some (st, false)
  | node :: rest =>
    let st3 := flushAcct st node
    match rest with
    | _ :: _ => some (PacketFree st3 node, true)
    | [] =>
      if node.seq + 1 < st3.last then
        match PacketGet st3 (node.seq + 1) with
        | none => none
        | some (st4, _) => some (PacketFree st4 node, true)
      else some (PacketFree st3 node, false)

/-- The loop `while(stats->pbegin->seq < rec->seq_no)` of the callbacks, with
its error exit when `PacketBeginFlush` returns False. -/
def flushLostLoop : Nat → OWPStatsRec → Nat → Ret
  | 0, _, _ => Ret.crash
  | fuel + 1, st, seq =>
    match st.pnodes with
    | [] => Ret.crash
    | pb :: _ =>
      if pb.seq < seq then
        match PacketBeginFlush st with
        | none => Ret.crash
        | some (st1, true) => flushLostLoop fuel st1 seq
        | some (st1, false) => Ret.fatal st1
      else Ret.ok st

/-- The loop `while(OWPNum64Cmp(stats->pbegin->schedtime,thresh) < 0)` of the
callbacks, with its error exit when `PacketBeginFlush` returns False. -/
def flushThreshLoop : Nat → OWPStatsRec → Nat → Ret
  | 0, _, _ => Ret.crash
  | fuel + 1, st, thresh =>
    match st.pnodes with
    | [] => Ret.crash
    | pb :: _ =>
      if OWPNum64Cmp pb.schedtime thresh < 0 then
        match PacketBeginFlush st with
        | none => Ret.crash
        | some (st1, true) => flushThreshLoop fuel st1 thresh
        | some (st1, false) => Ret.fatal st1
      else Ret.ok st

/-! ## Delay histogram -/

/-- C `int` arithmetic: the value of a 32-bit signed result, wrapping. -/
def wrapInt32 (x : Int) : Int := (x + 2 ^ 31) % 2 ^ 32 - 2 ^ 31

/-- Rounding of the fraction `num / den` to the nearest natural number, a tie
going to the even one (the rounding of IEEE 754 arithmetic). -/
def roundHalfEven (num den : Nat) : Nat :=
  let r := num / den
  let rem := num % den
  if 2 * rem < den then r
  else if den < 2 * rem then r + 1
  else if r % 2 = 0 then r else r + 1

/-- The number of halvings that take `n` below 2, for `n <= fuel`: the position
of the highest set bit of `n`. -/
def log2Loop : Nat → Nat → Nat
  | 0, _ => 0
  | fuel + 1, n => if 2 ≤ n then log2Loop fuel (n / 2) + 1 else 0

/-- Binary exponent of the positive fraction `n / d`: the `e` with
`2^e <= n/d < 2^(e+1)`. -/
def binExponent (n d : Nat) : Int :=
  let ln := log2Loop n n
  let ld := log2Loop d d
  if d * 2 ^ ln ≤ n * 2 ^ ld then (ln : Int) - ld else (ln : Int) - ld - 1

/-- The double nearest to the fraction `n / d`: 53 significant bits, or
multiples of `2^-1074` below `2^-1022` (gradual underflow). -/
def roundMagnitude (n d : Nat) : ℚ :=
  if n = 0 then 0
  else
    let k : Int := max (binExponent n d - 52) (-1074)
    let r := roundHalfEven (n * 2 ^ (-k).toNat) (d * 2 ^ k.toNat)
    mkRat ((r * 2 ^ k.toNat : Nat) : Int) (2 ^ (-k).toNat)

/-- C `double` arithmetic: the exact result `q` of an operation rounded to the
nearest double (IEEE 754 binary64, round to nearest, ties to even).  Results
beyond the largest double, which the machine turns into an infinity, are not
cut off; they are far outside the range of `int`. -/
def roundDouble (q : ℚ) : ℚ :=
  if q.num < 0 then -roundMagnitude q.num.natAbs q.den else roundMagnitude q.num.natAbs q.den

/-- Bucket index of `BucketIncrementDelay`: `d /= bucketwidth` in `double` and
then `b = (d<0)?floor(d):ceil(d)` stored in the `int b`.  C leaves the
conversion of a value outside the range of `int` undefined; here it wraps to
32 bits like the other `int` results. -/
def bucketIndex (bucketwidth d : ℚ) : Int :=
  let q := roundDouble (d / bucketwidth)
  wrapInt32 (if q < 0 then ⌊q⌋ else ⌈q⌉)

/-- The hash access of `BucketIncrementDelay` on the entries of `btable`: the
node of `b` gets `n++`; when there is none, a new node for `b` is stored with
`n = 0` and then incremented. -/
def bucketBump (b : Int) : List OWPBucketRec → List OWPBucketRec
  | [] => [OWPBucketRec.mk b (0 + 1)]
  | x :: rest => if x.b = b then { x with n := x.n + 1 } :: rest else x :: bucketBump b rest

/-- Source `BucketIncrementDelay`: look the bucket of `d` up in the hash `btable`;
when absent, store a new bucket for it with `n = 0`; then `node->n++`. -/
def BucketIncrementDelay (st : OWPStatsRec) (d : ℚ) : OWPStatsRec :=
  { st with btable := bucketBump (bucketIndex st.bucketwidth d) st.btable }

/-- Source `BucketBufferClean` over the whole hash (`I2HashIterate`): the
histogram is emptied. -/
def BucketBufferClean (st : OWPStatsRec) : OWPStatsRec :=
  { st with btable := [] }

/-- Source `BucketBufferSortCmp`: `return (b1->b - b2->b)` in `int`. -/
def BucketBufferSortCmp (b1 b2 : OWPBucketRec) : Int := wrapInt32 (b1.b - b2.b)

/-- Modelled from the spec: `qsort` of libc is missing; the array is sorted by
insertion with the order the comparison function reports. -/
def qsort (cmp : OWPBucketRec → OWPBucketRec → Int) (l : List OWPBucketRec) :
    List OWPBucketRec :=
  l.insertionSort (fun x y => cmp x y ≤ 0)

/-- The `for` loop of `BucketBufferSortPercentile` over `bsort[i ..]` with the
running `sum`: the bucket at which the loop stops, if any. -/
def percentileLoop (target : ℚ) : List OWPBucketRec → ℚ → Option OWPBucketRec
  | [], _ => none
  | x :: rest, sum =>
    if (x.n : ℚ) + sum < target then percentileLoop target rest (sum + x.n)
    else some x

/-- Source `BucketBufferSortPercentile`: `none` is the return value False,
`some d` is True with `*delay_ret = d`.  The `assert` on `alpha` is a
precondition of the callers. -/
def BucketBufferSortPercentile (st : OWPStatsRec) (alpha : ℚ) : Option ℚ :=
  match percentileLoop (alpha * st.sent) st.bsort 0 with
  | none => none
  | some x => some (x.b * st.bucketwidth)

/-! ## Reordering -/

/-- The macro `rseqindex(x)` of the callbacks. -/
def rseqindex (rlistlen : Nat) (x : Int) : Int := if x ≥ 0 then x else x + rlistlen

/-- The `for` loop of the j-reordering block, from index `i` with `k` rounds
left: `rn[i]++` while `seq_no < rseqno[rseqindex(rindex-i-1)]`. -/
def reorderLoop (st : OWPStatsRec) (seq_no : Nat) : Nat → Nat → List Nat → List Nat
  | 0, _, rn => rn
  | k + 1, i, rn =>
    if seq_no < st.rseqno.getD (rseqindex st.rlistlen ((st.rindex : Int) - i - 1)).toNat 0 then
      reorderLoop st seq_no k (i + 1) (rn.set i (rn.getD i 0 + 1))
    else rn

/-- The j-reordering block of the callbacks.  In an object of `OWPStatsCreate`
`rlistlen` is at least 10 and is the length of `rn` and `rseqno`, so the modulus
is not by zero and the indices stay inside the arrays. -/
def jreorder (st : OWPStatsRec) (seq_no : Nat) : OWPStatsRec :=
  { st with
    rn := reorderLoop st seq_no (min st.rnumseqno st.rlistlen) 0 st.rn
    rseqno := st.rseqno.set st.rindex seq_no
    rnumseqno := st.rnumseqno + 1
    rindex := (st.rindex + 1) % st.rlistlen }

/-! ## Per-record callbacks -/

/-- The skip test of the callbacks: scan `skips[iskip ..]` for a range that
holds `seq`. -/
def skipScan (st : OWPStatsRec) (seq : Nat) : Bool :=
  (st.skips.drop st.iskip).any (fun r => decide (seq ≥ r.begin_ ∧ seq ≤ r.end_))

/-- The first lines of both callbacks: remember the offset of the first record
with `seq_no >= last`, and count the record. -/
def markOffset (st : OWPStatsRec) (seq_no : Nat) : OWPStatsRec :=
  let st1 :=
    if st.next_oset = 0 ∧ seq_no ≥ st.last then
      { st with next_oset := st.begin_oset + st.i * st.hdr.rec_size }
    else st
  { st1 with i := st1.i + 1 }

/-- Source `IterateSummarizeSession`, the callback of a one-way session.  Printing
to `stats->output` is left out. -/
def IterateSummarizeSession (rec : OWPDataRec) (st0 : OWPStatsRec) : Ret :=
  let st := markOffset st0 rec.seq_no
  if rec.seq_no < st.first ∨ rec.seq_no ≥ st.last then Ret.ok st
  else
    let flushed :=
      if OWPIsLostRecord rec then flushLostLoop (st.last + 1) st rec.seq_no
      else flushThreshLoop (st.last + 1) st
        (OWPNum64Sub rec.recv.owptime st.hdr.test_spec.loss_timeout)
    match flushed with
    | Ret.crash => Ret.crash
    | Ret.fatal st1 => Ret.fatal st1
    | Ret.ok st1 =>
      match PacketGet st1 rec.seq_no with
      | none => Ret.crash
      | some (st2, none) => Ret.fatal st2
      | some (st2, some node) =>
        if skipScan st2 node.seq then Ret.ok st2
        else if OWPIsLostRecord rec then
          if node.seen ≠ 0 then Ret.fatal st2
          else
            Ret.ok { st2 with
              pnodes := nodeUpdate node.seq (fun p => { p with lost := true }) st2.pnodes
              sent := st2.sent + 1
              sync := if rec.recv.sync then st2.sync else 0
              maxerr := max st2.maxerr (OWPGetTimeStampError rec.recv) }
        else if node.lost then Ret.fatal st2
        else
          let st3 := { st2 with
            sent := if node.seen = 0 then st2.sent + 1 else st2.sent
            pnodes := nodeUpdate node.seq (fun p => { p with seen := p.seen + 1 }) st2.pnodes }
          let st4 := jreorder st3 rec.seq_no
          let d := OWPDelay rec.send rec.recv
          let derr := OWPGetTimeStampError rec.send + OWPGetTimeStampError rec.recv
          let st5 := { st4 with
            sync := if rec.send.sync && rec.recv.sync then st4.sync else 0
            maxerr := max st4.maxerr derr
            min_delay := min st4.min_delay d
            max_delay := max st4.max_delay d }
          if node.seen + 1 > 1 then Ret.ok st5
          else
            let st6 := BucketIncrementDelay st5 d
            Ret.ok { st6 with
              ttl_count := fun t => if t = rec.ttl then st6.ttl_count t + 1 else st6.ttl_count t }

/-- Source `IterateSummarizeTWSession`, the callback of a two-way session.
Printing to `stats->output` is left out. -/
def IterateSummarizeTWSession (rec : OWPTWDataRec) (st0 : OWPStatsRec) : Ret :=
  let st := markOffset st0 rec.sent.seq_no
  if rec.sent.seq_no < st.first ∨ rec.sent.seq_no ≥ st.last then Ret.ok st
  else
    let flushed :=
      if OWPIsLostRecord rec.sent then flushLostLoop (st.last + 1) st rec.sent.seq_no
      else flushThreshLoop (st.last + 1) st
        (OWPNum64Sub rec.sent.send.owptime st.hdr.test_spec.loss_timeout)
    match flushed with
    | Ret.crash => Ret.crash
    | Ret.fatal st1 => Ret.fatal st1
    | Ret.ok st1 =>
      match PacketGet st1 rec.sent.seq_no with
      | none => Ret.crash
      | some (st2, none) => Ret.fatal st2
      | some (st2, some node) =>
        if skipScan st2 node.seq then Ret.ok st2
        else if OWPIsLostRecord rec.sent then
          if node.seen ≠ 0 then Ret.fatal st2
          else
            Ret.ok { st2 with
              pnodes := nodeUpdate node.seq (fun p => { p with lost := true }) st2.pnodes
              sent := st2.sent + 1
              sync := if rec.sent.recv.sync then st2.sync else 0
              maxerr := max st2.maxerr (OWPGetTimeStampError rec.sent.recv) }
        else if node.lost then Ret.fatal st2
        else
          let st3 := { st2 with
            sent := if node.seen = 0 then st2.sent + 1 else st2.sent
            pnodes := nodeUpdate node.seq (fun p => { p with seen := p.seen + 1 }) st2.pnodes }
          let st4 := jreorder st3 rec.sent.seq_no
          let proc_d := OWPDelay rec.sent.recv rec.reflected_send
          let d := OWPDelay rec.sent.send rec.reflected_recv - proc_d
          let derr := OWPGetTimeStampError rec.sent.send +
            OWPGetTimeStampError rec.reflected_recv + OWPGetTimeStampError rec.sent.recv
          let st5 := { st4 with
            maxerr := max st4.maxerr derr
            min_delay := min st4.min_delay d
            max_delay := max st4.max_delay d
            min_proc_delay := min st4.min_proc_delay proc_d
            max_proc_delay := max st4.max_proc_delay proc_d }
          if node.seen + 1 > 1 then Ret.ok st5
          else
            let st6 := BucketIncrementDelay st5 d
            Ret.ok { st6 with
              ttl_count := fun t =>
                if t = rec.sent.ttl then st6.ttl_count t + 1 else st6.ttl_count t }

/-! ## The driver -/

/-- Modelled from the spec: `OWPParseRecords` and `OWPParseTWRecords` are
missing; the records are handed to the callback in file order, and a fatal
indicator of the callback aborts the iteration. -/
def OWPParseRecords {α : Type} (proc : α → OWPStatsRec → Ret) :
    List α → OWPStatsRec → Ret
  | [], st => Ret.ok st
  | r :: rest, st =>
    match proc r st with
    | Ret.ok st1 => OWPParseRecords proc rest st1
    | Ret.fatal st1 => Ret.fatal st1
    | Ret.crash => Ret.crash

/-- The records of the session file from the offset `begin_oset` on, as
`OWPParseRecords` (one-way) and `OWPParseTWRecords` (two-way) decode them. -/
structure OWPFile where
  datarecs : List OWPDataRec := []
  twdatarecs : List OWPTWDataRec := []

/-- The loop `while(stats->isctx <= first)` of `OWPStatsParse`, run
`first + 1 - isctx` times. -/
def schedAdvance : Nat → OWPStatsRec → OWPStatsRec
  | 0, st => st
  | k + 1, st =>
    let g := OWPScheduleContextGenerateNextDelta st.sctx
    schedAdvance k { st with endnum := OWPNum64Add st.endnum g.1, sctx := g.2,
                             isctx := st.isctx + 1 }

/-- The loop `while(stats->pbegin && PacketBeginFlush(stats));` of
`OWPStatsParse`; `none` is a crash. -/
def drainLoop : Nat → OWPStatsRec → Option OWPStatsRec
  | 0, _ => none
  | fuel + 1, st =>
    match st.pnodes with
    | [] => some st
    | _ :: _ =>
      match PacketBeginFlush st with
      | none => none
      | some (st1, true) => drainLoop fuel st1
      | some (st1, false) => some st1

/-- First step of `OWPStatsParse` after the range check: the assignments of
`begin_oset` (at least `oset_datarecs`), `next_oset`, `first`, `last`, `iskip`,
`sent` and of the record index `i`. -/
def parseArgs (st0 : OWPStatsRec) (begin_oset first last : Nat) : OWPStatsRec :=
  { st0 with
    begin_oset := if begin_oset < st0.hdr.oset_datarecs then st0.hdr.oset_datarecs
                  else begin_oset
    next_oset := 0, first := first, last := last, iskip := 0, sent := 0, i := 0 }

/-- Second step of `OWPStatsParse`: `if( !first || (first < stats->isctx))` the
schedule context is reset. -/
def parseSchedReset (st1 : OWPStatsRec) (first : Nat) : OWPStatsRec :=
  if first = 0 ∨ first < st1.isctx then
    { st1 with sctx := OWPScheduleContextReset st1.sctx, isctx := 0,
               endnum := st1.hdr.test_spec.start_time }
  else st1

/-- Third step of `OWPStatsParse`: advance the schedule to `first`, record
`start_time` and clean the packet buffer. -/
def parsePosition (st2 : OWPStatsRec) (first : Nat) : OWPStatsRec :=
  let st3 := schedAdvance (first + 1 - st2.isctx) st2
  PacketBufferClean { st3 with start_time := st3.endnum }

/-- Last step of the initialisation of `OWPStatsParse`, with the node `node`
that `PacketAlloc` returned for `first`: `pbegin = pend = node`, its scheduled
time, the clean histogram and the reset of the accumulators. -/
def parseReset (st5 : OWPStatsRec) (node : OWPPacketRec) : OWPStatsRec :=
  let st6 := { st5 with
    pend := some node.seq
    pnodes := nodeUpdate node.seq (fun p => { p with schedtime := st5.endnum }) st5.pnodes }
  let st7 := BucketBufferClean st6
  let inf := OWPNum64ToDouble ((st7.hdr.test_spec.loss_timeout + 1) % 2 ^ 64)
  { st7 with
    ttl_count := fun _ => 0
    rseqno := List.replicate st7.rlistlen 0
    rn := List.replicate st7.rlistlen 0
    inf_delay := inf
    min_delay := inf
    max_delay := -inf
    min_proc_delay := inf
    max_proc_delay := -inf
    sync := 1
    maxerr := 0
    dups := 0
    lost := 0 }

/-- The initialisation part of `OWPStatsParse`, from the assignments of
`begin_oset`, `first`, `last` down to the reset of the accumulators; `none`
when `PacketAlloc` returns NULL for `first`, which the C code then
dereferences. -/
def parseInit (st0 : OWPStatsRec) (begin_oset first last : Nat) : Option OWPStatsRec :=
  let st4 := parsePosition (parseSchedReset (parseArgs st0 begin_oset first last) first) first
  match PacketAlloc st4 first with
  | none => none
  | some (st5, node) => some (parseReset st5 node)

/-- The value of `last` that `OWPStatsParse` works with: `(uint32_t)~0` stands
for `npackets`. -/
def parseLast (st0 : OWPStatsRec) (last0 : Nat) : Nat :=
  if last0 = 2 ^ 32 - 1 then st0.hdr.test_spec.npackets else last0

/-- Source `OWPStatsParse(stats,output,begin_oset,first,last)` on the records
`file` of the session file.  The position and size of the file (`fseeko`,
`ftello`, `rec_limit`) decide which records are iterated: here they are the
records given. -/
def OWPStatsParse (st0 : OWPStatsRec) (file : OWPFile) (begin_oset first last0 : Nat) :
    Ret :=
  let last := parseLast st0 last0
  if first > last ∨ last > st0.hdr.test_spec.npackets then Ret.fatal st0
  else
    match parseInit st0 begin_oset first last with
    | none => Ret.crash
    | some st8 =>
      let iterated :=
        if st8.hdr.twoway then OWPParseRecords IterateSummarizeTWSession file.twdatarecs st8
        else OWPParseRecords IterateSummarizeSession file.datarecs st8
      match iterated with
      | Ret.crash => Ret.crash
      | Ret.fatal st9 => Ret.fatal st9
      | Ret.ok st9 =>
        match drainLoop (st9.last + 2) st9 with
        | none => Ret.crash
        | some st10 =>
          Ret.ok { st10 with bsort := qsort BucketBufferSortCmp st10.btable }

/-! ## Creation -/

/-- Source `OWPStatsScaleFactor(scale,abrv,abrv_len)`: the factor returned, the
content of the caller's abbreviation buffer afterwards and `*abrv_len`
afterwards (`none` for a NULL pointer). -/
def OWPStatsScaleFactor (scale : Char) (abrv : Option String) (abrv_len : Option Nat) :
    ℚ × Option String × Option Nat :=
  let usable : Bool :=
    match abrv, abrv_len with
    | some _, some l => decide (l ≥ 3)
    | _, _ => false
  let abrv_len1 : Option Nat := if usable then some 2 else abrv_len
  let c := scale.toLower
  if c = 'n' then (1000000000, if usable then some "ns" else abrv, abrv_len1)
  else if c = 'u' then (1000000, if usable then some "us" else abrv, abrv_len1)
  else if c = 'm' then (1000, if usable then some "ms" else abrv, abrv_len1)
  else if c = 's' then (1, abrv, abrv_len1)
  else (0, abrv, abrv_len1.map (fun _ => 0))

/-- Source `OWPStatsCreate`, without the host name buffers and the reading of the
file: `skips` are the skip records read from the file, `sctx` the schedule
context created for the session and `rate` the value of `OWPTestPacketRate`.
The result `none` is the NULL return (and the failed `assert` on the bucket
width). -/
def OWPStatsCreate (hdr : OWPSessionHeader) (skips : List OWPSkipRec)
    (sctx : OWPScheduleContext) (scale : Char) (bucketwidth rate : ℚ) :
    Option OWPStatsRec :=
  if hdr.version < 2 then none
  else if (OWPStatsScaleFactor scale (some "") (some 3)).1 = 0 then none
  else if ¬ (bucketwidth > 0) then none
  else
    let d : ℚ :=
      if hdr.twoway then 0
      else rate * OWPNum64ToDouble hdr.test_spec.loss_timeout * (7 / 2)
    let plistlen : Nat := max (if d > 0x7fffffff then 0x7fffffff else ⌊d⌋.toNat) 10
    let d2 : ℚ := (hdr.test_spec.loss_timeout : ℚ) / bucketwidth
    let blistlen : Nat :=
      min (max (if d2 > 0x7fffffff then 0x7fffffff else ⌊d2⌋.toNat) 10) 2048
    some {
      hdr := hdr
      skips := skips
      sctx := OWPScheduleContextReset sctx
      isctx := 0
      endnum := hdr.test_spec.start_time
      plistlen := plistlen
      blistlen := blistlen
      rlistlen := plistlen
      bucketwidth := bucketwidth
      rseqno := List.replicate plistlen 0
      rn := List.replicate plistlen 0 }

/-! ## Definitions used to state and prove the properties -/

/-- The fields that `PacketGet` leaves alone: the state with the fields it
writes blanked out. -/
def frameG (st : OWPStatsRec) : OWPStatsRec :=
  { st with pnodes := [], pend := none, endnum := 0, isctx := 0,
            sctx := { deltas := fun _ => 0, pos := 0 } }

/-- The fields that `PacketBeginFlush` leaves alone. -/
def frameF (st : OWPStatsRec) : OWPStatsRec :=
  { frameG st with iskip := 0, lost := 0, dups := 0, end_time := 0 }

/-- The packet buffer holds exactly the sequence numbers `b .. e`, in order,
`pend` is the node of `e` and the schedule cursor stands right behind `e`. -/
structure Win (st : OWPStatsRec) (b e : Nat) : Prop where
  seqs : st.pnodes.map (fun p => p.seq) = List.range' b (e + 1 - b)
  le : b ≤ e
  pend : st.pend = some e
  isctx : st.isctx = e + 1
  first_le : st.first ≤ b
  lt_last : e < st.last

/-- The verdict of the skip test of `PacketBeginFlush` for a node with sequence
number `seq`, after `iskip` has been moved forward. -/
def flushSkip (st : OWPStatsRec) (seq : Nat) : Bool :=
  match st.skips.get? (skipForward seq (st.skips.drop st.iskip) st.iskip) with
  | some r => decide (seq ≥ r.begin_)
  | none => false

/-- A sequence number lies inside one of the skip ranges (inclusive). -/
def inSkip (skips : List OWPSkipRec) (s : Nat) : Bool :=
  skips.any (fun r => decide (s ≥ r.begin_ ∧ s ≤ r.end_))

/-- Number of received (not lost) records of the stream for sequence number `s`. -/
def recvCount (recs : List OWPDataRec) (s : Nat) : Nat :=
  recs.countP (fun r => decide (r.seq_no = s) && !OWPIsLostRecord r)

/-- Number of loss records of the stream for sequence number `s`. -/
def lossCount (recs : List OWPDataRec) (s : Nat) : Nat :=
  recs.countP (fun r => decide (r.seq_no = s) && OWPIsLostRecord r)

/-- Received records that count: none for a skipped sequence number. -/
def effRecv (skips : List OWPSkipRec) (recs : List OWPDataRec) (s : Nat) : Nat :=
  if inSkip skips s then 0 else recvCount recs s

/-- Loss records that count: none for a skipped sequence number. -/
def effLoss (skips : List OWPSkipRec) (recs : List OWPDataRec) (s : Nat) : Nat :=
  if inSkip skips s then 0 else lossCount recs s

/-- Tally of `sent` the stream calls for: over the sequence numbers of
`[first,last)`, one for a sequence number that was received and one for each of
its loss records. -/
def sentSum (skips : List OWPSkipRec) (recs : List OWPDataRec) (first last : Nat) : Nat :=
  Finset.sum (Finset.Ico first last)
    (fun s => min 1 (effRecv skips recs s) + effLoss skips recs s)

/-- Number of sequence numbers of `[first,last)` that carry a loss record. -/
def lostSum (skips : List OWPSkipRec) (recs : List OWPDataRec) (first last : Nat) : Nat :=
  Finset.sum (Finset.Ico first last) (fun s => if 0 < effLoss skips recs s then 1 else 0)

/-- Sum over the sequence numbers of `[first,last)` received `k` times of `k - 1`. -/
def dupsSum (skips : List OWPSkipRec) (recs : List OWPDataRec) (first last : Nat) : Nat :=
  Finset.sum (Finset.Ico first last) (fun s => effRecv skips recs s - 1)

/-- Number of sequence numbers of `[first,last)` received at least once. -/
def recvSum (skips : List OWPSkipRec) (recs : List OWPDataRec) (first last : Nat) : Nat :=
  Finset.sum (Finset.Ico first last) (fun s => min 1 (effRecv skips recs s))

/-- The nodes of the buffer agree with the records seen so far. -/
def NodesOK (skips : List OWPSkipRec) (done : List OWPDataRec) (l : List OWPPacketRec) : Prop :=
  ∀ p ∈ l, p.seen = effRecv skips done p.seq ∧
    p.lost = decide (0 < effLoss skips done p.seq) ∧ (p.lost = true → p.seen = 0)

/-- No record seen so far is beyond the end of the buffer. -/
def FutureOK (first last : Nat) (done : List OWPDataRec) (e : Nat) : Prop :=
  ∀ r ∈ done, first ≤ r.seq_no → r.seq_no < last → r.seq_no ≤ e

/-- The invariant of a parse with `first < last`, after the records `done`: the
buffer holds `b .. e`, everything below `b` has been flushed and tallied. -/
structure Inv (st : OWPStatsRec) (done : List OWPDataRec) (b e : Nat) : Prop where
  win : Win st b e
  skipc : ∀ j r, j < st.iskip → st.skips.get? j = some r → r.end_ < b
  nodes : NodesOK st.skips done st.pnodes
  future : FutureOK st.first st.last done e
  sent_eq : st.sent = sentSum st.skips done st.first st.last
  lost_eq : st.lost = lostSum st.skips done st.first b
  dups_eq : st.dups = dupsSum st.skips done st.first b
  btot : (st.btable.map (fun x => x.n)).sum = recvSum st.skips done st.first st.last

/-- The buffer and `sent` after a loss record for the node `node`. -/
def lostUpdate (st2 : OWPStatsRec) (node : OWPPacketRec) : OWPStatsRec :=
  { st2 with
    pnodes := nodeUpdate node.seq (fun p => { p with lost := true }) st2.pnodes
    sent := st2.sent + 1 }

/-- The buffer and `sent` after a received record for the node `node`. -/
def seenUpdate (st2 : OWPStatsRec) (node : OWPPacketRec) : OWPStatsRec :=
  { st2 with
    sent := if node.seen = 0 then st2.sent + 1 else st2.sent
    pnodes := nodeUpdate node.seq (fun p => { p with seen := p.seen + 1 }) st2.pnodes }

/-- The part the two callbacks have in common: `seq` and `isLost` are the
sequence number and the loss mark of the record, `thresh` its flush threshold,
`postLost` and `post` the updates of the callback after a loss record and after
a received record (`post` is given the `seen` count of the node before). -/
def iterCore (seq : Nat) (isLost : Bool) (thresh : OWPStatsRec → Nat)
    (postLost : OWPStatsRec → OWPStatsRec) (post : Nat → OWPStatsRec → OWPStatsRec)
    (st0 : OWPStatsRec) : Ret :=
  let st := markOffset st0 seq
  if seq < st.first ∨ seq ≥ st.last then Ret.ok st
  else
    match (if isLost then flushLostLoop (st.last + 1) st seq
           else flushThreshLoop (st.last + 1) st (thresh st)) with
    | Ret.crash => Ret.crash
    | Ret.fatal st1 => Ret.fatal st1
    | Ret.ok st1 =>
      match PacketGet st1 seq with
      | none => Ret.crash
      | some (st2, none) => Ret.fatal st2
      | some (st2, some node) =>
        if skipScan st2 node.seq then Ret.ok st2
        else if isLost then
          if node.seen ≠ 0 then Ret.fatal st2
          else Ret.ok (postLost (lostUpdate st2 node))
        else if node.lost then Ret.fatal st2
        else Ret.ok (post node.seen (jreorder (seenUpdate st2 node) seq))

/-- The updates of the one-way callback after a loss record. -/
def postLostOW (rec : OWPDataRec) (st : OWPStatsRec) : OWPStatsRec :=
  { st with
    sync := if rec.recv.sync then st.sync else 0
    maxerr := max st.maxerr (OWPGetTimeStampError rec.recv) }

/-- The updates of the one-way callback after a received record. -/
def postOW (rec : OWPDataRec) (seen : Nat) (st4 : OWPStatsRec) : OWPStatsRec :=
  let d := OWPDelay rec.send rec.recv
  let derr := OWPGetTimeStampError rec.send + OWPGetTimeStampError rec.recv
  let st5 := { st4 with
    sync := if rec.send.sync && rec.recv.sync then st4.sync else 0
    maxerr := max st4.maxerr derr
    min_delay := min st4.min_delay d
    max_delay := max st4.max_delay d }
  if seen + 1 > 1 then st5
  else
    let st6 := BucketIncrementDelay st5 d
    { st6 with
      ttl_count := fun t => if t = rec.ttl then st6.ttl_count t + 1 else st6.ttl_count t }

/-- The updates of the two-way callback after a loss record. -/
def postLostTW (rec : OWPTWDataRec) (st : OWPStatsRec) : OWPStatsRec :=
  { st with
    sync := if rec.sent.recv.sync then st.sync else 0
    maxerr := max st.maxerr (OWPGetTimeStampError rec.sent.recv) }

/-- The updates of the two-way callback after a received record. -/
def postTW (rec : OWPTWDataRec) (seen : Nat) (st4 : OWPStatsRec) : OWPStatsRec :=
  let proc_d := OWPDelay rec.sent.recv rec.reflected_send
  let d := OWPDelay rec.sent.send rec.reflected_recv - proc_d
  let derr := OWPGetTimeStampError rec.sent.send +
    OWPGetTimeStampError rec.reflected_recv + OWPGetTimeStampError rec.sent.recv
  let st5 := { st4 with
    maxerr := max st4.maxerr derr
    min_delay := min st4.min_delay d
    max_delay := max st4.max_delay d
    min_proc_delay := min st4.min_proc_delay proc_d
    max_proc_delay := max st4.max_proc_delay proc_d }
  if seen + 1 > 1 then st5
  else
    let st6 := BucketIncrementDelay st5 d
    { st6 with
      ttl_count := fun t =>
        if t = rec.sent.ttl then st6.ttl_count t + 1 else st6.ttl_count t }

/-- The fields that the updates `post` and `postLost` of a callback leave alone. -/
def frameP (st : OWPStatsRec) : OWPStatsRec :=
  { st with sync := 0, maxerr := 0, min_delay := 0, max_delay := 0, min_proc_delay := 0,
            max_proc_delay := 0, btable := [], ttl_count := fun _ => 0 }

/-- Total number of samples in the histogram. -/
def btotal (st : OWPStatsRec) : Nat := (st.btable.map (fun x => x.n)).sum

/-- What the invariant needs to know of the update after a loss record. -/
def PostLostOK (postLost : OWPStatsRec → OWPStatsRec) : Prop :=
  ∀ st, frameP (postLost st) = frameP st ∧ (postLost st).btable = st.btable

/-- What the invariant needs to know of the update after a received record. -/
def PostOK (post : Nat → OWPStatsRec → OWPStatsRec) : Prop :=
  ∀ seen st, frameP (post seen st) = frameP st ∧
    btotal (post seen st) = btotal st + (if seen = 0 then 1 else 0)

/-- The record stream of a parse as one-way records: the `sent` parts of the
two-way records for a two-way session. -/
def streamOf (hdr : OWPSessionHeader) (file : OWPFile) : List OWPDataRec :=
  if hdr.twoway then file.twdatarecs.map (fun r => r.sent) else file.datarecs

/-- The value `inf_delay` of a parse: `OWPNum64ToDouble(loss_timeout + 1)`. -/
def infDelay (hdr : OWPSessionHeader) : ℚ :=
  OWPNum64ToDouble ((hdr.test_spec.loss_timeout + 1) % 2 ^ 64)

/-- The state without the record index and the offset mark, the two fields a
callback writes for a record outside `[first,last)`. -/
def frameM (st : OWPStatsRec) : OWPStatsRec := { st with i := 0, next_oset := 0 }

/-- The iteration step of `OWPStatsParse`: the records are handed to the
callback of the session type. -/
def parseIterate (st8 : OWPStatsRec) (file : OWPFile) : Ret :=
  if st8.hdr.twoway then OWPParseRecords IterateSummarizeTWSession file.twdatarecs st8
  else OWPParseRecords IterateSummarizeSession file.datarecs st8

/-- The records of the stream that reach the delay statistics: in range,
received (not lost) and not skipped. -/
def contrib (skips : List OWPSkipRec) (first last : Nat) (recs : List OWPDataRec) :
    List OWPDataRec :=
  recs.filter (fun r => decide (first ≤ r.seq_no ∧ r.seq_no < last) &&
    !OWPIsLostRecord r && !inSkip skips r.seq_no)

/-- Running minimum of the one-way delays of `recs`, started at `m0`. -/
def minDelayOver (m0 : ℚ) (recs : List OWPDataRec) : ℚ :=
  recs.foldl (fun m r => min m (OWPDelay r.send r.recv)) m0

/-- Running maximum of the one-way delays of `recs`, started at `m0`. -/
def maxDelayOver (m0 : ℚ) (recs : List OWPDataRec) : ℚ :=
  recs.foldl (fun m r => max m (OWPDelay r.send r.recv)) m0

/-- The delay extremes agree with the records seen so far (one-way session). -/
def MinMaxOK (st : OWPStatsRec) (done : List OWPDataRec) : Prop :=
  st.min_delay = minDelayOver st.inf_delay (contrib st.skips st.first st.last done) ∧
  st.max_delay = maxDelayOver (- st.inf_delay) (contrib st.skips st.first st.last done)

/-- The records of the stream with a sequence number in `[first,last)`. -/
def inRangeRecs (first last : Nat) (recs : List OWPDataRec) : List OWPDataRec :=
  recs.filter (fun r => decide (first ≤ r.seq_no ∧ r.seq_no < last))

/-- The in-range records of the stream come in strictly increasing sequence
order. -/
def SortedInRange (first last : Nat) (recs : List OWPDataRec) : Prop :=
  ((inRangeRecs first last recs).map (fun r => r.seq_no)).Pairwise (fun x y => x < y)

/-- The reordering counters are all zero and the circular buffer holds only
zeros and sequence numbers already seen, as long as the in-range records come
in increasing order. -/
def RnOK (st : OWPStatsRec) (done : List OWPDataRec) : Prop :=
  SortedInRange st.first st.last done →
    st.rn = List.replicate st.rlistlen 0 ∧
    (∀ x ∈ st.rseqno, x = 0 ∨
      ∃ r ∈ done, st.first ≤ r.seq_no ∧ r.seq_no < st.last ∧ x = r.seq_no)

/-- Read a value off the state a step returned with `ok`. -/
def Ret.read {α : Type} (f : OWPStatsRec → α) : Ret → Option α
  | Ret.ok st => some (f st)
  | Ret.fatal _ => none
  | Ret.crash => none

/-- The step returned `ok`. -/
def Ret.isOk : Ret → Bool
  | Ret.ok _ => true
  | Ret.fatal _ => false
  | Ret.crash => false

/-- Number of distinct sequence numbers of `[first,last)`, in no skip range, for
which the stream holds at least one record (received or loss). -/
def observedSum (skips : List OWPSkipRec) (recs : List OWPDataRec) (first last : Nat) : Nat :=
  Finset.sum (Finset.Ico first last)
    (fun s => min 1 (effRecv skips recs s + effLoss skips recs s))

/-- Number of loss records of the stream for the sequence numbers of
`[first,last)` that are in no skip range. -/
def lossRecSum (skips : List OWPSkipRec) (recs : List OWPDataRec) (first last : Nat) : Nat :=
  Finset.sum (Finset.Ico first last) (fun s => effLoss skips recs s)

/-- The stream without the records of skipped sequence numbers. -/
def dropSkipped (skips : List OWPSkipRec) (recs : List OWPDataRec) : List OWPDataRec :=
  recs.filter (fun r => !inSkip skips r.seq_no)

/-- One second in the 64-bit fixed point time format. -/
def oneSecond : Nat := 2 ^ 32

/-- Session header of the end-to-end scenarios: five packets, start at 1000 s,
loss timeout 2 s. -/
def scenarioHdr : OWPSessionHeader :=
  { test_spec := { start_time := 1000 * oneSecond, loss_timeout := 2 * oneSecond,
                   npackets := 5 } }

/-- Schedule of the end-to-end scenarios: every delta is one second. -/
def scenarioSched : OWPScheduleContext := { deltas := fun _ => oneSecond }

/-- The statistics object `OWPStatsCreate` returns for the scenario session with
scale `m`, bucket width 0.0001 s and a packet rate of 1 per second. -/
def scenarioStats (skips : List OWPSkipRec) : OWPStatsRec :=
  { hdr := scenarioHdr, skips := skips, sctx := scenarioSched, isctx := 0,
    endnum := 1000 * oneSecond, plistlen := 10, blistlen := 2048, rlistlen := 10,
    bucketwidth := 1 / 10000, rseqno := List.replicate 10 0, rn := List.replicate 10 0 }

/-- A received record of the scenarios: packet `s`, sent on schedule, received
`delay` (in units of 2^-32 s) later, both clocks synchronised. -/
def received (s delay : Nat) : OWPDataRec :=
  { seq_no := s, send := { owptime := (1001 + s) * oneSecond },
    recv := { owptime := (1001 + s) * oneSecond + delay } }

/-- A loss record of the scenarios for packet `s`. -/
def lossRecord (s : Nat) : OWPDataRec :=
  { seq_no := s, send := { owptime := (1001 + s) * oneSecond }, lostmark := true }

/-- Scenario S1: five packets received in order with delays of 0.010, 0.020,
0.015, 0.025 and 0.030 s (to the resolution of the time format). -/
def scenarioS1 : List OWPDataRec :=
  [received 0 42949672, received 1 85899345, received 2 64424509, received 3 107374182,
   received 4 128849018]

/-- Scenario S2: as S1, but packet 2 is a loss record. -/
def scenarioS2 : List OWPDataRec :=
  [received 0 42949672, received 1 85899345, lossRecord 2, received 3 107374182,
   received 4 128849018]

/-- Scenario S3: as S1, but packet 3 is received twice. -/
def scenarioS3 : List OWPDataRec :=
  [received 0 42949672, received 1 85899345, received 2 64424509, received 3 107374182,
   received 3 107374182, received 4 128849018]

/-- Scenario S5: the skip range `[2,2]` for the stream of scenario S2. -/
def scenarioS5Skips : List OWPSkipRec := [OWPSkipRec.mk 2 2]

/-- A received record for packet 0 of the scenario session that arrives at its
scheduled time, 1001 s, and carries a send timestamp of 996 s: its delay is 5 s,
more than `inf_delay`. -/
def earlySendRecord : OWPDataRec :=
  { seq_no := 0, send := { owptime := 996 * oneSecond }, recv := { owptime := 1001 * oneSecond } }

/-- Number of samples the histogram `tbl` holds for bucket `b`. -/
def bucketCount (tbl : List OWPBucketRec) (b : Int) : Nat :=
  ((tbl.filter (fun x => decide (x.b = b))).map (fun x => x.n)).sum

/-- Sum of the counts of the first `k` buckets of the sorted array. -/
def cumCount (l : List OWPBucketRec) (k : Nat) : ℚ :=
  ((l.take k).map (fun x => (x.n : ℚ))).sum

/-- Session header of the clock-skew scenario: two packets, start at 200000 s,
loss timeout 2 s. -/
def skewHdr : OWPSessionHeader :=
  { test_spec := { start_time := 200000 * oneSecond, loss_timeout := 2 * oneSecond,
                   npackets := 2 } }

/-- The statistics object `OWPStatsCreate` returns for the clock-skew session
with scale `m`, bucket width 0.0001 s and a packet rate of 1 per second. -/
def skewStats : OWPStatsRec :=
  { hdr := skewHdr, sctx := scenarioSched, isctx := 0,
    endnum := 200000 * oneSecond, plistlen := 10, blistlen := 2048, rlistlen := 10,
    bucketwidth := 1 / 10000, rseqno := List.replicate 10 0, rn := List.replicate 10 0 }

/-- Records of the clock-skew scenario: both packets arrive at their scheduled
time; the send timestamp of packet 0 is about 107374 s behind and that of
packet 1 about 107374 s ahead of the receiver clock, so the delays fall in the
buckets `2^30` and `-2^30 - 1`. -/
def skewRecs : List OWPDataRec :=
  [{ seq_no := 0, send := { owptime := 200001 * oneSecond - 461168601842738 },
     recv := { owptime := 200001 * oneSecond } },
   { seq_no := 1, send := { owptime := 200002 * oneSecond + 461168601842739 },
     recv := { owptime := 200002 * oneSecond } }]

/-- The step crashed (a NULL pointer was dereferenced). -/
def Ret.isCrash : Ret → Bool
  | Ret.ok _ => false
  | Ret.fatal _ => false
  | Ret.crash => true

/-- The step returned the error indicator (False). -/
def Ret.isFatal : Ret → Bool
  | Ret.ok _ => false
  | Ret.fatal _ => true
  | Ret.crash => false

/-- The loop `for(i=0;i<255;i++)` of the ttl reports of `OWPStatsPrintSummary`
and `OWPStatsPrintMachine`, with `k` rounds left from index `i`: the `uint8_t`
locals `nttl`, `minttl` and `maxttl`. -/
def ttlLoop (ttl_count : Nat → Nat) : Nat → Nat → Nat × Nat × Nat → Nat × Nat × Nat
  | 0, _, acc => acc
  | k + 1, i, (nttl, minttl, maxttl) =>
    if ttl_count i = 0 then ttlLoop ttl_count k (i + 1) (nttl, minttl, maxttl)
    else ttlLoop ttl_count k (i + 1)
      ((nttl + 1) % 256, (if i < minttl then i else minttl), (if i > maxttl then i else maxttl))

/-- The locals `nttl`, `minttl` and `maxttl` of the reports after the loop, which
starts from `nttl = 0`, `minttl = 255`, `maxttl = 0`. -/
def ttlScan (st : OWPStatsRec) : Nat × Nat × Nat := ttlLoop st.ttl_count 255 0 (0, 255, 0)

/-- Source `OWPStatsPrintSummary`, the block "Report ttl's": the line it prints. -/
def summaryTTL (st : OWPStatsRec) : String :=
  let r := ttlScan st
  if r.1 < 1 then "TTL not reported\n"
  else if r.1 = 1 then "Hops = " ++ toString (255 - (r.2.1 : Int)) ++ " (consistently)\n"
  else "Hops takes " ++ toString r.1 ++ " values; Min Hops = " ++
    toString (255 - (r.2.2 : Int)) ++ ", Max Hops = " ++ toString (255 - (r.2.1 : Int)) ++ "\n"

/-- A received record of the scenarios with the ttl `ttl`. -/
def receivedTTL (s delay ttl : Nat) : OWPDataRec :=
  { seq_no := s, send := { owptime := (1001 + s) * oneSecond },
    recv := { owptime := (1001 + s) * oneSecond + delay }, ttl := ttl }

/-- Scenario S6: three packets received with the ttls 255, 254 and 255. -/
def scenarioS6 : List OWPDataRec :=
  [receivedTTL 0 42949672 255, receivedTTL 1 85899345 254, receivedTTL 2 64424509 255]

/-- The ttl values of `0 .. 255` with a count that is not zero. -/
def observedTTLs (st : OWPStatsRec) : List Nat :=
  (List.range 256).filter (fun t => st.ttl_count t ≠ 0)

/-- The reorder tracker run over the received sequence numbers `seqs`: one step
of the j-reordering block for each, in order. -/
def trackerRun (st : OWPStatsRec) (seqs : List Nat) : OWPStatsRec := seqs.foldl jreorder st

/-- The tracker in its reset state, as the reset block of `OWPStatsParse` leaves
it: `rn` and `rseqno` are `rlistlen` zeros; the cursor `rindex` is inside the
buffer. -/
structure TrackerReset (st : OWPStatsRec) : Prop where
  pos : 0 < st.rlistlen
  rn : st.rn = List.replicate st.rlistlen 0
  rseqno : st.rseqno = List.replicate st.rlistlen 0
  rindex : st.rindex < st.rlistlen

/-- The tracker is well formed: the cursor is inside the buffer and the
arrays `rseqno` and `rn` have `rlistlen` entries. -/
structure TrackerWF (st : OWPStatsRec) : Prop where
  pos : 0 < st.rlistlen
  rindex : st.rindex < st.rlistlen
  len_rseqno : st.rseqno.length = st.rlistlen
  len_rn : st.rn.length = st.rlistlen

/-- Scenario S4: five packets received, packet 4 before packet 3. -/
def scenarioS4 : List OWPDataRec :=
  [received 0 42949672, received 1 85899345, received 2 64424509, received 4 128849018,
   received 3 107374182]

/-- The reorder tracker of a statistics object: the counters `rn`, the circular
buffer `rseqno`, its cursor `rindex`, the total `rnumseqno` and `rlistlen`. -/
def trk (st : OWPStatsRec) : List Nat × List Nat × Nat × Nat × Nat :=
  (st.rn, st.rseqno, st.rindex, st.rnumseqno, st.rlistlen)

/-- The sequence numbers of the records that reach the tracker: in range,
received and not skipped. -/
def contribSeqs (skips : List OWPSkipRec) (first last : Nat) (recs : List OWPDataRec) :
    List Nat :=
  (contrib skips first last recs).map (fun r => r.seq_no)

/-- The tracker after the records `done` is the tracker of `t0` run over the
sequence numbers of the contributing records. -/
def TrackerOK (t0 : OWPStatsRec) (st : OWPStatsRec) (done : List OWPDataRec) : Prop :=
  trk st = trk (trackerRun t0 (contribSeqs st.skips st.first st.last done))

/-- The reset block of `OWPStatsParse` applied to the tracker of `st0`: `rn` and
`rseqno` are zeroed, the cursor `rindex` and the total `rnumseqno` stay. -/
def trackerResetOf (st0 : OWPStatsRec) : OWPStatsRec :=
  { st0 with rn := List.replicate st0.rlistlen 0, rseqno := List.replicate st0.rlistlen 0 }

/-- The loop of the block "Report j-reordering" of `OWPStatsPrintSummary` from
index `i` on: for each leading counter that is not zero, the pair the line
`%ld-reordering = %f%%` prints, `i+1` and `100.0*rn[i]/rnumseqno`. -/
def reorderLines (rnumseqno : Nat) : List Nat → Nat → List (Nat × ℚ)
  | [], _ => []
  | n :: rest, i =>
    if n = 0 then [] else (i + 1, 100 * (n : ℚ) / rnumseqno) :: reorderLines rnumseqno rest (i + 1)

/-- Source `OWPStatsPrintSummary`, the block "Report j-reordering": the pairs
printed by its loop over `rn[0 .. rlistlen)`. -/
def summaryReordering (st : OWPStatsRec) : List (Nat × ℚ) :=
  reorderLines st.rnumseqno (st.rn.take st.rlistlen) 0

/-- The schedule: `start` plus the first `n` deltas of the generator, added as
64-bit fixed point numbers. -/
def schedSum (start : Nat) (deltas : Nat → Nat) : Nat → Nat
  | 0 => start
  | n + 1 => OWPNum64Add (schedSum start deltas n) (deltas n % 2 ^ 64)

/-- The scheduled send time of the packet `seq` of the session of `st0`:
`test_spec.start_time` plus the deltas `delta_0 .. delta_seq` of the freshly
reset schedule generator. -/
def schedTimeOf (st0 : OWPStatsRec) (seq : Nat) : Nat :=
  schedSum st0.hdr.test_spec.start_time st0.sctx.deltas (seq + 1)

/-- The schedule cursor is consistent: the generator has drawn `isctx` deltas
and `endnum` is the start time plus these deltas. -/
structure CursorOK (start : Nat) (deltas : Nat → Nat) (st : OWPStatsRec) : Prop where
  deltas_eq : st.sctx.deltas = deltas
  pos : st.sctx.pos = st.isctx
  endnum : st.endnum = schedSum start deltas st.isctx

/-- The schedule is aligned: the cursor is consistent and every record in the
window carries the scheduled send time of its sequence number. -/
structure SchedOK (start : Nat) (deltas : Nat → Nat) (st : OWPStatsRec) : Prop where
  cursor : CursorOK start deltas st
  nodes : ∀ p ∈ st.pnodes, p.schedtime = schedSum start deltas (p.seq + 1)

/-- One state change of a parse after its initialisation: the first lines of a
callback (`mark`), a call of `PacketBeginFlush` on a window that is not empty
(`flush`), a call of `PacketGet` for a sequence number of `[first,last)`
(`get`), and the updates of the one-way and two-way callbacks after a loss
record for a record of the window that has not been seen (`lostOW`, `lostTW`)
and after a received record for a record of the window that is not marked
lost (`recvOW`, `recvTW`). -/
inductive ParseStep : OWPStatsRec → OWPStatsRec → Prop
  | mark (st : OWPStatsRec) (seq : Nat) : ParseStep st (markOffset st seq)
  | flush (st st1 : OWPStatsRec) (r : Bool) (hne : st.pnodes ≠ [])
      (h : PacketBeginFlush st = some (st1, r)) : ParseStep st st1
  | get (st st1 : OWPStatsRec) (seq : Nat) (n : Option OWPPacketRec) (hne : st.pnodes ≠ [])
      (h1 : st.first ≤ seq) (h2 : seq < st.last)
      (h : PacketGet st seq = some (st1, n)) : ParseStep st st1
  | lostOW (st : OWPStatsRec) (rec : OWPDataRec) (node : OWPPacketRec)
      (hm : node ∈ st.pnodes) (hs : node.seen = 0) :
      ParseStep st (postLostOW rec (lostUpdate st node))
  | recvOW (st : OWPStatsRec) (rec : OWPDataRec) (node : OWPPacketRec)
      (hm : node ∈ st.pnodes) (hl : node.lost = false) :
      ParseStep st (postOW rec node.seen (jreorder (seenUpdate st node) rec.seq_no))
  | lostTW (st : OWPStatsRec) (rec : OWPTWDataRec) (node : OWPPacketRec)
      (hm : node ∈ st.pnodes) (hs : node.seen = 0) :
      ParseStep st (postLostTW rec (lostUpdate st node))
  | recvTW (st : OWPStatsRec) (rec : OWPTWDataRec) (node : OWPPacketRec)
      (hm : node ∈ st.pnodes) (hl : node.lost = false) :
      ParseStep st (postTW rec node.seen (jreorder (seenUpdate st node) rec.sent.seq_no))

/-- The states a parse runs through after its initialisation has produced
`st8`: those that a chain of state changes leads to. -/
def ParseReach (st8 st : OWPStatsRec) : Prop := Relation.ReflTransGen ParseStep st8 st

/-- No record of the window is both marked lost and seen. -/
def Excl (st : OWPStatsRec) : Prop := ∀ p ∈ st.pnodes, ¬ (p.lost = true ∧ 0 < p.seen)

/-- The window of a parse of an empty range `first = last`: the one record the
initialisation allocates, for `first`. -/
def Degen (st : OWPStatsRec) : Prop :=
  st.first = st.last ∧ ∃ node, st.pnodes = [node] ∧ node.seq = st.first

/-- The window is empty (after the last flush), or holds exactly the sequence
numbers `b .. e` for some `b` and `e`, or is the window of an empty range. -/
def WinOK (st : OWPStatsRec) : Prop := st.pnodes = [] ∨ (∃ b e, Win st b e) ∨ Degen st

/-- The invariant of the reachable states of a parse: the window is well
formed and no record is both lost and seen. -/
structure RInv (st : OWPStatsRec) : Prop where
  win : WinOK st
  excl : Excl st

/-- Between two states, the records that stay in the window keep or raise
their `seen` count and keep a loss mark they have. -/
def SeenMono (st st1 : OWPStatsRec) : Prop :=
  ∀ p ∈ st.pnodes, ∀ q ∈ st1.pnodes, q.seq = p.seq →
    p.seen ≤ q.seen ∧ (p.lost = true → q.lost = true)

/-- The fields of the window and of the schedule that a step leaves alone. -/
def frameW (st : OWPStatsRec) :
    Option Nat × Nat × Nat × Nat × OWPScheduleContext × Nat × OWPSessionHeader :=
  (st.pend, st.isctx, st.first, st.last, st.sctx, st.endnum, st.hdr)

/-- The state a step returned with `ok`; `d` when it did not. -/
def Ret.stateD (d : OWPStatsRec) : Ret → OWPStatsRec
  | Ret.ok st => st
  | Ret.fatal _ => d
  | Ret.crash => d

/-- The state the initialisation of the parse of `[0,5)` leaves the scenario
object in. -/
def scenarioInit : OWPStatsRec :=
  (parseInit (scenarioStats []) 0 0 5).getD (scenarioStats [])

/-- The state after the callbacks have run over the records of scenario S3,
before the final flush. -/
def scenarioS3Iterated : OWPStatsRec :=
  (parseIterate scenarioInit { datarecs := scenarioS3 }).stateD scenarioInit

/-- The objects a caller can hold: what `OWPStatsCreate` returns, and what a
parse leaves of such an object when it returns, with success or with the error
indicator. -/
inductive StatsReach : OWPStatsRec → Prop
  | create (hdr : OWPSessionHeader) (skips : List OWPSkipRec) (sctx : OWPScheduleContext)
      (scale : Char) (bucketwidth rate : ℚ) (st : OWPStatsRec)
      (h : OWPStatsCreate hdr skips sctx scale bucketwidth rate = some st) : StatsReach st
  | parseOk (st0 st : OWPStatsRec) (file : OWPFile) (bo first last0 : Nat)
      (h0 : StatsReach st0) (h : OWPStatsParse st0 file bo first last0 = Ret.ok st) :
      StatsReach st
  | parseFatal (st0 st : OWPStatsRec) (file : OWPFile) (bo first last0 : Nat)
      (h0 : StatsReach st0) (h : OWPStatsParse st0 file bo first last0 = Ret.fatal st) :
      StatsReach st

/-- Modelled from the spec: the system calls `read` and `write` are external;
one call either fails with `errno == EINTR`, fails with another error, or
returns a count of bytes (0 from `read` at end of file).  A call never
transfers more than the count it was asked for. -/
inductive SysResult where
  | eintr
  | error
  | count (k : Nat)
deriving DecidableEq, Repr

/-- The `while (nleft > 0)` loop of `_OWPReadn` over the results of its
successive `read` calls, with `nleft` bytes left of `n`; `none` while the loop
is still waiting for a `read` to return. -/
def OWPReadnLoop (n : Nat) : List SysResult → Nat → Option Int
  | [], nleft => if nleft > 0 then none else some ((n : Int) - nleft)
  | r :: rest, nleft =>
    if nleft > 0 then
      match r with
      | SysResult.eintr => OWPReadnLoop n rest nleft
      | SysResult.error => some (-1)
      | SysResult.count k =>
        if k = 0 then some ((n : Int) - nleft)
        else OWPReadnLoop n rest (nleft - min k nleft)
    else some ((n : Int) - nleft)

/-- Source `_OWPReadn(fd,vptr,n)` of `io.c`, as a function of the results of
the `read` calls it makes: the value returned. -/
def _OWPReadn (results : List SysResult) (n : Nat) : Option Int := OWPReadnLoop n results n

/-- The `while (nleft > 0)` loop of `_OWPWriten` over the results of its
successive `write` calls; `eintr` tells whether `errno` is `EINTR` at this
point (a `write` that returns 0 leaves `errno` as it was). -/
def OWPWritenLoop (n : Nat) : List SysResult → Bool → Nat → Option Int
  | [], _, nleft => if nleft > 0 then none else some (n : Int)
  | r :: rest, eintr, nleft =>
    if nleft > 0 then
      match r with
      | SysResult.eintr => OWPWritenLoop n rest true nleft
      | SysResult.error => some (-1)
      | SysResult.count k =>
        if k = 0 then (if eintr then OWPWritenLoop n rest eintr nleft else some (-1))
        else OWPWritenLoop n rest eintr (nleft - min k nleft)
    else some (n : Int)

/-- Source `_OWPWriten(fd,vptr,n)` of `io.c`, as a function of the results of
the `write` calls it makes and of whether `errno` is `EINTR` on entry. -/
def _OWPWriten (eintr : Bool) (results : List SysResult) (n : Nat) : Option Int :=
  OWPWritenLoop n results eintr n

/-- Conversion of a `ssize_t` value to `size_t` (64 bits). -/
def toSizeT (x : Int) : Nat := (x % 2 ^ 64).toNat

/-- Source `_OWPSendBlocks(cntrl,buf,num_blocks)` of `io.c`: `mode` is
`cntrl->mode`, `cipher_mask` the constant `_OWP_DO_CIPHER`; the result of
`_OWPWriten` is stored in the `size_t` local `n` before the test `n < 0`.  The
content of the buffers (and so the encryption) has no part in the value
returned. -/
def _OWPSendBlocks (mode cipher_mask : Nat) (eintr : Bool) (results : List SysResult)
    (num_blocks : Nat) : Option Int :=
  if mode &&& cipher_mask = 0 then
    match _OWPWriten eintr results (num_blocks * 16) with
    | none => none
    | some r =>
      let n : Nat := toSizeT r
      if (n : Int) < 0 then some (-1) else some 0
  else
    match _OWPWriten eintr results (num_blocks * 16) with
    | none => none
    | some r =>
      let n : Nat := toSizeT r
      if (n : Int) < 0 then some (-1) else some 0

/-- Source `_OWPReceiveBlocks(cntrl,buf,num_blocks)` of `io.c`: the result of
`_OWPReadn` is stored in the `size_t` local `n` before the test `n < 0`. -/
def _OWPReceiveBlocks (mode cipher_mask : Nat) (results : List SysResult)
    (num_blocks : Nat) : Option Int :=
  if mode &&& cipher_mask = 0 then
    match _OWPReadn results (num_blocks * 16) with
    | none => none
    | some r =>
      let n : Nat := toSizeT r
      if (n : Int) < 0 then some (-1) else some 0
  else
    match _OWPReadn results (num_blocks * 16) with
    | none => none
    | some r =>
      let n : Nat := toSizeT r
      if (n : Int) < 0 then some (-1) else some 0

/-- Source `OWPStatsPrintMachine`, the block that prints the line `DSCP`: the
value printed, `none` when the line is not printed.  `typeP` is a `uint32_t`;
the mask `~0x3F000000` is `0xC0FFFFFF` in 32 bits, and the value is stored in a
`uint8_t`. -/
def machineDSCP (st : OWPStatsRec) : Option Nat :=
  let typeP := st.hdr.test_spec.typeP % 2 ^ 32
  if typeP &&& 0xC0FFFFFF = 0 then some ((typeP >>> 24) % 256) else none

/-- The scenario object for a session whose test specification carries the
given `typeP`. -/
def statsWithTypeP (typeP : Nat) : OWPStatsRec :=
  { scenarioStats [] with
    hdr := { scenarioHdr with test_spec := { scenarioHdr.test_spec with typeP := typeP } } }

/-- The state after the callbacks have run over the first three records of
scenario S1: the window holds the records of packets 1 and 2. -/
def scenarioS1Three : OWPStatsRec :=
  (parseIterate scenarioInit { datarecs := scenarioS1.take 3 }).stateD scenarioInit

/-- In a parse of an empty range the window is empty, or `pend` and the
schedule cursor are still where the initialisation put them. -/
def DegenC (st : OWPStatsRec) : Prop :=
  st.pnodes = [] ∨ (st.pend = some st.first ∧ st.isctx = st.first + 1)

/-- The window holds exactly `pbegin->seq .. pend->seq`, one record each in
increasing order, and the schedule cursor is aligned with its end:
`pend->seq + 1 == isctx`. -/
def WindowOK (st : OWPStatsRec) : Prop :=
  ∃ b e, b ≤ e ∧ st.pnodes.map (fun p => p.seq) = List.range' b (e + 1 - b) ∧
    st.pend = some e ∧ st.isctx = e + 1

/-- Every skip range with an index below `iskip` ends below every record of
the window. -/
def SkipOK (st : OWPStatsRec) : Prop :=
  ∀ j r, j < st.iskip → st.skips.get? j = some r → ∀ p ∈ st.pnodes, r.end_ < p.seq

/-- A skip list with the one range `[1,1]`. -/
def scenarioSkipOne : List OWPSkipRec := [OWPSkipRec.mk 1 1]

/-- The state the initialisation of the parse of `[0,5)` leaves the scenario
object with the skip range `[1,1]` in. -/
def scenarioInitSkip : OWPStatsRec :=
  (parseInit (scenarioStats scenarioSkipOne) 0 0 5).getD (scenarioStats scenarioSkipOne)

/-- The state after the callbacks have run over the records of scenario S2 with
the skip range `[1,1]`, before the final flush. -/
def scenarioSkipIterated : OWPStatsRec :=
  (parseIterate scenarioInitSkip { datarecs := scenarioS2 }).stateD scenarioInitSkip

/-- The reorder counters are nested: `rn[i+1] <= rn[i]` inside the array, and
`rn[0]` is at most the number of sequence numbers tracked. -/
def RnNested (st : OWPStatsRec) : Prop :=
  (∀ i, i + 1 < st.rlistlen → st.rn.getD (i + 1) 0 ≤ st.rn.getD i 0) ∧
  st.rn.getD 0 0 ≤ st.rnumseqno

/-- The schedule without wrapping: `start` plus the first `n` deltas of the
generator, as a natural number. -/
def schedTotal (start : Nat) (deltas : Nat → Nat) : Nat → Nat
  | 0 => start
  | n + 1 => schedTotal start deltas n + deltas n % 2 ^ 64

/-- A schedule generator whose every delta is `2^63` (2^31 seconds). -/
def wrapSched : OWPScheduleContext := { deltas := fun _ => 2 ^ 63 }

/-- The statistics object `OWPStatsCreate` returns for the scenario session
with the schedule of deltas `2^63`. -/
def wrapStats : OWPStatsRec :=
  { hdr := scenarioHdr, sctx := wrapSched, isctx := 0,
    endnum := 1000 * oneSecond, plistlen := 10, blistlen := 2048, rlistlen := 10,
    bucketwidth := 1 / 10000, rseqno := List.replicate 10 0, rn := List.replicate 10 0 }

/-- The state the initialisation of the parse of `[0,5)` leaves the object
`wrapStats` in. -/
def wrapInit : OWPStatsRec := (parseInit wrapStats 0 0 5).getD wrapStats

/-- The state after the callback has handled one received record for packet 1
(received at 1001 s) from `wrapInit`. -/
def wrapIterated : OWPStatsRec :=
  (parseIterate wrapInit { datarecs := [received 1 0] }).stateD wrapInit

/-- The record index, the offset mark and the fields they are computed from. -/
def frameO (st : OWPStatsRec) : Nat × Nat × Nat × OWPSessionHeader × Nat :=
  (st.i, st.next_oset, st.begin_oset, st.hdr, st.last)

/-- Position in the stream of the first record with a sequence number of at
least `last`, if there is one. -/
def firstBeyond (last : Nat) : List OWPDataRec → Option Nat
  | [] => none
  | r :: rest => if r.seq_no ≥ last then some 0 else (firstBeyond last rest).map (fun i => i + 1)

/-- The flush loop at the start of a callback: the loss loop for a loss record,
the threshold loop for a received record. -/
def callbackFlush (seq : Nat) (isLost : Bool) (thresh : OWPStatsRec → Nat)
    (stm : OWPStatsRec) : Ret :=
  if isLost then flushLostLoop (stm.last + 1) stm seq
  else flushThreshLoop (stm.last + 1) stm (thresh stm)

/-- After the records `done`, the record index counts them and the offset mark
is that of the first record with a sequence number of at least `last`. -/
def OffsetOK (st : OWPStatsRec) (done : List OWPDataRec) : Prop :=
  st.i = done.length ∧
  st.next_oset = match firstBeyond st.last done with
    | some i => st.begin_oset + i * st.hdr.rec_size
    | none => 0

/-- The scenario object for a session file whose data records start at the
offset 200. -/
def offsetStats : OWPStatsRec :=
  { scenarioStats [] with hdr := { scenarioHdr with oset_datarecs := 200 } }

/-- The records of the stream that a callback works on to the end: in range
and in no skip range, received or lost. -/
def contribAll (skips : List OWPSkipRec) (first last : Nat) (recs : List OWPDataRec) :
    List OWPDataRec :=
  recs.filter (fun r => decide (first ≤ r.seq_no ∧ r.seq_no < last) && !inSkip skips r.seq_no)

/-- What the one-way callback tests before it clears `sync`: `recv.sync` of a
loss record, `send.sync` and `recv.sync` of a received record. -/
def syncOK (r : OWPDataRec) : Bool :=
  if OWPIsLostRecord r then r.recv.sync else (r.send.sync && r.recv.sync)

/-- After the records `done`, `sync` is 1 if all of them that count passed the
test of the callback, and 0 otherwise. -/
def SyncInv (st : OWPStatsRec) (done : List OWPDataRec) : Prop :=
  st.sync = if (contribAll st.skips st.first st.last done).all syncOK then 1 else 0

/-- A loss record of the scenarios for packet `s` whose send time stamp is not
synchronised and whose receive time stamp is. -/
def lossRecordUnsync (s : Nat) : OWPDataRec :=
  { seq_no := s, send := { owptime := (1001 + s) * oneSecond, sync := false },
    lostmark := true }

/-- Between a state and a later one: every record of the later window is a
record of the earlier window, unchanged, or a fresh record beyond `e`. -/
def NodesKept (st st1 : OWPStatsRec) (e : Nat) : Prop :=
  ∀ p ∈ st1.pnodes, p ∈ st.pnodes ∨ (p.seen = 0 ∧ p.lost = false ∧ e < p.seq)

/-- Read a value off the state a step returned with the error indicator. -/
def Ret.readFatal {α : Type} (f : OWPStatsRec → α) : Ret → Option α
  | Ret.ok _ => none
  | Ret.fatal st => some (f st)
  | Ret.crash => none

/-- The state after the callbacks have handled, from `scenarioInit`, two
received records of packet 0 and one of packet 1: the window holds packet 0,
seen twice, and packet 1, seen once. -/
def scenarioDupState : OWPStatsRec :=
  (parseIterate scenarioInit
    { datarecs := [received 0 42949672, received 0 42949672, received 1 85899345] }).stateD
    scenarioInit

/-- The sequence number a state change flushes: that of the first record of the
window, when the window does not hold it afterwards (`PacketBeginFlush` is the
one function that frees a record during a parse). -/
def flushedBy (st st1 : OWPStatsRec) : List Nat :=
  match st.pnodes with
  | [] => []
  | node :: _ => if st1.pnodes.any (fun p => decide (p.seq = node.seq)) then [] else [node.seq]

/-- A run of a parse from the state `st`: a chain of state changes, with the
log of the sequence numbers flushed along it, in order. -/
inductive ParseRun : OWPStatsRec → List Nat → OWPStatsRec → Prop
  | start (st : OWPStatsRec) : ParseRun st [] st
  | step (st st1 st2 : OWPStatsRec) (log : List Nat) (h : ParseRun st log st1)
      (hs : ParseStep st1 st2) : ParseRun st (log ++ flushedBy st1 st2) st2

/-- The sequence number the window begins at; `last` once the window is empty. -/
def winBegin (st : OWPStatsRec) : Nat :=
  match st.pnodes with
  | [] => st.last
  | node :: _ => node.seq

/-- Session header of the scenario session with a loss timeout of 10 s. -/
def longTimeoutHdr : OWPSessionHeader :=
  { test_spec := { start_time := 1000 * oneSecond, loss_timeout := 10 * oneSecond,
                   npackets := 5 } }

/-- The statistics object `OWPStatsCreate` returns for the session with the
loss timeout of 10 s, with scale `m`, bucket width `2^-30` s and a packet rate
of 1 per second. -/
def fineStats : OWPStatsRec :=
  { hdr := longTimeoutHdr, sctx := scenarioSched, isctx := 0,
    endnum := 1000 * oneSecond, plistlen := 35, blistlen := 2048, rlistlen := 35,
    bucketwidth := 1 / 2 ^ 30, rseqno := List.replicate 35 0, rn := List.replicate 35 0 }

/-- The statistics object `OWPStatsCreate` returns for the scenario session with
the bucket width `6004799506888931 * 2^-56` s, a double close to 1/12 s. -/
def twelfthStats : OWPStatsRec :=
  { scenarioStats [] with bucketwidth := 6004799506888931 / 2 ^ 56 }

/-- The delay `0.75 + 2^-31` s, that is `3 * 2^30 + 2` units of the time
format. -/
def lateDelay : ℚ := OWPNum64ToDouble (3 * 2 ^ 30 + 2)

/-- The ttl values of `0 .. 254`, the ones the report loops look at, with a
count that is not zero, in increasing order. -/
def reportedTTLs (st : OWPStatsRec) : List Nat :=
  (List.range' 0 255).filter (fun t => st.ttl_count t ≠ 0)

/-! ## Lemmas -/

/-! ### Rounding to a double -/

theorem log2Loop_spec (fuel : Nat) : ∀ n : Nat, n ≤ fuel → n ≠ 0 →
    2 ^ log2Loop fuel n ≤ n ∧ n < 2 ^ (log2Loop fuel n + 1) := by
  induction fuel with
  | zero => intro n h hn; omega
  | succ f ih =>
    intro n h hn
    unfold log2Loop
    by_cases h2 : 2 ≤ n
    · rw [if_pos h2]
      have hh := ih (n / 2) (by omega) (by omega)
      obtain ⟨a, b⟩ := hh
      constructor
      · rw [pow_succ]; omega
      · rw [pow_succ]; omega
    · rw [if_neg h2]
      constructor
      · simp; omega
      · simp; omega

theorem binExponent_le (n d : Nat) (hn : n ≠ 0) (hd : 0 < d) (h : n < 2 ^ 53 * d) :
    binExponent n d ≤ 52 := by
  obtain ⟨a1, a2⟩ := log2Loop_spec n n (le_refl _) hn
  obtain ⟨b1, b2⟩ := log2Loop_spec d d (le_refl _) (by omega)
  unfold binExponent
  simp only []
  by_contra hc
  split_ifs at hc with hcond
  · have h1 : log2Loop d d + 53 ≤ log2Loop n n := by omega
    have h2 : 2 ^ (log2Loop d d + 53) ≤ 2 ^ log2Loop n n := Nat.pow_le_pow_right (by norm_num) h1
    rw [pow_add] at h2
    have h3 : d * (2 ^ log2Loop d d * 2 ^ 53) ≤ d * 2 ^ log2Loop n n := Nat.mul_le_mul_left _ h2
    have h4 : n * 2 ^ log2Loop d d < 2 ^ 53 * d * 2 ^ log2Loop d d :=
      Nat.mul_lt_mul_of_pos_right h (by positivity)
    nlinarith
  · have h1 : log2Loop d d + 54 ≤ log2Loop n n := by omega
    have h2 : 2 ^ (log2Loop d d + 54) ≤ 2 ^ log2Loop n n := Nat.pow_le_pow_right (by norm_num) h1
    have h3 : 2 ^ (log2Loop d d + 54) = 2 ^ 53 * 2 ^ (log2Loop d d + 1) := by
      rw [← pow_add]; congr 1; omega
    have h4 : 2 ^ 53 * d < 2 ^ 53 * 2 ^ (log2Loop d d + 1) :=
      Nat.mul_lt_mul_of_pos_left b2 (by positivity)
    omega

theorem roundHalfEven_cases (num den : Nat) :
    roundHalfEven num den = num / den ∨
      (roundHalfEven num den = num / den + 1 ∧ den ≤ 2 * (num % den)) := by
  unfold roundHalfEven
  simp only []
  split_ifs with h1 h2 h3
  · exact Or.inl rfl
  · exact Or.inr ⟨rfl, by omega⟩
  · exact Or.inl rfl
  · exact Or.inr ⟨rfl, by omega⟩

theorem roundHalfEven_le (num den N : Nat) (hden : 0 < den) (h : num ≤ N * den) :
    roundHalfEven num den ≤ N := by
  have hdm := Nat.div_add_mod num den
  have hml := Nat.mod_lt num hden
  rcases roundHalfEven_cases num den with h1 | ⟨h1, h2⟩
  · rw [h1]
    exact Nat.div_le_of_le_mul (by rw [Nat.mul_comm]; exact h)
  · rw [h1]
    have hpos : 0 < num % den := by omega
    have : num / den < N := by
      by_contra hc
      have hc2 : N ≤ num / den := by omega
      have : N * den ≤ num / den * den := Nat.mul_le_mul_right _ hc2
      have e : den * (num / den) = num / den * den := Nat.mul_comm _ _
      omega
    omega

theorem le_roundHalfEven (num den N : Nat) (hden : 0 < den) (h : N * den ≤ num) :
    N ≤ roundHalfEven num den := by
  have h0 : N ≤ num / den := (Nat.le_div_iff_mul_le hden).2 h
  rcases roundHalfEven_cases num den with h1 | ⟨h1, _⟩
  · rw [h1]; exact h0
  · rw [h1]; omega

theorem roundMagnitude_eq (n d : Nat) (hn : n ≠ 0) (hd : 0 < d) (h : n < 2 ^ 53 * d) :
    ∃ K : Nat, max (binExponent n d - 52) (-1074) = -(K : Int) ∧
      roundMagnitude n d = (roundHalfEven (n * 2 ^ K) d : ℚ) / 2 ^ K := by
  have hk : max (binExponent n d - 52) (-1074) ≤ 0 := by
    have := binExponent_le n d hn hd h
    omega
  refine ⟨(-(max (binExponent n d - 52) (-1074))).toNat, by omega, ?_⟩
  unfold roundMagnitude
  rw [if_neg hn]
  simp only []
  have hz : (max (binExponent n d - 52) (-1074)).toNat = 0 := by omega
  rw [hz, Rat.mkRat_eq_div]
  simp

theorem roundMagnitude_nonneg (n d : Nat) : 0 ≤ roundMagnitude n d := by
  unfold roundMagnitude
  split_ifs
  · exact le_refl _
  · simp only []
    rw [Rat.mkRat_eq_div]
    positivity

theorem roundMagnitude_le (n d Z : Nat) (hd : 0 < d) (h : n < 2 ^ 53 * d) (hz : n ≤ Z * d) :
    roundMagnitude n d ≤ Z := by
  by_cases hn : n = 0
  · unfold roundMagnitude
    rw [if_pos hn]
    positivity
  · obtain ⟨K, _, e⟩ := roundMagnitude_eq n d hn hd h
    rw [e, div_le_iff₀ (by positivity)]
    have : roundHalfEven (n * 2 ^ K) d ≤ Z * 2 ^ K :=
      roundHalfEven_le _ _ _ hd (by nlinarith [Nat.mul_le_mul_right (2 ^ K) hz])
    exact_mod_cast this

theorem le_roundMagnitude (n d Z : Nat) (hd : 0 < d) (h : n < 2 ^ 53 * d) (hz : Z * d ≤ n) :
    (Z : ℚ) ≤ roundMagnitude n d := by
  by_cases hn : n = 0
  · have : Z = 0 := by
      rcases Nat.eq_zero_or_pos Z with h0 | h0
      · exact h0
      · have := Nat.mul_le_mul h0 hd
        omega
    rw [this]
    simpa using roundMagnitude_nonneg n d
  · obtain ⟨K, _, e⟩ := roundMagnitude_eq n d hn hd h
    rw [e, le_div_iff₀ (by positivity)]
    have : Z * 2 ^ K ≤ roundHalfEven (n * 2 ^ K) d :=
      le_roundHalfEven _ _ _ hd (by nlinarith [Nat.mul_le_mul_right (2 ^ K) hz])
    exact_mod_cast this

theorem roundDouble_neg (q : ℚ) : roundDouble (-q) = -roundDouble q := by
  unfold roundDouble
  rw [Rat.neg_num, Rat.neg_den, Int.natAbs_neg]
  rcases lt_trichotomy q.num 0 with h | h | h
  · have h2 : ¬ (-q.num < 0) := by omega
    rw [if_pos h, if_neg h2, neg_neg]
  · have h2 : ¬ (-q.num < 0) := by omega
    have h3 : ¬ (q.num < 0) := by omega
    rw [if_neg h2, if_neg h3, h]
    simp [roundMagnitude]
  · have h2 : -q.num < 0 := by omega
    have h3 : ¬ (q.num < 0) := by omega
    rw [if_pos h2, if_neg h3]

theorem roundDouble_of_nonneg (q : ℚ) (hq : 0 ≤ q) :
    roundDouble q = roundMagnitude q.num.natAbs q.den ∧
      ((q.num.natAbs : ℚ) / q.den = q) := by
  have h1 : 0 ≤ q.num := Rat.num_nonneg.2 hq
  constructor
  · unfold roundDouble
    rw [if_neg (by omega)]
  · have h2 : ((q.num.natAbs : Int) : ℚ) = q.num := by
      rw [Int.natAbs_of_nonneg h1]
    have h3 : ((q.num.natAbs : ℚ)) = ((q.num.natAbs : Int) : ℚ) := (Int.cast_natCast _).symm
    rw [h3, h2]
    exact Rat.num_div_den q

theorem natAbs_lt_of_lt (q : ℚ) (hq : 0 ≤ q) (B : Nat) (h : q < B) :
    q.num.natAbs < B * q.den := by
  obtain ⟨_, e⟩ := roundDouble_of_nonneg q hq
  have hd : (0 : ℚ) < q.den := by exact_mod_cast q.den_pos
  rw [← e, div_lt_iff₀ hd] at h
  exact_mod_cast h

/-- Rounding to a double does not cross an integer below 2^53 (from above). -/
theorem roundDouble_le_int (q : ℚ) (z : Int) (hq : |q| < 2 ^ 53) (h : q ≤ z) :
    roundDouble q ≤ z := by
  have key : ∀ (p : ℚ), 0 ≤ p → p < 2 ^ 53 → ∀ Z : Nat, p ≤ Z → roundDouble p ≤ Z := by
    intro p hp hlt Z hle
    obtain ⟨e1, e2⟩ := roundDouble_of_nonneg p hp
    have hd : (0 : ℚ) < p.den := by exact_mod_cast p.den_pos
    rw [e1]
    apply roundMagnitude_le _ _ _ p.den_pos
    · exact natAbs_lt_of_lt p hp (2 ^ 53) (by exact_mod_cast hlt)
    · rw [← e2, div_le_iff₀ hd] at hle
      exact_mod_cast hle
  have key2 : ∀ (p : ℚ), 0 ≤ p → p < 2 ^ 53 → ∀ Z : Nat, (Z : ℚ) ≤ p → (Z : ℚ) ≤ roundDouble p := by
    intro p hp hlt Z hle
    obtain ⟨e1, e2⟩ := roundDouble_of_nonneg p hp
    have hd : (0 : ℚ) < p.den := by exact_mod_cast p.den_pos
    rw [e1]
    apply le_roundMagnitude _ _ _ p.den_pos
    · exact natAbs_lt_of_lt p hp (2 ^ 53) (by exact_mod_cast hlt)
    · rw [← e2, le_div_iff₀ hd] at hle
      exact_mod_cast hle
  rcases le_or_lt 0 q with h0 | h0
  · have hz : (0 : ℚ) ≤ z := le_trans h0 h
    have hz2 : 0 ≤ z := by exact_mod_cast hz
    have := key q h0 (by rwa [abs_of_nonneg h0] at hq) z.toNat
      (by rw [show ((z.toNat : ℚ)) = ((z.toNat : Int) : ℚ) from (Int.cast_natCast _).symm, Int.toNat_of_nonneg hz2]; exact h)
    rw [show ((z.toNat : ℚ)) = ((z.toNat : Int) : ℚ) from (Int.cast_natCast _).symm, Int.toNat_of_nonneg hz2] at this
    exact this
  · have hnq : 0 ≤ -q := by linarith
    have hlt : -q < 2 ^ 53 := by rwa [abs_of_neg h0] at hq
    have e : roundDouble q = -roundDouble (-q) := by rw [roundDouble_neg, neg_neg]
    rw [e]
    rcases le_or_lt 0 z with hz | hz
    · have : (0 : ℚ) ≤ roundDouble (-q) := by
        have := key2 (-q) hnq hlt 0 (by simpa using hnq)
        simpa using this
      have hzq : (0 : ℚ) ≤ z := by exact_mod_cast hz
      linarith
    · have hzn : 0 ≤ -z := by omega
      have hle : (((-z).toNat : Nat) : ℚ) ≤ -q := by
        rw [show (((-z).toNat : ℚ)) = (((-z).toNat : Int) : ℚ) from (Int.cast_natCast _).symm,
          Int.toNat_of_nonneg hzn]
        push_cast
        linarith
      have := key2 (-q) hnq hlt (-z).toNat hle
      rw [show (((-z).toNat : ℚ)) = (((-z).toNat : Int) : ℚ) from (Int.cast_natCast _).symm,
          Int.toNat_of_nonneg hzn] at this
      push_cast at this
      linarith

/-- Rounding to a double does not cross an integer below 2^53 (from below). -/
theorem int_le_roundDouble (q : ℚ) (z : Int) (hq : |q| < 2 ^ 53) (h : (z : ℚ) ≤ q) :
    (z : ℚ) ≤ roundDouble q := by
  have h1 := roundDouble_le_int (-q) (-z) (by rwa [abs_neg]) (by push_cast; linarith)
  rw [roundDouble_neg] at h1
  push_cast at h1
  linarith

theorem roundDouble_zero : roundDouble 0 = 0 := by
  simp [roundDouble, roundMagnitude]

theorem wrapInt32_of_range (z : Int) (h1 : -(2 ^ 31) ≤ z) (h2 : z < 2 ^ 31) : wrapInt32 z = z := by
  unfold wrapInt32
  omega

theorem wrapInt32_range (z : Int) : -(2 ^ 31) ≤ wrapInt32 z ∧ wrapInt32 z < 2 ^ 31 := by
  unfold wrapInt32
  omega

theorem bucketIndex_zero (w : ℚ) : bucketIndex w 0 = 0 := by
  unfold bucketIndex
  simp only [zero_div, roundDouble_zero, lt_self_iff_false, if_false, Int.ceil_zero]
  rfl

theorem bucketIndex_spec (w d : ℚ) (hw : 0 < w) (hr : |d / w| ≤ 2 ^ 31 - 1) :
    bucketIndex w d = (if roundDouble (d / w) < 0 then ⌊roundDouble (d / w)⌋
      else ⌈roundDouble (d / w)⌉) ∧
    (0 ≤ d → bucketIndex w d = ⌈d / w⌉ ∨ bucketIndex w d = ⌈d / w⌉ - 1) ∧
    (d < 0 → bucketIndex w d = ⌊d / w⌋ ∨ bucketIndex w d = ⌊d / w⌋ + 1) ∧
    (roundDouble (d / w) = d / w →
      (0 ≤ d → bucketIndex w d = ⌈d / w⌉) ∧ (d < 0 → bucketIndex w d = ⌊d / w⌋)) := by
  have h53 : |d / w| < 2 ^ 53 := lt_of_le_of_lt hr (by norm_num)
  obtain ⟨ha, hb⟩ := abs_le.1 hr
  have hhi : roundDouble (d / w) ≤ ((2 ^ 31 - 1 : Int) : ℚ) :=
    roundDouble_le_int _ _ h53 (by push_cast; linarith)
  have hlo : ((-(2 ^ 31 - 1) : Int) : ℚ) ≤ roundDouble (d / w) :=
    int_le_roundDouble _ _ h53 (by push_cast; linarith)
  have c1 : ⌈roundDouble (d / w)⌉ ≤ 2 ^ 31 - 1 := Int.ceil_le.2 hhi
  have c2 : -(2 ^ 31 - 1) ≤ ⌊roundDouble (d / w)⌋ := Int.le_floor.2 hlo
  have c3 : ⌊roundDouble (d / w)⌋ ≤ ⌈roundDouble (d / w)⌉ := Int.floor_le_ceil _
  have e0 : bucketIndex w d = (if roundDouble (d / w) < 0 then ⌊roundDouble (d / w)⌋
      else ⌈roundDouble (d / w)⌉) := by
    unfold bucketIndex
    simp only []
    apply wrapInt32_of_range
    · split_ifs <;> omega
    · split_ifs <;> omega
  have hposq : 0 ≤ d → bucketIndex w d = ⌈roundDouble (d / w)⌉ ∧
      ⌈d / w⌉ - 1 ≤ ⌈roundDouble (d / w)⌉ ∧ ⌈roundDouble (d / w)⌉ ≤ ⌈d / w⌉ := by
    intro hd
    have hq : (0 : ℚ) ≤ d / w := div_nonneg hd (le_of_lt hw)
    have h0 : ((0 : Int) : ℚ) ≤ roundDouble (d / w) :=
      int_le_roundDouble _ 0 h53 (by simpa using hq)
    have hn : ¬ (roundDouble (d / w) < 0) := not_lt.2 (by simpa using h0)
    refine ⟨by rw [e0, if_neg hn], ?_, ?_⟩
    · have h1 : ((⌈d / w⌉ - 1 : Int) : ℚ) ≤ d / w := by
        have := Int.ceil_lt_add_one (d / w)
        push_cast
        linarith
      have h2 := int_le_roundDouble _ _ h53 h1
      have h3 : ((⌈d / w⌉ - 1 : Int) : ℚ) ≤ (⌈roundDouble (d / w)⌉ : ℚ) :=
        le_trans h2 (Int.le_ceil _)
      exact_mod_cast h3
    · exact Int.ceil_le.2 (roundDouble_le_int _ _ h53 (Int.le_ceil _))
  have hnegq : d < 0 → (bucketIndex w d = ⌊d / w⌋ ∨ bucketIndex w d = ⌊d / w⌋ + 1) ∧
      (roundDouble (d / w) < 0 → bucketIndex w d = ⌊roundDouble (d / w)⌋) := by
    intro hd
    have hq : d / w < 0 := div_neg_of_neg_of_pos hd hw
    have f1 : ⌊d / w⌋ ≤ ⌊roundDouble (d / w)⌋ :=
      Int.le_floor.2 (int_le_roundDouble _ _ h53 (Int.floor_le _))
    have f2 : roundDouble (d / w) ≤ ((⌊d / w⌋ + 1 : Int) : ℚ) :=
      roundDouble_le_int _ _ h53 (by push_cast; exact le_of_lt (Int.lt_floor_add_one _))
    have f3 : ⌊roundDouble (d / w)⌋ ≤ ⌊d / w⌋ + 1 := by
      have : (⌊roundDouble (d / w)⌋ : ℚ) ≤ ((⌊d / w⌋ + 1 : Int) : ℚ) :=
        le_trans (Int.floor_le _) f2
      exact_mod_cast this
    have f4 : ⌊d / w⌋ < 0 := by
      have : (⌊d / w⌋ : ℚ) < ((0 : Int) : ℚ) := lt_of_le_of_lt (Int.floor_le _) (by simpa using hq)
      exact_mod_cast this
    by_cases hn : roundDouble (d / w) < 0
    · refine ⟨?_, fun _ => by rw [e0, if_pos hn]⟩
      rw [e0, if_pos hn]
      omega
    · refine ⟨?_, fun hc => absurd hc hn⟩
      have g0 : roundDouble (d / w) ≤ ((0 : Int) : ℚ) :=
        roundDouble_le_int _ 0 h53 (by simpa using le_of_lt hq)
      have g1 : roundDouble (d / w) = 0 := le_antisymm (by simpa using g0) (not_lt.1 hn)
      rw [e0, if_neg hn, g1, Int.ceil_zero]
      rw [g1] at f2
      have : (0 : Int) ≤ ⌊d / w⌋ + 1 := by exact_mod_cast f2
      omega
  refine ⟨e0, ?_, fun hd => (hnegq hd).1, ?_⟩
  · intro hd
    obtain ⟨a, b, c⟩ := hposq hd
    rw [a]
    omega
  · intro hex
    constructor
    · intro hd
      rw [(hposq hd).1, hex]
    · intro hd
      have hq : d / w < 0 := div_neg_of_neg_of_pos hd hw
      rw [(hnegq hd).2 (by rw [hex]; exact hq), hex]

theorem frameF_of_frameG {st st1 : OWPStatsRec} (h : frameG st1 = frameG st) :
    frameF st1 = frameF st := by
  unfold frameF
  rw [h]

theorem frameG_first {a b : OWPStatsRec} (h : frameG a = frameG b) : a.first = b.first := by
  have := congrArg OWPStatsRec.first h; exact this

theorem frameG_last {a b : OWPStatsRec} (h : frameG a = frameG b) : a.last = b.last := by
  have := congrArg OWPStatsRec.last h; exact this

theorem frameG_skips {a b : OWPStatsRec} (h : frameG a = frameG b) : a.skips = b.skips := by
  have := congrArg OWPStatsRec.skips h; exact this

theorem frameG_sent {a b : OWPStatsRec} (h : frameG a = frameG b) : a.sent = b.sent := by
  have := congrArg OWPStatsRec.sent h; exact this

theorem frameG_btable {a b : OWPStatsRec} (h : frameG a = frameG b) : a.btable = b.btable := by
  have := congrArg OWPStatsRec.btable h; exact this

theorem frameF_first {a b : OWPStatsRec} (h : frameF a = frameF b) : a.first = b.first := by
  have := congrArg OWPStatsRec.first h; exact this

theorem frameF_last {a b : OWPStatsRec} (h : frameF a = frameF b) : a.last = b.last := by
  have := congrArg OWPStatsRec.last h; exact this

theorem frameF_skips {a b : OWPStatsRec} (h : frameF a = frameF b) : a.skips = b.skips := by
  have := congrArg OWPStatsRec.skips h; exact this

theorem frameF_sent {a b : OWPStatsRec} (h : frameF a = frameF b) : a.sent = b.sent := by
  have := congrArg OWPStatsRec.sent h; exact this

theorem frameF_btable {a b : OWPStatsRec} (h : frameF a = frameF b) : a.btable = b.btable := by
  have := congrArg OWPStatsRec.btable h; exact this

theorem nodeUpdate_append_fresh (seq : Nat) (f : OWPPacketRec → OWPPacketRec)
    (l : List OWPPacketRec) (node : OWPPacketRec) (hn : node.seq = seq)
    (hl : ∀ p ∈ l, p.seq < seq) :
    nodeUpdate seq f (l ++ [node]) = l ++ [f node] := by
  unfold nodeUpdate
  rw [List.map_append]
  congr 1
  · conv_rhs => rw [← List.map_id l]
    apply List.map_congr_left
    intro p hp
    have := hl p hp
    simp [Nat.ne_of_lt this]
  · simp [hn]

theorem PacketAlloc_ok (st : OWPStatsRec) (seq pe : Nat) (hp : st.pend = some pe)
    (h1 : pe < seq) (h2 : seq ≤ st.last) :
    PacketAlloc st seq =
      some ({ st with pnodes := st.pnodes ++ [OWPPacketRec.mk seq 0 0 false] },
            OWPPacketRec.mk seq 0 0 false) := by
  unfold PacketAlloc
  simp only [hp]
  have h3 : ¬ (seq > st.last ∨ decide (seq ≤ pe) = true) := by
    simp only [decide_eq_true_eq]
    omega
  simp only [h3, if_false]

theorem PacketGetLoop_spec (k : Nat) : ∀ (st : OWPStatsRec) (nseq pe : Nat),
    st.pend = some pe → pe ≤ nseq → st.isctx = nseq + 1 → nseq + k ≤ st.last →
    (∀ p ∈ st.pnodes, p.seq ≤ nseq) →
    ∃ st1 news, PacketGetLoop k st nseq = some (st1, nseq + k) ∧
      st1.pnodes = st.pnodes ++ news ∧
      news.map (fun p => p.seq) = List.range' (nseq + 1) k ∧
      (∀ n ∈ news, n.seen = 0 ∧ n.lost = false) ∧
      st1.pend = st.pend ∧ st1.isctx = nseq + k + 1 ∧ frameG st1 = frameG st ∧
      st1.iskip = st.iskip ∧ st1.lost = st.lost ∧ st1.dups = st.dups ∧
      st1.end_time = st.end_time := by
  induction k with
  | zero =>
    intro st nseq pe hp hle hi hl hall
    exact ⟨st, [], by simp [PacketGetLoop], by simp, by simp, by simp, rfl, by simpa using hi,
      rfl, rfl, rfl, rfl, rfl⟩
  | succ k ih =>
    intro st nseq pe hp hle hi hl hall
    unfold PacketGetLoop
    have hne : ¬ (nseq + 1 ≠ st.isctx) := by simp [hi]
    simp only [hne, if_false]
    have hal := PacketAlloc_ok
      { st with endnum := OWPNum64Add st.endnum (OWPScheduleContextGenerateNextDelta st.sctx).1,
                sctx := (OWPScheduleContextGenerateNextDelta st.sctx).2,
                isctx := st.isctx + 1 } (nseq + 1) pe hp (by omega) (by simpa using (by omega : nseq + 1 ≤ st.last))
    simp only [hal]
    have hupd := nodeUpdate_append_fresh (nseq + 1)
      (fun p => { p with schedtime := OWPNum64Add st.endnum (OWPScheduleContextGenerateNextDelta st.sctx).1 })
      st.pnodes (OWPPacketRec.mk (nseq + 1) 0 0 false) rfl
      (fun p hp => by have := hall p hp; omega)
    simp only [hupd]
    obtain ⟨st1, news, h1, h2, h3, h4, h5, h6, h7, h8, h9, h10, h11⟩ := ih
      { st with endnum := OWPNum64Add st.endnum (OWPScheduleContextGenerateNextDelta st.sctx).1,
                sctx := (OWPScheduleContextGenerateNextDelta st.sctx).2,
                isctx := st.isctx + 1,
                pnodes := st.pnodes ++ [OWPPacketRec.mk (nseq + 1)
                  (OWPNum64Add st.endnum (OWPScheduleContextGenerateNextDelta st.sctx).1) 0 false] }
      (nseq + 1) pe hp (by omega) (by simp [hi]) (by simpa using (by omega : nseq + 1 + k ≤ st.last))
      (by
        intro p hp
        simp only [List.mem_append, List.mem_singleton] at hp
        rcases hp with hp | hp
        · have := hall p hp; omega
        · subst hp; simp)
    refine ⟨st1, OWPPacketRec.mk (nseq + 1)
        (OWPNum64Add st.endnum (OWPScheduleContextGenerateNextDelta st.sctx).1) 0 false :: news,
      ?_, ?_, ?_, ?_, ?_, ?_, ?_, ?_, ?_, ?_, ?_⟩
    · rw [h1]; congr 2; omega
    · rw [h2]; simp
    · simp [h3, List.range'_succ]
    · intro n hn
      simp only [List.mem_cons] at hn
      rcases hn with hn | hn
      · subst hn; simp
      · exact h4 n hn
    · rw [h5]
    · rw [h6]; omega
    · rw [h7]; rfl
    · rw [h8]
    · rw [h9]
    · rw [h10]
    · rw [h11]

theorem find_seq (l : List OWPPacketRec) (b n s : Nat)
    (hl : l.map (fun p => p.seq) = List.range' b n) (h1 : b ≤ s) (h2 : s < b + n) :
    ∃ node, l.find? (fun p => p.seq = s) = some node ∧ node.seq = s ∧ node ∈ l := by
  have hmem : s ∈ l.map (fun p => p.seq) := by
    rw [hl, List.mem_range']
    exact ⟨s - b, by omega, by omega⟩
  rw [List.mem_map] at hmem
  obtain ⟨p, hp, hps⟩ := hmem
  cases hf : l.find? (fun p => decide (p.seq = s)) with
  | none =>
    rw [List.find?_eq_none] at hf
    exact absurd (by simpa using hps) (hf p hp)
  | some node =>
    refine ⟨node, rfl, ?_, List.mem_of_find?_eq_some hf⟩
    have := List.find?_some hf
    simpa using this

theorem Win_mem_seq {st : OWPStatsRec} {b e : Nat} (hw : Win st b e) {p : OWPPacketRec}
    (hp : p ∈ st.pnodes) : b ≤ p.seq ∧ p.seq ≤ e := by
  have : p.seq ∈ st.pnodes.map (fun p => p.seq) := List.mem_map_of_mem _ hp
  rw [hw.seqs, List.mem_range'] at this
  obtain ⟨i, hi, hpi⟩ := this
  have := hw.le
  omega

theorem PacketGet_spec (st : OWPStatsRec) (b e seq : Nat) (hw : Win st b e)
    (h1 : b ≤ seq) (h2 : seq < st.last) :
    ∃ st1 news node, PacketGet st seq = some (st1, some node) ∧ node.seq = seq ∧
      node ∈ st1.pnodes ∧ st1.pnodes = st.pnodes ++ news ∧
      news.map (fun p => p.seq) = List.range' (e + 1) (seq - e) ∧
      (∀ n ∈ news, n.seen = 0 ∧ n.lost = false) ∧
      Win st1 b (max e seq) ∧ frameG st1 = frameG st ∧
      st1.iskip = st.iskip ∧ st1.lost = st.lost ∧ st1.dups = st.dups ∧
      st1.end_time = st.end_time := by
  have hle := hw.le
  have hfl := hw.first_le
  unfold PacketGet
  simp only [hw.pend]
  by_cases hse : seq = e
  · subst hse
    obtain ⟨node, hf, hns, hmem⟩ := find_seq st.pnodes b (seq + 1 - b) seq hw.seqs h1 (by omega)
    refine ⟨st, [], node, by simp [hf], hns, hmem, by simp, by simp, by simp, ?_, rfl, rfl, rfl,
      rfl, rfl⟩
    rw [Nat.max_self]; exact hw
  · simp only [hse, if_false]
    have hr : ¬ (seq < st.first ∨ seq > st.last) := by omega
    simp only [hr, if_false]
    by_cases hgt : seq > e
    · simp only [hgt, if_true]
      obtain ⟨st1, news, g1, g2, g3, g4, g5, g6, g7, g8, g9, g10, g11⟩ :=
        PacketGetLoop_spec (seq - e) st e e hw.pend (le_refl _) hw.isctx (by omega)
          (fun p hp => (Win_mem_seq hw hp).2)
      have hes : e + (seq - e) = seq := by omega
      rw [hes] at g1 g6
      simp only [g1]
      have hseqs : st1.pnodes.map (fun p => p.seq) = List.range' b (seq + 1 - b) := by
        rw [g2, List.map_append, hw.seqs, g3]
        have h3 : seq + 1 - b = (seq - e) + (e + 1 - b) := by omega
        have h4 : e + 1 = b + (e + 1 - b) := by omega
        rw [h3, ← List.range'_append_1, ← h4]
      obtain ⟨node, hf, hns, hmem⟩ := find_seq st1.pnodes b (seq + 1 - b) seq hseqs h1 (by omega)
      have hmax : max e seq = seq := by omega
      refine ⟨{ st1 with pend := some seq }, news, node, by simp [hf], hns, hmem, g2, g3, g4, ?_,
        ?_, g8, g9, g10, g11⟩
      · rw [hmax]
        have hf1 : st1.first = st.first := frameG_first g7
        have hl1 : st1.last = st.last := frameG_last g7
        exact ⟨hseqs, by omega, rfl, g6, (by show st1.first ≤ b; omega),
          (by show seq < st1.last; omega)⟩
      · exact Eq.trans rfl g7
    · simp only [hgt, if_false]
      have hne : st.pnodes ≠ [] := by
        intro h
        have := hw.seqs
        rw [h] at this
        simp at this
        omega
      obtain ⟨pb, rest, hpn⟩ := List.exists_cons_of_ne_nil hne
      have hpb : pb.seq = b := by
        have := hw.seqs
        rw [hpn, show e + 1 - b = (e - b) + 1 by omega, List.range'_succ] at this
        simp only [List.map_cons, List.cons.injEq] at this
        exact this.1
      have hh : st.pnodes.head? = some pb := by rw [hpn]; rfl
      simp only [hh]
      have hnl : ¬ seq < pb.seq := by omega
      simp only [hnl, if_false]
      obtain ⟨node, hf, hns, hmem⟩ := find_seq st.pnodes b (e + 1 - b) seq hw.seqs h1 (by omega)
      have hmax : max e seq = e := by omega
      refine ⟨st, [], node, by simp [hf], hns, hmem, by simp, ?_, by simp, ?_,
        rfl, rfl, rfl, rfl, rfl⟩
      · have : seq - e = 0 := by omega
        simp [this]
      · rw [hmax]; exact hw

theorem PacketGet_behind (st : OWPStatsRec) (b e seq : Nat) (hw : Win st b e)
    (h0 : st.first ≤ seq) (h1 : seq < b) : PacketGet st seq = some (st, none) := by
  have hle := hw.le
  have hll := hw.lt_last
  unfold PacketGet
  simp only [hw.pend]
  have hse : ¬ seq = e := by omega
  have hr : ¬ (seq < st.first ∨ seq > st.last) := by omega
  have hgt : ¬ seq > e := by omega
  simp only [hse, hr, hgt, if_false]
  have hne : st.pnodes ≠ [] := by
    intro h
    have := hw.seqs
    rw [h] at this
    simp at this
    omega
  obtain ⟨pb, rest, hpn⟩ := List.exists_cons_of_ne_nil hne
  have hpb : pb.seq = b := by
    have := hw.seqs
    rw [hpn, show e + 1 - b = (e - b) + 1 by omega, List.range'_succ] at this
    simp only [List.map_cons, List.cons.injEq] at this
    exact this.1
  have hh : st.pnodes.head? = some pb := by rw [hpn]; rfl
  simp only [hh]
  simp [hpb, h1]

theorem flushAcct_frameG (st : OWPStatsRec) (node : OWPPacketRec) :
    frameF (flushAcct st node) = frameF st ∧ (flushAcct st node).pnodes = st.pnodes ∧
    (flushAcct st node).pend = st.pend ∧ (flushAcct st node).isctx = st.isctx ∧
    (flushAcct st node).last = st.last ∧ (flushAcct st node).first = st.first ∧
    (flushAcct st node).skips = st.skips ∧ (flushAcct st node).sent = st.sent ∧
    (flushAcct st node).btable = st.btable := by
  unfold flushAcct
  simp only []
  split_ifs <;> exact ⟨rfl, rfl, rfl, rfl, rfl, rfl, rfl, rfl, rfl⟩

theorem flushAcct_iskip (st : OWPStatsRec) (node : OWPPacketRec) :
    (flushAcct st node).iskip = skipForward node.seq (st.skips.drop st.iskip) st.iskip := by
  unfold flushAcct
  simp only []
  split_ifs <;> rfl

theorem flushAcct_lost (st : OWPStatsRec) (node : OWPPacketRec) :
    (flushAcct st node).lost =
      if flushSkip st node.seq then st.lost
      else if node.lost then st.lost + 1 else st.lost := by
  unfold flushAcct flushSkip
  simp only []
  split_ifs <;> rfl

theorem flushAcct_dups (st : OWPStatsRec) (node : OWPPacketRec) :
    (flushAcct st node).dups =
      if flushSkip st node.seq then st.dups
      else if node.lost then st.dups
      else st.dups + (node.seen - 1) := by
  unfold flushAcct flushSkip
  simp only []
  split_ifs with h1 h2 h3
  · rfl
  · rfl
  · rfl
  · have : node.seen = 0 := by simpa using h3
    simp [this]

theorem PacketBeginFlush_cons_cons (st : OWPStatsRec) (node p : OWPPacketRec)
    (tl : List OWPPacketRec) (h : st.pnodes = node :: p :: tl) :
    PacketBeginFlush st = some (PacketFree (flushAcct st node) node, true) := by
  unfold PacketBeginFlush
  rw [h]

theorem PacketBeginFlush_single (st : OWPStatsRec) (node : OWPPacketRec)
    (h : st.pnodes = [node]) :
    PacketBeginFlush st =
      if node.seq + 1 < st.last then
        match PacketGet (flushAcct st node) (node.seq + 1) with
        | none => none
        | some (st4, _) => some (PacketFree st4 node, true)
      else some (PacketFree (flushAcct st node) node, false) := by
  unfold PacketBeginFlush
  rw [h]
  simp only [(flushAcct_frameG st node).2.2.2.2.1]

theorem drop_cons_get {α : Type} (sk : List α) : ∀ (k : Nat) (r : α) (rest : List α),
    sk.drop k = r :: rest → sk.get? k = some r ∧ sk.drop (k + 1) = rest := by
  induction sk with
  | nil => intro k r rest h; simp at h
  | cons a t ih =>
    intro k r rest h
    cases k with
    | zero =>
      simp only [List.drop_zero, List.cons.injEq] at h
      obtain ⟨h1, h2⟩ := h
      subst h1; subst h2
      simp
    | succ k =>
      simp only [List.drop_succ_cons] at h
      have := ih k r rest h
      simpa using this

theorem skipForward_spec (seq : Nat) (sk : List OWPSkipRec) :
    ∀ (l : List OWPSkipRec) (k : Nat), l = sk.drop k →
      k ≤ skipForward seq l k ∧
      (∀ j r, k ≤ j → j < skipForward seq l k → sk.get? j = some r → r.end_ < seq) ∧
      (∀ r, sk.get? (skipForward seq l k) = some r → seq ≤ r.end_) := by
  intro l
  induction l with
  | nil =>
    intro k h
    refine ⟨le_refl _, ?_, ?_⟩
    · intro j r h1 h2
      simp only [skipForward] at h2
      omega
    · intro r hr
      simp only [skipForward] at hr
      have hlen : sk.length ≤ k := by
        by_contra hc
        have : (sk.drop k).length = sk.length - k := List.length_drop k sk
        rw [← h] at this
        simp at this
        omega
      have : sk.get? k = none := by
        rw [List.get?_eq_none]
        exact hlen
      rw [this] at hr
      cases hr
  | cons a rest ih =>
    intro k h
    obtain ⟨hg, hd⟩ := drop_cons_get sk k a rest h.symm
    unfold skipForward
    by_cases hc : seq > a.end_
    · simp only [hc, if_true]
      obtain ⟨i1, i2, i3⟩ := ih (k + 1) hd.symm
      refine ⟨by omega, ?_, i3⟩
      intro j r h1 h2 h3
      by_cases hjk : j = k
      · subst hjk
        rw [hg] at h3
        cases h3
        exact hc
      · exact i2 j r (by omega) h2 h3
    · simp only [hc, if_false]
      refine ⟨le_refl _, ?_, ?_⟩
      · intro j r h1 h2; omega
      · intro r hr
        rw [hg] at hr
        cases hr
        omega

theorem any_drop_eq {α : Type} (P : α → Bool) (l : List α) : ∀ (k : Nat),
    (∀ j r, j < k → l.get? j = some r → P r = false) → (l.drop k).any P = l.any P := by
  induction l with
  | nil => intro k _; simp
  | cons a t ih =>
    intro k h
    cases k with
    | zero => simp
    | succ k =>
      have ha : P a = false := h 0 a (by omega) (by simp)
      simp only [List.drop_succ_cons, List.any_cons, ha, Bool.false_or]
      apply ih
      intro j r hj hr
      exact h (j + 1) r (by omega) (by simpa using hr)

theorem skipScan_eq_inSkip (st : OWPStatsRec) (b s : Nat)
    (hs : ∀ j r, j < st.iskip → st.skips.get? j = some r → r.end_ < b) (hb : b ≤ s) :
    skipScan st s = inSkip st.skips s := by
  unfold skipScan inSkip
  apply any_drop_eq
  intro j r hj hr
  have := hs j r hj hr
  simp only [decide_eq_false_iff_not, not_and, not_le]
  intro _
  omega

theorem flushSkip_inSkip (st : OWPStatsRec) (seq : Nat) (h : flushSkip st seq = true) :
    inSkip st.skips seq = true := by
  unfold flushSkip at h
  obtain ⟨_, _, h3⟩ := skipForward_spec seq st.skips (st.skips.drop st.iskip) st.iskip rfl
  cases hg : st.skips.get? (skipForward seq (st.skips.drop st.iskip) st.iskip) with
  | none => rw [hg] at h; simp at h
  | some r =>
    rw [hg] at h
    simp only [decide_eq_true_eq] at h
    have hle := h3 r hg
    unfold inSkip
    rw [List.any_eq_true]
    exact ⟨r, List.get?_mem hg, by simp; omega⟩

theorem recvCount_append (done : List OWPDataRec) (r : OWPDataRec) (s : Nat) :
    recvCount (done ++ [r]) s =
      recvCount done s + (if r.seq_no = s ∧ OWPIsLostRecord r = false then 1 else 0) := by
  unfold recvCount
  rw [List.countP_append]
  congr 1
  by_cases h1 : r.seq_no = s <;> cases h2 : OWPIsLostRecord r <;> simp [List.countP_cons, h1, h2]

theorem lossCount_append (done : List OWPDataRec) (r : OWPDataRec) (s : Nat) :
    lossCount (done ++ [r]) s =
      lossCount done s + (if r.seq_no = s ∧ OWPIsLostRecord r = true then 1 else 0) := by
  unfold lossCount
  rw [List.countP_append]
  congr 1
  by_cases h1 : r.seq_no = s <;> cases h2 : OWPIsLostRecord r <;> simp [List.countP_cons, h1, h2]

theorem counts_zero_of_absent (done : List OWPDataRec) (s : Nat)
    (h : ∀ r ∈ done, r.seq_no ≠ s) : recvCount done s = 0 ∧ lossCount done s = 0 := by
  unfold recvCount lossCount
  constructor <;>
  · rw [List.countP_eq_zero]
    intro r hr
    simp [h r hr]

theorem head_of_range (l : List OWPPacketRec) (b n : Nat)
    (h : l.map (fun p => p.seq) = List.range' b (n + 1)) :
    ∃ node tl, l = node :: tl ∧ node.seq = b ∧
      tl.map (fun p => p.seq) = List.range' (b + 1) n ∧
      l.filter (fun p => decide (p.seq ≠ node.seq)) = tl := by
  cases l with
  | nil => simp [List.range'_succ] at h
  | cons node tl =>
    rw [List.range'_succ] at h
    simp only [List.map_cons, List.cons.injEq] at h
    obtain ⟨h1, h2⟩ := h
    refine ⟨node, tl, rfl, h1, h2, ?_⟩
    rw [List.filter_cons]
    simp only [ne_eq, not_true_eq_false, decide_False, Bool.false_eq_true, if_false]
    rw [List.filter_eq_self]
    intro p hp
    have : p.seq ∈ tl.map (fun p => p.seq) := List.mem_map_of_mem _ hp
    rw [h2, List.mem_range'] at this
    obtain ⟨i, _, hi⟩ := this
    simp only [decide_eq_true_eq]
    omega

theorem Win_head {st : OWPStatsRec} {b e : Nat} (hw : Win st b e) :
    ∃ node tl, st.pnodes = node :: tl ∧ node.seq = b ∧
      tl.map (fun p => p.seq) = List.range' (b + 1) (e - b) ∧
      st.pnodes.filter (fun p => decide (p.seq ≠ node.seq)) = tl := by
  have h := hw.seqs
  have hle := hw.le
  rw [show e + 1 - b = (e - b) + 1 by omega] at h
  exact head_of_range st.pnodes b (e - b) h

theorem lostSum_succ (skips : List OWPSkipRec) (recs : List OWPDataRec) (first b : Nat)
    (h : first ≤ b) : lostSum skips recs first (b + 1) =
      lostSum skips recs first b + (if 0 < effLoss skips recs b then 1 else 0) := by
  unfold lostSum
  rw [Finset.sum_Ico_succ_top h]

theorem dupsSum_succ (skips : List OWPSkipRec) (recs : List OWPDataRec) (first b : Nat)
    (h : first ≤ b) : dupsSum skips recs first (b + 1) =
      dupsSum skips recs first b + (effRecv skips recs b - 1) := by
  unfold dupsSum
  rw [Finset.sum_Ico_succ_top h]

theorem flushAcct_tally {st : OWPStatsRec} {done : List OWPDataRec} {b e : Nat}
    (hinv : Inv st done b e) (node : OWPPacketRec) (hn : node ∈ st.pnodes)
    (hb : node.seq = b) :
    (flushAcct st node).lost = lostSum st.skips done st.first (b + 1) ∧
    (flushAcct st node).dups = dupsSum st.skips done st.first (b + 1) ∧
    (∀ j r, j < (flushAcct st node).iskip → st.skips.get? j = some r → r.end_ < b + 1) := by
  obtain ⟨hseen, hlost, hexcl⟩ := hinv.nodes node hn
  rw [hb] at hseen hlost
  have hfl := hinv.win.first_le
  refine ⟨?_, ?_, ?_⟩
  · rw [flushAcct_lost, lostSum_succ _ _ _ _ hfl, ← hinv.lost_eq, hb]
    by_cases hs : flushSkip st b = true
    · have := flushSkip_inSkip st b hs
      simp [hs, effLoss, this]
    · simp only [hs, hlost]
      simp only [Bool.false_eq_true, if_false, decide_eq_true_eq]
      split_ifs <;> rfl
  · rw [flushAcct_dups, dupsSum_succ _ _ _ _ hfl, ← hinv.dups_eq, hb]
    by_cases hs : flushSkip st b = true
    · have := flushSkip_inSkip st b hs
      simp [hs, effRecv, this]
    · simp only [hs]
      by_cases hl : node.lost = true
      · have := hexcl hl
        rw [hseen] at this
        simp [hl, this]
      · simp [hl, hseen]
  · intro j r hj hr
    rw [flushAcct_iskip, hb] at hj
    obtain ⟨_, h2, _⟩ := skipForward_spec b st.skips (st.skips.drop st.iskip) st.iskip rfl
    by_cases hjk : j < st.iskip
    · have := hinv.skipc j r hjk hr
      omega
    · have := h2 j r (by omega) hj hr
      omega

theorem Win_congr {st st1 : OWPStatsRec} {b e : Nat} (hw : Win st b e)
    (h1 : st1.pnodes = st.pnodes) (h2 : st1.pend = st.pend) (h3 : st1.isctx = st.isctx)
    (h4 : st1.first = st.first) (h5 : st1.last = st.last) : Win st1 b e :=
  ⟨by rw [h1]; exact hw.seqs, hw.le, by rw [h2]; exact hw.pend, by rw [h3]; exact hw.isctx,
    by rw [h4]; exact hw.first_le, by rw [h5]; exact hw.lt_last⟩

theorem fresh_counts_zero {first last e s : Nat} {done : List OWPDataRec}
    (hf : FutureOK first last done e) (h1 : first ≤ s) (h2 : s < last) (h3 : e < s)
    (skips : List OWPSkipRec) : effRecv skips done s = 0 ∧ effLoss skips done s = 0 := by
  have habs : ∀ r ∈ done, r.seq_no ≠ s := by
    intro r hr heq
    have := hf r hr (by omega) (by omega)
    omega
  obtain ⟨c1, c2⟩ := counts_zero_of_absent done s habs
  unfold effRecv effLoss
  constructor <;> split_ifs <;> simp [c1, c2]

theorem NodesOK_fresh {first last e : Nat} {done : List OWPDataRec}
    (hf : FutureOK first last done e) (skips : List OWPSkipRec) (news : List OWPPacketRec)
    (hr : ∀ n ∈ news, first ≤ n.seq ∧ n.seq < last ∧ e < n.seq)
    (hz : ∀ n ∈ news, n.seen = 0 ∧ n.lost = false) : NodesOK skips done news := by
  intro p hp
  obtain ⟨h1, h2, h3⟩ := hr p hp
  obtain ⟨c1, c2⟩ := fresh_counts_zero hf h1 h2 h3 skips
  obtain ⟨z1, z2⟩ := hz p hp
  refine ⟨by rw [z1, c1], by rw [z2, c2]; simp, fun _ => z1⟩

theorem PacketBeginFlush_inv {st : OWPStatsRec} {done : List OWPDataRec} {b e : Nat}
    (hinv : Inv st done b e) :
    ∃ st1 r, PacketBeginFlush st = some (st1, r) ∧ frameF st1 = frameF st ∧
      ((r = true ∧ Inv st1 done (b + 1) (max e (b + 1))) ∨
       (r = false ∧ b + 1 = st.last ∧ st1.pnodes = [] ∧
        st1.lost = lostSum st.skips done st.first st.last ∧
        st1.dups = dupsSum st.skips done st.first st.last)) := by
  obtain ⟨node, tl, hpn, hnb, htl, hfilt⟩ := Win_head hinv.win
  have hmem : node ∈ st.pnodes := by rw [hpn]; exact List.mem_cons_self _ _
  obtain ⟨tl1, tl2, tl3⟩ := flushAcct_tally hinv node hmem hnb
  obtain ⟨a1, a2, a3, a4, a5, a6, a7, a8, a9⟩ := flushAcct_frameG st node
  have hle := hinv.win.le
  have hll := hinv.win.lt_last
  have hfl := hinv.win.first_le
  cases tl with
  | cons p tl' =>
    have hbe : b < e := by
      by_contra hc
      have : e - b = 0 := by omega
      rw [this] at htl
      simp at htl
    refine ⟨PacketFree (flushAcct st node) node, true,
      PacketBeginFlush_cons_cons st node p tl' hpn, Eq.trans rfl a1, Or.inl ⟨rfl, ?_⟩⟩
    have hmax : max e (b + 1) = e := by omega
    rw [hmax]
    have hpn1 : (PacketFree (flushAcct st node) node).pnodes = p :: tl' := by
      show (flushAcct st node).pnodes.filter _ = _
      rw [a2]; exact hfilt
    have hsub : ∀ q ∈ (PacketFree (flushAcct st node) node).pnodes, q ∈ st.pnodes := by
      intro q hq
      rw [hpn1] at hq
      rw [hpn]
      exact List.mem_cons_of_mem _ hq
    refine ⟨⟨?_, by omega, ?_, ?_, ?_, ?_⟩, ?_, ?_, ?_, ?_, ?_, ?_, ?_⟩
    · rw [hpn1, htl]
      congr 1
      omega
    · show (if (flushAcct st node).pend = some node.seq then some 0
        else (flushAcct st node).pend) = some e
      rw [a3, hinv.win.pend, hnb]
      have : ¬ (some e = some b) := by
        intro h; cases h; omega
      simp only [this, if_false]
    · show (flushAcct st node).isctx = e + 1
      rw [a4]; exact hinv.win.isctx
    · show (flushAcct st node).first ≤ b + 1
      rw [a6]; omega
    · show e < (flushAcct st node).last
      rw [a5]; exact hll
    · show ∀ j r, j < (flushAcct st node).iskip → (flushAcct st node).skips.get? j = some r →
        r.end_ < b + 1
      rw [a7]; exact tl3
    · show NodesOK (flushAcct st node).skips done _
      rw [a7]
      intro q hq
      exact hinv.nodes q (hsub q hq)
    · show FutureOK (flushAcct st node).first (flushAcct st node).last done e
      rw [a5, a6]; exact hinv.future
    · show (flushAcct st node).sent = sentSum (flushAcct st node).skips done
        (flushAcct st node).first (flushAcct st node).last
      rw [a5, a6, a7, a8]; exact hinv.sent_eq
    · show (flushAcct st node).lost = lostSum (flushAcct st node).skips done
        (flushAcct st node).first (b + 1)
      rw [a6, a7]; exact tl1
    · show (flushAcct st node).dups = dupsSum (flushAcct st node).skips done
        (flushAcct st node).first (b + 1)
      rw [a6, a7]; exact tl2
    · show ((flushAcct st node).btable.map (fun x => x.n)).sum = recvSum
        (flushAcct st node).skips done (flushAcct st node).first (flushAcct st node).last
      rw [a5, a6, a7, a9]; exact hinv.btot
  | nil =>
    have hbe : e = b := by
      have h1 := hinv.win.seqs
      rw [hpn] at h1
      have h2 := congrArg List.length h1
      simp at h2
      omega
    subst hbe
    rw [PacketBeginFlush_single st node hpn, hnb]
    by_cases hlt : e + 1 < st.last
    · simp only [hlt, if_true]
      have hw3 : Win (flushAcct st node) e e := Win_congr hinv.win a2 a3 a4 a6 a5
      obtain ⟨st4, news, node4, g1, g2, g3, g4, g5, g6, g7, g8, g9, g10, g11, g12⟩ :=
        PacketGet_spec (flushAcct st node) e e (e + 1) hw3 (by omega) (by rw [a5]; exact hlt)
      simp only [g1]
      have hmax : max e (e + 1) = e + 1 := by omega
      rw [hmax] at g7 ⊢
      obtain ⟨nd, tl4, k1, k2, k3, k4⟩ := Win_head g7
      have hcat : st4.pnodes = node :: news := by rw [g4, a2, hpn]; rfl
      have hnd : nd = node ∧ tl4 = news := by
        rw [hcat] at k1
        simp only [List.cons.injEq] at k1
        exact ⟨k1.1.symm, k1.2.symm⟩
      obtain ⟨hnd1, hnd2⟩ := hnd
      subst hnd1; subst hnd2
      have h4first : st4.first = st.first := by rw [frameG_first g8, a6]
      have h4last : st4.last = st.last := by rw [frameG_last g8, a5]
      have h4skips : st4.skips = st.skips := by rw [frameG_skips g8, a7]
      refine ⟨PacketFree st4 nd, true, rfl, ?_, Or.inl ⟨rfl, ?_⟩⟩
      · exact Eq.trans (Eq.trans rfl (frameF_of_frameG g8)) a1
      · have hpn1 : (PacketFree st4 nd).pnodes = tl4 := k4
        refine ⟨⟨?_, le_refl _, ?_, ?_, ?_, ?_⟩, ?_, ?_, ?_, ?_, ?_, ?_, ?_⟩
        · rw [hpn1, k3]
          congr 1
          omega
        · show (if st4.pend = some nd.seq then some 0 else st4.pend) = some (e + 1)
          rw [g7.pend, hnb]
          have : ¬ (some (e + 1) = some e) := by
            intro h; simp at h
          simp only [this, if_false]
        · exact g7.isctx
        · show st4.first ≤ e + 1
          rw [h4first]; omega
        · exact g7.lt_last
        · show ∀ j r, j < st4.iskip → st4.skips.get? j = some r → r.end_ < e + 1
          rw [g9, h4skips]; exact tl3
        · show NodesOK st4.skips done (PacketFree st4 nd).pnodes
          rw [hpn1, h4skips]
          apply NodesOK_fresh hinv.future st.skips tl4 _ g6
          intro n hn
          have : n.seq ∈ tl4.map (fun p => p.seq) := List.mem_map_of_mem _ hn
          rw [k3, List.mem_range'] at this
          obtain ⟨i, hi, hni⟩ := this
          omega
        · show FutureOK st4.first st4.last done (e + 1)
          rw [h4first, h4last]
          intro r hr h1 h2
          have := hinv.future r hr h1 h2
          omega
        · show st4.sent = sentSum st4.skips done st4.first st4.last
          rw [h4first, h4last, h4skips, frameG_sent g8, a8]; exact hinv.sent_eq
        · show st4.lost = lostSum st4.skips done st4.first (e + 1)
          rw [h4first, h4skips, g10]; exact tl1
        · show st4.dups = dupsSum st4.skips done st4.first (e + 1)
          rw [h4first, h4skips, g11]; exact tl2
        · show (st4.btable.map (fun x => x.n)).sum = recvSum st4.skips done st4.first st4.last
          rw [h4first, h4last, h4skips, frameG_btable g8, a9]; exact hinv.btot
    · simp only [hlt, if_false]
      have hlast : e + 1 = st.last := by omega
      refine ⟨PacketFree (flushAcct st node) node, false, rfl, Eq.trans rfl a1,
        Or.inr ⟨rfl, hlast, ?_, ?_, ?_⟩⟩
      · show (flushAcct st node).pnodes.filter _ = _
        rw [a2]; exact hfilt
      · show (flushAcct st node).lost = _
        rw [tl1, hlast]
      · show (flushAcct st node).dups = _
        rw [tl2, hlast]

theorem IterateSummarizeSession_eq (rec : OWPDataRec) (st0 : OWPStatsRec) :
    IterateSummarizeSession rec st0 =
      iterCore rec.seq_no (OWPIsLostRecord rec)
        (fun st => OWPNum64Sub rec.recv.owptime st.hdr.test_spec.loss_timeout)
        (postLostOW rec) (postOW rec) st0 := by
  unfold IterateSummarizeSession iterCore
  simp only []
  split
  · rfl
  · split
    · rfl
    · rfl
    · split
      · rfl
      · rfl
      · split
        · rfl
        · split
          · split <;> rfl
          · split
            · rfl
            · unfold postOW
              simp only []
              split <;> rfl

theorem IterateSummarizeTWSession_eq (rec : OWPTWDataRec) (st0 : OWPStatsRec) :
    IterateSummarizeTWSession rec st0 =
      iterCore rec.sent.seq_no (OWPIsLostRecord rec.sent)
        (fun st => OWPNum64Sub rec.sent.send.owptime st.hdr.test_spec.loss_timeout)
        (postLostTW rec) (postTW rec) st0 := by
  unfold IterateSummarizeTWSession iterCore
  simp only []
  split
  · rfl
  · split
    · rfl
    · rfl
    · split
      · rfl
      · rfl
      · split
        · rfl
        · split
          · split <;> rfl
          · split
            · rfl
            · unfold postTW
              simp only []
              split <;> rfl

theorem Inv_congr {st st1 : OWPStatsRec} {done : List OWPDataRec} {b e : Nat}
    (hinv : Inv st done b e)
    (h1 : st1.pnodes = st.pnodes) (h2 : st1.pend = st.pend) (h3 : st1.isctx = st.isctx)
    (h4 : st1.first = st.first) (h5 : st1.last = st.last) (h6 : st1.iskip = st.iskip)
    (h7 : st1.skips = st.skips) (h8 : st1.sent = st.sent) (h9 : st1.lost = st.lost)
    (h10 : st1.dups = st.dups) (h11 : st1.btable = st.btable) : Inv st1 done b e :=
  ⟨Win_congr hinv.win h1 h2 h3 h4 h5,
   by rw [h6, h7]; exact hinv.skipc,
   by rw [h7, h1]; exact hinv.nodes,
   by rw [h4, h5]; exact hinv.future,
   by rw [h8, h7, h4, h5]; exact hinv.sent_eq,
   by rw [h9, h7, h4]; exact hinv.lost_eq,
   by rw [h10, h7, h4]; exact hinv.dups_eq,
   by rw [h11, h7, h4, h5]; exact hinv.btot⟩

theorem markOffset_fields (st : OWPStatsRec) (seq : Nat) :
    (markOffset st seq).pnodes = st.pnodes ∧ (markOffset st seq).pend = st.pend ∧
    (markOffset st seq).isctx = st.isctx ∧ (markOffset st seq).first = st.first ∧
    (markOffset st seq).last = st.last ∧ (markOffset st seq).iskip = st.iskip ∧
    (markOffset st seq).skips = st.skips ∧ (markOffset st seq).sent = st.sent ∧
    (markOffset st seq).lost = st.lost ∧ (markOffset st seq).dups = st.dups ∧
    (markOffset st seq).btable = st.btable := by
  by_cases h : st.next_oset = 0 ∧ seq ≥ st.last
  · simp [markOffset, h]
  · simp [markOffset, h]

theorem Inv_markOffset {st : OWPStatsRec} {done : List OWPDataRec} {b e : Nat}
    (hinv : Inv st done b e) (seq : Nat) : Inv (markOffset st seq) done b e := by
  obtain ⟨h1, h2, h3, h4, h5, h6, h7, h8, h9, h10, h11⟩ := markOffset_fields st seq
  exact Inv_congr hinv h1 h2 h3 h4 h5 h6 h7 h8 h9 h10 h11

theorem Inv_PacketGet {st : OWPStatsRec} {done : List OWPDataRec} {b e : Nat}
    (hinv : Inv st done b e) (seq : Nat) (h1 : b ≤ seq) (h2 : seq < st.last) :
    ∃ st1 node, PacketGet st seq = some (st1, some node) ∧ node.seq = seq ∧
      node ∈ st1.pnodes ∧ Inv st1 done b (max e seq) ∧ frameG st1 = frameG st := by
  obtain ⟨st1, news, node, g1, g2, g3, g4, g5, g6, g7, g8, g9, g10, g11, g12⟩ :=
    PacketGet_spec st b e seq hinv.win h1 h2
  have hfirst : st1.first = st.first := frameG_first g8
  have hlast : st1.last = st.last := frameG_last g8
  have hskips : st1.skips = st.skips := frameG_skips g8
  have hfl := hinv.win.first_le
  have hle := hinv.win.le
  refine ⟨st1, node, g1, g2, g3, ⟨g7, ?_, ?_, ?_, ?_, ?_, ?_, ?_⟩, g8⟩
  · rw [g9, hskips]; exact hinv.skipc
  · rw [hskips, g4]
    intro p hp
    rw [List.mem_append] at hp
    rcases hp with hp | hp
    · exact hinv.nodes p hp
    · apply NodesOK_fresh hinv.future st.skips news _ g6 p hp
      intro n hn
      have : n.seq ∈ news.map (fun p => p.seq) := List.mem_map_of_mem _ hn
      rw [g5, List.mem_range'] at this
      obtain ⟨i, hi, hni⟩ := this
      omega
  · rw [hfirst, hlast]
    intro r hr k1 k2
    have := hinv.future r hr k1 k2
    omega
  · rw [hfirst, hlast, hskips, frameG_sent g8]; exact hinv.sent_eq
  · rw [hfirst, hskips, g10]; exact hinv.lost_eq
  · rw [hfirst, hskips, g11]; exact hinv.dups_eq
  · rw [hfirst, hlast, hskips, frameG_btable g8]; exact hinv.btot

theorem flushLostLoop_inv (done : List OWPDataRec) (seq : Nat) (fuel : Nat) :
    ∀ (st : OWPStatsRec) (b e : Nat), Inv st done b e →
      ∀ st1, flushLostLoop fuel st seq = Ret.ok st1 →
        ∃ b1 e1, Inv st1 done b1 e1 ∧ b ≤ b1 ∧ e ≤ e1 ∧ frameF st1 = frameF st := by
  induction fuel with
  | zero => intro st b e _ st1 h; simp [flushLostLoop] at h
  | succ fuel ih =>
    intro st b e hinv st1 h
    obtain ⟨node, tl, hpn, hnb, _, _⟩ := Win_head hinv.win
    unfold flushLostLoop at h
    rw [hpn] at h
    simp only [] at h
    by_cases hc : node.seq < seq
    · simp only [hc, if_true] at h
      obtain ⟨st2, r, hf, hfr, hcase⟩ := PacketBeginFlush_inv hinv
      rw [hf] at h
      rcases hcase with ⟨hr, hinv2⟩ | ⟨hr, _⟩
      · subst hr
        simp only [] at h
        obtain ⟨b1, e1, i1, i2, i3, i4⟩ := ih st2 _ _ hinv2 st1 h
        exact ⟨b1, e1, i1, by omega, by omega, Eq.trans i4 hfr⟩
      · subst hr
        simp at h
    · simp only [hc, if_false] at h
      cases h
      exact ⟨b, e, hinv, le_refl _, le_refl _, rfl⟩

theorem flushThreshLoop_inv (done : List OWPDataRec) (thresh : Nat) (fuel : Nat) :
    ∀ (st : OWPStatsRec) (b e : Nat), Inv st done b e →
      ∀ st1, flushThreshLoop fuel st thresh = Ret.ok st1 →
        ∃ b1 e1, Inv st1 done b1 e1 ∧ b ≤ b1 ∧ e ≤ e1 ∧ frameF st1 = frameF st := by
  induction fuel with
  | zero => intro st b e _ st1 h; simp [flushThreshLoop] at h
  | succ fuel ih =>
    intro st b e hinv st1 h
    obtain ⟨node, tl, hpn, hnb, _, _⟩ := Win_head hinv.win
    unfold flushThreshLoop at h
    rw [hpn] at h
    simp only [] at h
    by_cases hc : OWPNum64Cmp node.schedtime thresh < 0
    · simp only [hc, if_true] at h
      obtain ⟨st2, r, hf, hfr, hcase⟩ := PacketBeginFlush_inv hinv
      rw [hf] at h
      rcases hcase with ⟨hr, hinv2⟩ | ⟨hr, _⟩
      · subst hr
        simp only [] at h
        obtain ⟨b1, e1, i1, i2, i3, i4⟩ := ih st2 _ _ hinv2 st1 h
        exact ⟨b1, e1, i1, by omega, by omega, Eq.trans i4 hfr⟩
      · subst hr
        simp at h
    · simp only [hc, if_false] at h
      cases h
      exact ⟨b, e, hinv, le_refl _, le_refl _, rfl⟩

theorem iterCore_shape {st : OWPStatsRec} {done : List OWPDataRec} {b e : Nat}
    (hinv : Inv st done b e) (seq : Nat) (isLost : Bool) (thresh : OWPStatsRec → Nat)
    (postLost : OWPStatsRec → OWPStatsRec) (post : Nat → OWPStatsRec → OWPStatsRec)
    (st' : OWPStatsRec) (h : iterCore seq isLost thresh postLost post st = Ret.ok st') :
    (¬ (st.first ≤ seq ∧ seq < st.last) ∧ st' = markOffset st seq) ∨
    (st.first ≤ seq ∧ seq < st.last ∧ ∃ st2 b1 e1 node, Inv st2 done b1 e1 ∧ b ≤ b1 ∧
      b1 ≤ seq ∧ seq ≤ e1 ∧ frameF st2 = frameF (markOffset st seq) ∧
      node ∈ st2.pnodes ∧ node.seq = seq ∧
      ((inSkip st.skips seq = true ∧ st' = st2) ∨
       (inSkip st.skips seq = false ∧ isLost = true ∧ node.seen = 0 ∧
          st' = postLost (lostUpdate st2 node)) ∨
       (inSkip st.skips seq = false ∧ isLost = false ∧ node.lost = false ∧
          st' = post node.seen (jreorder (seenUpdate st2 node) seq)))) := by
  obtain ⟨m1, m2, m3, m4, m5, m6, m7, m8, m9, m10, m11⟩ := markOffset_fields st seq
  have hinv0 := Inv_markOffset hinv seq
  unfold iterCore at h
  simp only [] at h
  rw [m4, m5] at h
  by_cases hr : seq < st.first ∨ seq ≥ st.last
  · simp only [hr, if_true] at h
    cases h
    exact Or.inl ⟨by omega, rfl⟩
  · simp only [hr, if_false] at h
    have hr1 : st.first ≤ seq := by omega
    have hr2 : seq < st.last := by omega
    refine Or.inr ⟨hr1, hr2, ?_⟩
    generalize hfl : (if isLost = true then flushLostLoop (st.last + 1) (markOffset st seq) seq
      else flushThreshLoop (st.last + 1) (markOffset st seq) (thresh (markOffset st seq))) = fl
      at h
    cases fl with
    | crash => simp at h
    | fatal s => simp at h
    | ok st1 =>
      simp only [] at h
      have hloop : ∃ b1 e1, Inv st1 done b1 e1 ∧ b ≤ b1 ∧ e ≤ e1 ∧
          frameF st1 = frameF (markOffset st seq) := by
        cases isLost with
        | true =>
          simp only [if_true] at hfl
          exact flushLostLoop_inv done seq _ _ b e hinv0 st1 hfl
        | false =>
          simp only [Bool.false_eq_true, if_false] at hfl
          exact flushThreshLoop_inv done _ _ _ b e hinv0 st1 hfl
      obtain ⟨b1, e1, hinv1, hb1, he1, hf1⟩ := hloop
      have h1last : st1.last = st.last := by rw [frameF_last hf1, m5]
      have h1first : st1.first = st.first := by rw [frameF_first hf1, m4]
      by_cases hbs : b1 ≤ seq
      · obtain ⟨st2, node, hg, hns, hmem, hinv2, hf2⟩ :=
          Inv_PacketGet hinv1 seq hbs (by rw [h1last]; exact hr2)
        rw [hg] at h
        simp only [] at h
        have hf20 : frameF st2 = frameF (markOffset st seq) :=
          Eq.trans (frameF_of_frameG hf2) hf1
        have h2skips : st2.skips = st.skips := by rw [frameF_skips hf20, m7]
        have hscan : skipScan st2 node.seq = inSkip st.skips seq := by
          rw [hns, skipScan_eq_inSkip st2 b1 seq hinv2.skipc hbs, h2skips]
        rw [hscan] at h
        refine ⟨st2, b1, max e1 seq, node, hinv2, hb1, hbs, le_max_right _ _, hf20, hmem, hns, ?_⟩
        cases hsk : inSkip st.skips seq with
        | true =>
          rw [hsk] at h
          simp only [if_true] at h
          cases h
          exact Or.inl ⟨rfl, rfl⟩
        | false =>
          rw [hsk] at h
          simp only [Bool.false_eq_true, if_false] at h
          cases isLost with
          | true =>
            simp only [if_true] at h
            by_cases hseen : node.seen = 0
            · simp only [hseen, ne_eq, not_true_eq_false, if_false] at h
              cases h
              exact Or.inr (Or.inl ⟨rfl, rfl, hseen, rfl⟩)
            · simp only [ne_eq, hseen, not_false_eq_true, if_true] at h
              cases h
          | false =>
            simp only [Bool.false_eq_true, if_false] at h
            cases hl : node.lost with
            | true =>
              rw [hl] at h
              simp only [if_true] at h
              cases h
            | false =>
              rw [hl] at h
              simp only [Bool.false_eq_true, if_false] at h
              cases h
              exact Or.inr (Or.inr ⟨rfl, rfl, rfl, rfl⟩)
      · have hb := PacketGet_behind st1 b1 e1 seq hinv1.win (by rw [h1first]; exact hr1)
          (by omega)
        rw [hb] at h
        simp at h

theorem effRecv_append (skips : List OWPSkipRec) (done : List OWPDataRec) (r : OWPDataRec)
    (s : Nat) : effRecv skips (done ++ [r]) s = effRecv skips done s +
      (if r.seq_no = s ∧ OWPIsLostRecord r = false ∧ inSkip skips s = false then 1 else 0) := by
  unfold effRecv
  rw [recvCount_append]
  cases inSkip skips s <;> simp

theorem effLoss_append (skips : List OWPSkipRec) (done : List OWPDataRec) (r : OWPDataRec)
    (s : Nat) : effLoss skips (done ++ [r]) s = effLoss skips done s +
      (if r.seq_no = s ∧ OWPIsLostRecord r = true ∧ inSkip skips s = false then 1 else 0) := by
  unfold effLoss
  rw [lossCount_append]
  cases inSkip skips s <;> simp

theorem sum_Ico_update (f g : Nat → Nat) (a c s0 : Nat) (h1 : a ≤ s0) (h2 : s0 < c)
    (hne : ∀ s, s ≠ s0 → g s = f s) :
    Finset.sum (Finset.Ico a c) g + f s0 = Finset.sum (Finset.Ico a c) f + g s0 := by
  have hmem : s0 ∈ Finset.Ico a c := Finset.mem_Ico.mpr ⟨h1, h2⟩
  rw [← Finset.add_sum_erase (Finset.Ico a c) g hmem,
    ← Finset.add_sum_erase (Finset.Ico a c) f hmem]
  have : Finset.sum ((Finset.Ico a c).erase s0) g = Finset.sum ((Finset.Ico a c).erase s0) f := by
    apply Finset.sum_congr rfl
    intro s hs
    exact hne s (Finset.ne_of_mem_erase hs)
  rw [this]
  ring

theorem sum_Ico_same (f g : Nat → Nat) (a c : Nat)
    (h : ∀ s, a ≤ s → s < c → g s = f s) :
    Finset.sum (Finset.Ico a c) g = Finset.sum (Finset.Ico a c) f := by
  apply Finset.sum_congr rfl
  intro s hs
  rw [Finset.mem_Ico] at hs
  exact h s hs.1 hs.2

theorem Inv_append_same {st : OWPStatsRec} {done : List OWPDataRec} {b e : Nat}
    (hinv : Inv st done b e) (r : OWPDataRec)
    (hsame : ∀ s, st.first ≤ s → s < st.last →
      effRecv st.skips (done ++ [r]) s = effRecv st.skips done s ∧
      effLoss st.skips (done ++ [r]) s = effLoss st.skips done s)
    (hfut : st.first ≤ r.seq_no → r.seq_no < st.last → r.seq_no ≤ e) :
    Inv st (done ++ [r]) b e := by
  have hfl := hinv.win.first_le
  have hll := hinv.win.lt_last
  have hle := hinv.win.le
  refine ⟨hinv.win, hinv.skipc, ?_, ?_, ?_, ?_, ?_, ?_⟩
  · intro p hp
    obtain ⟨hb, he⟩ := Win_mem_seq hinv.win hp
    obtain ⟨k1, k2⟩ := hsame p.seq (by omega) (by omega)
    rw [k1, k2]
    exact hinv.nodes p hp
  · intro x hx h1 h2
    rw [List.mem_append] at hx
    rcases hx with hx | hx
    · exact hinv.future x hx h1 h2
    · simp only [List.mem_singleton] at hx
      subst hx
      exact hfut h1 h2
  · rw [hinv.sent_eq]
    unfold sentSum
    apply (sum_Ico_same _ _ _ _ _).symm
    intro s h1 h2
    obtain ⟨k1, k2⟩ := hsame s h1 h2
    simp only [k1, k2]
  · rw [hinv.lost_eq]
    unfold lostSum
    apply (sum_Ico_same _ _ _ _ _).symm
    intro s h1 h2
    obtain ⟨k1, k2⟩ := hsame s h1 (by omega)
    simp only [k2]
  · rw [hinv.dups_eq]
    unfold dupsSum
    apply (sum_Ico_same _ _ _ _ _).symm
    intro s h1 h2
    obtain ⟨k1, k2⟩ := hsame s h1 (by omega)
    simp only [k1]
  · rw [hinv.btot]
    unfold recvSum
    apply (sum_Ico_same _ _ _ _ _).symm
    intro s h1 h2
    obtain ⟨k1, k2⟩ := hsame s h1 h2
    simp only [k1]

theorem mem_nodeUpdate {seq : Nat} {f : OWPPacketRec → OWPPacketRec}
    {l : List OWPPacketRec} {q : OWPPacketRec} (h : q ∈ nodeUpdate seq f l) :
    ∃ p ∈ l, (p.seq = seq ∧ q = f p) ∨ (p.seq ≠ seq ∧ q = p) := by
  unfold nodeUpdate at h
  rw [List.mem_map] at h
  obtain ⟨p, hp, hq⟩ := h
  refine ⟨p, hp, ?_⟩
  by_cases hs : p.seq = seq
  · simp only [hs, if_true] at hq
    exact Or.inl ⟨hs, hq.symm⟩
  · simp only [hs, if_false] at hq
    exact Or.inr ⟨hs, hq.symm⟩

theorem nodeUpdate_seqs (seq : Nat) (f : OWPPacketRec → OWPPacketRec)
    (hf : ∀ p, (f p).seq = p.seq) (l : List OWPPacketRec) :
    (nodeUpdate seq f l).map (fun p => p.seq) = l.map (fun p => p.seq) := by
  unfold nodeUpdate
  rw [List.map_map]
  apply List.map_congr_left
  intro p _
  simp only [Function.comp]
  split_ifs
  · exact hf p
  · rfl

theorem frameP_fields {a b : OWPStatsRec} (h : frameP a = frameP b) :
    a.pnodes = b.pnodes ∧ a.pend = b.pend ∧ a.isctx = b.isctx ∧ a.first = b.first ∧
    a.last = b.last ∧ a.iskip = b.iskip ∧ a.skips = b.skips ∧ a.sent = b.sent ∧
    a.lost = b.lost ∧ a.dups = b.dups := by
  refine ⟨?_, ?_, ?_, ?_, ?_, ?_, ?_, ?_, ?_, ?_⟩
  · have := congrArg OWPStatsRec.pnodes h; exact this
  · have := congrArg OWPStatsRec.pend h; exact this
  · have := congrArg OWPStatsRec.isctx h; exact this
  · have := congrArg OWPStatsRec.first h; exact this
  · have := congrArg OWPStatsRec.last h; exact this
  · have := congrArg OWPStatsRec.iskip h; exact this
  · have := congrArg OWPStatsRec.skips h; exact this
  · have := congrArg OWPStatsRec.sent h; exact this
  · have := congrArg OWPStatsRec.lost h; exact this
  · have := congrArg OWPStatsRec.dups h; exact this

theorem Inv_recv_update {st2 st' : OWPStatsRec} {done : List OWPDataRec} {b1 e1 : Nat}
    (hinv2 : Inv st2 done b1 e1) (r : OWPDataRec) (node : OWPPacketRec)
    (hmem : node ∈ st2.pnodes) (hns : node.seq = r.seq_no)
    (hrl : OWPIsLostRecord r = false) (hsk : inSkip st2.skips r.seq_no = false)
    (hnl : node.lost = false) (hb : b1 ≤ r.seq_no) (he : r.seq_no ≤ e1)
    (f1 : st'.pnodes = nodeUpdate r.seq_no (fun p => { p with seen := p.seen + 1 }) st2.pnodes)
    (f2 : st'.sent = if node.seen = 0 then st2.sent + 1 else st2.sent)
    (f3 : btotal st' = btotal st2 + (if node.seen = 0 then 1 else 0))
    (f4 : st'.pend = st2.pend) (f5 : st'.isctx = st2.isctx) (f6 : st'.first = st2.first)
    (f7 : st'.last = st2.last) (f8 : st'.iskip = st2.iskip) (f9 : st'.skips = st2.skips)
    (f10 : st'.lost = st2.lost) (f11 : st'.dups = st2.dups) :
    Inv st' (done ++ [r]) b1 e1 := by
  have hfl := hinv2.win.first_le
  have hll := hinv2.win.lt_last
  have hle := hinv2.win.le
  obtain ⟨nseen, nlost, _⟩ := hinv2.nodes node hmem
  rw [hns] at nseen nlost
  have hR : ∀ s, effRecv st2.skips (done ++ [r]) s =
      effRecv st2.skips done s + (if r.seq_no = s then 1 else 0) := by
    intro s
    rw [effRecv_append]
    by_cases hs : r.seq_no = s
    · subst hs; simp [hrl, hsk]
    · simp [hs]
  have hL : ∀ s, effLoss st2.skips (done ++ [r]) s = effLoss st2.skips done s := by
    intro s
    rw [effLoss_append]
    simp [hrl]
  refine ⟨⟨?_, hle, ?_, ?_, ?_, ?_⟩, ?_, ?_, ?_, ?_, ?_, ?_, ?_⟩
  · rw [f1]
    exact Eq.trans (nodeUpdate_seqs r.seq_no (fun p => { p with seen := p.seen + 1 })
      (fun p => rfl) st2.pnodes) hinv2.win.seqs
  · rw [f4]; exact hinv2.win.pend
  · rw [f5]; exact hinv2.win.isctx
  · rw [f6]; exact hfl
  · rw [f7]; exact hll
  · rw [f8, f9]; exact hinv2.skipc
  · rw [f9, f1]
    intro q hq
    obtain ⟨p, hp, hcase⟩ := mem_nodeUpdate hq
    obtain ⟨ps, pl, pe⟩ := hinv2.nodes p hp
    rcases hcase with ⟨hseq, hq⟩ | ⟨hseq, hq⟩
    · subst hq
      have hpl : p.lost = false := by rw [pl, hseq, ← nlost, hnl]
      refine ⟨?_, ?_, ?_⟩
      · show p.seen + 1 = effRecv st2.skips (done ++ [r]) p.seq
        rw [hR, ps, hseq]; simp
      · show p.lost = decide (0 < effLoss st2.skips (done ++ [r]) p.seq)
        rw [hL]; exact pl
      · intro hc
        have hc' : p.lost = true := hc
        rw [hpl] at hc'
        cases hc'
    · subst hq
      refine ⟨?_, ?_, pe⟩
      · rw [hR, ps]; simp [Ne.symm hseq]
      · rw [hL]; exact pl
  · rw [f6, f7]
    intro x hx h1 h2
    rw [List.mem_append] at hx
    rcases hx with hx | hx
    · exact hinv2.future x hx h1 h2
    · simp only [List.mem_singleton] at hx
      subst hx
      exact he
  · rw [f2, f9, f6, f7, hinv2.sent_eq]
    unfold sentSum
    have key := sum_Ico_update
      (fun s => min 1 (effRecv st2.skips done s) + effLoss st2.skips done s)
      (fun s => min 1 (effRecv st2.skips (done ++ [r]) s) + effLoss st2.skips (done ++ [r]) s)
      st2.first st2.last r.seq_no (by omega) (by omega)
      (by intro s hs; simp only [hR, hL]; simp [Ne.symm hs])
    simp only [hR, hL, if_true] at key ⊢
    rw [← nseen] at key
    by_cases h0 : node.seen = 0
    · simp only [h0, if_true] at key ⊢
      simp at key
      omega
    · simp only [h0, if_false] at key ⊢
      have e1 : min 1 node.seen = 1 := by omega
      have e2 : min 1 (node.seen + 1) = 1 := by omega
      rw [e1, e2] at key
      omega
  · rw [f10, f9, f6, hinv2.lost_eq]
    unfold lostSum
    apply (sum_Ico_same _ _ _ _ _).symm
    intro s _ _
    simp only [hL]
  · rw [f11, f9, f6, hinv2.dups_eq]
    unfold dupsSum
    apply (sum_Ico_same _ _ _ _ _).symm
    intro s _ h2
    have : r.seq_no ≠ s := by omega
    simp only [hR, this, if_false, Nat.add_zero]
  · show btotal st' = _
    rw [f3, f9, f6, f7]
    have hb2 : btotal st2 = recvSum st2.skips done st2.first st2.last := hinv2.btot
    rw [hb2]
    unfold recvSum
    have key := sum_Ico_update
      (fun s => min 1 (effRecv st2.skips done s))
      (fun s => min 1 (effRecv st2.skips (done ++ [r]) s))
      st2.first st2.last r.seq_no (by omega) (by omega)
      (by intro s hs; simp only [hR]; simp [Ne.symm hs])
    simp only [hR, if_true] at key ⊢
    rw [← nseen] at key
    by_cases h0 : node.seen = 0
    · simp only [h0, if_true] at key ⊢
      simp at key
      omega
    · simp only [h0, if_false] at key ⊢
      have e1 : min 1 node.seen = 1 := by omega
      have e2 : min 1 (node.seen + 1) = 1 := by omega
      rw [e1, e2] at key
      omega

theorem Inv_lost_update {st2 st' : OWPStatsRec} {done : List OWPDataRec} {b1 e1 : Nat}
    (hinv2 : Inv st2 done b1 e1) (r : OWPDataRec) (node : OWPPacketRec)
    (hmem : node ∈ st2.pnodes) (hns : node.seq = r.seq_no)
    (hrl : OWPIsLostRecord r = true) (hsk : inSkip st2.skips r.seq_no = false)
    (hseen : node.seen = 0) (hb : b1 ≤ r.seq_no) (he : r.seq_no ≤ e1)
    (f1 : st'.pnodes = nodeUpdate r.seq_no (fun p => { p with lost := true }) st2.pnodes)
    (f2 : st'.sent = st2.sent + 1)
    (f3 : st'.btable = st2.btable)
    (f4 : st'.pend = st2.pend) (f5 : st'.isctx = st2.isctx) (f6 : st'.first = st2.first)
    (f7 : st'.last = st2.last) (f8 : st'.iskip = st2.iskip) (f9 : st'.skips = st2.skips)
    (f10 : st'.lost = st2.lost) (f11 : st'.dups = st2.dups) :
    Inv st' (done ++ [r]) b1 e1 := by
  have hfl := hinv2.win.first_le
  have hll := hinv2.win.lt_last
  have hle := hinv2.win.le
  obtain ⟨nseen, nlost, _⟩ := hinv2.nodes node hmem
  rw [hns] at nseen nlost
  have hL : ∀ s, effLoss st2.skips (done ++ [r]) s =
      effLoss st2.skips done s + (if r.seq_no = s then 1 else 0) := by
    intro s
    rw [effLoss_append]
    by_cases hs : r.seq_no = s
    · subst hs; simp [hrl, hsk]
    · simp [hs]
  have hR : ∀ s, effRecv st2.skips (done ++ [r]) s = effRecv st2.skips done s := by
    intro s
    rw [effRecv_append]
    simp [hrl]
  refine ⟨⟨?_, hle, ?_, ?_, ?_, ?_⟩, ?_, ?_, ?_, ?_, ?_, ?_, ?_⟩
  · rw [f1]
    exact Eq.trans (nodeUpdate_seqs r.seq_no (fun p => { p with lost := true })
      (fun p => rfl) st2.pnodes) hinv2.win.seqs
  · rw [f4]; exact hinv2.win.pend
  · rw [f5]; exact hinv2.win.isctx
  · rw [f6]; exact hfl
  · rw [f7]; exact hll
  · rw [f8, f9]; exact hinv2.skipc
  · rw [f9, f1]
    intro q hq
    obtain ⟨p, hp, hcase⟩ := mem_nodeUpdate hq
    obtain ⟨ps, pl, pe⟩ := hinv2.nodes p hp
    rcases hcase with ⟨hseq, hq⟩ | ⟨hseq, hq⟩
    · subst hq
      have hps : p.seen = 0 := by rw [ps, hseq, ← nseen, hseen]
      refine ⟨?_, ?_, fun _ => hps⟩
      · show p.seen = effRecv st2.skips (done ++ [r]) p.seq
        rw [hR]; exact ps
      · show true = decide (0 < effLoss st2.skips (done ++ [r]) p.seq)
        rw [hL, hseq]; simp
    · subst hq
      refine ⟨?_, ?_, pe⟩
      · rw [hR]; exact ps
      · rw [hL, pl]; simp [Ne.symm hseq]
  · rw [f6, f7]
    intro x hx h1 h2
    rw [List.mem_append] at hx
    rcases hx with hx | hx
    · exact hinv2.future x hx h1 h2
    · simp only [List.mem_singleton] at hx
      subst hx
      exact he
  · rw [f2, f9, f6, f7, hinv2.sent_eq]
    unfold sentSum
    have key := sum_Ico_update
      (fun s => min 1 (effRecv st2.skips done s) + effLoss st2.skips done s)
      (fun s => min 1 (effRecv st2.skips (done ++ [r]) s) + effLoss st2.skips (done ++ [r]) s)
      st2.first st2.last r.seq_no (by omega) (by omega)
      (by intro s hs; simp only [hR, hL]; simp [Ne.symm hs])
    simp only [hR, hL, if_true] at key ⊢
    omega
  · rw [f10, f9, f6, hinv2.lost_eq]
    unfold lostSum
    apply (sum_Ico_same _ _ _ _ _).symm
    intro s _ h2
    have : r.seq_no ≠ s := by omega
    simp only [hL, this, if_false, Nat.add_zero]
  · rw [f11, f9, f6, hinv2.dups_eq]
    unfold dupsSum
    apply (sum_Ico_same _ _ _ _ _).symm
    intro s _ _
    simp only [hR]
  · rw [f3, f9, f6, f7, hinv2.btot]
    unfold recvSum
    apply (sum_Ico_same _ _ _ _ _).symm
    intro s _ _
    simp only [hR]

theorem iterCore_inv {st : OWPStatsRec} {done : List OWPDataRec} {b e : Nat}
    (hinv : Inv st done b e) (r : OWPDataRec) (thresh : OWPStatsRec → Nat)
    (postLost : OWPStatsRec → OWPStatsRec) (post : Nat → OWPStatsRec → OWPStatsRec)
    (hpl : PostLostOK postLost) (hpo : PostOK post) (st' : OWPStatsRec)
    (h : iterCore r.seq_no (OWPIsLostRecord r) thresh postLost post st = Ret.ok st') :
    ∃ b1 e1, Inv st' (done ++ [r]) b1 e1 ∧ st'.first = st.first ∧ st'.last = st.last ∧
      st'.skips = st.skips := by
  obtain ⟨m1, m2, m3, m4, m5, m6, m7, m8, m9, m10, m11⟩ := markOffset_fields st r.seq_no
  rcases iterCore_shape hinv r.seq_no (OWPIsLostRecord r) thresh postLost post st' h with
    ⟨hout, hst⟩ | ⟨hr1, hr2, st2, b1, e1, node, hinv2, hb1, hbs, hse, hf2, hmem, hns, hcase⟩
  · subst hst
    refine ⟨b, e, ?_, m4, m5, m7⟩
    apply Inv_append_same (Inv_markOffset hinv r.seq_no)
    · intro s h1 h2
      rw [m4] at h1
      rw [m5] at h2
      have : r.seq_no ≠ s := by omega
      rw [effRecv_append, effLoss_append]
      simp [this]
    · intro h1 h2
      rw [m4] at h1
      rw [m5] at h2
      omega
  · have h2first : st2.first = st.first := by rw [frameF_first hf2, m4]
    have h2last : st2.last = st.last := by rw [frameF_last hf2, m5]
    have h2skips : st2.skips = st.skips := by rw [frameF_skips hf2, m7]
    rcases hcase with ⟨hsk, hst⟩ | ⟨hsk, hrl, hseen, hst⟩ | ⟨hsk, hrl, hnl, hst⟩
    · subst hst
      refine ⟨b1, e1, ?_, h2first, h2last, h2skips⟩
      apply Inv_append_same hinv2
      · intro s _ _
        rw [effRecv_append, effLoss_append, h2skips]
        by_cases hs : r.seq_no = s
        · subst hs; simp [hsk]
        · simp [hs]
      · intro _ _; exact hse
    · obtain ⟨p1, p2⟩ := hpl (lostUpdate st2 node)
      obtain ⟨q1, q2, q3, q4, q5, q6, q7, q8, q9, q10⟩ := frameP_fields p1
      rw [← hst] at q1 q2 q3 q4 q5 q6 q7 q8 q9 q10 p2
      refine ⟨b1, e1, ?_, by rw [q4]; exact h2first, by rw [q5]; exact h2last,
        by rw [q7]; exact h2skips⟩
      rw [← h2skips] at hsk
      exact Inv_lost_update hinv2 r node hmem hns hrl hsk hseen hbs hse
        (by rw [q1]; show nodeUpdate node.seq _ _ = _; rw [hns])
        q8 p2 q2 q3 q4 q5 q6 q7 q9 q10
    · obtain ⟨p1, p2⟩ := hpo node.seen (jreorder (seenUpdate st2 node) r.seq_no)
      obtain ⟨q1, q2, q3, q4, q5, q6, q7, q8, q9, q10⟩ := frameP_fields p1
      rw [← hst] at q1 q2 q3 q4 q5 q6 q7 q8 q9 q10 p2
      refine ⟨b1, e1, ?_, by rw [q4]; exact h2first, by rw [q5]; exact h2last,
        by rw [q7]; exact h2skips⟩
      rw [← h2skips] at hsk
      exact Inv_recv_update hinv2 r node hmem hns hrl hsk hnl hbs hse
        (by rw [q1]; show nodeUpdate node.seq _ _ = _; rw [hns])
        q8 p2 q2 q3 q4 q5 q6 q7 q9 q10

theorem bucketBump_sum (b : Int) (l : List OWPBucketRec) :
    ((bucketBump b l).map (fun x => x.n)).sum = (l.map (fun x => x.n)).sum + 1 := by
  induction l with
  | nil => simp [bucketBump]
  | cons x rest ih =>
    unfold bucketBump
    split_ifs
    · simp only [List.map_cons, List.sum_cons]; omega
    · simp only [List.map_cons, List.sum_cons, ih]; omega

theorem PostLostOK_OW (rec : OWPDataRec) : PostLostOK (postLostOW rec) :=
  fun _ => ⟨rfl, rfl⟩

theorem PostLostOK_TW (rec : OWPTWDataRec) : PostLostOK (postLostTW rec) :=
  fun _ => ⟨rfl, rfl⟩

theorem PostOK_OW (rec : OWPDataRec) : PostOK (postOW rec) := by
  intro seen st
  unfold postOW
  simp only []
  by_cases h : seen + 1 > 1
  · simp only [h, if_true]
    have : seen ≠ 0 := by omega
    simp only [this, if_false]
    exact ⟨rfl, rfl⟩
  · simp only [h, if_false]
    have : seen = 0 := by omega
    simp only [this, if_true]
    refine ⟨rfl, ?_⟩
    unfold btotal BucketIncrementDelay
    exact bucketBump_sum _ _

theorem PostOK_TW (rec : OWPTWDataRec) : PostOK (postTW rec) := by
  intro seen st
  unfold postTW
  simp only []
  by_cases h : seen + 1 > 1
  · simp only [h, if_true]
    have : seen ≠ 0 := by omega
    simp only [this, if_false]
    exact ⟨rfl, rfl⟩
  · simp only [h, if_false]
    have : seen = 0 := by omega
    simp only [this, if_true]
    refine ⟨rfl, ?_⟩
    unfold btotal BucketIncrementDelay
    exact bucketBump_sum _ _

theorem OWPParseRecords_inv {α : Type} (proc : α → OWPStatsRec → Ret) (view : α → OWPDataRec)
    (hproc : ∀ a st, ∃ thresh postLost post, PostLostOK postLost ∧ PostOK post ∧
      proc a st = iterCore (view a).seq_no (OWPIsLostRecord (view a)) thresh postLost post st)
    (recs : List α) : ∀ (st : OWPStatsRec) (done : List OWPDataRec) (b e : Nat),
      Inv st done b e → ∀ st', OWPParseRecords proc recs st = Ret.ok st' →
      ∃ b1 e1, Inv st' (done ++ recs.map view) b1 e1 ∧ st'.first = st.first ∧
        st'.last = st.last ∧ st'.skips = st.skips := by
  induction recs with
  | nil =>
    intro st done b e hinv st' h
    simp only [OWPParseRecords] at h
    cases h
    exact ⟨b, e, by simpa using hinv, rfl, rfl, rfl⟩
  | cons a rest ih =>
    intro st done b e hinv st' h
    unfold OWPParseRecords at h
    obtain ⟨thresh, postLost, post, hpl, hpo, heq⟩ := hproc a st
    cases hp : proc a st with
    | crash => rw [hp] at h; simp at h
    | fatal s => rw [hp] at h; simp at h
    | ok st1 =>
      rw [hp] at h
      simp only [] at h
      rw [heq] at hp
      obtain ⟨b1, e1, hinv1, k1, k2, k3⟩ :=
        iterCore_inv hinv (view a) thresh postLost post hpl hpo st1 hp
      obtain ⟨b2, e2, hinv2, j1, j2, j3⟩ := ih st1 _ b1 e1 hinv1 st' h
      refine ⟨b2, e2, ?_, by rw [j1, k1], by rw [j2, k2], by rw [j3, k3]⟩
      simpa using hinv2

theorem drainLoop_inv (done : List OWPDataRec) (fuel : Nat) :
    ∀ (st : OWPStatsRec) (b e : Nat), Inv st done b e →
      ∀ st', drainLoop fuel st = some st' →
        frameF st' = frameF st ∧ st'.pnodes = [] ∧
        st'.lost = lostSum st.skips done st.first st.last ∧
        st'.dups = dupsSum st.skips done st.first st.last := by
  induction fuel with
  | zero => intro st b e _ st' h; simp [drainLoop] at h
  | succ fuel ih =>
    intro st b e hinv st' h
    obtain ⟨node, tl, hpn, _, _, _⟩ := Win_head hinv.win
    unfold drainLoop at h
    rw [hpn] at h
    simp only [] at h
    obtain ⟨st2, r, hf, hfr, hcase⟩ := PacketBeginFlush_inv hinv
    rw [hf] at h
    rcases hcase with ⟨hr, hinv2⟩ | ⟨hr, _, hp, hl, hd⟩
    · subst hr
      simp only [] at h
      obtain ⟨i1, i2, i3, i4⟩ := ih st2 _ _ hinv2 st' h
      rw [frameF_skips hfr, frameF_first hfr, frameF_last hfr] at i3 i4
      exact ⟨Eq.trans i1 hfr, i2, i3, i4⟩
    · subst hr
      simp only [Option.some.injEq] at h
      subst h
      exact ⟨hfr, hp, hl, hd⟩

theorem schedAdvance_spec (k : Nat) : ∀ (st : OWPStatsRec),
    (schedAdvance k st).isctx = st.isctx + k ∧ frameG (schedAdvance k st) = frameG st ∧
    (schedAdvance k st).pnodes = st.pnodes ∧ (schedAdvance k st).pend = st.pend := by
  induction k with
  | zero => intro st; exact ⟨rfl, rfl, rfl, rfl⟩
  | succ k ih =>
    intro st
    unfold schedAdvance
    simp only []
    obtain ⟨h1, h2, h3, h4⟩ := ih
      { st with endnum := OWPNum64Add st.endnum (OWPScheduleContextGenerateNextDelta st.sctx).1,
                sctx := (OWPScheduleContextGenerateNextDelta st.sctx).2,
                isctx := st.isctx + 1 }
    refine ⟨?_, ?_, ?_, ?_⟩
    · rw [h1]; show st.isctx + 1 + k = _; omega
    · rw [h2]; rfl
    · rw [h3]
    · rw [h4]

theorem PacketAlloc_some {st st5 : OWPStatsRec} {seq : Nat} {node : OWPPacketRec}
    (h : PacketAlloc st seq = some (st5, node)) :
    node = OWPPacketRec.mk seq 0 0 false ∧
    st5 = { st with pnodes := st.pnodes ++ [OWPPacketRec.mk seq 0 0 false] } := by
  unfold PacketAlloc at h
  simp only [] at h
  split_ifs at h
  simp only [Option.some.injEq, Prod.mk.injEq] at h
  exact ⟨h.2.symm, h.1.symm⟩

theorem frameG_more {a b : OWPStatsRec} (h : frameG a = frameG b) :
    a.hdr = b.hdr ∧ a.rlistlen = b.rlistlen ∧ a.bucketwidth = b.bucketwidth ∧
    a.rindex = b.rindex ∧ a.rnumseqno = b.rnumseqno ∧ a.iskip = b.iskip ∧
    a.lost = b.lost ∧ a.dups = b.dups ∧ a.rn = b.rn ∧ a.rseqno = b.rseqno ∧
    a.min_delay = b.min_delay ∧ a.max_delay = b.max_delay ∧ a.inf_delay = b.inf_delay := by
  refine ⟨?_, ?_, ?_, ?_, ?_, ?_, ?_, ?_, ?_, ?_, ?_, ?_, ?_⟩
  · have := congrArg OWPStatsRec.hdr h; exact this
  · have := congrArg OWPStatsRec.rlistlen h; exact this
  · have := congrArg OWPStatsRec.bucketwidth h; exact this
  · have := congrArg OWPStatsRec.rindex h; exact this
  · have := congrArg OWPStatsRec.rnumseqno h; exact this
  · have := congrArg OWPStatsRec.iskip h; exact this
  · have := congrArg OWPStatsRec.lost h; exact this
  · have := congrArg OWPStatsRec.dups h; exact this
  · have := congrArg OWPStatsRec.rn h; exact this
  · have := congrArg OWPStatsRec.rseqno h; exact this
  · have := congrArg OWPStatsRec.min_delay h; exact this
  · have := congrArg OWPStatsRec.max_delay h; exact this
  · have := congrArg OWPStatsRec.inf_delay h; exact this

theorem parsePosition_spec (st0 : OWPStatsRec) (bo first last : Nat) :
    (parsePosition (parseSchedReset (parseArgs st0 bo first last) first) first).pnodes = [] ∧
    (parsePosition (parseSchedReset (parseArgs st0 bo first last) first) first).isctx
      = first + 1 ∧
    (parsePosition (parseSchedReset (parseArgs st0 bo first last) first) first).first
      = first ∧
    (parsePosition (parseSchedReset (parseArgs st0 bo first last) first) first).last
      = last ∧
    (parsePosition (parseSchedReset (parseArgs st0 bo first last) first) first).skips
      = st0.skips ∧
    (parsePosition (parseSchedReset (parseArgs st0 bo first last) first) first).iskip = 0 ∧
    (parsePosition (parseSchedReset (parseArgs st0 bo first last) first) first).sent = 0 ∧
    (parsePosition (parseSchedReset (parseArgs st0 bo first last) first) first).hdr
      = st0.hdr ∧
    (parsePosition (parseSchedReset (parseArgs st0 bo first last) first) first).rlistlen
      = st0.rlistlen ∧
    (parsePosition (parseSchedReset (parseArgs st0 bo first last) first) first).bucketwidth
      = st0.bucketwidth ∧
    (parsePosition (parseSchedReset (parseArgs st0 bo first last) first) first).rindex
      = st0.rindex ∧
    (parsePosition (parseSchedReset (parseArgs st0 bo first last) first) first).rnumseqno
      = st0.rnumseqno := by
  obtain ⟨s1, s2, s3, s4⟩ := schedAdvance_spec
    (first + 1 - (parseSchedReset (parseArgs st0 bo first last) first).isctx)
    (parseSchedReset (parseArgs st0 bo first last) first)
  have hr : frameG (parseSchedReset (parseArgs st0 bo first last) first) =
      frameG (parseArgs st0 bo first last) := by
    unfold parseSchedReset
    split_ifs <;> rfl
  have hi : (parseSchedReset (parseArgs st0 bo first last) first).isctx ≤ first := by
    unfold parseSchedReset
    split_ifs with hc
    · exact Nat.zero_le _
    · omega
  have h2 := Eq.trans s2 hr
  obtain ⟨g1, g2, g3, g4, g5, g6, g7, g8, g9, g10, g11, g12, g13⟩ := frameG_more h2
  refine ⟨rfl, ?_, ?_, ?_, ?_, ?_, ?_, ?_, ?_, ?_, ?_, ?_⟩
  · show (schedAdvance _ _).isctx = first + 1
    rw [s1]; omega
  · have := frameG_first h2; exact this
  · have := frameG_last h2; exact this
  · have := frameG_skips h2; exact this
  · exact g6
  · have := frameG_sent h2; exact this
  · exact g1
  · exact g2
  · exact g3
  · exact g4
  · exact g5

theorem parseInit_spec (st0 : OWPStatsRec) (bo first last : Nat) (st8 : OWPStatsRec)
    (h : parseInit st0 bo first last = some st8) :
    (∃ T, st8.pnodes = [OWPPacketRec.mk first T 0 false]) ∧ st8.pend = some first ∧
    st8.isctx = first + 1 ∧ st8.first = first ∧ st8.last = last ∧
    st8.skips = st0.skips ∧ st8.iskip = 0 ∧ st8.sent = 0 ∧ st8.lost = 0 ∧ st8.dups = 0 ∧
    st8.btable = [] ∧ st8.hdr = st0.hdr ∧ st8.rn = List.replicate st0.rlistlen 0 ∧
    st8.rseqno = List.replicate st0.rlistlen 0 ∧ st8.min_delay = infDelay st0.hdr ∧
    st8.max_delay = - infDelay st0.hdr ∧ st8.inf_delay = infDelay st0.hdr ∧
    st8.bucketwidth = st0.bucketwidth ∧ st8.rlistlen = st0.rlistlen ∧
    st8.rindex = st0.rindex ∧ st8.rnumseqno = st0.rnumseqno := by
  obtain ⟨p1, p2, p3, p4, p5, p6, p7, p8, p9, p10, p11, p12⟩ :=
    parsePosition_spec st0 bo first last
  unfold parseInit at h
  simp only [] at h
  cases hpa : PacketAlloc
      (parsePosition (parseSchedReset (parseArgs st0 bo first last) first) first) first with
  | none => rw [hpa] at h; cases h
  | some pr =>
    obtain ⟨st5, node⟩ := pr
    rw [hpa] at h
    simp only [Option.some.injEq] at h
    obtain ⟨hn, hst5⟩ := PacketAlloc_some hpa
    subst h
    subst hn
    subst hst5
    refine ⟨⟨(parsePosition (parseSchedReset (parseArgs st0 bo first last) first) first).endnum,
      ?_⟩, rfl, p2, p3, p4, p5, p6, p7, rfl, rfl, rfl, p8, ?_, ?_, ?_, ?_, ?_, p10, p9, p11, p12⟩
    · show nodeUpdate first _ (_ ++ _) = _
      rw [p1]
      simp [nodeUpdate]
    · exact congrArg (fun n => List.replicate n 0) p9
    · exact congrArg (fun n => List.replicate n 0) p9
    · exact congrArg infDelay p8
    · exact congrArg (fun h => - infDelay h) p8
    · exact congrArg infDelay p8

theorem eff_nil (skips : List OWPSkipRec) (s : Nat) :
    effRecv skips [] s = 0 ∧ effLoss skips [] s = 0 := by
  unfold effRecv effLoss recvCount lossCount
  constructor <;> split_ifs <;> rfl

theorem sums_nil (skips : List OWPSkipRec) (a c : Nat) :
    sentSum skips [] a c = 0 ∧ lostSum skips [] a c = 0 ∧ dupsSum skips [] a c = 0 ∧
    recvSum skips [] a c = 0 := by
  unfold sentSum lostSum dupsSum recvSum
  refine ⟨?_, ?_, ?_, ?_⟩ <;>
  · apply Finset.sum_eq_zero
    intro s _
    simp [(eff_nil skips s).1, (eff_nil skips s).2]

theorem parseInit_inv (st0 : OWPStatsRec) (bo first last : Nat) (st8 : OWPStatsRec)
    (h : parseInit st0 bo first last = some st8) (hlt : first < last) :
    Inv st8 [] first first := by
  obtain ⟨⟨T, h1⟩, h2, h3, h4, h5, h6, h7, h8, h9, h10, h11, _⟩ :=
    parseInit_spec st0 bo first last st8 h
  obtain ⟨z1, z2, z3, z4⟩ := sums_nil st8.skips st8.first st8.last
  obtain ⟨y1, y2, y3, y4⟩ := sums_nil st8.skips st8.first first
  refine ⟨⟨?_, le_refl _, h2, h3, by rw [h4], by rw [h5]; exact hlt⟩, ?_, ?_, ?_, ?_, ?_, ?_, ?_⟩
  · rw [h1]; simp [List.range']
  · intro j r hj; rw [h7] at hj; omega
  · intro p hp
    rw [h1] at hp
    simp only [List.mem_singleton] at hp
    subst hp
    simp [(eff_nil st8.skips first).1, (eff_nil st8.skips first).2]
  · intro r hr; simp at hr
  · rw [h8, z1]
  · rw [h9, y2]
  · rw [h10, y3]
  · rw [h11, z4]; rfl

theorem frameM_markOffset (st : OWPStatsRec) (seq : Nat) :
    frameM (markOffset st seq) = frameM st := by
  unfold markOffset
  simp only []
  split_ifs <;> rfl

theorem iterCore_empty_range (seq : Nat) (isLost : Bool) (thresh : OWPStatsRec → Nat)
    (postLost : OWPStatsRec → OWPStatsRec) (post : Nat → OWPStatsRec → OWPStatsRec)
    (st : OWPStatsRec) (h : st.last ≤ st.first) :
    iterCore seq isLost thresh postLost post st = Ret.ok (markOffset st seq) := by
  obtain ⟨m1, m2, m3, m4, m5, m6, m7, m8, m9, m10, m11⟩ := markOffset_fields st seq
  unfold iterCore
  simp only []
  rw [m4, m5]
  have : seq < st.first ∨ seq ≥ st.last := by omega
  simp only [this, if_true]

theorem OWPParseRecords_empty_range {α : Type} (proc : α → OWPStatsRec → Ret)
    (view : α → OWPDataRec)
    (hproc : ∀ a st, ∃ thresh postLost post, PostLostOK postLost ∧ PostOK post ∧
      proc a st = iterCore (view a).seq_no (OWPIsLostRecord (view a)) thresh postLost post st)
    (recs : List α) : ∀ (st : OWPStatsRec), st.last ≤ st.first →
      ∀ st', OWPParseRecords proc recs st = Ret.ok st' → frameM st' = frameM st := by
  induction recs with
  | nil =>
    intro st _ st' h
    simp only [OWPParseRecords] at h
    cases h
    rfl
  | cons a rest ih =>
    intro st hle st' h
    unfold OWPParseRecords at h
    obtain ⟨thresh, postLost, post, _, _, heq⟩ := hproc a st
    rw [heq, iterCore_empty_range _ _ _ _ _ st hle] at h
    simp only [] at h
    have hm := frameM_markOffset st (view a).seq_no
    have h1 : (markOffset st (view a).seq_no).first = st.first := by
      have := congrArg OWPStatsRec.first hm; exact this
    have h2 : (markOffset st (view a).seq_no).last = st.last := by
      have := congrArg OWPStatsRec.last hm; exact this
    exact Eq.trans (ih _ (by rw [h1, h2]; exact hle) st' h) hm

theorem hproc_OW : ∀ (a : OWPDataRec) (st : OWPStatsRec), ∃ thresh postLost post,
    PostLostOK postLost ∧ PostOK post ∧
    IterateSummarizeSession a st =
      iterCore a.seq_no (OWPIsLostRecord a) thresh postLost post st :=
  fun a st => ⟨_, _, _, PostLostOK_OW a, PostOK_OW a, IterateSummarizeSession_eq a st⟩

theorem hproc_TW : ∀ (a : OWPTWDataRec) (st : OWPStatsRec), ∃ thresh postLost post,
    PostLostOK postLost ∧ PostOK post ∧
    IterateSummarizeTWSession a st =
      iterCore a.sent.seq_no (OWPIsLostRecord a.sent) thresh postLost post st :=
  fun a st => ⟨_, _, _, PostLostOK_TW a, PostOK_TW a, IterateSummarizeTWSession_eq a st⟩

theorem parse_shape (st0 : OWPStatsRec) (file : OWPFile) (bo first last0 : Nat)
    (st : OWPStatsRec) (h : OWPStatsParse st0 file bo first last0 = Ret.ok st) :
    first ≤ parseLast st0 last0 ∧ parseLast st0 last0 ≤ st0.hdr.test_spec.npackets ∧
    ∃ st8 st9 st10, parseInit st0 bo first (parseLast st0 last0) = some st8 ∧
      parseIterate st8 file = Ret.ok st9 ∧ drainLoop (st9.last + 2) st9 = some st10 ∧
      st = { st10 with bsort := qsort BucketBufferSortCmp st10.btable } := by
  unfold OWPStatsParse at h
  simp only [] at h
  by_cases hv : first > parseLast st0 last0 ∨ parseLast st0 last0 > st0.hdr.test_spec.npackets
  · simp only [hv, if_true] at h
    cases h
  · simp only [hv, if_false] at h
    refine ⟨by omega, by omega, ?_⟩
    cases hi : parseInit st0 bo first (parseLast st0 last0) with
    | none => rw [hi] at h; cases h
    | some st8 =>
      rw [hi] at h
      simp only [] at h
      cases hit : parseIterate st8 file with
      | crash =>
        unfold parseIterate at hit
        rw [hit] at h
        cases h
      | fatal s =>
        unfold parseIterate at hit
        rw [hit] at h
        cases h
      | ok st9 =>
        have hit2 := hit
        unfold parseIterate at hit2
        rw [hit2] at h
        simp only [] at h
        cases hd : drainLoop (st9.last + 2) st9 with
        | none => rw [hd] at h; cases h
        | some st10 =>
          rw [hd] at h
          simp only [Ret.ok.injEq] at h
          exact ⟨st8, st9, st10, rfl, hit, hd, h.symm⟩

theorem parseIterate_inv (st8 : OWPStatsRec) (file : OWPFile) (b e : Nat)
    (hinv : Inv st8 [] b e) (st9 : OWPStatsRec) (h : parseIterate st8 file = Ret.ok st9) :
    ∃ b1 e1, Inv st9 (streamOf st8.hdr file) b1 e1 ∧ st9.first = st8.first ∧
      st9.last = st8.last ∧ st9.skips = st8.skips := by
  unfold parseIterate at h
  unfold streamOf
  cases htw : st8.hdr.twoway with
  | true =>
    rw [htw] at h
    simp only [if_true] at h
    have := OWPParseRecords_inv IterateSummarizeTWSession (fun r => r.sent) hproc_TW
      file.twdatarecs st8 [] b e hinv st9 h
    simpa using this
  | false =>
    rw [htw] at h
    simp only [Bool.false_eq_true, if_false] at h
    have := OWPParseRecords_inv IterateSummarizeSession (fun r => r) hproc_OW
      file.datarecs st8 [] b e hinv st9 h
    simpa using this

theorem parseIterate_empty_range (st8 : OWPStatsRec) (file : OWPFile)
    (hle : st8.last ≤ st8.first) (st9 : OWPStatsRec)
    (h : parseIterate st8 file = Ret.ok st9) : frameM st9 = frameM st8 := by
  unfold parseIterate at h
  cases htw : st8.hdr.twoway with
  | true =>
    rw [htw] at h
    simp only [if_true] at h
    exact OWPParseRecords_empty_range IterateSummarizeTWSession (fun r => r.sent) hproc_TW
      file.twdatarecs st8 hle st9 h
  | false =>
    rw [htw] at h
    simp only [Bool.false_eq_true, if_false] at h
    exact OWPParseRecords_empty_range IterateSummarizeSession (fun r => r) hproc_OW
      file.datarecs st8 hle st9 h

theorem drainLoop_single (st9 : OWPStatsRec) (node : OWPPacketRec) (fuel : Nat)
    (hp : st9.pnodes = [node]) (hs : node.seen = 0) (hl : node.lost = false)
    (hlast : ¬ node.seq + 1 < st9.last) (st10 : OWPStatsRec)
    (h : drainLoop (fuel + 1) st9 = some st10) :
    frameF st10 = frameF st9 ∧ st10.lost = st9.lost ∧ st10.dups = st9.dups := by
  unfold drainLoop at h
  rw [hp] at h
  simp only [] at h
  rw [PacketBeginFlush_single st9 node hp] at h
  simp only [hlast, if_false, Option.some.injEq] at h
  subst h
  obtain ⟨a1, _⟩ := flushAcct_frameG st9 node
  refine ⟨Eq.trans rfl a1, ?_, ?_⟩
  · show (flushAcct st9 node).lost = _
    rw [flushAcct_lost, hl]
    simp
  · show (flushAcct st9 node).dups = _
    rw [flushAcct_dups, hl, hs]
    simp

/-- Master statement on the tallies: after a successful parse, `sent`, `lost`,
`dups` and the number of samples in the histogram are the sums over the
sequence numbers of `[first,last)` that the record stream calls for. -/
theorem parse_counts (st0 : OWPStatsRec) (file : OWPFile) (bo first last0 : Nat)
    (st : OWPStatsRec) (h : OWPStatsParse st0 file bo first last0 = Ret.ok st) :
    st.sent = sentSum st0.skips (streamOf st0.hdr file) first (parseLast st0 last0) ∧
    st.lost = lostSum st0.skips (streamOf st0.hdr file) first (parseLast st0 last0) ∧
    st.dups = dupsSum st0.skips (streamOf st0.hdr file) first (parseLast st0 last0) ∧
    btotal st = recvSum st0.skips (streamOf st0.hdr file) first (parseLast st0 last0) := by
  obtain ⟨hfl, _, st8, st9, st10, hi, hit, hd, hst⟩ := parse_shape st0 file bo first last0 st h
  obtain ⟨⟨T, h1⟩, h2, h3, h4, h5, h6, h7, h8, h9, h10, h11, h12, _⟩ :=
    parseInit_spec st0 bo first (parseLast st0 last0) st8 hi
  subst hst
  rcases Nat.lt_or_ge first (parseLast st0 last0) with hlt | hge
  · have hinv8 := parseInit_inv st0 bo first (parseLast st0 last0) st8 hi hlt
    obtain ⟨b1, e1, hinv9, k1, k2, k3⟩ := parseIterate_inv st8 file first first hinv8 st9 hit
    obtain ⟨d1, d2, d3, d4⟩ := drainLoop_inv _ _ st9 b1 e1 hinv9 st10 hd
    rw [h12] at hinv9 d3 d4
    rw [k3, h6, k1, h4, k2, h5] at d3 d4
    have s9 := hinv9.sent_eq
    have b9 := hinv9.btot
    rw [k3, h6, k1, h4, k2, h5] at s9 b9
    refine ⟨?_, d3, d4, ?_⟩
    · show st10.sent = _
      rw [frameF_sent d1, s9]
    · show (st10.btable.map (fun x => x.n)).sum = _
      rw [frameF_btable d1, b9]
  · have hle : parseLast st0 last0 = first := by omega
    rw [hle] at h5 ⊢
    have hm := parseIterate_empty_range st8 file (by rw [h4, h5]) st9 hit
    have m1 : st9.pnodes = st8.pnodes := by have := congrArg OWPStatsRec.pnodes hm; exact this
    have m2 : st9.last = st8.last := by have := congrArg OWPStatsRec.last hm; exact this
    have m3 : st9.lost = st8.lost := by have := congrArg OWPStatsRec.lost hm; exact this
    have m4 : st9.dups = st8.dups := by have := congrArg OWPStatsRec.dups hm; exact this
    have m5 : st9.sent = st8.sent := by have := congrArg OWPStatsRec.sent hm; exact this
    have m6 : st9.btable = st8.btable := by have := congrArg OWPStatsRec.btable hm; exact this
    obtain ⟨d1, d2, d3⟩ := drainLoop_single st9 (OWPPacketRec.mk first T 0 false)
      (st9.last + 1) (by rw [m1, h1]) rfl rfl (by rw [m2, h5]; simp) st10 hd
    unfold sentSum lostSum dupsSum recvSum
    simp only [Finset.Ico_self, Finset.sum_empty]
    refine ⟨?_, ?_, ?_, ?_⟩
    · show st10.sent = 0
      rw [frameF_sent d1, m5, h8]
    · show st10.lost = 0
      rw [d2, m3, h9]
    · show st10.dups = 0
      rw [d3, m4, h10]
    · show (st10.btable.map (fun x => x.n)).sum = 0
      rw [frameF_btable d1, m6, h11]
      rfl

theorem OWPParseRecords_induct {α : Type} (proc : α → OWPStatsRec → Ret)
    (view : α → OWPDataRec)
    (hproc : ∀ a st, ∃ thresh postLost post, PostLostOK postLost ∧ PostOK post ∧
      proc a st = iterCore (view a).seq_no (OWPIsLostRecord (view a)) thresh postLost post st)
    (P : OWPStatsRec → List OWPDataRec → Prop)
    (hstep : ∀ st done b e a st', Inv st done b e → P st done → proc a st = Ret.ok st' →
      P st' (done ++ [view a]))
    (recs : List α) : ∀ (st : OWPStatsRec) (done : List OWPDataRec) (b e : Nat),
      Inv st done b e → P st done → ∀ st', OWPParseRecords proc recs st = Ret.ok st' →
      P st' (done ++ recs.map view) := by
  induction recs with
  | nil =>
    intro st done b e _ hp st' h
    simp only [OWPParseRecords] at h
    cases h
    simpa using hp
  | cons a rest ih =>
    intro st done b e hinv hp st' h
    unfold OWPParseRecords at h
    obtain ⟨thresh, postLost, post, hpl, hpo, heq⟩ := hproc a st
    cases hpr : proc a st with
    | crash => rw [hpr] at h; simp at h
    | fatal s => rw [hpr] at h; simp at h
    | ok st1 =>
      rw [hpr] at h
      simp only [] at h
      have hp1 := hstep st done b e a st1 hinv hp hpr
      rw [heq] at hpr
      obtain ⟨b1, e1, hinv1, _, _, _⟩ :=
        iterCore_inv hinv (view a) thresh postLost post hpl hpo st1 hpr
      have := ih st1 _ b1 e1 hinv1 hp1 st' h
      simpa using this

theorem frameF_delay {a b : OWPStatsRec} (h : frameF a = frameF b) :
    a.min_delay = b.min_delay ∧ a.max_delay = b.max_delay ∧ a.inf_delay = b.inf_delay ∧
    a.rn = b.rn ∧ a.rseqno = b.rseqno ∧ a.hdr = b.hdr ∧ a.bucketwidth = b.bucketwidth ∧
    a.rlistlen = b.rlistlen := by
  refine ⟨?_, ?_, ?_, ?_, ?_, ?_, ?_, ?_⟩
  · have := congrArg OWPStatsRec.min_delay h; exact this
  · have := congrArg OWPStatsRec.max_delay h; exact this
  · have := congrArg OWPStatsRec.inf_delay h; exact this
  · have := congrArg OWPStatsRec.rn h; exact this
  · have := congrArg OWPStatsRec.rseqno h; exact this
  · have := congrArg OWPStatsRec.hdr h; exact this
  · have := congrArg OWPStatsRec.bucketwidth h; exact this
  · have := congrArg OWPStatsRec.rlistlen h; exact this

theorem frameM_delay {a b : OWPStatsRec} (h : frameM a = frameM b) :
    a.min_delay = b.min_delay ∧ a.max_delay = b.max_delay ∧ a.inf_delay = b.inf_delay ∧
    a.rn = b.rn ∧ a.rseqno = b.rseqno ∧ a.first = b.first ∧ a.last = b.last ∧
    a.skips = b.skips ∧ a.rlistlen = b.rlistlen ∧ a.hdr = b.hdr := by
  refine ⟨?_, ?_, ?_, ?_, ?_, ?_, ?_, ?_, ?_, ?_⟩
  · have := congrArg OWPStatsRec.min_delay h; exact this
  · have := congrArg OWPStatsRec.max_delay h; exact this
  · have := congrArg OWPStatsRec.inf_delay h; exact this
  · have := congrArg OWPStatsRec.rn h; exact this
  · have := congrArg OWPStatsRec.rseqno h; exact this
  · have := congrArg OWPStatsRec.first h; exact this
  · have := congrArg OWPStatsRec.last h; exact this
  · have := congrArg OWPStatsRec.skips h; exact this
  · have := congrArg OWPStatsRec.rlistlen h; exact this
  · have := congrArg OWPStatsRec.hdr h; exact this

theorem postOW_delay (rec : OWPDataRec) (seen : Nat) (st4 : OWPStatsRec) :
    (postOW rec seen st4).min_delay = min st4.min_delay (OWPDelay rec.send rec.recv) ∧
    (postOW rec seen st4).max_delay = max st4.max_delay (OWPDelay rec.send rec.recv) ∧
    (postOW rec seen st4).inf_delay = st4.inf_delay := by
  unfold postOW
  simp only []
  split_ifs <;> exact ⟨rfl, rfl, rfl⟩

theorem contrib_append (skips : List OWPSkipRec) (first last : Nat) (done : List OWPDataRec)
    (r : OWPDataRec) : contrib skips first last (done ++ [r]) =
      if first ≤ r.seq_no ∧ r.seq_no < last ∧ OWPIsLostRecord r = false ∧
          inSkip skips r.seq_no = false then contrib skips first last done ++ [r]
      else contrib skips first last done := by
  unfold contrib
  rw [List.filter_append]
  by_cases h1 : first ≤ r.seq_no ∧ r.seq_no < last <;>
    cases h2 : OWPIsLostRecord r <;> cases h3 : inSkip skips r.seq_no <;>
    simp [List.filter_cons, h1, h2, h3]

theorem OW_step_minmax (st : OWPStatsRec) (done : List OWPDataRec) (b e : Nat)
    (r : OWPDataRec) (st' : OWPStatsRec) (hinv : Inv st done b e) (hp : MinMaxOK st done)
    (h : IterateSummarizeSession r st = Ret.ok st') : MinMaxOK st' (done ++ [r]) := by
  rw [IterateSummarizeSession_eq] at h
  obtain ⟨m1, m2, m3, m4, m5, m6, m7, m8, m9, m10, m11⟩ := markOffset_fields st r.seq_no
  have hm := frameM_markOffset st r.seq_no
  obtain ⟨n1, n2, n3, _⟩ := frameM_delay hm
  obtain ⟨hmin, hmax⟩ := hp
  unfold MinMaxOK
  rcases iterCore_shape hinv r.seq_no (OWPIsLostRecord r) _ _ _ st' h with
    ⟨hout, hst⟩ | ⟨hr1, hr2, st2, b1, e1, node, hinv2, hb1, hbs, hse, hf2, hmem, hns, hcase⟩
  · subst hst
    rw [n1, n2, n3, m4, m5, m7, contrib_append]
    have : ¬ (st.first ≤ r.seq_no ∧ r.seq_no < st.last ∧ OWPIsLostRecord r = false ∧
        inSkip st.skips r.seq_no = false) := by
      intro hc; exact hout ⟨hc.1, hc.2.1⟩
    simp only [this, if_false]
    exact ⟨hmin, hmax⟩
  · obtain ⟨f1, f2, f3, _⟩ := frameF_delay hf2
    have h2first : st2.first = st.first := by rw [frameF_first hf2, m4]
    have h2last : st2.last = st.last := by rw [frameF_last hf2, m5]
    have h2skips : st2.skips = st.skips := by rw [frameF_skips hf2, m7]
    rw [n1] at f1
    rw [n2] at f2
    rw [n3] at f3
    rcases hcase with ⟨hsk, hst⟩ | ⟨hsk, hrl, hseen, hst⟩ | ⟨hsk, hrl, hnl, hst⟩
    · subst hst
      rw [f1, f2, f3, h2first, h2last, h2skips, contrib_append]
      simp only [hsk, Bool.true_eq_false, and_false, if_false]
      exact ⟨hmin, hmax⟩
    · subst hst
      show st2.min_delay = minDelayOver st2.inf_delay (contrib st2.skips st2.first st2.last _) ∧
        st2.max_delay = maxDelayOver (- st2.inf_delay) (contrib st2.skips st2.first st2.last _)
      rw [f1, f2, f3, h2first, h2last, h2skips, contrib_append]
      simp only [hrl, Bool.true_eq_false, false_and, and_false, if_false]
      exact ⟨hmin, hmax⟩
    · subst hst
      obtain ⟨d1, d2, d3⟩ := postOW_delay r node.seen (jreorder (seenUpdate st2 node) r.seq_no)
      obtain ⟨q1, q2, q3, q4, q5, q6, q7, q8, q9, q10⟩ :=
        frameP_fields (PostOK_OW r node.seen (jreorder (seenUpdate st2 node) r.seq_no)).1
      rw [d1, d2, d3, q4, q5, q7]
      show min st2.min_delay _ = minDelayOver st2.inf_delay
          (contrib st2.skips st2.first st2.last _) ∧
        max st2.max_delay _ = maxDelayOver (- st2.inf_delay)
          (contrib st2.skips st2.first st2.last _)
      rw [f1, f2, f3, h2first, h2last, h2skips, contrib_append]
      simp only [hr1, hr2, hrl, hsk, and_self, if_true]
      unfold minDelayOver maxDelayOver
      rw [List.foldl_append, List.foldl_append]
      simp only [List.foldl_cons, List.foldl_nil]
      unfold minDelayOver at hmin
      unfold maxDelayOver at hmax
      rw [← hmin, ← hmax]
      exact ⟨rfl, rfl⟩

theorem reorderLoop_id (st : OWPStatsRec) (seq : Nat)
    (h : ∀ i, ¬ seq < st.rseqno.getD i 0) (k i : Nat) (rn : List Nat) :
    reorderLoop st seq k i rn = rn := by
  cases k with
  | zero => rfl
  | succ k =>
    unfold reorderLoop
    simp only [h _, if_false]

theorem SortedInRange_init {first last : Nat} {done : List OWPDataRec} {r : OWPDataRec}
    (h : SortedInRange first last (done ++ [r])) :
    SortedInRange first last done ∧
    (first ≤ r.seq_no ∧ r.seq_no < last →
      ∀ x ∈ done, first ≤ x.seq_no → x.seq_no < last → x.seq_no < r.seq_no) := by
  unfold SortedInRange inRangeRecs at h ⊢
  rw [List.filter_append, List.map_append, List.pairwise_append] at h
  obtain ⟨h1, _, h3⟩ := h
  refine ⟨h1, ?_⟩
  intro hr x hx hx1 hx2
  apply h3 x.seq_no
  · rw [List.mem_map]
    exact ⟨x, by rw [List.mem_filter]; exact ⟨hx, by simp [hx1, hx2]⟩, rfl⟩
  · rw [List.mem_map]
    exact ⟨r, by rw [List.mem_filter]; exact ⟨by simp, by simp [hr.1, hr.2]⟩, rfl⟩

theorem frameP_rn {a b : OWPStatsRec} (h : frameP a = frameP b) :
    a.rn = b.rn ∧ a.rseqno = b.rseqno ∧ a.inf_delay = b.inf_delay ∧ a.hdr = b.hdr ∧
    a.rlistlen = b.rlistlen := by
  refine ⟨?_, ?_, ?_, ?_, ?_⟩
  · have := congrArg OWPStatsRec.rn h; exact this
  · have := congrArg OWPStatsRec.rseqno h; exact this
  · have := congrArg OWPStatsRec.inf_delay h; exact this
  · have := congrArg OWPStatsRec.hdr h; exact this
  · have := congrArg OWPStatsRec.rlistlen h; exact this

theorem iterCore_step_rn (st : OWPStatsRec) (done : List OWPDataRec) (b e : Nat)
    (r : OWPDataRec) (thresh : OWPStatsRec → Nat) (postLost : OWPStatsRec → OWPStatsRec)
    (post : Nat → OWPStatsRec → OWPStatsRec) (hpl : PostLostOK postLost) (hpo : PostOK post)
    (st' : OWPStatsRec) (hinv : Inv st done b e) (hp : RnOK st done)
    (h : iterCore r.seq_no (OWPIsLostRecord r) thresh postLost post st = Ret.ok st') :
    RnOK st' (done ++ [r]) := by
  obtain ⟨m1, m2, m3, m4, m5, m6, m7, m8, m9, m10, m11⟩ := markOffset_fields st r.seq_no
  have hm := frameM_markOffset st r.seq_no
  obtain ⟨_, _, _, n4, n5, _, _, _, n9, _⟩ := frameM_delay hm
  have hweak : ∀ x, (x = 0 ∨ ∃ r' ∈ done, st.first ≤ r'.seq_no ∧ r'.seq_no < st.last ∧
      x = r'.seq_no) → (x = 0 ∨ ∃ r' ∈ done ++ [r], st.first ≤ r'.seq_no ∧
      r'.seq_no < st.last ∧ x = r'.seq_no) := by
    intro x hx
    rcases hx with hx | ⟨r', hr', k⟩
    · exact Or.inl hx
    · exact Or.inr ⟨r', List.mem_append_left _ hr', k⟩
  rcases iterCore_shape hinv r.seq_no (OWPIsLostRecord r) thresh postLost post st' h with
    ⟨hout, hst⟩ | ⟨hr1, hr2, st2, b1, e1, node, hinv2, hb1, hbs, hse, hf2, hmem, hns, hcase⟩
  · subst hst
    intro hs
    rw [m4, m5] at hs ⊢
    obtain ⟨c1, c2⟩ := hp (SortedInRange_init hs).1
    rw [n4, n5, n9]
    exact ⟨c1, fun x hx => hweak x (c2 x hx)⟩
  · obtain ⟨_, _, _, f4, f5, _, _, f8⟩ := frameF_delay hf2
    have h2first : st2.first = st.first := by rw [frameF_first hf2, m4]
    have h2last : st2.last = st.last := by rw [frameF_last hf2, m5]
    rw [n4] at f4
    rw [n5] at f5
    rw [n9] at f8
    rcases hcase with ⟨hsk, hst⟩ | ⟨hsk, hrl, hseen, hst⟩ | ⟨hsk, hrl, hnl, hst⟩
    · subst hst
      intro hs
      rw [h2first, h2last] at hs ⊢
      obtain ⟨c1, c2⟩ := hp (SortedInRange_init hs).1
      rw [f4, f5, f8]
      exact ⟨c1, fun x hx => hweak x (c2 x hx)⟩
    · subst hst
      obtain ⟨q1, q2, q3, q4, q5, q6, q7, q8, q9, q10⟩ :=
        frameP_fields (hpl (lostUpdate st2 node)).1
      obtain ⟨r1, r2, _, _, r5⟩ := frameP_rn (hpl (lostUpdate st2 node)).1
      intro hs
      rw [q4, q5] at hs ⊢
      rw [r1, r2, r5]
      show st2.rn = List.replicate st2.rlistlen 0 ∧ (∀ x ∈ st2.rseqno, x = 0 ∨
        ∃ r' ∈ done ++ [r], st2.first ≤ r'.seq_no ∧ r'.seq_no < st2.last ∧ x = r'.seq_no)
      have hs2 : SortedInRange st2.first st2.last (done ++ [r]) := hs
      rw [h2first, h2last] at hs2 ⊢
      obtain ⟨c1, c2⟩ := hp (SortedInRange_init hs2).1
      rw [f4, f5, f8]
      exact ⟨c1, fun x hx => hweak x (c2 x hx)⟩
    · subst hst
      obtain ⟨q1, q2, q3, q4, q5, q6, q7, q8, q9, q10⟩ :=
        frameP_fields (hpo node.seen (jreorder (seenUpdate st2 node) r.seq_no)).1
      obtain ⟨r1, r2, _, _, r5⟩ :=
        frameP_rn (hpo node.seen (jreorder (seenUpdate st2 node) r.seq_no)).1
      intro hs
      rw [q4, q5] at hs ⊢
      rw [r1, r2, r5]
      have hs2 : SortedInRange st2.first st2.last (done ++ [r]) := hs
      rw [h2first, h2last] at hs2
      obtain ⟨hsd, hlt⟩ := SortedInRange_init hs2
      obtain ⟨c1, c2⟩ := hp hsd
      have hno : ∀ i, ¬ r.seq_no < st2.rseqno.getD i 0 := by
        intro i
        rw [f5, List.getD_eq_getElem?_getD]
        cases hg : st.rseqno[i]? with
        | none => simp
        | some x =>
          simp only [Option.getD_some]
          have hx : x ∈ st.rseqno := List.getElem?_mem hg
          rcases c2 x hx with h0 | ⟨r', hr', k1, k2, k3⟩
          · omega
          · have := hlt ⟨hr1, hr2⟩ r' hr' k1 k2
            omega
      constructor
      · show reorderLoop (seenUpdate st2 node) r.seq_no _ 0 st2.rn =
          List.replicate st2.rlistlen 0
        rw [reorderLoop_id (seenUpdate st2 node) r.seq_no hno, f4, f8]
        exact c1
      · show ∀ x ∈ st2.rseqno.set st2.rindex r.seq_no, x = 0 ∨
          ∃ r' ∈ done ++ [r], st2.first ≤ r'.seq_no ∧ r'.seq_no < st2.last ∧ x = r'.seq_no
        intro x hx
        rw [h2first, h2last]
        rcases List.mem_or_eq_of_mem_set hx with hx | hx
        · rw [f5] at hx
          exact hweak x (c2 x hx)
        · exact Or.inr ⟨r, by simp, hr1, hr2, hx⟩

theorem iterCore_step_rlistlen (st : OWPStatsRec) (done : List OWPDataRec) (b e : Nat)
    (r : OWPDataRec) (thresh : OWPStatsRec → Nat) (postLost : OWPStatsRec → OWPStatsRec)
    (post : Nat → OWPStatsRec → OWPStatsRec) (hpl : PostLostOK postLost) (hpo : PostOK post)
    (st' : OWPStatsRec) (hinv : Inv st done b e)
    (h : iterCore r.seq_no (OWPIsLostRecord r) thresh postLost post st = Ret.ok st') :
    st'.rlistlen = st.rlistlen := by
  have hm := frameM_markOffset st r.seq_no
  obtain ⟨_, _, _, n4, n5, _, _, _, n9, _⟩ := frameM_delay hm
  rcases iterCore_shape hinv r.seq_no (OWPIsLostRecord r) thresh postLost post st' h with
    ⟨hout, hst⟩ | ⟨hr1, hr2, st2, b1, e1, node, hinv2, hb1, hbs, hse, hf2, hmem, hns, hcase⟩
  · subst hst
    exact n9
  · obtain ⟨_, _, _, f4, f5, _, _, f8⟩ := frameF_delay hf2
    rw [n9] at f8
    rcases hcase with ⟨hsk, hst⟩ | ⟨hsk, hrl, hseen, hst⟩ | ⟨hsk, hrl, hnl, hst⟩
    · subst hst
      exact f8
    · subst hst
      obtain ⟨r1, r2, _, _, r5⟩ := frameP_rn (hpl (lostUpdate st2 node)).1
      rw [r5]
      exact f8
    · subst hst
      obtain ⟨r1, r2, _, _, r5⟩ :=
        frameP_rn (hpo node.seen (jreorder (seenUpdate st2 node) r.seq_no)).1
      rw [r5]
      exact f8

theorem parseIterate_rlistlen (st8 : OWPStatsRec) (file : OWPFile) (b e : Nat)
    (hinv : Inv st8 [] b e) (st9 : OWPStatsRec)
    (h : parseIterate st8 file = Ret.ok st9) : st9.rlistlen = st8.rlistlen := by
  unfold parseIterate at h
  cases htw : st8.hdr.twoway with
  | true =>
    rw [htw] at h
    simp only [if_true] at h
    exact OWPParseRecords_induct IterateSummarizeTWSession (fun r => r.sent) hproc_TW
      (fun st _ => st.rlistlen = st8.rlistlen)
      (by
        intro st done b e a st' hi hpp hs
        obtain ⟨thresh, postLost, post, hpl, hpo, heq⟩ := hproc_TW a st
        rw [heq] at hs
        rw [← hpp]
        exact iterCore_step_rlistlen st done b e a.sent thresh postLost post hpl hpo st' hi hs)
      file.twdatarecs st8 [] b e hinv rfl st9 h
  | false =>
    rw [htw] at h
    simp only [Bool.false_eq_true, if_false] at h
    exact OWPParseRecords_induct IterateSummarizeSession (fun r => r) hproc_OW
      (fun st _ => st.rlistlen = st8.rlistlen)
      (by
        intro st done b e a st' hi hpp hs
        obtain ⟨thresh, postLost, post, hpl, hpo, heq⟩ := hproc_OW a st
        rw [heq] at hs
        rw [← hpp]
        exact iterCore_step_rlistlen st done b e a thresh postLost post hpl hpo st' hi hs)
      file.datarecs st8 [] b e hinv rfl st9 h

theorem parseIterate_rn (st8 : OWPStatsRec) (file : OWPFile) (b e : Nat)
    (hinv : Inv st8 [] b e) (hp : RnOK st8 []) (st9 : OWPStatsRec)
    (h : parseIterate st8 file = Ret.ok st9) : RnOK st9 (streamOf st8.hdr file) := by
  unfold parseIterate at h
  unfold streamOf
  cases htw : st8.hdr.twoway with
  | true =>
    rw [htw] at h
    simp only [if_true] at h
    have := OWPParseRecords_induct IterateSummarizeTWSession (fun r => r.sent) hproc_TW RnOK
      (by
        intro st done b e a st' hi hpp hs
        obtain ⟨thresh, postLost, post, hpl, hpo, heq⟩ := hproc_TW a st
        rw [heq] at hs
        exact iterCore_step_rn st done b e a.sent thresh postLost post hpl hpo st' hi hpp hs)
      file.twdatarecs st8 [] b e hinv hp st9 h
    simpa using this
  | false =>
    rw [htw] at h
    simp only [Bool.false_eq_true, if_false] at h
    have := OWPParseRecords_induct IterateSummarizeSession (fun r => r) hproc_OW RnOK
      (by
        intro st done b e a st' hi hpp hs
        obtain ⟨thresh, postLost, post, hpl, hpo, heq⟩ := hproc_OW a st
        rw [heq] at hs
        exact iterCore_step_rn st done b e a thresh postLost post hpl hpo st' hi hpp hs)
      file.datarecs st8 [] b e hinv hp st9 h
    simpa using this

theorem parseIterate_minmax (st8 : OWPStatsRec) (file : OWPFile) (b e : Nat)
    (hinv : Inv st8 [] b e) (hp : MinMaxOK st8 []) (htw : st8.hdr.twoway = false)
    (st9 : OWPStatsRec) (h : parseIterate st8 file = Ret.ok st9) :
    MinMaxOK st9 file.datarecs := by
  unfold parseIterate at h
  rw [htw] at h
  simp only [Bool.false_eq_true, if_false] at h
  have := OWPParseRecords_induct IterateSummarizeSession (fun r => r) hproc_OW MinMaxOK
    (by
      intro st done b e a st' hi hpp hs
      exact OW_step_minmax st done b e a st' hi hpp hs)
    file.datarecs st8 [] b e hinv hp st9 h
  simpa using this

/-- State of a successful parse in terms of the state after the iteration: every
field that the final flush and the sort leave alone. -/
theorem parse_final (st0 : OWPStatsRec) (file : OWPFile) (bo first last0 : Nat)
    (st : OWPStatsRec) (h : OWPStatsParse st0 file bo first last0 = Ret.ok st) :
    ∃ st8 st9, parseInit st0 bo first (parseLast st0 last0) = some st8 ∧
      parseIterate st8 file = Ret.ok st9 ∧ first ≤ parseLast st0 last0 ∧
      st.rn = st9.rn ∧ st.rlistlen = st9.rlistlen ∧ st.min_delay = st9.min_delay ∧
      st.max_delay = st9.max_delay ∧ st.inf_delay = st9.inf_delay ∧
      st.bucketwidth = st9.bucketwidth ∧ st.hdr = st9.hdr := by
  obtain ⟨hfl, _, st8, st9, st10, hi, hit, hd, hst⟩ := parse_shape st0 file bo first last0 st h
  obtain ⟨⟨T, h1⟩, h2, h3, h4, h5, h6, h7, h8, h9, h10, h11, h12, _⟩ :=
    parseInit_spec st0 bo first (parseLast st0 last0) st8 hi
  subst hst
  have hfr : frameF st10 = frameF st9 := by
    rcases Nat.lt_or_ge first (parseLast st0 last0) with hlt | hge
    · have hinv8 := parseInit_inv st0 bo first (parseLast st0 last0) st8 hi hlt
      obtain ⟨b1, e1, hinv9, _⟩ := parseIterate_inv st8 file first first hinv8 st9 hit
      exact (drainLoop_inv _ _ st9 b1 e1 hinv9 st10 hd).1
    · have hle : parseLast st0 last0 = first := by omega
      rw [hle] at h5
      have hm := parseIterate_empty_range st8 file (by rw [h4, h5]) st9 hit
      have m1 : st9.pnodes = st8.pnodes := by
        have := congrArg OWPStatsRec.pnodes hm; exact this
      have m2 : st9.last = st8.last := by have := congrArg OWPStatsRec.last hm; exact this
      exact (drainLoop_single st9 (OWPPacketRec.mk first T 0 false)
        (st9.last + 1) (by rw [m1, h1]) rfl rfl (by rw [m2, h5]; simp) st10 hd).1
  obtain ⟨f1, f2, f3, f4, _, f6, f7, f8⟩ := frameF_delay hfr
  exact ⟨st8, st9, hi, hit, hfl, f4, f8, f1, f2, f3, f7, f6⟩

theorem parse_rn (st0 : OWPStatsRec) (file : OWPFile) (bo first last0 : Nat)
    (st : OWPStatsRec) (h : OWPStatsParse st0 file bo first last0 = Ret.ok st)
    (hs : SortedInRange first (parseLast st0 last0) (streamOf st0.hdr file)) :
    st.rn = List.replicate st0.rlistlen 0 := by
  obtain ⟨st8, st9, hi, hit, hfl, g1, g2, _⟩ := parse_final st0 file bo first last0 st h
  obtain ⟨⟨T, h1⟩, h2, h3, h4, h5, h6, h7, h8, h9, h10, h11, h12, h13, h14, h15, h16, h17,
    h18, h19, _⟩ := parseInit_spec st0 bo first (parseLast st0 last0) st8 hi
  rw [g1]
  rcases Nat.lt_or_ge first (parseLast st0 last0) with hlt | hge
  · have hinv8 := parseInit_inv st0 bo first (parseLast st0 last0) st8 hi hlt
    have hrn8 : RnOK st8 [] := by
      intro _
      refine ⟨by rw [h13, h19], ?_⟩
      intro x hx
      rw [h14] at hx
      exact Or.inl (List.eq_of_mem_replicate hx)
    obtain ⟨b1, e1, hinv9, k1, k2, k3⟩ := parseIterate_inv st8 file first first hinv8 st9 hit
    have hrn9 := parseIterate_rn st8 file first first hinv8 hrn8 st9 hit
    rw [h12] at hrn9
    have := (hrn9 (by rw [k1, k2, h4, h5]; exact hs)).1
    rw [this]
    have hl := parseIterate_rlistlen st8 file first first hinv8 st9 hit
    rw [hl, h19]
  · have hle : parseLast st0 last0 = first := by omega
    rw [hle] at h5
    have hm := parseIterate_empty_range st8 file (by rw [h4, h5]) st9 hit
    obtain ⟨_, _, _, n4, _⟩ := frameM_delay hm
    rw [n4, h13]

theorem iterCore_step_inf (st : OWPStatsRec) (done : List OWPDataRec) (b e : Nat)
    (r : OWPDataRec) (thresh : OWPStatsRec → Nat) (postLost : OWPStatsRec → OWPStatsRec)
    (post : Nat → OWPStatsRec → OWPStatsRec) (hpl : PostLostOK postLost) (hpo : PostOK post)
    (st' : OWPStatsRec) (hinv : Inv st done b e)
    (h : iterCore r.seq_no (OWPIsLostRecord r) thresh postLost post st = Ret.ok st') :
    st'.inf_delay = st.inf_delay := by
  have hm := frameM_markOffset st r.seq_no
  obtain ⟨_, _, n3, _⟩ := frameM_delay hm
  rcases iterCore_shape hinv r.seq_no (OWPIsLostRecord r) thresh postLost post st' h with
    ⟨hout, hst⟩ | ⟨hr1, hr2, st2, b1, e1, node, hinv2, hb1, hbs, hse, hf2, hmem, hns, hcase⟩
  · subst hst
    exact n3
  · obtain ⟨_, _, f3, _⟩ := frameF_delay hf2
    rw [n3] at f3
    rcases hcase with ⟨hsk, hst⟩ | ⟨hsk, hrl, hseen, hst⟩ | ⟨hsk, hrl, hnl, hst⟩
    · subst hst
      exact f3
    · subst hst
      obtain ⟨_, _, r3, _⟩ := frameP_rn (hpl (lostUpdate st2 node)).1
      rw [r3]
      exact f3
    · subst hst
      obtain ⟨_, _, r3, _⟩ :=
        frameP_rn (hpo node.seen (jreorder (seenUpdate st2 node) r.seq_no)).1
      rw [r3]
      exact f3

theorem parseIterate_inf (st8 : OWPStatsRec) (file : OWPFile) (b e : Nat)
    (hinv : Inv st8 [] b e) (st9 : OWPStatsRec)
    (h : parseIterate st8 file = Ret.ok st9) : st9.inf_delay = st8.inf_delay := by
  unfold parseIterate at h
  cases htw : st8.hdr.twoway with
  | true =>
    rw [htw] at h
    simp only [if_true] at h
    exact OWPParseRecords_induct IterateSummarizeTWSession (fun r => r.sent) hproc_TW
      (fun st _ => st.inf_delay = st8.inf_delay)
      (by
        intro st done b e a st' hi hpp hs
        obtain ⟨thresh, postLost, post, hpl, hpo, heq⟩ := hproc_TW a st
        rw [heq] at hs
        rw [← hpp]
        exact iterCore_step_inf st done b e a.sent thresh postLost post hpl hpo st' hi hs)
      file.twdatarecs st8 [] b e hinv rfl st9 h
  | false =>
    rw [htw] at h
    simp only [Bool.false_eq_true, if_false] at h
    exact OWPParseRecords_induct IterateSummarizeSession (fun r => r) hproc_OW
      (fun st _ => st.inf_delay = st8.inf_delay)
      (by
        intro st done b e a st' hi hpp hs
        obtain ⟨thresh, postLost, post, hpl, hpo, heq⟩ := hproc_OW a st
        rw [heq] at hs
        rw [← hpp]
        exact iterCore_step_inf st done b e a thresh postLost post hpl hpo st' hi hs)
      file.datarecs st8 [] b e hinv rfl st9 h

theorem contrib_empty_range (skips : List OWPSkipRec) (first : Nat) (recs : List OWPDataRec) :
    contrib skips first first recs = [] := by
  unfold contrib
  rw [List.filter_eq_nil_iff]
  intro r _
  have : ¬ (first ≤ r.seq_no ∧ r.seq_no < first) := by omega
  simp [this]

/-- After a successful one-way parse the delay extremes are the running minimum
and maximum, started at plus and minus `inf_delay`, of the delays of the records
that reach the statistics. -/
theorem parse_minmax (st0 : OWPStatsRec) (file : OWPFile) (bo first last0 : Nat)
    (st : OWPStatsRec) (h : OWPStatsParse st0 file bo first last0 = Ret.ok st)
    (htw : st0.hdr.twoway = false) :
    st.min_delay = minDelayOver (infDelay st0.hdr)
      (contrib st0.skips first (parseLast st0 last0) file.datarecs) ∧
    st.max_delay = maxDelayOver (- infDelay st0.hdr)
      (contrib st0.skips first (parseLast st0 last0) file.datarecs) := by
  obtain ⟨st8, st9, hi, hit, hfl, g1, g2, g3, g4, _⟩ := parse_final st0 file bo first last0 st h
  obtain ⟨⟨T, h1⟩, h2, h3, h4, h5, h6, h7, h8, h9, h10, h11, h12, h13, h14, h15, h16, h17,
    h18, h19, _⟩ := parseInit_spec st0 bo first (parseLast st0 last0) st8 hi
  rw [g3, g4]
  rcases Nat.lt_or_ge first (parseLast st0 last0) with hlt | hge
  · have hinv8 := parseInit_inv st0 bo first (parseLast st0 last0) st8 hi hlt
    have hmm8 : MinMaxOK st8 [] := by
      unfold MinMaxOK contrib minDelayOver maxDelayOver
      simp only [List.filter_nil, List.foldl_nil]
      rw [h15, h16, h17]
      exact ⟨rfl, rfl⟩
    obtain ⟨b1, e1, hinv9, k1, k2, k3⟩ := parseIterate_inv st8 file first first hinv8 st9 hit
    have hinf := parseIterate_inf st8 file first first hinv8 st9 hit
    have := parseIterate_minmax st8 file first first hinv8 hmm8 (by rw [h12]; exact htw) st9 hit
    unfold MinMaxOK at this
    rw [k1, k2, k3, hinf, h4, h5, h6, h17] at this
    exact this
  · have hle : parseLast st0 last0 = first := by omega
    rw [hle] at h5 ⊢
    have hm := parseIterate_empty_range st8 file (by rw [h4, h5]) st9 hit
    obtain ⟨n1, n2, _⟩ := frameM_delay hm
    rw [n1, n2, h15, h16, contrib_empty_range]
    exact ⟨rfl, rfl⟩

theorem flushLostLoop_no_crash (done : List OWPDataRec) (seq : Nat) (fuel : Nat) :
    ∀ (st : OWPStatsRec) (b e : Nat), Inv st done b e → st.last - b ≤ fuel →
      flushLostLoop (fuel + 1) st seq ≠ Ret.crash := by
  induction fuel with
  | zero =>
    intro st b e hinv hf
    have hle := hinv.win.le
    have hll := hinv.win.lt_last
    omega
  | succ fuel ih =>
    intro st b e hinv hf
    obtain ⟨node, tl, hpn, hnb, _, _⟩ := Win_head hinv.win
    unfold flushLostLoop
    rw [hpn]
    simp only []
    by_cases hc : node.seq < seq
    · simp only [hc, if_true]
      obtain ⟨st2, r, hfl, hfr, hcase⟩ := PacketBeginFlush_inv hinv
      rw [hfl]
      rcases hcase with ⟨hr, hinv2⟩ | ⟨hr, _⟩
      · subst hr
        simp only []
        exact ih st2 _ _ hinv2 (by rw [frameF_last hfr]; omega)
      · subst hr
        simp
    · simp only [hc, if_false]
      simp

theorem flushThreshLoop_no_crash (done : List OWPDataRec) (thresh : Nat) (fuel : Nat) :
    ∀ (st : OWPStatsRec) (b e : Nat), Inv st done b e → st.last - b ≤ fuel →
      flushThreshLoop (fuel + 1) st thresh ≠ Ret.crash := by
  induction fuel with
  | zero =>
    intro st b e hinv hf
    have hle := hinv.win.le
    have hll := hinv.win.lt_last
    omega
  | succ fuel ih =>
    intro st b e hinv hf
    obtain ⟨node, tl, hpn, hnb, _, _⟩ := Win_head hinv.win
    unfold flushThreshLoop
    rw [hpn]
    simp only []
    by_cases hc : OWPNum64Cmp node.schedtime thresh < 0
    · simp only [hc, if_true]
      obtain ⟨st2, r, hfl, hfr, hcase⟩ := PacketBeginFlush_inv hinv
      rw [hfl]
      rcases hcase with ⟨hr, hinv2⟩ | ⟨hr, _⟩
      · subst hr
        simp only []
        exact ih st2 _ _ hinv2 (by rw [frameF_last hfr]; omega)
      · subst hr
        simp
    · simp only [hc, if_false]
      simp

theorem drainLoop_no_crash (done : List OWPDataRec) (fuel : Nat) :
    ∀ (st : OWPStatsRec) (b e : Nat), Inv st done b e → st.last - b ≤ fuel →
      drainLoop (fuel + 1) st ≠ none := by
  induction fuel with
  | zero =>
    intro st b e hinv hf
    have hle := hinv.win.le
    have hll := hinv.win.lt_last
    omega
  | succ fuel ih =>
    intro st b e hinv hf
    obtain ⟨node, tl, hpn, hnb, _, _⟩ := Win_head hinv.win
    unfold drainLoop
    rw [hpn]
    simp only []
    obtain ⟨st2, r, hfl, hfr, hcase⟩ := PacketBeginFlush_inv hinv
    rw [hfl]
    rcases hcase with ⟨hr, hinv2⟩ | ⟨hr, _⟩
    · subst hr
      simp only []
      exact ih st2 _ _ hinv2 (by rw [frameF_last hfr]; omega)
    · subst hr
      simp

/-- Under the invariant a callback never crashes: the flush loops have fuel
enough and `PacketGet` finds or makes the node. -/
theorem iterCore_no_crash {st : OWPStatsRec} {done : List OWPDataRec} {b e : Nat}
    (hinv : Inv st done b e) (seq : Nat) (isLost : Bool) (thresh : OWPStatsRec → Nat)
    (postLost : OWPStatsRec → OWPStatsRec) (post : Nat → OWPStatsRec → OWPStatsRec) :
    iterCore seq isLost thresh postLost post st ≠ Ret.crash := by
  obtain ⟨m1, m2, m3, m4, m5, m6, m7, m8, m9, m10, m11⟩ := markOffset_fields st seq
  have hinv0 := Inv_markOffset hinv seq
  unfold iterCore
  simp only []
  by_cases hr : seq < (markOffset st seq).first ∨ seq ≥ (markOffset st seq).last
  · simp only [hr, if_true]
    simp
  · simp only [hr, if_false]
    have hget : ∀ st1 b1 e1, Inv st1 done b1 e1 → frameF st1 = frameF (markOffset st seq) →
        (match PacketGet st1 seq with
          | none => Ret.crash
          | some (st2, none) => Ret.fatal st2
          | some (st2, some node) =>
            if skipScan st2 node.seq then Ret.ok st2
            else if isLost then
              if node.seen ≠ 0 then Ret.fatal st2
              else Ret.ok (postLost (lostUpdate st2 node))
            else if node.lost then Ret.fatal st2
            else Ret.ok (post node.seen (jreorder (seenUpdate st2 node) seq))) ≠ Ret.crash := by
      intro st1 b1 e1 hinv1 hfr
      have hf1 : st1.first = (markOffset st seq).first := frameF_first hfr
      have hl1 : st1.last = (markOffset st seq).last := frameF_last hfr
      rcases Nat.lt_or_ge seq b1 with hlt | hge
      · rw [PacketGet_behind st1 b1 e1 seq hinv1.win (by omega) hlt]
        simp
      · obtain ⟨st2, node, hg, _⟩ := Inv_PacketGet hinv1 seq hge (by omega)
        rw [hg]
        simp only []
        split_ifs <;> simp
    cases isLost with
    | true =>
      simp only [if_true]
      cases hl : flushLostLoop ((markOffset st seq).last + 1) (markOffset st seq) seq with
      | crash =>
        exact absurd hl (flushLostLoop_no_crash done seq _ _ b e hinv0 (by omega))
      | fatal s => simp
      | ok st1 =>
        simp only []
        obtain ⟨b1, e1, hinv1, _, _, hfr⟩ := flushLostLoop_inv done seq _ _ b e hinv0 st1 hl
        have := hget st1 b1 e1 hinv1 hfr
        simpa using this
    | false =>
      simp only [Bool.false_eq_true, if_false]
      cases hl : flushThreshLoop ((markOffset st seq).last + 1) (markOffset st seq)
          (thresh (markOffset st seq)) with
      | crash =>
        exact absurd hl (flushThreshLoop_no_crash done _ _ _ b e hinv0 (by omega))
      | fatal s => simp
      | ok st1 =>
        simp only []
        obtain ⟨b1, e1, hinv1, _, _, hfr⟩ :=
          flushThreshLoop_inv done _ _ _ b e hinv0 st1 hl
        have := hget st1 b1 e1 hinv1 hfr
        simpa using this

theorem OWPParseRecords_no_crash {α : Type} (proc : α → OWPStatsRec → Ret)
    (view : α → OWPDataRec)
    (hproc : ∀ a st, ∃ thresh postLost post, PostLostOK postLost ∧ PostOK post ∧
      proc a st = iterCore (view a).seq_no (OWPIsLostRecord (view a)) thresh postLost post st)
    (recs : List α) : ∀ (st : OWPStatsRec) (done : List OWPDataRec) (b e : Nat),
      Inv st done b e → OWPParseRecords proc recs st ≠ Ret.crash := by
  induction recs with
  | nil =>
    intro st done b e _
    simp [OWPParseRecords]
  | cons a rest ih =>
    intro st done b e hinv
    unfold OWPParseRecords
    obtain ⟨thresh, postLost, post, hpl, hpo, heq⟩ := hproc a st
    cases hp : proc a st with
    | crash =>
      rw [heq] at hp
      exact absurd hp (iterCore_no_crash hinv _ _ _ _ _)
    | fatal s => simp
    | ok st1 =>
      simp only []
      rw [heq] at hp
      obtain ⟨b1, e1, hinv1, _⟩ := iterCore_inv hinv (view a) thresh postLost post hpl hpo st1 hp
      exact ih st1 _ b1 e1 hinv1

theorem OWPParseRecords_empty_no_crash {α : Type} (proc : α → OWPStatsRec → Ret)
    (view : α → OWPDataRec)
    (hproc : ∀ a st, ∃ thresh postLost post, PostLostOK postLost ∧ PostOK post ∧
      proc a st = iterCore (view a).seq_no (OWPIsLostRecord (view a)) thresh postLost post st)
    (recs : List α) : ∀ (st : OWPStatsRec), st.last ≤ st.first →
      OWPParseRecords proc recs st ≠ Ret.crash := by
  induction recs with
  | nil =>
    intro st _
    simp [OWPParseRecords]
  | cons a rest ih =>
    intro st hle
    unfold OWPParseRecords
    obtain ⟨thresh, postLost, post, hpl, hpo, heq⟩ := hproc a st
    rw [heq, iterCore_empty_range _ _ _ _ _ st hle]
    simp only []
    obtain ⟨m1, m2, m3, m4, m5, _⟩ := markOffset_fields st (view a).seq_no
    exact ih _ (by rw [m4, m5]; exact hle)

theorem parseIterate_no_crash (st8 : OWPStatsRec) (file : OWPFile)
    (h : st8.last ≤ st8.first ∨ ∃ b e, Inv st8 [] b e) :
    parseIterate st8 file ≠ Ret.crash := by
  unfold parseIterate
  cases htw : st8.hdr.twoway with
  | true =>
    simp only [if_true]
    rcases h with h | ⟨b, e, h⟩
    · exact OWPParseRecords_empty_no_crash IterateSummarizeTWSession (fun r => r.sent)
        hproc_TW file.twdatarecs st8 h
    · exact OWPParseRecords_no_crash IterateSummarizeTWSession (fun r => r.sent)
        hproc_TW file.twdatarecs st8 [] b e h
  | false =>
    simp only [Bool.false_eq_true, if_false]
    rcases h with h | ⟨b, e, h⟩
    · exact OWPParseRecords_empty_no_crash IterateSummarizeSession (fun r => r)
        hproc_OW file.datarecs st8 h
    · exact OWPParseRecords_no_crash IterateSummarizeSession (fun r => r)
        hproc_OW file.datarecs st8 [] b e h

/-- The parse crashes only in its initialisation: once `PacketAlloc` has
returned the node of `first`, the parse returns, with success or with the error
indicator, and no loop of the model runs out of fuel. -/
theorem parse_no_crash (st0 : OWPStatsRec) (file : OWPFile) (bo first last0 : Nat)
    (hinit : parseInit st0 bo first (parseLast st0 last0) ≠ none) :
    OWPStatsParse st0 file bo first last0 ≠ Ret.crash := by
  unfold OWPStatsParse
  simp only []
  by_cases hv : first > parseLast st0 last0 ∨ parseLast st0 last0 > st0.hdr.test_spec.npackets
  · simp only [hv, if_true]
    simp
  · simp only [hv, if_false]
    cases hi : parseInit st0 bo first (parseLast st0 last0) with
    | none => exact absurd hi hinit
    | some st8 =>
      simp only []
      obtain ⟨⟨T, h1⟩, h2, h3, h4, h5, _⟩ :=
        parseInit_spec st0 bo first (parseLast st0 last0) st8 hi
      show (match parseIterate st8 file with
        | Ret.crash => Ret.crash
        | Ret.fatal st9 => Ret.fatal st9
        | Ret.ok st9 =>
          match drainLoop (st9.last + 2) st9 with
          | none => Ret.crash
          | some st10 =>
            Ret.ok { st10 with bsort := qsort BucketBufferSortCmp st10.btable }) ≠ Ret.crash
      rcases Nat.lt_or_ge first (parseLast st0 last0) with hlt | hge
      · have hinv8 := parseInit_inv st0 bo first (parseLast st0 last0) st8 hi hlt
        cases hit : parseIterate st8 file with
        | crash => exact absurd hit (parseIterate_no_crash st8 file (Or.inr ⟨_, _, hinv8⟩))
        | fatal s => simp
        | ok st9 =>
          simp only []
          obtain ⟨b1, e1, hinv9, _⟩ := parseIterate_inv st8 file first first hinv8 st9 hit
          cases hd : drainLoop (st9.last + 2) st9 with
          | none =>
            exact absurd hd (drainLoop_no_crash _ (st9.last + 1) st9 b1 e1 hinv9 (by omega))
          | some st10 => simp
      · have hle : st8.last ≤ st8.first := by rw [h4, h5]; exact hge
        cases hit : parseIterate st8 file with
        | crash => exact absurd hit (parseIterate_no_crash st8 file (Or.inl hle))
        | fatal s => simp
        | ok st9 =>
          simp only []
          have hm := parseIterate_empty_range st8 file hle st9 hit
          have m1 : st9.pnodes = st8.pnodes := by
            have := congrArg OWPStatsRec.pnodes hm; exact this
          have m2 : st9.last = st8.last := by have := congrArg OWPStatsRec.last hm; exact this
          have hd : drainLoop (st9.last + 2) st9 ≠ none := by
            unfold drainLoop
            rw [m1, h1]
            simp only []
            rw [PacketBeginFlush_single st9 (OWPPacketRec.mk first T 0 false) (by rw [m1, h1])]
            have hlast : ¬ (first + 1 < st9.last) := by
              rw [m2, h5]
              omega
            simp only [hlast, if_false]
            simp
          cases hd2 : drainLoop (st9.last + 2) st9 with
          | none => exact absurd hd2 hd
          | some st10 => simp

theorem parsePosition_pend (st0 : OWPStatsRec) (bo first last : Nat) :
    (parsePosition (parseSchedReset (parseArgs st0 bo first last) first) first).pend =
      match st0.pend with
      | none => none
      | some _ => some 0 := by
  obtain ⟨s1, s2, s3, s4⟩ := schedAdvance_spec
    (first + 1 - (parseSchedReset (parseArgs st0 bo first last) first).isctx)
    (parseSchedReset (parseArgs st0 bo first last) first)
  have hr : (parseSchedReset (parseArgs st0 bo first last) first).pend = st0.pend := by
    unfold parseSchedReset
    split_ifs <;> rfl
  show (match (schedAdvance _ _).pend with
    | none => none
    | some _ => some 0) = _
  rw [s4, hr]

/-- The initialisation of a parse fails, and the C code dereferences the NULL
that `PacketAlloc` returned, exactly when the object has been parsed before
(`pend` is set) and `first` is 0. -/
theorem parseInit_none_iff (st0 : OWPStatsRec) (bo first last : Nat) (hle : first ≤ last) :
    parseInit st0 bo first last = none ↔ (st0.pend ≠ none ∧ first = 0) := by
  obtain ⟨_, _, _, p4, _⟩ := parsePosition_spec st0 bo first last
  have hp := parsePosition_pend st0 bo first last
  unfold parseInit
  simp only []
  unfold PacketAlloc
  simp only []
  rw [hp, p4]
  cases hpe : st0.pend with
  | none =>
    simp only []
    have : ¬ (first > last ∨ false = true) := by simp; omega
    simp only [this, if_false]
    simp
  | some pe =>
    simp only []
    by_cases h0 : first = 0
    · subst h0
      simp
    · have : ¬ (first > last ∨ decide (first ≤ 0) = true) := by
        simp only [decide_eq_true_eq]
        omega
      simp only [this, if_false]
      simp [h0]

/-- The parse crashes exactly when the range check passes and the object has
been parsed before with `first = 0` now: no loop of the model runs out of fuel,
and in every other case the parse returns with success or with the error
indicator. -/
theorem parse_crash_iff (st0 : OWPStatsRec) (file : OWPFile) (bo first last0 : Nat) :
    OWPStatsParse st0 file bo first last0 = Ret.crash ↔
      (first ≤ parseLast st0 last0 ∧ parseLast st0 last0 ≤ st0.hdr.test_spec.npackets ∧
       st0.pend ≠ none ∧ first = 0) := by
  constructor
  · intro h
    have hr : ¬ (first > parseLast st0 last0 ∨
        parseLast st0 last0 > st0.hdr.test_spec.npackets) := by
      intro hv
      unfold OWPStatsParse at h
      simp only [hv, if_true] at h
      cases h
    have hle : first ≤ parseLast st0 last0 := by omega
    have hinit : parseInit st0 bo first (parseLast st0 last0) = none := by
      by_contra hc
      exact parse_no_crash st0 file bo first last0 hc h
    obtain ⟨h1, h2⟩ := (parseInit_none_iff st0 bo first _ hle).1 hinit
    exact ⟨hle, by omega, h1, h2⟩
  · rintro ⟨h1, h2, h3, h4⟩
    have hinit := (parseInit_none_iff st0 bo first _ h1).2 ⟨h3, h4⟩
    have hr : ¬ (first > parseLast st0 last0 ∨
        parseLast st0 last0 > st0.hdr.test_spec.npackets) := by omega
    unfold OWPStatsParse
    simp only [hr, if_false, hinit]

theorem scenarioStats_created (skips : List OWPSkipRec) :
    OWPStatsCreate scenarioHdr skips scenarioSched 'm' (1 / 10000) 1 =
      some (scenarioStats skips) := by
  have hc : 'm'.toLower = 'm' := by decide
  have h1 : ¬ ('m' = 'n') := by decide
  have h2 : ¬ ('m' = 'u') := by decide
  norm_num [OWPStatsCreate, OWPStatsScaleFactor, scenarioHdr, scenarioStats, OWPNum64ToDouble,
    oneSecond, OWPScheduleContextReset, scenarioSched, hc, h1, h2]

theorem Ret_ok_of_isOk (r : Ret) (h : r.isOk = true) : ∃ st, r = Ret.ok st := by
  cases r with
  | ok st => exact ⟨st, rfl⟩
  | fatal s => cases h
  | crash => cases h

theorem sentSum_split (skips : List OWPSkipRec) (recs : List OWPDataRec) (first last : Nat) :
    sentSum skips recs first last =
      recvSum skips recs first last + lossRecSum skips recs first last := by
  unfold sentSum recvSum lossRecSum
  rw [Finset.sum_add_distrib]

theorem inSkip_nil (s : Nat) : inSkip [] s = false := rfl

theorem eff_dropSkipped (skips : List OWPSkipRec) (recs : List OWPDataRec) (s : Nat) :
    effRecv skips recs s = effRecv [] (dropSkipped skips recs) s ∧
    effLoss skips recs s = effLoss [] (dropSkipped skips recs) s := by
  unfold effRecv effLoss recvCount lossCount dropSkipped
  simp only [inSkip_nil, Bool.false_eq_true, if_false]
  rw [List.countP_filter, List.countP_filter]
  cases hs : inSkip skips s with
  | true =>
    simp only [if_true]
    constructor <;>
    · symm
      rw [List.countP_eq_zero]
      intro r _
      by_cases hr : r.seq_no = s
      · subst hr; simp [hs]
      · simp [hr]
  | false =>
    simp only [Bool.false_eq_true, if_false]
    constructor <;>
    · apply List.countP_congr
      intro r _
      by_cases hr : r.seq_no = s
      · subst hr; simp [hs]
      · simp [hr]

theorem sums_dropSkipped (skips : List OWPSkipRec) (recs : List OWPDataRec) (first last : Nat) :
    sentSum skips recs first last = sentSum [] (dropSkipped skips recs) first last ∧
    lostSum skips recs first last = lostSum [] (dropSkipped skips recs) first last ∧
    dupsSum skips recs first last = dupsSum [] (dropSkipped skips recs) first last := by
  unfold sentSum lostSum dupsSum
  refine ⟨?_, ?_, ?_⟩ <;>
  · apply Finset.sum_congr rfl
    intro s _
    simp only [(eff_dropSkipped skips recs s).1, (eff_dropSkipped skips recs s).2]

/-- Claim C1, at the failing input: one packet (`first = 0`, `last = 1`) whose
loss record occurs twice in the stream.  The parse succeeds and leaves
`sent = 2`, while exactly one sequence number was observed. -/
theorem C1_sent_counts_repeated_loss_record_twice :
    (OWPStatsParse (scenarioStats []) { datarecs := [lossRecord 0, lossRecord 0] } 0 0 1).read
        (fun st => (st.sent, st.lost)) = some (2, 1) ∧
    observedSum [] [lossRecord 0, lossRecord 0] 0 1 = 1 := by
  decide!

/-- Claim C2, at the failing input: scenario S2 with the loss record of packet 2
repeated.  `lost` is 1, the one sequence number that carries a loss record, but
that sequence number added 2 to `sent` (6 for five packets). -/
theorem C2_repeated_loss_record_adds_two_to_sent :
    (OWPStatsParse (scenarioStats [])
        { datarecs := [received 0 42949672, received 1 85899345, lossRecord 2, lossRecord 2,
            received 3 107374182, received 4 128849018] } 0 0 5).read
        (fun st => (st.sent, st.lost, st.dups)) = some (6, 1, 0) ∧
    lostSum [] [received 0 42949672, received 1 85899345, lossRecord 2, lossRecord 2,
            received 3 107374182, received 4 128849018] 0 5 = 1 := by
  decide!

/-- Claim C3: after a successful parse, `dups` is the sum over the non-skipped
sequence numbers of `[first,last)` received `k >= 1` times of `k - 1`; each
received sequence number adds exactly 1 to `sent` (the rest of `sent` are the
loss records) and exactly one sample to the delay histogram. -/
theorem C3_dups_sum_of_extra_copies (st0 : OWPStatsRec) (file : OWPFile)
    (bo first last0 : Nat) (st : OWPStatsRec)
    (h : OWPStatsParse st0 file bo first last0 = Ret.ok st) :
    st.dups = dupsSum st0.skips (streamOf st0.hdr file) first (parseLast st0 last0) ∧
    st.sent = recvSum st0.skips (streamOf st0.hdr file) first (parseLast st0 last0) +
      lossRecSum st0.skips (streamOf st0.hdr file) first (parseLast st0 last0) ∧
    btotal st = recvSum st0.skips (streamOf st0.hdr file) first (parseLast st0 last0) := by
  obtain ⟨h1, _, h3, h4⟩ := parse_counts st0 file bo first last0 st h
  exact ⟨h3, by rw [h1, sentSum_split], h4⟩

theorem read_eq_of_ok {α : Type} (r : Ret) (f : OWPStatsRec → α) (st : OWPStatsRec)
    (h : r = Ret.ok st) : r.read f = some (f st) := by
  subst h; rfl

theorem parse_bsort (st0 : OWPStatsRec) (file : OWPFile) (bo first last0 : Nat)
    (st : OWPStatsRec) (h : OWPStatsParse st0 file bo first last0 = Ret.ok st) :
    st.bsort = qsort BucketBufferSortCmp st.btable := by
  obtain ⟨_, _, st8, st9, st10, _, _, _, hst⟩ := parse_shape st0 file bo first last0 st h
  subst hst
  rfl

/-- Claim C3, witness S3: packet 3 received twice gives `sent = 5`, `lost = 0`,
`dups = 1`, and the histogram holds 5 samples (packet 3 once). -/
theorem C3_witness_S3 :
    (OWPStatsParse (scenarioStats []) { datarecs := scenarioS3 } 0 0 5).isOk = true ∧
    (OWPStatsParse (scenarioStats []) { datarecs := scenarioS3 } 0 0 5).read
      (fun st => (st.dups, st.sent, btotal st)) = some (1, 5, 5) := by
  have hok : (OWPStatsParse (scenarioStats []) { datarecs := scenarioS3 } 0 0 5).isOk = true := by
    decide!
  obtain ⟨st, h⟩ := Ret_ok_of_isOk _ hok
  obtain ⟨h1, h2, h3⟩ := C3_dups_sum_of_extra_copies _ _ _ _ _ st h
  refine ⟨hok, ?_⟩
  rw [read_eq_of_ok _ _ st h, h1, h2, h3]
  decide!

/-- Claim C4: after a successful parse, `sent`, `lost` and `dups` are the
tallies of the stream from which every record of a skipped sequence number has
been removed: a sequence number inside a skip range contributes nothing,
whatever records the stream holds for it. -/
theorem C4_skipped_contribute_nothing (st0 : OWPStatsRec) (file : OWPFile)
    (bo first last0 : Nat) (st : OWPStatsRec)
    (h : OWPStatsParse st0 file bo first last0 = Ret.ok st) :
    st.sent = sentSum [] (dropSkipped st0.skips (streamOf st0.hdr file)) first
      (parseLast st0 last0) ∧
    st.lost = lostSum [] (dropSkipped st0.skips (streamOf st0.hdr file)) first
      (parseLast st0 last0) ∧
    st.dups = dupsSum [] (dropSkipped st0.skips (streamOf st0.hdr file)) first
      (parseLast st0 last0) := by
  obtain ⟨h1, h2, h3, _⟩ := parse_counts st0 file bo first last0 st h
  obtain ⟨s1, s2, s3⟩ := sums_dropSkipped st0.skips (streamOf st0.hdr file) first
    (parseLast st0 last0)
  exact ⟨by rw [h1, s1], by rw [h2, s2], by rw [h3, s3]⟩

/-- Claim C4, witness S5: skip `[2,2]` and packet 2 is a loss record, the other
four received: `sent = 4`, `lost = 0`, `dups = 0`. -/
theorem C4_witness_S5 :
    (OWPStatsParse (scenarioStats scenarioS5Skips) { datarecs := scenarioS2 } 0 0 5).isOk
      = true ∧
    (OWPStatsParse (scenarioStats scenarioS5Skips) { datarecs := scenarioS2 } 0 0 5).read
      (fun st => (st.sent, st.lost, st.dups)) = some (4, 0, 0) := by
  have hok : (OWPStatsParse (scenarioStats scenarioS5Skips)
      { datarecs := scenarioS2 } 0 0 5).isOk = true := by
    decide!
  obtain ⟨st, h⟩ := Ret_ok_of_isOk _ hok
  obtain ⟨h1, h2, h3⟩ := C4_skipped_contribute_nothing _ _ _ _ _ st h
  refine ⟨hok, ?_⟩
  rw [read_eq_of_ok _ _ st h, h1, h2, h3]
  decide!

theorem minDelayOver_spec (recs : List OWPDataRec) : ∀ (m0 : ℚ),
    minDelayOver m0 recs ≤ m0 ∧
    (∀ r ∈ recs, minDelayOver m0 recs ≤ OWPDelay r.send r.recv) ∧
    (minDelayOver m0 recs = m0 ∨
      ∃ r ∈ recs, minDelayOver m0 recs = OWPDelay r.send r.recv) := by
  induction recs with
  | nil =>
    intro m0
    simp [minDelayOver]
  | cons a rest ih =>
    intro m0
    have hstep : minDelayOver m0 (a :: rest) =
        minDelayOver (min m0 (OWPDelay a.send a.recv)) rest := rfl
    obtain ⟨i1, i2, i3⟩ := ih (min m0 (OWPDelay a.send a.recv))
    rw [hstep]
    refine ⟨le_trans i1 (min_le_left _ _), ?_, ?_⟩
    · intro r hr
      rcases List.mem_cons.1 hr with hr | hr
      · subst hr
        exact le_trans i1 (min_le_right _ _)
      · exact i2 r hr
    · rcases i3 with i3 | ⟨r, hr, i3⟩
      · rcases min_choice m0 (OWPDelay a.send a.recv) with hc | hc
        · exact Or.inl (by rw [i3, hc])
        · exact Or.inr ⟨a, by simp, by rw [i3, hc]⟩
      · exact Or.inr ⟨r, List.mem_cons_of_mem _ hr, i3⟩

theorem maxDelayOver_spec (recs : List OWPDataRec) : ∀ (m0 : ℚ),
    m0 ≤ maxDelayOver m0 recs ∧
    (∀ r ∈ recs, OWPDelay r.send r.recv ≤ maxDelayOver m0 recs) ∧
    (maxDelayOver m0 recs = m0 ∨
      ∃ r ∈ recs, maxDelayOver m0 recs = OWPDelay r.send r.recv) := by
  induction recs with
  | nil =>
    intro m0
    simp [maxDelayOver]
  | cons a rest ih =>
    intro m0
    have hstep : maxDelayOver m0 (a :: rest) =
        maxDelayOver (max m0 (OWPDelay a.send a.recv)) rest := rfl
    obtain ⟨i1, i2, i3⟩ := ih (max m0 (OWPDelay a.send a.recv))
    rw [hstep]
    refine ⟨le_trans (le_max_left _ _) i1, ?_, ?_⟩
    · intro r hr
      rcases List.mem_cons.1 hr with hr | hr
      · subst hr
        exact le_trans (le_max_right _ _) i1
      · exact i2 r hr
    · rcases i3 with i3 | ⟨r, hr, i3⟩
      · rcases max_choice m0 (OWPDelay a.send a.recv) with hc | hc
        · exact Or.inl (by rw [i3, hc])
        · exact Or.inr ⟨a, by simp, by rw [i3, hc]⟩
      · exact Or.inr ⟨r, List.mem_cons_of_mem _ hr, i3⟩

/-- Claim C5: when there are no skip ranges, every sequence number of
`[first,last)` occurs exactly once in the stream, as a received record, the
in-range records come in increasing sequence order, and the parse succeeds, then
`sent = last - first`, `lost = 0`, `dups = 0` and every reordering counter
`rn[i]` is zero (the array `rn` is `rlistlen` zeros). -/
theorem C5_in_order_complete_session (st0 : OWPStatsRec) (file : OWPFile)
    (bo first last0 : Nat) (st : OWPStatsRec)
    (h : OWPStatsParse st0 file bo first last0 = Ret.ok st)
    (hsk : st0.skips = [])
    (honce : ∀ s, first ≤ s → s < parseLast st0 last0 →
      recvCount (streamOf st0.hdr file) s = 1 ∧ lossCount (streamOf st0.hdr file) s = 0)
    (hord : SortedInRange first (parseLast st0 last0) (streamOf st0.hdr file)) :
    st.sent = parseLast st0 last0 - first ∧ st.lost = 0 ∧ st.dups = 0 ∧
    st.rn = List.replicate st0.rlistlen 0 ∧ (∀ i, st.rn.getD i 0 = 0) := by
  obtain ⟨h1, h2, h3, _⟩ := parse_counts st0 file bo first last0 st h
  have hrn := parse_rn st0 file bo first last0 st h hord
  rw [hsk] at h1 h2 h3
  have hr : ∀ s ∈ Finset.Ico first (parseLast st0 last0),
      effRecv [] (streamOf st0.hdr file) s = 1 ∧ effLoss [] (streamOf st0.hdr file) s = 0 := by
    intro s hs
    rw [Finset.mem_Ico] at hs
    unfold effRecv effLoss
    simp only [inSkip_nil, Bool.false_eq_true, if_false]
    exact honce s hs.1 hs.2
  refine ⟨?_, ?_, ?_, hrn, ?_⟩
  · rw [h1]
    unfold sentSum
    rw [Finset.sum_congr rfl (fun s hs => by rw [(hr s hs).1, (hr s hs).2])]
    simp
  · rw [h2]
    unfold lostSum
    rw [Finset.sum_congr rfl (fun s hs => by rw [(hr s hs).2])]
    simp
  · rw [h3]
    unfold dupsSum
    rw [Finset.sum_congr rfl (fun s hs => by rw [(hr s hs).1])]
    simp
  · intro i
    rw [hrn, List.getD_eq_getElem?_getD]
    cases hg : (List.replicate st0.rlistlen 0)[i]? with
    | none => rfl
    | some x =>
      simp only [Option.getD_some]
      exact List.eq_of_mem_replicate (List.getElem?_mem hg)

/-- Claim C5, witness S1: five packets received in order with delays 0.010,
0.020, 0.015, 0.025 and 0.030 s give `sent = 5`, `lost = 0`, `dups = 0` and ten
zero reordering counters. -/
theorem C5_witness_S1 :
    (OWPStatsParse (scenarioStats []) { datarecs := scenarioS1 } 0 0 5).isOk = true ∧
    (OWPStatsParse (scenarioStats []) { datarecs := scenarioS1 } 0 0 5).read
      (fun st => (st.sent, st.lost, st.dups, st.rn)) = some (5, 0, 0, List.replicate 10 0) := by
  have hok : (OWPStatsParse (scenarioStats []) { datarecs := scenarioS1 } 0 0 5).isOk = true := by
    decide!
  obtain ⟨st, h⟩ := Ret_ok_of_isOk _ hok
  obtain ⟨h1, h2, h3, h4, _⟩ := C5_in_order_complete_session _ _ _ _ _ st h rfl
    (by
      intro s hs1 hs2
      have hs3 : s < 5 := hs2
      interval_cases s <;> decide)
    (by
      unfold SortedInRange
      decide)
  refine ⟨hok, ?_⟩
  rw [read_eq_of_ok _ _ st h, h1, h2, h3, h4]
  rfl

/-- Claim C6, counterexample: the parse of `[0,1)` succeeds on one received,
non-skipped record whose delay is 5 s; `max_delay` is 5 s but `min_delay` is
left at `inf_delay = 2 + 2^-32` s, not at the minimum of the delays. -/
theorem C6_counterexample_delay_above_inf_delay :
    (OWPStatsParse (scenarioStats []) { datarecs := [earlySendRecord] } 0 0 1).read
      (fun st => (st.sent, st.min_delay, st.max_delay, st.inf_delay)) =
      some (1, 8589934593 / 4294967296, 5, 8589934593 / 4294967296) ∧
    contrib [] 0 1 [earlySendRecord] = [earlySendRecord] ∧
    OWPDelay earlySendRecord.send earlySendRecord.recv = 5 := by
  refine ⟨?_, ?_, ?_⟩
  · decide!
  · rfl
  · decide!

/-- Claim C6, amended: after a successful one-way parse `min_delay` is the
running minimum started at `inf_delay`, and `max_delay` the running maximum
started at `-inf_delay`, of `d = recv - send` over the received, non-skipped,
in-range records, duplicates included.  So `min_delay` is the least delay when
some delay is at most `inf_delay`, `max_delay` the greatest delay when some
delay is at least `-inf_delay`, and with no such record they stay at
`inf_delay` and `-inf_delay`. -/
theorem C6_min_max_delay_clamped (st0 : OWPStatsRec) (file : OWPFile)
    (bo first last0 : Nat) (st : OWPStatsRec)
    (h : OWPStatsParse st0 file bo first last0 = Ret.ok st)
    (htw : st0.hdr.twoway = false) :
    st.min_delay = minDelayOver (infDelay st0.hdr)
      (contrib st0.skips first (parseLast st0 last0) file.datarecs) ∧
    st.max_delay = maxDelayOver (- infDelay st0.hdr)
      (contrib st0.skips first (parseLast st0 last0) file.datarecs) ∧
    ((∃ r ∈ contrib st0.skips first (parseLast st0 last0) file.datarecs,
        OWPDelay r.send r.recv ≤ infDelay st0.hdr) →
      (∀ r ∈ contrib st0.skips first (parseLast st0 last0) file.datarecs,
        st.min_delay ≤ OWPDelay r.send r.recv) ∧
      ∃ r ∈ contrib st0.skips first (parseLast st0 last0) file.datarecs,
        st.min_delay = OWPDelay r.send r.recv) ∧
    ((∃ r ∈ contrib st0.skips first (parseLast st0 last0) file.datarecs,
        - infDelay st0.hdr ≤ OWPDelay r.send r.recv) →
      (∀ r ∈ contrib st0.skips first (parseLast st0 last0) file.datarecs,
        OWPDelay r.send r.recv ≤ st.max_delay) ∧
      ∃ r ∈ contrib st0.skips first (parseLast st0 last0) file.datarecs,
        st.max_delay = OWPDelay r.send r.recv) ∧
    ((∀ r ∈ contrib st0.skips first (parseLast st0 last0) file.datarecs,
        infDelay st0.hdr < OWPDelay r.send r.recv) → st.min_delay = infDelay st0.hdr) ∧
    ((∀ r ∈ contrib st0.skips first (parseLast st0 last0) file.datarecs,
        OWPDelay r.send r.recv < - infDelay st0.hdr) → st.max_delay = - infDelay st0.hdr) := by
  obtain ⟨hmin, hmax⟩ := parse_minmax st0 file bo first last0 st h htw
  obtain ⟨a1, a2, a3⟩ := minDelayOver_spec
    (contrib st0.skips first (parseLast st0 last0) file.datarecs) (infDelay st0.hdr)
  obtain ⟨b1, b2, b3⟩ := maxDelayOver_spec
    (contrib st0.skips first (parseLast st0 last0) file.datarecs) (- infDelay st0.hdr)
  rw [← hmin] at a1 a2 a3
  rw [← hmax] at b1 b2 b3
  refine ⟨hmin, hmax, ?_, ?_, ?_, ?_⟩
  · rintro ⟨r, hr, hd⟩
    refine ⟨a2, ?_⟩
    rcases a3 with a3 | a3
    · exact ⟨r, hr, le_antisymm (a2 r hr) (by rw [a3]; exact hd)⟩
    · exact a3
  · rintro ⟨r, hr, hd⟩
    refine ⟨b2, ?_⟩
    rcases b3 with b3 | b3
    · exact ⟨r, hr, le_antisymm (by rw [b3]; exact hd) (b2 r hr)⟩
    · exact b3
  · intro hall
    rcases a3 with a3 | ⟨r, hr, a3⟩
    · exact a3
    · exact absurd a1 (not_le.2 (by rw [a3]; exact hall r hr))
  · intro hall
    rcases b3 with b3 | ⟨r, hr, b3⟩
    · exact b3
    · exact absurd b1 (not_le.2 (by rw [b3]; exact hall r hr))

/-- Claim C6, witness S1: the five delays 0.010, 0.020, 0.015, 0.025 and
0.030 s (in units of 2^-32 s) give `min_delay = 42949672 / 2^32` and
`max_delay = 128849018 / 2^32`. -/
theorem C6_witness_S1 :
    (OWPStatsParse (scenarioStats []) { datarecs := scenarioS1 } 0 0 5).isOk = true ∧
    (OWPStatsParse (scenarioStats []) { datarecs := scenarioS1 } 0 0 5).read
      (fun st => (st.min_delay, st.max_delay)) =
      some (42949672 / 4294967296, 128849018 / 4294967296) := by
  have hok : (OWPStatsParse (scenarioStats []) { datarecs := scenarioS1 } 0 0 5).isOk = true := by
    decide!
  obtain ⟨st, h⟩ := Ret_ok_of_isOk _ hok
  obtain ⟨h1, h2, _⟩ := C6_min_max_delay_clamped _ _ _ _ _ st h rfl
  refine ⟨hok, ?_⟩
  rw [read_eq_of_ok _ _ st h, h1, h2]
  decide!

theorem bucketCount_bump (b b' : Int) (tbl : List OWPBucketRec) :
    bucketCount (bucketBump b tbl) b' = bucketCount tbl b' + (if b' = b then 1 else 0) := by
  induction tbl with
  | nil =>
    by_cases hb : b' = b
    · subst hb
      simp [bucketBump, bucketCount]
    · have hb2 : ¬ (b = b') := fun hh => hb hh.symm
      simp [bucketBump, bucketCount, hb, hb2]
  | cons x rest ih =>
    unfold bucketBump
    by_cases hx : x.b = b
    · simp only [hx, if_true]
      obtain ⟨xb, xn⟩ := x
      simp only at hx
      subst hx
      by_cases hb : b' = xb
      · subst hb
        simp only [bucketCount, List.filter_cons, decide_True, if_true, List.map_cons,
          List.sum_cons]
        omega
      · have hb2 : ¬ (xb = b') := fun hh => hb hh.symm
        simp only [bucketCount, List.filter_cons, hb2, decide_False, Bool.false_eq_true,
          if_false, hb, Nat.add_zero]
    · simp only [hx, if_false]
      unfold bucketCount at ih ⊢
      by_cases hxb : x.b = b'
      · simp only [List.filter_cons, hxb, decide_True, if_true, List.map_cons, List.sum_cons]
        rw [ih]
        omega
      · simp only [List.filter_cons, hxb, decide_False, Bool.false_eq_true, if_false]
        exact ih

theorem bucketBump_absent (b : Int) (tbl : List OWPBucketRec) (h : ∀ x ∈ tbl, x.b ≠ b) :
    bucketBump b tbl = tbl ++ [OWPBucketRec.mk b 1] := by
  induction tbl with
  | nil => rfl
  | cons x rest ih =>
    unfold bucketBump
    have hx : ¬ (x.b = b) := h x (by simp)
    simp only [hx, if_false, List.cons_append]
    rw [ih (fun y hy => h y (List.mem_cons_of_mem _ hy))]

/-- Claim C7, amended: for a bucket width `w > 0`, `BucketIncrementDelay`
files the delay `d` under the bucket computed from the double quotient
`q = d / w` (the exact quotient rounded to the nearest double).  While
`|d/w| <= 2^31 - 1` the index fits the `int` it is stored in: it is `ceil(q)`
when `q >= 0` and `floor(q)` when `q < 0`; against the exact quotient it is
`ceil(d/w)` or the integer below it when `d >= 0`, `floor(d/w)` or the integer
above it when `d < 0`; and when the division is exact it is `ceil(d/w)`
resp. `floor(d/w)`, so that `|d| <= |b*w|`.  In every case `d = 0` goes to
`b = 0`, the count of the bucket goes up by exactly 1, the count of every
other bucket stays, a bucket that was absent is added with the count 1, and
nothing but the histogram changes. -/
theorem C7_bucket_index_and_increment (st : OWPStatsRec) (d : ℚ) (hw : 0 < st.bucketwidth) :
    (|d / st.bucketwidth| ≤ 2 ^ 31 - 1 →
      bucketIndex st.bucketwidth d =
        (if roundDouble (d / st.bucketwidth) < 0 then ⌊roundDouble (d / st.bucketwidth)⌋
         else ⌈roundDouble (d / st.bucketwidth)⌉) ∧
      (0 ≤ d → bucketIndex st.bucketwidth d = ⌈d / st.bucketwidth⌉ ∨
        bucketIndex st.bucketwidth d = ⌈d / st.bucketwidth⌉ - 1) ∧
      (d < 0 → bucketIndex st.bucketwidth d = ⌊d / st.bucketwidth⌋ ∨
        bucketIndex st.bucketwidth d = ⌊d / st.bucketwidth⌋ + 1) ∧
      (roundDouble (d / st.bucketwidth) = d / st.bucketwidth →
        (0 ≤ d → bucketIndex st.bucketwidth d = ⌈d / st.bucketwidth⌉) ∧
        (d < 0 → bucketIndex st.bucketwidth d = ⌊d / st.bucketwidth⌋) ∧
        |d| ≤ |(bucketIndex st.bucketwidth d : ℚ) * st.bucketwidth|)) ∧
    (d = 0 → bucketIndex st.bucketwidth d = 0) ∧
    (BucketIncrementDelay st d).btable = bucketBump (bucketIndex st.bucketwidth d) st.btable ∧
    bucketCount (BucketIncrementDelay st d).btable (bucketIndex st.bucketwidth d) =
      bucketCount st.btable (bucketIndex st.bucketwidth d) + 1 ∧
    (∀ b, b ≠ bucketIndex st.bucketwidth d →
      bucketCount (BucketIncrementDelay st d).btable b = bucketCount st.btable b) ∧
    ((∀ x ∈ st.btable, x.b ≠ bucketIndex st.bucketwidth d) →
      (BucketIncrementDelay st d).btable =
        st.btable ++ [OWPBucketRec.mk (bucketIndex st.bucketwidth d) 1]) ∧
    { BucketIncrementDelay st d with btable := st.btable } = st := by
  refine ⟨?_, ?_, rfl, ?_, ?_, ?_, rfl⟩
  · intro hr
    obtain ⟨e0, e1, e2, e3⟩ := bucketIndex_spec st.bucketwidth d hw hr
    refine ⟨e0, e1, e2, ?_⟩
    intro hex
    obtain ⟨hpos, hneg⟩ := e3 hex
    refine ⟨hpos, hneg, ?_⟩
    rw [abs_mul, abs_of_pos hw]
    rcases le_or_lt 0 d with hd | hd
    · rw [hpos hd, abs_of_nonneg hd]
      have h1 : d / st.bucketwidth ≤ (⌈d / st.bucketwidth⌉ : ℚ) := Int.le_ceil _
      have h2 : (0 : ℚ) ≤ (⌈d / st.bucketwidth⌉ : ℚ) :=
        le_trans (div_nonneg hd (le_of_lt hw)) h1
      rw [abs_of_nonneg h2]
      exact (div_le_iff₀ hw).1 h1
    · rw [hneg hd, abs_of_neg hd]
      have h1 : (⌊d / st.bucketwidth⌋ : ℚ) ≤ d / st.bucketwidth := Int.floor_le _
      have h2 : (⌊d / st.bucketwidth⌋ : ℚ) < 0 :=
        lt_of_le_of_lt h1 (div_neg_of_neg_of_pos hd hw)
      rw [abs_of_neg h2]
      have h3 := (le_div_iff₀ hw).1 h1
      linarith
  · intro hd
    rw [hd]
    exact bucketIndex_zero _
  · show bucketCount (bucketBump _ st.btable) _ = _
    rw [bucketCount_bump]
    simp
  · intro b hb
    show bucketCount (bucketBump _ st.btable) _ = _
    rw [bucketCount_bump]
    simp [hb]
  · intro habs
    exact bucketBump_absent _ _ habs

/-- Claim C7, counterexample.  (a) With the bucket width `2^-30` s a delay of
2 s has the quotient `2^31 = 2147483648`, one more than the largest `int`: the
delay is not filed under `ceil(d/w)` but under `-2147483648` (the value of the
32-bit wrap, which is also what the conversion instruction of x86 yields; C
leaves the converted value open, but it is an `int`).  (b) With the bucket width
`6004799506888931 * 2^-56` s (a double close to 1/12) the delay
`0.75 + 2^-31` s has the exact quotient `9 + 5 / 6004799506888931`, which the
double division rounds to 9: the delay is filed under bucket 9, not under
`ceil(d/w) = 10`, and `|9 * w| < |d|`. -/
theorem C7_counterexample_index_of_double_quotient :
    ((0 : ℚ) < fineStats.bucketwidth ∧
      ⌈(2 : ℚ) / fineStats.bucketwidth⌉ = 2147483648 ∧
      bucketIndex fineStats.bucketwidth 2 = -2147483648 ∧
      (BucketIncrementDelay fineStats 2).btable = [OWPBucketRec.mk (-2147483648) 1]) ∧
    ((0 : ℚ) < twelfthStats.bucketwidth ∧
      lateDelay / twelfthStats.bucketwidth = 9 + 5 / 6004799506888931 ∧
      ⌈lateDelay / twelfthStats.bucketwidth⌉ = 10 ∧
      roundDouble (lateDelay / twelfthStats.bucketwidth) = 9 ∧
      bucketIndex twelfthStats.bucketwidth lateDelay = 9 ∧
      (BucketIncrementDelay twelfthStats lateDelay).btable = [OWPBucketRec.mk 9 1] ∧
      |(9 : ℚ) * twelfthStats.bucketwidth| < |lateDelay|) := by
  refine ⟨⟨?_, ?_, ?_, ?_⟩, ⟨?_, ?_, ?_, ?_, ?_, ?_, ?_⟩⟩ <;> decide!

/-- Claim C7, witness: with the bucket width 0.0001 s of the scenario statistics
a delay of 0.01 s has the quotient 100, which is a double: it goes to bucket
100, which is new and gets the count 1. -/
theorem C7_witness :
    (0 : ℚ) < (scenarioStats []).bucketwidth ∧
    |(1 / 100 : ℚ) / (scenarioStats []).bucketwidth| ≤ 2 ^ 31 - 1 ∧
    roundDouble ((1 / 100 : ℚ) / (scenarioStats []).bucketwidth) =
      (1 / 100 : ℚ) / (scenarioStats []).bucketwidth ∧
    bucketIndex (scenarioStats []).bucketwidth (1 / 100) = 100 ∧
    (BucketIncrementDelay (scenarioStats []) (1 / 100)).btable = [OWPBucketRec.mk 100 1] := by
  have hw : (0 : ℚ) < (scenarioStats []).bucketwidth := by decide!
  have hr : |(1 / 100 : ℚ) / (scenarioStats []).bucketwidth| ≤ 2 ^ 31 - 1 := by decide!
  have hex : roundDouble ((1 / 100 : ℚ) / (scenarioStats []).bucketwidth) =
      (1 / 100 : ℚ) / (scenarioStats []).bucketwidth := by decide!
  obtain ⟨h1, _, _, _, _, h8, _⟩ :=
    C7_bucket_index_and_increment (scenarioStats []) (1 / 100) hw
  obtain ⟨_, _, _, h5⟩ := h1 hr
  have hb : bucketIndex (scenarioStats []).bucketwidth (1 / 100) = 100 := by
    rw [(h5 hex).1 (by norm_num)]
    norm_num [scenarioStats]
  refine ⟨hw, hr, hex, hb, ?_⟩
  rw [h8 (by intro x hx; cases hx), hb]
  rfl

/-- Claim C8: after a successful parse, the sum of `n` over all buckets of the
histogram (the hash `btable`, and likewise the sorted array `bsort`) is the
number of distinct non-skipped sequence numbers of `[first,last)` received at
least once. -/
theorem C8_bucket_total (st0 : OWPStatsRec) (file : OWPFile)
    (bo first last0 : Nat) (st : OWPStatsRec)
    (h : OWPStatsParse st0 file bo first last0 = Ret.ok st) :
    (st.btable.map (fun x => x.n)).sum =
      recvSum st0.skips (streamOf st0.hdr file) first (parseLast st0 last0) ∧
    (st.bsort.map (fun x => x.n)).sum =
      recvSum st0.skips (streamOf st0.hdr file) first (parseLast st0 last0) := by
  obtain ⟨_, _, _, h4⟩ := parse_counts st0 file bo first last0 st h
  refine ⟨h4, ?_⟩
  rw [parse_bsort st0 file bo first last0 st h, ← h4]
  unfold btotal qsort
  exact (List.Perm.map _ (List.perm_insertionSort _ _)).sum_eq

/-- Claim C8, witness: in scenario S2 (packet 2 is a loss record, the other four
received) the histogram, as hash and as sorted array, holds 4 samples. -/
theorem C8_witness :
    (OWPStatsParse (scenarioStats []) { datarecs := scenarioS2 } 0 0 5).isOk = true ∧
    (OWPStatsParse (scenarioStats []) { datarecs := scenarioS2 } 0 0 5).read
      (fun st => ((st.btable.map (fun x => x.n)).sum, (st.bsort.map (fun x => x.n)).sum))
      = some (4, 4) := by
  have hok : (OWPStatsParse (scenarioStats []) { datarecs := scenarioS2 } 0 0 5).isOk = true := by
    decide!
  obtain ⟨st, h⟩ := Ret_ok_of_isOk _ hok
  obtain ⟨h1, h2⟩ := C8_bucket_total _ _ _ _ _ st h
  refine ⟨hok, ?_⟩
  rw [read_eq_of_ok _ _ st h, h1, h2]
  decide!

theorem cumCount_cons (x : OWPBucketRec) (rest : List OWPBucketRec) (k : Nat) :
    cumCount (x :: rest) (k + 1) = x.n + cumCount rest k := by
  simp [cumCount]

theorem percentileLoop_none (target : ℚ) (l : List OWPBucketRec) : ∀ (sum : ℚ),
    percentileLoop target l sum = none →
    ∀ i, i < l.length → sum + cumCount l (i + 1) < target := by
  induction l with
  | nil =>
    intro sum _ i hi
    simp at hi
  | cons x rest ih =>
    intro sum h i hi
    unfold percentileLoop at h
    by_cases hc : (x.n : ℚ) + sum < target
    · simp only [hc, if_true] at h
      rw [cumCount_cons]
      cases i with
      | zero =>
        simp [cumCount]
        linarith
      | succ k =>
        have := ih (sum + x.n) h k (by simpa using hi)
        linarith
    · simp only [hc, if_false] at h
      cases h

theorem percentileLoop_some (target : ℚ) (l : List OWPBucketRec) : ∀ (sum : ℚ)
    (x : OWPBucketRec), percentileLoop target l sum = some x →
    ∃ i, l[i]? = some x ∧ target ≤ sum + cumCount l (i + 1) ∧
      ∀ j, j < i → sum + cumCount l (j + 1) < target := by
  induction l with
  | nil =>
    intro sum x h
    cases h
  | cons y rest ih =>
    intro sum x h
    unfold percentileLoop at h
    by_cases hc : (y.n : ℚ) + sum < target
    · simp only [hc, if_true] at h
      obtain ⟨i, h1, h2, h3⟩ := ih (sum + y.n) x h
      refine ⟨i + 1, by simpa using h1, ?_, ?_⟩
      · rw [cumCount_cons]
        linarith
      · intro j hj
        rw [cumCount_cons]
        cases j with
        | zero =>
          simp [cumCount]
          linarith
        | succ k =>
          have := h3 k (by omega)
          linarith
    · simp only [hc, if_false] at h
      cases h
      refine ⟨0, by simp, ?_, ?_⟩
      · rw [cumCount_cons]
        simp [cumCount]
        linarith [not_lt.1 hc]
      · intro j hj
        omega

/-- The walk of `BucketBufferSortPercentile`: what it returns is decided by the
running sums of the counts. -/
theorem percentileLoop_iff (target : ℚ) (l : List OWPBucketRec) :
    (∀ x, percentileLoop target l 0 = some x ↔
      ∃ i, l[i]? = some x ∧ target ≤ cumCount l (i + 1) ∧
        ∀ j, j < i → cumCount l (j + 1) < target) ∧
    (percentileLoop target l 0 = none ↔
      ∀ i, i < l.length → cumCount l (i + 1) < target) := by
  have hnone : percentileLoop target l 0 = none →
      ∀ i, i < l.length → cumCount l (i + 1) < target := by
    intro h i hi
    have := percentileLoop_none target l 0 h i hi
    linarith
  have hsome : ∀ x, percentileLoop target l 0 = some x →
      ∃ i, l[i]? = some x ∧ target ≤ cumCount l (i + 1) ∧
        ∀ j, j < i → cumCount l (j + 1) < target := by
    intro x h
    obtain ⟨i, h1, h2, h3⟩ := percentileLoop_some target l 0 x h
    refine ⟨i, h1, by linarith, ?_⟩
    intro j hj
    have := h3 j hj
    linarith
  constructor
  · intro x
    constructor
    · exact hsome x
    · rintro ⟨i, h1, h2, h3⟩
      cases hl : percentileLoop target l 0 with
      | none =>
        have hi : i < l.length := by
          rcases Nat.lt_or_ge i l.length with hi | hi
          · exact hi
          · rw [List.getElem?_eq_none hi] at h1
            cases h1
        have := hnone hl i hi
        linarith
      | some y =>
        obtain ⟨k, k1, k2, k3⟩ := hsome y hl
        rcases Nat.lt_trichotomy i k with hik | hik | hik
        · have := k3 i hik
          linarith
        · subst hik
          rw [h1] at k1
          exact k1.symm
        · have := h3 k hik
          linarith
  · constructor
    · exact hnone
    · intro hall
      cases hl : percentileLoop target l 0 with
      | none => rfl
      | some y =>
        obtain ⟨k, k1, k2, k3⟩ := hsome y hl
        have hk : k < l.length := by
          rcases Nat.lt_or_ge k l.length with hk | hk
          · exact hk
          · rw [List.getElem?_eq_none hk] at k1
            cases k1
        have := hall k hk
        linarith

/-- Claim C9: `BucketBufferSortPercentile` returns `b_i * w` for the smallest
index `i` of the array `bsort` at which the running sum `n_0 + ... + n_i`
reaches `alpha * sent`, and it returns False (here `none`) exactly when the
running sum reaches `alpha * sent` at no index, as it does when there are no
buckets. -/
theorem C9_percentile_smallest_index (st : OWPStatsRec) (alpha : ℚ) :
    (∀ v, BucketBufferSortPercentile st alpha = some v ↔
      ∃ i x, st.bsort[i]? = some x ∧ alpha * st.sent ≤ cumCount st.bsort (i + 1) ∧
        (∀ j, j < i → cumCount st.bsort (j + 1) < alpha * st.sent) ∧
        v = x.b * st.bucketwidth) ∧
    (BucketBufferSortPercentile st alpha = none ↔
      ∀ i, i < st.bsort.length → cumCount st.bsort (i + 1) < alpha * st.sent) ∧
    BucketBufferSortPercentile { st with bsort := [] } alpha = none := by
  obtain ⟨hs, hn⟩ := percentileLoop_iff (alpha * st.sent) st.bsort
  refine ⟨?_, ?_, rfl⟩
  · intro v
    unfold BucketBufferSortPercentile
    constructor
    · intro h
      cases hl : percentileLoop (alpha * st.sent) st.bsort 0 with
      | none =>
        rw [hl] at h
        cases h
      | some y =>
        rw [hl] at h
        simp only [Option.some.injEq] at h
        obtain ⟨i, h1, h2, h3⟩ := (hs y).1 hl
        exact ⟨i, y, h1, h2, h3, h.symm⟩
    · rintro ⟨i, x, h1, h2, h3, h4⟩
      rw [(hs x).2 ⟨i, h1, h2, h3⟩, h4]
  · unfold BucketBufferSortPercentile
    rw [← hn]
    cases hl : percentileLoop (alpha * st.sent) st.bsort 0 with
    | none => simp
    | some y => simp

/-- Claim C9, witness S1: the five buckets 100, 150, 200, 250 and 300 hold one
sample each and `sent = 5`; the running sum reaches `0.5 * 5` first at index 2,
so the median is `200 * 0.0001 = 0.020` s. -/
theorem C9_witness_S1 :
    (OWPStatsParse (scenarioStats []) { datarecs := scenarioS1 } 0 0 5).isOk = true ∧
    (OWPStatsParse (scenarioStats []) { datarecs := scenarioS1 } 0 0 5).read
      (fun st => BucketBufferSortPercentile st (1 / 2)) = some (some (1 / 50)) := by
  have hok : (OWPStatsParse (scenarioStats []) { datarecs := scenarioS1 } 0 0 5).isOk = true := by
    decide!
  obtain ⟨st, h⟩ := Ret_ok_of_isOk _ hok
  have hr : (OWPStatsParse (scenarioStats []) { datarecs := scenarioS1 } 0 0 5).read
      (fun st => (st.bsort, st.sent, st.bucketwidth)) =
      some ([OWPBucketRec.mk 100 1, OWPBucketRec.mk 150 1, OWPBucketRec.mk 200 1,
        OWPBucketRec.mk 250 1, OWPBucketRec.mk 300 1], 5, 1 / 10000) := by
    decide!
  rw [read_eq_of_ok _ _ st h] at hr
  simp only [Option.some.injEq, Prod.mk.injEq] at hr
  obtain ⟨hb, hs, hwd⟩ := hr
  refine ⟨hok, ?_⟩
  rw [read_eq_of_ok _ _ st h]
  congr 1
  apply ((C9_percentile_smallest_index st (1 / 2)).1 (1 / 50)).2
  refine ⟨2, OWPBucketRec.mk 200 1, ?_, ?_, ?_, ?_⟩
  · rw [hb]
    rfl
  · rw [hb, hs]
    norm_num [cumCount]
  · intro j hj
    rw [hb, hs]
    interval_cases j <;> norm_num [cumCount]
  · rw [hwd]
    norm_num

/-- Claim C10, failing input: `OWPStatsCreate` and a successful parse of the
clock-skew records leave the buckets `2^30` and `-2^30 - 1`; the comparison
`b1->b - b2->b` of `BucketBufferSortCmp` overflows the 32-bit `int`, the array
`bsort` comes out in descending order, and the 50th percentile (107374.1824 s)
is larger than the 100th percentile (-107374.1825 s). -/
theorem C10_percentile_order_broken_by_comparator_overflow :
    OWPStatsCreate skewHdr [] scenarioSched 'm' (1 / 10000) 1 = some skewStats ∧
    (OWPStatsParse skewStats { datarecs := skewRecs } 0 0 2).read
      (fun st => (st.sent, st.lost, st.bsort)) =
      some (2, 0, [OWPBucketRec.mk 1073741824 1, OWPBucketRec.mk (-1073741825) 1]) ∧
    (OWPStatsParse skewStats { datarecs := skewRecs } 0 0 2).read
      (fun st => (BucketBufferSortPercentile st (1 / 2), BucketBufferSortPercentile st 1)) =
      some (some (67108864 / 625), some (-42949673 / 400)) ∧
    BucketBufferSortCmp (OWPBucketRec.mk 1073741824 1) (OWPBucketRec.mk (-1073741825) 1)
      = -2147483647 ∧
    (-42949673 / 400 : ℚ) < 67108864 / 625 := by
  refine ⟨?_, ?_, ?_, ?_, ?_⟩
  · have hc : 'm'.toLower = 'm' := by decide
    have h1 : ¬ ('m' = 'n') := by decide
    have h2 : ¬ ('m' = 'u') := by decide
    norm_num [OWPStatsCreate, OWPStatsScaleFactor, skewHdr, skewStats, OWPNum64ToDouble,
      oneSecond, OWPScheduleContextReset, scenarioSched, hc, h1, h2]
  · decide!
  · decide!
  · decide
  · norm_num

/-- On an array `bsort` that is in ascending order of `b`, with a bucket width
that is not negative, the percentile is monotone in `alpha`. -/
theorem percentile_mono_of_sorted (st : OWPStatsRec) (a1 a2 v1 v2 : ℚ)
    (hs : st.bsort.Pairwise (fun x y => x.b ≤ y.b)) (hw : 0 ≤ st.bucketwidth)
    (ha : a1 ≤ a2) (h1 : BucketBufferSortPercentile st a1 = some v1)
    (h2 : BucketBufferSortPercentile st a2 = some v2) : v1 ≤ v2 := by
  unfold BucketBufferSortPercentile at h1 h2
  cases hl1 : percentileLoop (a1 * st.sent) st.bsort 0 with
  | none =>
    rw [hl1] at h1
    cases h1
  | some x1 =>
    cases hl2 : percentileLoop (a2 * st.sent) st.bsort 0 with
    | none =>
      rw [hl2] at h2
      cases h2
    | some x2 =>
      rw [hl1] at h1
      rw [hl2] at h2
      simp only [Option.some.injEq] at h1 h2
      obtain ⟨i1, p1, p2, p3⟩ := ((percentileLoop_iff (a1 * st.sent) st.bsort).1 x1).1 hl1
      obtain ⟨i2, q1, q2, q3⟩ := ((percentileLoop_iff (a2 * st.sent) st.bsort).1 x2).1 hl2
      have ht : a1 * st.sent ≤ a2 * st.sent :=
        mul_le_mul_of_nonneg_right ha (Nat.cast_nonneg _)
      have hle : i1 ≤ i2 := by
        by_contra hc
        have := p3 i2 (by omega)
        linarith
      have hb : x1.b ≤ x2.b := by
        rcases Nat.lt_or_ge i1 i2 with hlt | hge
        · obtain ⟨hi1, e1⟩ := List.getElem?_eq_some_iff.1 p1
          obtain ⟨hi2, e2⟩ := List.getElem?_eq_some_iff.1 q1
          have := (List.pairwise_iff_getElem.1 hs) i1 i2 hi1 hi2 hlt
          rw [e1, e2] at this
          exact this
        · have : i1 = i2 := by omega
          subst this
          rw [p1] at q1
          simp only [Option.some.injEq] at q1
          rw [q1]
      rw [← h1, ← h2]
      exact mul_le_mul_of_nonneg_right (by exact_mod_cast hb) hw

theorem parseLast_npackets (st0 : OWPStatsRec) :
    parseLast st0 st0.hdr.test_spec.npackets = st0.hdr.test_spec.npackets := by
  unfold parseLast
  split_ifs <;> rfl

/-- Claim C14: `OWPStatsParse` works with `npackets` in the place of
`last = 0xFFFFFFFF` (the parse with `last = 0xFFFFFFFF` is the parse with
`last = npackets`), any other `last` is taken as given, and whenever after that
`first > last` or `last > npackets` the parse returns False, with the object
untouched. -/
theorem C14_parse_range_validation (st0 : OWPStatsRec) (file : OWPFile)
    (bo first last0 : Nat) :
    parseLast st0 (2 ^ 32 - 1) = st0.hdr.test_spec.npackets ∧
    OWPStatsParse st0 file bo first (2 ^ 32 - 1) =
      OWPStatsParse st0 file bo first st0.hdr.test_spec.npackets ∧
    (last0 ≠ 2 ^ 32 - 1 → parseLast st0 last0 = last0) ∧
    (first > parseLast st0 last0 ∨ parseLast st0 last0 > st0.hdr.test_spec.npackets →
      OWPStatsParse st0 file bo first last0 = Ret.fatal st0) := by
  have h1 : parseLast st0 (2 ^ 32 - 1) = st0.hdr.test_spec.npackets := by
    unfold parseLast
    simp
  refine ⟨h1, ?_, ?_, ?_⟩
  · unfold OWPStatsParse
    rw [h1, parseLast_npackets]
  · intro h
    unfold parseLast
    simp only [h, if_false]
  · intro h
    unfold OWPStatsParse
    simp only [h, if_true]

/-- Claim C14, witness: for the scenario session of five packets the ranges
`[3,2)` and `[0,6)` are refused, and `last = 0xFFFFFFFF` stands for 5. -/
theorem C14_witness :
    (3 > parseLast (scenarioStats []) 2 ∨
      parseLast (scenarioStats []) 2 > (scenarioStats []).hdr.test_spec.npackets) ∧
    OWPStatsParse (scenarioStats []) { datarecs := scenarioS1 } 0 3 2 =
      Ret.fatal (scenarioStats []) ∧
    (OWPStatsParse (scenarioStats []) { datarecs := scenarioS1 } 0 0 6).isFatal = true ∧
    parseLast (scenarioStats []) (2 ^ 32 - 1) = 5 := by
  have hr : 3 > parseLast (scenarioStats []) 2 ∨
      parseLast (scenarioStats []) 2 > (scenarioStats []).hdr.test_spec.npackets := by
    decide
  obtain ⟨h1, _, _, h4⟩ :=
    C14_parse_range_validation (scenarioStats []) { datarecs := scenarioS1 } 0 3 2
  refine ⟨hr, h4 hr, ?_, ?_⟩
  · decide
  · rw [h1]
    rfl

/-- Claim C16, failing input: the scenario object parses `[0,5)` of scenario S1
with success; after that `pend` is left aimed at a freed node, whose `seq`
reads 0, and the second parse of `[0,5)` on the same object crashes:
`PacketAlloc` refuses `first = 0` and the NULL it returns is dereferenced.
The same second parse with `first = 1` goes through. -/
theorem C16_second_parse_from_zero_crashes :
    (OWPStatsParse (scenarioStats []) { datarecs := scenarioS1 } 0 0 5).read
      (fun st => (st.pend, st.pnodes.length,
        (OWPStatsParse st { datarecs := scenarioS1 } 0 0 5).isCrash,
        (PacketAlloc (parsePosition (parseSchedReset (parseArgs st 0 0 5) 0) 0) 0).isNone,
        (OWPStatsParse st { datarecs := scenarioS1 } 0 1 5).isOk)) =
      some (some 0, 0, true, true, true) := by
  decide!

/-- The characters that `tolower` sends to the lower case letter `l` are `l`
itself and its upper case form `u`. -/
theorem toLower_eq_iff (c : Char) (l u : Char) (hl : l.toNat = u.toNat + 32)
    (hu1 : 65 ≤ u.toNat) (hu2 : u.toNat ≤ 90) :
    c.toLower = l ↔ (c = l ∨ c = u) := by
  have hnat : ∀ a b : Char, a.toNat = b.toNat → a = b := by
    intro a b h
    apply Char.ext
    apply UInt32.ext
    exact h
  have hof : ∀ a : Char, a.toNat ≤ 90 → (Char.ofNat (a.toNat + 32)).toNat = a.toNat + 32 := by
    intro a ha
    have hv : (a.toNat + 32).isValidChar := Or.inl (by omega)
    unfold Char.ofNat
    rw [dif_pos hv]
    rfl
  unfold Char.toLower
  simp only []
  constructor
  · intro h
    by_cases hc : c.toNat ≥ 65 ∧ c.toNat ≤ 90
    · simp only [hc, and_self, if_true] at h
      right
      apply hnat
      have h2 := congrArg Char.toNat h
      rw [hl, hof c hc.2] at h2
      omega
    · simp only [hc, if_false] at h
      left
      exact h
  · rintro (h | h)
    · subst h
      have : ¬ (c.toNat ≥ 65 ∧ c.toNat ≤ 90) := by omega
      simp only [this, if_false]
    · subst h
      have : c.toNat ≥ 65 ∧ c.toNat ≤ 90 := ⟨hu1, hu2⟩
      simp only [this, and_self, if_true]
      apply hnat
      rw [hof c hu2, hl]

/-- Claim C18: `OWPStatsScaleFactor` returns 1000000000 for `n`, 1000000 for
`u`, 1000 for `m` and 1 for `s`, in upper or lower case; for every other
character it returns 0 and, when `abrv_len` is supplied, `*abrv_len` is 0
afterwards. -/
theorem C18_scale_factor_values (c : Char) (abrv : Option String) (abrv_len : Option Nat) :
    ((c = 'n' ∨ c = 'N') → (OWPStatsScaleFactor c abrv abrv_len).1 = 1000000000) ∧
    ((c = 'u' ∨ c = 'U') → (OWPStatsScaleFactor c abrv abrv_len).1 = 1000000) ∧
    ((c = 'm' ∨ c = 'M') → (OWPStatsScaleFactor c abrv abrv_len).1 = 1000) ∧
    ((c = 's' ∨ c = 'S') → (OWPStatsScaleFactor c abrv abrv_len).1 = 1) ∧
    ((c ≠ 'n' ∧ c ≠ 'N' ∧ c ≠ 'u' ∧ c ≠ 'U' ∧ c ≠ 'm' ∧ c ≠ 'M' ∧ c ≠ 's' ∧ c ≠ 'S') →
      (OWPStatsScaleFactor c abrv abrv_len).1 = 0 ∧
      (OWPStatsScaleFactor c abrv abrv_len).2.2 = abrv_len.map (fun _ => 0)) := by
  have hn := toLower_eq_iff c 'n' 'N' (by decide) (by decide) (by decide)
  have hu := toLower_eq_iff c 'u' 'U' (by decide) (by decide) (by decide)
  have hm := toLower_eq_iff c 'm' 'M' (by decide) (by decide) (by decide)
  have hs := toLower_eq_iff c 's' 'S' (by decide) (by decide) (by decide)
  have d1 : ¬ ('n' = 'u') := by decide
  have d2 : ¬ ('n' = 'm') := by decide
  have d3 : ¬ ('n' = 's') := by decide
  have d4 : ¬ ('u' = 'm') := by decide
  have d5 : ¬ ('u' = 's') := by decide
  have d6 : ¬ ('m' = 's') := by decide
  have d7 : ¬ ('u' = 'n') := by decide
  have d8 : ¬ ('m' = 'n') := by decide
  have d9 : ¬ ('s' = 'n') := by decide
  have d10 : ¬ ('m' = 'u') := by decide
  have d11 : ¬ ('s' = 'u') := by decide
  have d12 : ¬ ('s' = 'm') := by decide
  refine ⟨?_, ?_, ?_, ?_, ?_⟩
  · intro h
    have := hn.2 h
    unfold OWPStatsScaleFactor
    simp only [this, if_true]
  · intro h
    have := hu.2 h
    unfold OWPStatsScaleFactor
    simp only [this, d7, if_false, if_true]
  · intro h
    have := hm.2 h
    unfold OWPStatsScaleFactor
    simp only [this, d8, d10, if_false, if_true]
  · intro h
    have := hs.2 h
    unfold OWPStatsScaleFactor
    simp only [this, d9, d11, d12, if_false, if_true]
  · rintro ⟨a1, a2, a3, a4, a5, a6, a7, a8⟩
    have e1 : ¬ (c.toLower = 'n') := fun h => by rcases hn.1 h with h | h <;> contradiction
    have e2 : ¬ (c.toLower = 'u') := fun h => by rcases hu.1 h with h | h <;> contradiction
    have e3 : ¬ (c.toLower = 'm') := fun h => by rcases hm.1 h with h | h <;> contradiction
    have e4 : ¬ (c.toLower = 's') := fun h => by rcases hs.1 h with h | h <;> contradiction
    unfold OWPStatsScaleFactor
    simp only [e1, e2, e3, e4, if_false]
    refine ⟨trivial, ?_⟩
    cases abrv with
    | none =>
      cases abrv_len with
      | none => rfl
      | some l => rfl
    | some b =>
      cases abrv_len with
      | none => rfl
      | some l =>
        simp only []
        split_ifs <;> rfl

/-- Claim C18, witness: `M` gives 1000, and `x` gives 0 with `*abrv_len = 0`
afterwards. -/
theorem C18_witness :
    (OWPStatsScaleFactor 'M' (some "") (some 3)).1 = 1000 ∧
    (OWPStatsScaleFactor 'x' (some "") (some 3)).1 = 0 ∧
    (OWPStatsScaleFactor 'x' (some "") (some 3)).2.2 = some 0 := by
  obtain ⟨_, _, h3, _, _⟩ := C18_scale_factor_values 'M' (some "") (some 3)
  obtain ⟨_, _, _, _, h5⟩ := C18_scale_factor_values 'x' (some "") (some 3)
  obtain ⟨h6, h7⟩ := h5 (by decide)
  exact ⟨h3 (Or.inr rfl), h6, h7⟩

/-- Claim C19, failing input: with an abbreviation buffer of three bytes, `n`,
`u` and `m` (either case) leave `ns`, `us` and `ms` in the buffer, but `s` and
`S` write nothing: the buffer keeps what it held (empty, or an older `ms`),
while `*abrv_len` is set to 2. -/
theorem C19_seconds_abbreviation_not_written :
    OWPStatsScaleFactor 's' (some "") (some 3) = (1, some "", some 2) ∧
    OWPStatsScaleFactor 'S' (some "") (some 3) = (1, some "", some 2) ∧
    OWPStatsScaleFactor 's' (some "ms") (some 3) = (1, some "ms", some 2) ∧
    OWPStatsScaleFactor 'n' (some "") (some 3) = (1000000000, some "ns", some 2) ∧
    OWPStatsScaleFactor 'U' (some "") (some 3) = (1000000, some "us", some 2) ∧
    OWPStatsScaleFactor 'm' (some "") (some 3) = (1000, some "ms", some 2) := by
  refine ⟨?_, ?_, ?_, ?_, ?_, ?_⟩ <;> decide!

/-- Claim C20, counterexample: after the parse of scenario S6 (ttls 255, 254,
255) two ttl values have a count, 254 and 255, but the loop of the report runs
over `0 .. 254` only: it finds one value and prints `Hops = 1 (consistently)`,
not `Hops takes 2 values; Min Hops = 0, Max Hops = 1`. -/
theorem C20_ttl_255_left_out_of_report :
    (OWPStatsParse (scenarioStats []) { datarecs := scenarioS6 } 0 0 3).read
      (fun st => (observedTTLs st, st.ttl_count 254, st.ttl_count 255)) =
      some ([254, 255], 1, 2) ∧
    (OWPStatsParse (scenarioStats []) { datarecs := scenarioS6 } 0 0 3).read
      (fun st => ttlScan st) = some (1, 254, 254) ∧
    (OWPStatsParse (scenarioStats []) { datarecs := scenarioS6 } 0 0 3).read
      (fun st => summaryTTL st) = some "Hops = 1 (consistently)\n" := by
  refine ⟨?_, ?_, ?_⟩ <;> decide!

theorem ttlLoop_spec (c : Nat → Nat) : ∀ (k i n mn mx : Nat), n + k ≤ 255 →
    ttlLoop c k i (n, mn, mx) =
      (n + ((List.range' i k).filter (fun t => c t ≠ 0)).length,
       ((List.range' i k).filter (fun t => c t ≠ 0)).foldl min mn,
       ((List.range' i k).filter (fun t => c t ≠ 0)).foldl max mx) := by
  intro k
  induction k with
  | zero =>
    intro i n mn mx _
    simp [ttlLoop]
  | succ k ih =>
    intro i n mn mx h
    rw [List.range'_succ, List.filter_cons]
    unfold ttlLoop
    by_cases hc : c i = 0
    · have hd : decide (c i ≠ 0) = false := by simp [hc]
      rw [if_pos hc, hd, ih (i + 1) n mn mx (by omega)]
      simp
    · have hd : decide (c i ≠ 0) = true := by simp [hc]
      rw [if_neg hc, hd]
      simp only [if_true]
      have hm : (n + 1) % 256 = n + 1 := Nat.mod_eq_of_lt (by omega)
      rw [hm, ih (i + 1) (n + 1) _ _ (by omega)]
      have e1 : (if i < mn then i else mn) = min mn i := by
        rw [Nat.min_def]
        split_ifs <;> omega
      have e2 : (if i > mx then i else mx) = max mx i := by
        rw [Nat.max_def]
        split_ifs <;> omega
      rw [e1, e2]
      simp only [List.length_cons, List.foldl_cons]
      congr 1
      omega

theorem foldl_min_spec (l : List Nat) : ∀ m : Nat,
    l.foldl min m ≤ m ∧ (∀ t ∈ l, l.foldl min m ≤ t) ∧ (l.foldl min m = m ∨ l.foldl min m ∈ l) := by
  induction l with
  | nil => intro m; simp
  | cons a l ih =>
    intro m
    obtain ⟨h1, h2, h3⟩ := ih (min m a)
    simp only [List.foldl_cons, List.mem_cons]
    refine ⟨le_trans h1 (Nat.min_le_left _ _), ?_, ?_⟩
    · intro t ht
      rcases ht with ht | ht
      · rw [ht]; exact le_trans h1 (Nat.min_le_right _ _)
      · exact h2 t ht
    · rcases h3 with h3 | h3
      · rw [h3]
        rcases Nat.le_total m a with h | h
        · left; exact Nat.min_eq_left h
        · right; left; exact Nat.min_eq_right h
      · right; right; exact h3

theorem foldl_max_spec (l : List Nat) : ∀ m : Nat,
    m ≤ l.foldl max m ∧ (∀ t ∈ l, t ≤ l.foldl max m) ∧ (l.foldl max m = m ∨ l.foldl max m ∈ l) := by
  induction l with
  | nil => intro m; simp
  | cons a l ih =>
    intro m
    obtain ⟨h1, h2, h3⟩ := ih (max m a)
    simp only [List.foldl_cons, List.mem_cons]
    refine ⟨le_trans (Nat.le_max_left _ _) h1, ?_, ?_⟩
    · intro t ht
      rcases ht with ht | ht
      · rw [ht]; exact le_trans (Nat.le_max_right _ _) h1
      · exact h2 t ht
    · rcases h3 with h3 | h3
      · rw [h3]
        rcases Nat.le_total m a with h | h
        · right; left; exact Nat.max_eq_right h
        · left; exact Nat.max_eq_left h
      · right; right; exact h3

theorem head_data_append (a b : String) (c : Char) (h : a.data.head? = some c) :
    (a ++ b).data.head? = some c := by
  rw [String.data_append]
  cases hd : a.data with
  | nil => rw [hd] at h; cases h
  | cons x xs =>
    rw [hd] at h
    simpa using h

/-- Claim C20, amended: the ttl report of `OWPStatsPrintSummary` counts the
ttl values of `0 .. 254` that have a count (`reportedTTLs`; the count of ttl
255 is not looked at) and takes their minimum and maximum; it prints
`TTL not reported` exactly when there is none, `Hops = 255 - ttl
(consistently)` when there is exactly one, and otherwise the number of values
with `Min Hops = 255 - maxttl` and `Max Hops = 255 - minttl`. -/
theorem C20_ttl_report (st : OWPStatsRec) :
    (∀ t, t ∈ reportedTTLs st ↔ t < 255 ∧ st.ttl_count t ≠ 0) ∧
    ttlScan st = ((reportedTTLs st).length, (reportedTTLs st).foldl min 255,
      (reportedTTLs st).foldl max 0) ∧
    (reportedTTLs st ≠ [] →
      (reportedTTLs st).foldl min 255 ∈ reportedTTLs st ∧
      (reportedTTLs st).foldl max 0 ∈ reportedTTLs st ∧
      ∀ t ∈ reportedTTLs st,
        (reportedTTLs st).foldl min 255 ≤ t ∧ t ≤ (reportedTTLs st).foldl max 0) ∧
    (summaryTTL st = "TTL not reported\n" ↔ reportedTTLs st = []) ∧
    (∀ t, reportedTTLs st = [t] →
      summaryTTL st = "Hops = " ++ toString (255 - (t : Int)) ++ " (consistently)\n") ∧
    (2 ≤ (reportedTTLs st).length →
      summaryTTL st = "Hops takes " ++ toString (reportedTTLs st).length ++
        " values; Min Hops = " ++ toString (255 - (((reportedTTLs st).foldl max 0 : Nat) : Int)) ++
        ", Max Hops = " ++ toString (255 - (((reportedTTLs st).foldl min 255 : Nat) : Int)) ++
        "\n") := by
  have hmem : ∀ t, t ∈ reportedTTLs st ↔ t < 255 ∧ st.ttl_count t ≠ 0 := by
    intro t
    unfold reportedTTLs
    simp [List.mem_filter, List.mem_range']
  have hscan : ttlScan st = ((reportedTTLs st).length, (reportedTTLs st).foldl min 255,
      (reportedTTLs st).foldl max 0) := by
    unfold ttlScan reportedTTLs
    rw [ttlLoop_spec st.ttl_count 255 0 0 255 0 (by omega)]
    simp
  have hlt : ∀ t ∈ reportedTTLs st, t < 255 := fun t ht => ((hmem t).1 ht).1
  refine ⟨hmem, hscan, ?_, ?_, ?_, ?_⟩
  · intro hne
    obtain ⟨a1, a2, a3⟩ := foldl_min_spec (reportedTTLs st) 255
    obtain ⟨b1, b2, b3⟩ := foldl_max_spec (reportedTTLs st) 0
    obtain ⟨t0, ht0⟩ := List.exists_mem_of_ne_nil _ hne
    have hm1 : (reportedTTLs st).foldl min 255 ∈ reportedTTLs st := by
      rcases a3 with h | h
      · have := a2 t0 ht0
        have := hlt t0 ht0
        omega
      · exact h
    have hm2 : (reportedTTLs st).foldl max 0 ∈ reportedTTLs st := by
      rcases b3 with h | h
      · have h0 := b2 t0 ht0
        rw [h] at h0
        have : t0 = 0 := by omega
        rw [h, ← this]
        exact ht0
      · exact h
    exact ⟨hm1, hm2, fun t ht => ⟨a2 t ht, b2 t ht⟩⟩
  · unfold summaryTTL
    simp only [hscan]
    constructor
    · intro h
      by_contra hne
      have hpos : 0 < (reportedTTLs st).length := List.length_pos.2 hne
      have h1 : ¬ ((reportedTTLs st).length < 1) := by omega
      rw [if_neg h1] at h
      have hH : ("Hops = " : String).data.head? = some 'H' := by decide
      have hH2 : ("Hops takes " : String).data.head? = some 'H' := by decide
      have hT : ("TTL not reported\n" : String).data.head? = some 'T' := by decide
      split_ifs at h
      · have h5 := head_data_append _ " (consistently)\n" 'H'
          (head_data_append "Hops = "
            (toString (255 - (((reportedTTLs st).foldl min 255 : Nat) : Int))) 'H' hH)
        rw [h, hT] at h5
        cases h5
      · have h5 := head_data_append _ "\n" 'H' (head_data_append _
          (toString (255 - (((reportedTTLs st).foldl min 255 : Nat) : Int))) 'H'
          (head_data_append _ ", Max Hops = " 'H' (head_data_append _
            (toString (255 - (((reportedTTLs st).foldl max 0 : Nat) : Int))) 'H'
            (head_data_append _ " values; Min Hops = " 'H' (head_data_append "Hops takes "
              (toString (reportedTTLs st).length) 'H' hH2)))))
        rw [h, hT] at h5
        cases h5
    · intro h
      rw [h]
      rfl
  · intro t ht
    have htl : t < 255 := hlt t (by rw [ht]; simp)
    unfold summaryTTL
    simp only [hscan]
    rw [ht]
    simp only [List.length_singleton, List.foldl_cons, List.foldl_nil]
    rw [if_neg (by omega), if_pos trivial, Nat.min_eq_right (le_of_lt htl)]
  · intro h2
    unfold summaryTTL
    simp only [hscan]
    have h1 : ¬ ((reportedTTLs st).length < 1) := by omega
    have h3 : ¬ ((reportedTTLs st).length = 1) := by omega
    rw [if_neg h1, if_neg h3]

theorem trackerRun_cons (st : OWPStatsRec) (s : Nat) (rest : List Nat) :
    trackerRun st (s :: rest) = trackerRun (jreorder st s) rest := rfl

theorem trackerRun_append (st : OWPStatsRec) (l1 l2 : List Nat) :
    trackerRun st (l1 ++ l2) = trackerRun (trackerRun st l1) l2 := by
  unfold trackerRun
  rw [List.foldl_append]

theorem jreorder_fields (st : OWPStatsRec) (s : Nat) :
    (jreorder st s).rlistlen = st.rlistlen ∧
    (jreorder st s).rseqno = st.rseqno.set st.rindex s ∧
    (jreorder st s).rindex = (st.rindex + 1) % st.rlistlen ∧
    (jreorder st s).rnumseqno = st.rnumseqno + 1 ∧
    (jreorder st s).rn = reorderLoop st s (min st.rnumseqno st.rlistlen) 0 st.rn :=
  ⟨rfl, rfl, rfl, rfl, rfl⟩

/-- A step of the tracker for a sequence number that is not below any stored
one changes no counter. -/
theorem jreorder_above (st : OWPStatsRec) (s m : Nat) (hb : ∀ x ∈ st.rseqno, x ≤ m)
    (hs : m ≤ s) :
    (jreorder st s).rn = st.rn ∧ (∀ x ∈ (jreorder st s).rseqno, x ≤ s) := by
  obtain ⟨_, f2, _, _, f5⟩ := jreorder_fields st s
  constructor
  · rw [f5]
    apply reorderLoop_id
    intro i
    rw [List.getD_eq_getElem?_getD]
    cases hg : st.rseqno[i]? with
    | none => simp
    | some x =>
      simp only [Option.getD_some]
      have := hb x (List.getElem?_mem hg)
      omega
  · intro x hx
    rw [f2] at hx
    rcases List.mem_or_eq_of_mem_set hx with hx | hx
    · have := hb x hx
      omega
    · omega

theorem reorderLoop_length (st : OWPStatsRec) (s : Nat) : ∀ (k i : Nat) (rn : List Nat),
    (reorderLoop st s k i rn).length = rn.length := by
  intro k
  induction k with
  | zero => intro i rn; rfl
  | succ k ih =>
    intro i rn
    unfold reorderLoop
    split_ifs
    · rw [ih, List.length_set]
    · rfl

theorem TrackerWF_jreorder {st : OWPStatsRec} (h : TrackerWF st) (s : Nat) :
    TrackerWF (jreorder st s) := by
  obtain ⟨f1, f2, f3, f4, f5⟩ := jreorder_fields st s
  refine ⟨by rw [f1]; exact h.pos, ?_, ?_, ?_⟩
  · rw [f3, f1]
    exact Nat.mod_lt _ h.pos
  · rw [f2, f1, List.length_set]
    exact h.len_rseqno
  · rw [f5, f1, reorderLoop_length]
    exact h.len_rn

theorem TrackerWF_of_reset {st : OWPStatsRec} (h : TrackerReset st) : TrackerWF st :=
  ⟨h.pos, h.rindex, by rw [h.rseqno, List.length_replicate],
    by rw [h.rn, List.length_replicate]⟩

/-- What a run of the tracker does to the cursor and to the total: one step
forward, modulo `rlistlen`, and one more, for each sequence number. -/
theorem trackerRun_fields (seqs : List Nat) : ∀ (st : OWPStatsRec), TrackerWF st →
    TrackerWF (trackerRun st seqs) ∧
    (trackerRun st seqs).rlistlen = st.rlistlen ∧
    (trackerRun st seqs).rnumseqno = st.rnumseqno + seqs.length ∧
    (trackerRun st seqs).rindex = (st.rindex + seqs.length) % st.rlistlen := by
  induction seqs with
  | nil =>
    intro st h
    refine ⟨h, rfl, rfl, ?_⟩
    show st.rindex = (st.rindex + 0) % st.rlistlen
    rw [Nat.add_zero, Nat.mod_eq_of_lt h.rindex]
  | cons s rest ih =>
    intro st h
    rw [trackerRun_cons]
    obtain ⟨i1, i2, i3, i4⟩ := ih (jreorder st s) (TrackerWF_jreorder h s)
    obtain ⟨f1, f2, f3, f4, f5⟩ := jreorder_fields st s
    refine ⟨i1, by rw [i2, f1], ?_, ?_⟩
    · rw [i3, f4, List.length_cons]
      omega
    · rw [i4, f3, f1, List.length_cons, Nat.mod_add_mod]
      congr 1
      omega

/-- A run of the tracker over sequence numbers in increasing order, all of them
at least every stored one, changes no counter; afterwards every stored number
is below any bound of the old ones and of the run. -/
theorem trackerRun_sorted (seqs : List Nat) : ∀ (st : OWPStatsRec) (m : Nat),
    (∀ x ∈ st.rseqno, x ≤ m) → (∀ s ∈ seqs, m ≤ s) → seqs.Pairwise (fun x y => x ≤ y) →
    (trackerRun st seqs).rn = st.rn ∧
    (∀ u, m ≤ u → (∀ s ∈ seqs, s ≤ u) → ∀ x ∈ (trackerRun st seqs).rseqno, x ≤ u) := by
  induction seqs with
  | nil =>
    intro st m hb _ _
    exact ⟨rfl, fun u hu _ x hx => le_trans (hb x hx) hu⟩
  | cons s rest ih =>
    intro st m hb hs hp
    rw [trackerRun_cons]
    obtain ⟨j1, j2⟩ := jreorder_above st s m hb (hs s (by simp))
    rw [List.pairwise_cons] at hp
    obtain ⟨i1, i2⟩ := ih (jreorder st s) s j2 hp.1 hp.2
    refine ⟨by rw [i1, j1], ?_⟩
    intro u _ hu x hx
    exact i2 u (hu s (by simp)) (fun t ht => hu t (List.mem_cons_of_mem _ ht)) x hx

/-- Claim C11: from the reset state of the tracker (`rn` and `rseqno` all zero,
whatever the cursor `rindex` and the total `rnumseqno`), the tracker steps for
any strictly increasing sequence of received sequence numbers leave `rn[i] = 0`
for every `i`. -/
theorem C11_tracker_no_reordering (st : OWPStatsRec) (seqs : List Nat)
    (hreset : TrackerReset st) (hinc : seqs.Pairwise (fun x y => x < y)) :
    (trackerRun st seqs).rn = List.replicate st.rlistlen 0 ∧
    (∀ i, (trackerRun st seqs).rn.getD i 0 = 0) := by
  have h1 := (trackerRun_sorted seqs st 0
    (by
      intro x hx
      rw [hreset.rseqno] at hx
      rw [List.eq_of_mem_replicate hx])
    (fun s _ => Nat.zero_le s)
    (hinc.imp (fun h => le_of_lt h))).1
  rw [hreset.rn] at h1
  refine ⟨h1, ?_⟩
  intro i
  rw [h1, List.getD_eq_getElem?_getD]
  cases hg : (List.replicate st.rlistlen 0)[i]? with
  | none => rfl
  | some x =>
    simp only [Option.getD_some]
    exact List.eq_of_mem_replicate (List.getElem?_mem hg)

theorem reorderLoop_stop (st : OWPStatsRec) (s k i : Nat) (rn : List Nat)
    (h : ¬ s < st.rseqno.getD (rseqindex st.rlistlen ((st.rindex : Int) - i - 1)).toNat 0) :
    reorderLoop st s (k + 1) i rn = rn := by
  unfold reorderLoop
  simp only [h, if_false]

theorem reorderLoop_go (st : OWPStatsRec) (s k i : Nat) (rn : List Nat)
    (h : s < st.rseqno.getD (rseqindex st.rlistlen ((st.rindex : Int) - i - 1)).toNat 0) :
    reorderLoop st s (k + 1) i rn =
      reorderLoop st s k (i + 1) (rn.set i (rn.getD i 0 + 1)) := by
  conv_lhs => unfold reorderLoop
  simp only [h, if_true]

/-- The slot the loop reads first is the slot the step before wrote. -/
theorem rseqindex_last (len r : Nat) (hr : r < len) :
    (rseqindex len ((((r + 1) % len : Nat) : Int) - (0 : Nat) - 1)).toNat = r := by
  unfold rseqindex
  rcases Nat.lt_or_ge (r + 1) len with h | h
  · rw [Nat.mod_eq_of_lt h]
    have : ((r + 1 : Nat) : Int) - (0 : Nat) - 1 ≥ 0 := by omega
    simp only [this, if_true]
    omega
  · have hl : r + 1 = len := by omega
    rw [hl, Nat.mod_self]
    have : ¬ (((0 : Nat) : Int) - (0 : Nat) - 1 ≥ 0) := by omega
    simp only [this, if_false]
    omega

/-- The slot the loop reads second is another slot than the one written last,
when the buffer has two slots or more. -/
theorem rseqindex_before (len r : Nat) (hr : r < len) (h2 : 2 ≤ len) :
    (rseqindex len ((((r + 1) % len : Nat) : Int) - (1 : Nat) - 1)).toNat ≠ r := by
  unfold rseqindex
  rcases Nat.lt_or_ge (r + 1) len with h | h
  · rw [Nat.mod_eq_of_lt h]
    by_cases hc : ((r + 1 : Nat) : Int) - (1 : Nat) - 1 ≥ 0
    · simp only [hc, if_true]
      omega
    · simp only [hc, if_false]
      omega
  · have hl : r + 1 = len := by omega
    rw [hl, Nat.mod_self]
    have : ¬ (((0 : Nat) : Int) - (1 : Nat) - 1 ≥ 0) := by omega
    simp only [this, if_false]
    omega

/-- The step of the tracker for `a` right after the step for a larger `b`, when
every number stored before is at most `a`: `rn[0]` goes up by one and no other
counter changes. -/
theorem jreorder_swap (st : OWPStatsRec) (a b : Nat) (hwf : TrackerWF st)
    (hb : ∀ x ∈ st.rseqno, x ≤ a) (hab : a < b) :
    (jreorder (jreorder st b) a).rn = st.rn.set 0 (st.rn.getD 0 0 + 1) ∧
    (∀ x ∈ (jreorder (jreorder st b) a).rseqno, x ≤ b) := by
  obtain ⟨j1, j2⟩ := jreorder_above st b a hb (le_of_lt hab)
  obtain ⟨f1, f2, f3, f4, f5⟩ := jreorder_fields st b
  obtain ⟨g1, g2, g3, g4, g5⟩ := jreorder_fields (jreorder st b) a
  constructor
  · rw [g5, f4, f1, j1]
    have hmin : min (st.rnumseqno + 1) st.rlistlen = (min st.rnumseqno (st.rlistlen - 1)) + 1 := by
      have := hwf.pos
      omega
    rw [hmin]
    have hfirst : a < (jreorder st b).rseqno.getD
        (rseqindex (jreorder st b).rlistlen
          (((jreorder st b).rindex : Int) - (0 : Nat) - 1)).toNat 0 := by
      rw [f1, f3, rseqindex_last _ _ hwf.rindex, f2, List.getD_eq_getElem?_getD,
        List.getElem?_set_self (by rw [hwf.len_rseqno]; exact hwf.rindex)]
      exact hab
    rw [reorderLoop_go _ _ _ _ _ hfirst]
    cases hk : min st.rnumseqno (st.rlistlen - 1) with
    | zero => rfl
    | succ k =>
      apply reorderLoop_stop
      have h2 : 2 ≤ st.rlistlen := by omega
      have hne := rseqindex_before st.rlistlen st.rindex hwf.rindex h2
      rw [f1, f3, f2, List.getD_eq_getElem?_getD]
      show ¬ a < ((st.rseqno.set st.rindex b)[(rseqindex st.rlistlen
        ((((st.rindex + 1) % st.rlistlen : Nat) : Int) - ((0 + 1 : Nat) : Int) - 1)).toNat]?).getD 0
      rw [List.getElem?_set_ne (fun h => hne (by rw [← h]))]
      cases hg : st.rseqno[(rseqindex st.rlistlen
        ((((st.rindex + 1) % st.rlistlen : Nat) : Int) - ((0 + 1 : Nat) : Int) - 1)).toNat]? with
      | none => simp
      | some x =>
        simp only [Option.getD_some]
        have := hb x (List.getElem?_mem hg)
        omega
  · intro x hx
    rw [g2] at hx
    rcases List.mem_or_eq_of_mem_set hx with hx | hx
    · exact j2 x hx
    · omega

theorem replicate_getD_zero (n i : Nat) : (List.replicate n 0).getD i 0 = 0 := by
  rw [List.getD_eq_getElem?_getD]
  cases hg : (List.replicate n 0)[i]? with
  | none => rfl
  | some x =>
    simp only [Option.getD_some]
    exact List.eq_of_mem_replicate (List.getElem?_mem hg)

/-- Claim C12: from the reset state of the tracker, the tracker steps for a
sequence that is strictly increasing but for one adjacent pair that is
exchanged (`pre, b, a, post` with `pre, a, b, post` strictly increasing: `k,
k+2, k+1, k+3` is such a sequence) leave `rn[0] = 1` and `rn[i] = 0` for every
`i > 0`. -/
theorem C12_tracker_single_swap (st : OWPStatsRec) (pre post : List Nat) (a b : Nat)
    (hreset : TrackerReset st)
    (hinc : (pre ++ a :: b :: post).Pairwise (fun x y => x < y)) :
    (trackerRun st (pre ++ b :: a :: post)).rn = (List.replicate st.rlistlen 0).set 0 1 ∧
    (trackerRun st (pre ++ b :: a :: post)).rn.getD 0 0 = 1 ∧
    (∀ i, 0 < i → (trackerRun st (pre ++ b :: a :: post)).rn.getD i 0 = 0) := by
  rw [List.pairwise_append] at hinc
  obtain ⟨hpre, hrest, hcross⟩ := hinc
  rw [List.pairwise_cons] at hrest
  obtain ⟨ha, hrest2⟩ := hrest
  rw [List.pairwise_cons] at hrest2
  obtain ⟨hbpost, hpost⟩ := hrest2
  have hab : a < b := ha b (by simp)
  have hwf := TrackerWF_of_reset hreset
  obtain ⟨w1, w2, _, _⟩ := trackerRun_fields pre st hwf
  obtain ⟨p1, p2⟩ := trackerRun_sorted pre st 0
    (by
      intro x hx
      rw [hreset.rseqno] at hx
      rw [List.eq_of_mem_replicate hx])
    (fun s _ => Nat.zero_le s) (hpre.imp (fun h => le_of_lt h))
  have hba : ∀ x ∈ (trackerRun st pre).rseqno, x ≤ a :=
    p2 a (Nat.zero_le a) (fun s hs => le_of_lt (hcross s hs a (by simp)))
  obtain ⟨s1, s2⟩ := jreorder_swap (trackerRun st pre) a b w1 hba hab
  obtain ⟨q1, _⟩ := trackerRun_sorted post (jreorder (jreorder (trackerRun st pre) b) a) b s2
    (fun s hs => le_of_lt (hbpost s hs)) (hpost.imp (fun h => le_of_lt h))
  have hrun : trackerRun st (pre ++ b :: a :: post) =
      trackerRun (jreorder (jreorder (trackerRun st pre) b) a) post := by
    rw [trackerRun_append, trackerRun_cons, trackerRun_cons]
  have hrn : (trackerRun st (pre ++ b :: a :: post)).rn =
      (List.replicate st.rlistlen 0).set 0 1 := by
    rw [hrun, q1, s1, p1, hreset.rn, replicate_getD_zero]
  refine ⟨hrn, ?_, ?_⟩
  · rw [hrn, List.getD_eq_getElem?_getD, List.getElem?_set_self]
    · rfl
    · rw [List.length_replicate]
      exact hreset.pos
  · intro i hi
    rw [hrn, List.getD_eq_getElem?_getD, List.getElem?_set_ne (by omega),
      ← List.getD_eq_getElem?_getD, replicate_getD_zero]

theorem scenarioStats_reset (skips : List OWPSkipRec) : TrackerReset (scenarioStats skips) :=
  ⟨by show 0 < 10; omega, rfl, rfl, by show 0 < 10; omega⟩

/-- Claim C11, witness: the tracker of the scenario object run over 0, 1, 2, 3, 4
keeps ten zero counters, and so does the parse of scenario S1. -/
theorem C11_witness :
    TrackerReset (scenarioStats []) ∧
    (trackerRun (scenarioStats []) [0, 1, 2, 3, 4]).rn = List.replicate 10 0 ∧
    (OWPStatsParse (scenarioStats []) { datarecs := scenarioS1 } 0 0 5).read
      (fun st => st.rn) = some (List.replicate 10 0) := by
  refine ⟨scenarioStats_reset [],
    (C11_tracker_no_reordering (scenarioStats []) [0, 1, 2, 3, 4] (scenarioStats_reset [])
      (by decide)).1, ?_⟩
  decide!

/-- Claim C12, witness S4: packet 4 arrives before packet 3; the tracker run over
0, 1, 2, 4, 3 and the parse of scenario S4 both end with `rn[0] = 1` and all
other counters zero. -/
theorem C12_witness_S4 :
    TrackerReset (scenarioStats []) ∧
    (trackerRun (scenarioStats []) [0, 1, 2, 4, 3]).rn = [1, 0, 0, 0, 0, 0, 0, 0, 0, 0] ∧
    (OWPStatsParse (scenarioStats []) { datarecs := scenarioS4 } 0 0 5).read
      (fun st => (st.sent, st.lost, st.dups, st.rn)) =
      some (5, 0, 0, [1, 0, 0, 0, 0, 0, 0, 0, 0, 0]) := by
  refine ⟨scenarioStats_reset [],
    (C12_tracker_single_swap (scenarioStats []) [0, 1, 2] [] 3 4 (scenarioStats_reset [])
      (by decide)).1, ?_⟩
  decide!

theorem trk_frameF {a b : OWPStatsRec} (h : frameF a = frameF b) : trk a = trk b := by
  have := congrArg trk h; exact this

theorem trk_frameP {a b : OWPStatsRec} (h : frameP a = frameP b) : trk a = trk b := by
  have := congrArg trk h; exact this

theorem trk_frameM {a b : OWPStatsRec} (h : frameM a = frameM b) : trk a = trk b := by
  have := congrArg trk h; exact this

theorem reorderLoop_congr (a b : OWPStatsRec) (s : Nat) (h1 : a.rseqno = b.rseqno)
    (h2 : a.rlistlen = b.rlistlen) (h3 : a.rindex = b.rindex) :
    ∀ (k i : Nat) (rn : List Nat), reorderLoop a s k i rn = reorderLoop b s k i rn := by
  intro k
  induction k with
  | zero => intro i rn; rfl
  | succ k ih =>
    intro i rn
    unfold reorderLoop
    rw [h1, h2, h3, ih]

theorem jreorder_trk {a b : OWPStatsRec} (h : trk a = trk b) (s : Nat) :
    trk (jreorder a s) = trk (jreorder b s) := by
  unfold trk at h
  simp only [Prod.mk.injEq] at h
  obtain ⟨h1, h2, h3, h4, h5⟩ := h
  unfold trk
  obtain ⟨f1, f2, f3, f4, f5⟩ := jreorder_fields a s
  obtain ⟨g1, g2, g3, g4, g5⟩ := jreorder_fields b s
  rw [f1, f2, f3, f4, f5, g1, g2, g3, g4, g5, reorderLoop_congr a b s h2 h5 h3, h1, h2, h3, h4,
    h5]

theorem contribSeqs_append (skips : List OWPSkipRec) (first last : Nat)
    (done : List OWPDataRec) (r : OWPDataRec) :
    contribSeqs skips first last (done ++ [r]) =
      if first ≤ r.seq_no ∧ r.seq_no < last ∧ OWPIsLostRecord r = false ∧
          inSkip skips r.seq_no = false then contribSeqs skips first last done ++ [r.seq_no]
      else contribSeqs skips first last done := by
  unfold contribSeqs
  rw [contrib_append]
  split_ifs
  · rw [List.map_append]
    rfl
  · rfl

theorem iterCore_step_trk (t0 : OWPStatsRec) (st : OWPStatsRec) (done : List OWPDataRec)
    (b e : Nat) (r : OWPDataRec) (thresh : OWPStatsRec → Nat)
    (postLost : OWPStatsRec → OWPStatsRec)
    (post : Nat → OWPStatsRec → OWPStatsRec) (hpl : PostLostOK postLost) (hpo : PostOK post)
    (st' : OWPStatsRec) (hinv : Inv st done b e) (hp : TrackerOK t0 st done)
    (h : iterCore r.seq_no (OWPIsLostRecord r) thresh postLost post st = Ret.ok st') :
    TrackerOK t0 st' (done ++ [r]) := by
  obtain ⟨m1, m2, m3, m4, m5, m6, m7, m8, m9, m10, m11⟩ := markOffset_fields st r.seq_no
  have hm := trk_frameM (frameM_markOffset st r.seq_no)
  unfold TrackerOK at hp ⊢
  rcases iterCore_shape hinv r.seq_no (OWPIsLostRecord r) thresh postLost post st' h with
    ⟨hout, hst⟩ | ⟨hr1, hr2, st2, b1, e1, node, hinv2, hb1, hbs, hse, hf2, hmem, hns, hcase⟩
  · subst hst
    rw [hm, m4, m5, m7, contribSeqs_append]
    have : ¬ (st.first ≤ r.seq_no ∧ r.seq_no < st.last ∧ OWPIsLostRecord r = false ∧
        inSkip st.skips r.seq_no = false) := by
      intro hc; exact hout ⟨hc.1, hc.2.1⟩
    simp only [this, if_false]
    exact hp
  · have h2first : st2.first = st.first := by rw [frameF_first hf2, m4]
    have h2last : st2.last = st.last := by rw [frameF_last hf2, m5]
    have h2skips : st2.skips = st.skips := by rw [frameF_skips hf2, m7]
    have h2 : trk st2 = trk st := by rw [trk_frameF hf2, hm]
    rcases hcase with ⟨hsk, hst⟩ | ⟨hsk, hrl, hseen, hst⟩ | ⟨hsk, hrl, hnl, hst⟩
    · subst hst
      rw [h2, h2first, h2last, h2skips, contribSeqs_append]
      simp only [hsk, Bool.true_eq_false, and_false, if_false]
      exact hp
    · subst hst
      obtain ⟨q1, q2, q3, q4, q5, q6, q7, q8, q9, q10⟩ :=
        frameP_fields (hpl (lostUpdate st2 node)).1
      rw [trk_frameP (hpl (lostUpdate st2 node)).1, q4, q5, q7]
      show trk st2 = trk (trackerRun t0 (contribSeqs st2.skips st2.first st2.last _))
      rw [h2, h2first, h2last, h2skips, contribSeqs_append]
      simp only [hrl, Bool.true_eq_false, false_and, and_false, if_false]
      exact hp
    · subst hst
      obtain ⟨q1, q2, q3, q4, q5, q6, q7, q8, q9, q10⟩ :=
        frameP_fields (hpo node.seen (jreorder (seenUpdate st2 node) r.seq_no)).1
      rw [trk_frameP (hpo node.seen (jreorder (seenUpdate st2 node) r.seq_no)).1, q4, q5, q7]
      show trk (jreorder (seenUpdate st2 node) r.seq_no) =
        trk (trackerRun t0 (contribSeqs st2.skips st2.first st2.last _))
      rw [h2first, h2last, h2skips, contribSeqs_append]
      simp only [hr1, hr2, hrl, hsk, and_self, if_true]
      rw [trackerRun_append]
      show _ = trk (jreorder (trackerRun t0 (contribSeqs st.skips st.first st.last done))
        r.seq_no)
      apply jreorder_trk
      have h3 : trk (seenUpdate st2 node) = trk st2 := rfl
      rw [h3, h2]
      exact hp

theorem trackerRun_trk (l : List Nat) : ∀ (a b : OWPStatsRec), trk a = trk b →
    trk (trackerRun a l) = trk (trackerRun b l) := by
  induction l with
  | nil => intro a b h; exact h
  | cons s rest ih =>
    intro a b h
    rw [trackerRun_cons, trackerRun_cons]
    exact ih _ _ (jreorder_trk h s)

/-- The stages of a successful parse: the initialisation, the iteration over
the records, the final flush, which leaves alone what `PacketBeginFlush` leaves
alone, and the sort. -/
theorem parse_stages (st0 : OWPStatsRec) (file : OWPFile) (bo first last0 : Nat)
    (st : OWPStatsRec) (h : OWPStatsParse st0 file bo first last0 = Ret.ok st) :
    ∃ st8 st9 st10, parseInit st0 bo first (parseLast st0 last0) = some st8 ∧
      parseIterate st8 file = Ret.ok st9 ∧ first ≤ parseLast st0 last0 ∧
      frameF st10 = frameF st9 ∧
      st = { st10 with bsort := qsort BucketBufferSortCmp st10.btable } := by
  obtain ⟨hfl, _, st8, st9, st10, hi, hit, hd, hst⟩ := parse_shape st0 file bo first last0 st h
  obtain ⟨⟨T, h1⟩, h2, h3, h4, h5, h6, h7, h8, h9, h10, h11, h12, _⟩ :=
    parseInit_spec st0 bo first (parseLast st0 last0) st8 hi
  refine ⟨st8, st9, st10, hi, hit, hfl, ?_, hst⟩
  rcases Nat.lt_or_ge first (parseLast st0 last0) with hlt | hge
  · have hinv8 := parseInit_inv st0 bo first (parseLast st0 last0) st8 hi hlt
    obtain ⟨b1, e1, hinv9, _⟩ := parseIterate_inv st8 file first first hinv8 st9 hit
    exact (drainLoop_inv _ _ st9 b1 e1 hinv9 st10 hd).1
  · have hle : parseLast st0 last0 = first := by omega
    rw [hle] at h5
    have hm := parseIterate_empty_range st8 file (by rw [h4, h5]) st9 hit
    have m1 : st9.pnodes = st8.pnodes := by
      have := congrArg OWPStatsRec.pnodes hm; exact this
    have m2 : st9.last = st8.last := by have := congrArg OWPStatsRec.last hm; exact this
    exact (drainLoop_single st9 (OWPPacketRec.mk first T 0 false)
      (st9.last + 1) (by rw [m1, h1]) rfl rfl (by rw [m2, h5]; simp) st10 hd).1

theorem parseIterate_trk (st8 : OWPStatsRec) (file : OWPFile) (b e : Nat)
    (hinv : Inv st8 [] b e) (st9 : OWPStatsRec)
    (h : parseIterate st8 file = Ret.ok st9) :
    TrackerOK st8 st9 (streamOf st8.hdr file) := by
  have h0 : TrackerOK st8 st8 [] := rfl
  unfold parseIterate at h
  unfold streamOf
  cases htw : st8.hdr.twoway with
  | true =>
    rw [htw] at h
    simp only [if_true] at h
    have := OWPParseRecords_induct IterateSummarizeTWSession (fun r => r.sent) hproc_TW
      (TrackerOK st8)
      (by
        intro st done b e a st' hi hpp hs
        obtain ⟨thresh, postLost, post, hpl, hpo, heq⟩ := hproc_TW a st
        rw [heq] at hs
        exact iterCore_step_trk st8 st done b e a.sent thresh postLost post hpl hpo st' hi hpp hs)
      file.twdatarecs st8 [] b e hinv h0 st9 h
    simpa using this
  | false =>
    rw [htw] at h
    simp only [Bool.false_eq_true, if_false] at h
    have := OWPParseRecords_induct IterateSummarizeSession (fun r => r) hproc_OW
      (TrackerOK st8)
      (by
        intro st done b e a st' hi hpp hs
        obtain ⟨thresh, postLost, post, hpl, hpo, heq⟩ := hproc_OW a st
        rw [heq] at hs
        exact iterCore_step_trk st8 st done b e a thresh postLost post hpl hpo st' hi hpp hs)
      file.datarecs st8 [] b e hinv h0 st9 h
    simpa using this

theorem contribSeqs_empty_range (skips : List OWPSkipRec) (first : Nat)
    (recs : List OWPDataRec) : contribSeqs skips first first recs = [] := by
  unfold contribSeqs
  rw [contrib_empty_range]
  rfl

/-- After a successful parse the tracker is the tracker the object had before,
with `rn` and `rseqno` zeroed, run over the sequence numbers of the records
that are in range, received and not skipped. -/
theorem parse_tracker (st0 : OWPStatsRec) (file : OWPFile) (bo first last0 : Nat)
    (st : OWPStatsRec) (h : OWPStatsParse st0 file bo first last0 = Ret.ok st) :
    trk st = trk (trackerRun (trackerResetOf st0)
      (contribSeqs st0.skips first (parseLast st0 last0) (streamOf st0.hdr file))) := by
  obtain ⟨st8, st9, st10, hi, hit, hfl, hfr, hst⟩ := parse_stages st0 file bo first last0 st h
  obtain ⟨⟨T, h1⟩, h2, h3, h4, h5, h6, h7, h8, h9, h10, h11, h12, h13, h14, h15, h16, h17,
    h18, h19, h20, h21⟩ := parseInit_spec st0 bo first (parseLast st0 last0) st8 hi
  have h8t : trk st8 = trk (trackerResetOf st0) := by
    unfold trk trackerResetOf
    simp only [h13, h14, h19, h20, h21]
  have hs : trk st = trk st9 := by
    rw [hst, ← trk_frameF hfr]
    rfl
  rw [hs]
  rcases Nat.lt_or_ge first (parseLast st0 last0) with hlt | hge
  · have hinv8 := parseInit_inv st0 bo first (parseLast st0 last0) st8 hi hlt
    obtain ⟨b1, e1, hinv9, k1, k2, k3⟩ := parseIterate_inv st8 file first first hinv8 st9 hit
    have := parseIterate_trk st8 file first first hinv8 st9 hit
    unfold TrackerOK at this
    rw [k1, k2, k3, h4, h5, h6, h12] at this
    rw [this]
    exact trackerRun_trk _ _ _ h8t
  · have hle : parseLast st0 last0 = first := by omega
    rw [hle] at h5 ⊢
    have hm := parseIterate_empty_range st8 file (by rw [h4, h5]) st9 hit
    rw [trk_frameM hm, contribSeqs_empty_range]
    exact h8t

theorem trackerRun_rnumseqno (seqs : List Nat) : ∀ (st : OWPStatsRec),
    (trackerRun st seqs).rnumseqno = st.rnumseqno + seqs.length := by
  induction seqs with
  | nil => intro st; rfl
  | cons s rest ih =>
    intro st
    rw [trackerRun_cons, ih, List.length_cons]
    show st.rnumseqno + 1 + rest.length = _
    omega

/-- After a successful parse the total `rnumseqno` is the total the object had
before the parse plus the number of records the tracker processed in this
parse, and the cursor `rindex` has moved on from where it stood before. -/
theorem parse_rnumseqno (st0 : OWPStatsRec) (file : OWPFile) (bo first last0 : Nat)
    (st : OWPStatsRec) (h : OWPStatsParse st0 file bo first last0 = Ret.ok st) :
    st.rnumseqno = st0.rnumseqno +
      (contribSeqs st0.skips first (parseLast st0 last0) (streamOf st0.hdr file)).length ∧
    (0 < st0.rlistlen → st0.rindex < st0.rlistlen →
      st.rindex = (st0.rindex +
        (contribSeqs st0.skips first (parseLast st0 last0) (streamOf st0.hdr file)).length)
          % st0.rlistlen) := by
  have ht := parse_tracker st0 file bo first last0 st h
  unfold trk at ht
  simp only [Prod.mk.injEq] at ht
  obtain ⟨_, _, t3, t4, _⟩ := ht
  constructor
  · rw [t4, trackerRun_rnumseqno]
    rfl
  · intro hpos hri
    have hwf : TrackerWF (trackerResetOf st0) :=
      ⟨hpos, hri, List.length_replicate _ _, List.length_replicate _ _⟩
    obtain ⟨_, _, _, f4⟩ := trackerRun_fields
      (contribSeqs st0.skips first (parseLast st0 last0) (streamOf st0.hdr file))
      (trackerResetOf st0) hwf
    rw [t3, f4]
    rfl

/-- Claim C15, failing input: the parse of `[1,5)` of scenario S4 on the fresh
scenario object ends with `rindex = 4`, `rnumseqno = 4` and a 1-reordering of 25
percent in the summary; the same parse on the same object after it has parsed
`[0,5)` of scenario S1 ends with `rindex = 9`, `rnumseqno = 9` and a
1-reordering of 100/9 percent: the parse does not reset `rindex` and
`rnumseqno`.  The tallies and `rn` of the two parses agree. -/
theorem C15_parse_keeps_rindex_and_rnumseqno :
    (OWPStatsParse (scenarioStats []) { datarecs := scenarioS4 } 0 1 5).read
      (fun st => (st.rindex, st.rnumseqno, summaryReordering st)) =
      some (4, 4, [(1, 25)]) ∧
    (OWPStatsParse (scenarioStats []) { datarecs := scenarioS1 } 0 0 5).read
      (fun st1 => (OWPStatsParse st1 { datarecs := scenarioS4 } 0 1 5).read
        (fun st => (st.rindex, st.rnumseqno, summaryReordering st))) =
      some (some (9, 9, [(1, 100 / 9)])) ∧
    (OWPStatsParse (scenarioStats []) { datarecs := scenarioS4 } 0 1 5).read
      (fun st => (st.sent, st.lost, st.dups, st.rn)) =
      some (4, 0, 0, [1, 0, 0, 0, 0, 0, 0, 0, 0, 0]) ∧
    (OWPStatsParse (scenarioStats []) { datarecs := scenarioS1 } 0 0 5).read
      (fun st1 => (OWPStatsParse st1 { datarecs := scenarioS4 } 0 1 5).read
        (fun st => (st.sent, st.lost, st.dups, st.rn))) =
      some (some (4, 0, 0, [1, 0, 0, 0, 0, 0, 0, 0, 0, 0])) := by
  refine ⟨?_, ?_, ?_, ?_⟩ <;> decide!

theorem SchedOK_congr {start : Nat} {deltas : Nat → Nat} {st st1 : OWPStatsRec}
    (h : SchedOK start deltas st) (h1 : st1.sctx = st.sctx) (h2 : st1.isctx = st.isctx)
    (h3 : st1.endnum = st.endnum) (h4 : ∀ p ∈ st1.pnodes, ∃ q ∈ st.pnodes,
      p.seq = q.seq ∧ p.schedtime = q.schedtime) : SchedOK start deltas st1 := by
  refine ⟨⟨by rw [h1]; exact h.cursor.deltas_eq, by rw [h1, h2]; exact h.cursor.pos,
    by rw [h3, h2]; exact h.cursor.endnum⟩, ?_⟩
  intro p hp
  obtain ⟨q, hq, e1, e2⟩ := h4 p hp
  rw [e1, e2]
  exact h.nodes q hq

theorem CursorOK_next {start : Nat} {deltas : Nat → Nat} {st : OWPStatsRec}
    (h : CursorOK start deltas st) :
    OWPNum64Add st.endnum (OWPScheduleContextGenerateNextDelta st.sctx).1 =
      schedSum start deltas (st.isctx + 1) ∧
    (OWPScheduleContextGenerateNextDelta st.sctx).2.deltas = deltas ∧
    (OWPScheduleContextGenerateNextDelta st.sctx).2.pos = st.isctx + 1 := by
  refine ⟨?_, h.deltas_eq, ?_⟩
  · show OWPNum64Add st.endnum (st.sctx.deltas st.sctx.pos % 2 ^ 64) = _
    rw [h.endnum, h.deltas_eq, h.pos]
    rfl
  · show st.sctx.pos + 1 = _
    rw [h.pos]

theorem PacketGetLoop_sched {start : Nat} {deltas : Nat → Nat} (k : Nat) :
    ∀ (st : OWPStatsRec) (nseq : Nat) (st1 : OWPStatsRec) (n1 : Nat),
    SchedOK start deltas st → PacketGetLoop k st nseq = some (st1, n1) →
    SchedOK start deltas st1 := by
  induction k with
  | zero =>
    intro st nseq st1 n1 h hg
    simp only [PacketGetLoop, Option.some.injEq, Prod.mk.injEq] at hg
    rw [← hg.1]
    exact h
  | succ k ih =>
    intro st nseq st1 n1 h hg
    unfold PacketGetLoop at hg
    by_cases hne : nseq + 1 ≠ st.isctx
    · rw [if_pos hne] at hg
      cases hg
    · rw [if_neg hne] at hg
      simp only [] at hg
      have hi : nseq + 1 = st.isctx := by
        by_contra hc
        exact hne hc
      obtain ⟨c1, c2, c3⟩ := CursorOK_next h.cursor
      cases hal : PacketAlloc
          { st with endnum := OWPNum64Add st.endnum (OWPScheduleContextGenerateNextDelta st.sctx).1,
                    sctx := (OWPScheduleContextGenerateNextDelta st.sctx).2,
                    isctx := st.isctx + 1 } (nseq + 1) with
      | none =>
        rw [hal] at hg
        cases hg
      | some pr =>
        obtain ⟨st2, node⟩ := pr
        rw [hal] at hg
        simp only [] at hg
        obtain ⟨hn, hs2⟩ := PacketAlloc_some hal
        apply ih _ _ st1 n1 _ hg
        subst hs2
        subst hn
        refine ⟨⟨c2, c3, c1⟩, ?_⟩
        intro p hp
        obtain ⟨q, hq, hcase⟩ := mem_nodeUpdate hp
        rcases hcase with ⟨hseq, hpq⟩ | ⟨hseq, hpq⟩
        · subst hpq
          show OWPNum64Add st.endnum (OWPScheduleContextGenerateNextDelta st.sctx).1 =
            schedSum start deltas (q.seq + 1)
          rw [c1, hseq]
          show schedSum start deltas (st.isctx + 1) = schedSum start deltas (nseq + 1 + 1)
          rw [hi]
        · subst hpq
          rcases List.mem_append.1 hq with hq | hq
          · exact h.nodes p hq
          · simp only [List.mem_singleton] at hq
            subst hq
            exact absurd rfl hseq

theorem PacketGet_sched {start : Nat} {deltas : Nat → Nat} {st st1 : OWPStatsRec}
    {seq : Nat} {n : Option OWPPacketRec} (h : SchedOK start deltas st)
    (hg : PacketGet st seq = some (st1, n)) : SchedOK start deltas st1 := by
  unfold PacketGet at hg
  cases hpe : st.pend with
  | none =>
    rw [hpe] at hg
    cases hg
  | some pe =>
    rw [hpe] at hg
    simp only [] at hg
    split_ifs at hg with c1 c2 c3
    · cases hg
      exact h
    · cases hg
      exact h
    · cases hl : PacketGetLoop (seq - pe) st pe with
      | none =>
        rw [hl] at hg
        cases hg
      | some pr =>
        obtain ⟨st2, nseq⟩ := pr
        rw [hl] at hg
        simp only [Option.some.injEq, Prod.mk.injEq] at hg
        have h2 := PacketGetLoop_sched _ _ _ _ _ h hl
        rw [← hg.1]
        exact SchedOK_congr h2 rfl rfl rfl (fun p hp => ⟨p, hp, rfl, rfl⟩)
    · cases hh : st.pnodes.head? with
      | none =>
        rw [hh] at hg
        cases hg
      | some pb =>
        rw [hh] at hg
        simp only [] at hg
        split_ifs at hg
        · cases hg
          exact h
        · cases hg
          exact h

theorem flushAcct_sched (st : OWPStatsRec) (node : OWPPacketRec) :
    (flushAcct st node).sctx = st.sctx ∧ (flushAcct st node).endnum = st.endnum ∧
    (flushAcct st node).end_time = node.schedtime ∧ (flushAcct st node).hdr = st.hdr := by
  unfold flushAcct
  simp only []
  split_ifs <;> exact ⟨rfl, rfl, trivial, rfl⟩

theorem SchedOK_PacketFree {start : Nat} {deltas : Nat → Nat} {st : OWPStatsRec}
    (h : SchedOK start deltas st) (node : OWPPacketRec) :
    SchedOK start deltas (PacketFree st node) :=
  SchedOK_congr h rfl rfl rfl (fun p hp => ⟨p, (List.mem_filter.1 hp).1, rfl, rfl⟩)

theorem SchedOK_flushAcct {start : Nat} {deltas : Nat → Nat} {st : OWPStatsRec}
    (h : SchedOK start deltas st) (node : OWPPacketRec) :
    SchedOK start deltas (flushAcct st node) := by
  obtain ⟨a1, a2, a3, a4, _⟩ := flushAcct_frameG st node
  obtain ⟨s1, s2, _⟩ := flushAcct_sched st node
  exact SchedOK_congr h s1 a4 s2 (fun p hp => ⟨p, by rw [← a2]; exact hp, rfl, rfl⟩)

theorem PacketBeginFlush_sched {start : Nat} {deltas : Nat → Nat} {st st1 : OWPStatsRec}
    {r : Bool} (h : SchedOK start deltas st) (hf : PacketBeginFlush st = some (st1, r)) :
    SchedOK start deltas st1 := by
  unfold PacketBeginFlush at hf
  cases hpn : st.pnodes with
  | nil =>
    rw [hpn] at hf
    simp only [Option.some.injEq, Prod.mk.injEq] at hf
    rw [← hf.1]
    exact h
  | cons node rest =>
    rw [hpn] at hf
    simp only [] at hf
    cases rest with
    | cons p tl =>
      simp only [Option.some.injEq, Prod.mk.injEq] at hf
      rw [← hf.1]
      exact SchedOK_PacketFree (SchedOK_flushAcct h node) node
    | nil =>
      simp only [] at hf
      split_ifs at hf with hc
      · cases hg : PacketGet (flushAcct st node) (node.seq + 1) with
        | none =>
          rw [hg] at hf
          cases hf
        | some pr =>
          obtain ⟨st4, n⟩ := pr
          rw [hg] at hf
          simp only [Option.some.injEq, Prod.mk.injEq] at hf
          rw [← hf.1]
          exact SchedOK_PacketFree (PacketGet_sched (SchedOK_flushAcct h node) hg) node
      · simp only [Option.some.injEq, Prod.mk.injEq] at hf
        rw [← hf.1]
        exact SchedOK_PacketFree (SchedOK_flushAcct h node) node

theorem PacketGetLoop_bounds (k : Nat) :
    ∀ (st : OWPStatsRec) (nseq : Nat) (st1 : OWPStatsRec) (n1 : Nat),
    PacketGetLoop k st nseq = some (st1, n1) →
    st1.first = st.first ∧ st1.last = st.last ∧ st1.hdr = st.hdr := by
  induction k with
  | zero =>
    intro st nseq st1 n1 hg
    simp only [PacketGetLoop, Option.some.injEq, Prod.mk.injEq] at hg
    rw [← hg.1]
    exact ⟨rfl, rfl, rfl⟩
  | succ k ih =>
    intro st nseq st1 n1 hg
    unfold PacketGetLoop at hg
    by_cases hne : nseq + 1 ≠ st.isctx
    · rw [if_pos hne] at hg
      cases hg
    · rw [if_neg hne] at hg
      simp only [] at hg
      cases hal : PacketAlloc
          { st with endnum := OWPNum64Add st.endnum (OWPScheduleContextGenerateNextDelta st.sctx).1,
                    sctx := (OWPScheduleContextGenerateNextDelta st.sctx).2,
                    isctx := st.isctx + 1 } (nseq + 1) with
      | none =>
        rw [hal] at hg
        cases hg
      | some pr =>
        obtain ⟨st2, node⟩ := pr
        rw [hal] at hg
        simp only [] at hg
        obtain ⟨hn, hs2⟩ := PacketAlloc_some hal
        obtain ⟨i1, i2, i3⟩ := ih _ _ st1 n1 hg
        subst hs2
        exact ⟨i1, i2, i3⟩

theorem PacketGet_bounds {st st1 : OWPStatsRec} {seq : Nat} {n : Option OWPPacketRec}
    (hg : PacketGet st seq = some (st1, n)) :
    st1.first = st.first ∧ st1.last = st.last ∧ st1.hdr = st.hdr ∧
    (∀ node, n = some node → node ∈ st1.pnodes) := by
  unfold PacketGet at hg
  cases hpe : st.pend with
  | none =>
    rw [hpe] at hg
    cases hg
  | some pe =>
    rw [hpe] at hg
    simp only [] at hg
    split_ifs at hg with c1 c2 c3
    · simp only [Option.some.injEq, Prod.mk.injEq] at hg
      rw [← hg.1]
      refine ⟨rfl, rfl, rfl, ?_⟩
      intro node hn
      rw [← hg.2] at hn
      exact List.mem_of_find?_eq_some hn
    · simp only [Option.some.injEq, Prod.mk.injEq] at hg
      rw [← hg.1]
      refine ⟨rfl, rfl, rfl, ?_⟩
      intro node hn
      rw [← hg.2] at hn
      cases hn
    · cases hl : PacketGetLoop (seq - pe) st pe with
      | none =>
        rw [hl] at hg
        cases hg
      | some pr =>
        obtain ⟨st2, nseq⟩ := pr
        rw [hl] at hg
        simp only [Option.some.injEq, Prod.mk.injEq] at hg
        obtain ⟨i1, i2, i3⟩ := PacketGetLoop_bounds _ _ _ _ _ hl
        rw [← hg.1]
        refine ⟨i1, i2, i3, ?_⟩
        intro node hn
        rw [← hg.2] at hn
        exact List.mem_of_find?_eq_some hn
    · cases hh : st.pnodes.head? with
      | none =>
        rw [hh] at hg
        cases hg
      | some pb =>
        rw [hh] at hg
        simp only [] at hg
        split_ifs at hg
        · simp only [Option.some.injEq, Prod.mk.injEq] at hg
          rw [← hg.1]
          refine ⟨rfl, rfl, rfl, ?_⟩
          intro node hn
          rw [← hg.2] at hn
          cases hn
        · simp only [Option.some.injEq, Prod.mk.injEq] at hg
          rw [← hg.1]
          refine ⟨rfl, rfl, rfl, ?_⟩
          intro node hn
          rw [← hg.2] at hn
          exact List.mem_of_find?_eq_some hn

theorem PacketBeginFlush_bounds {st st1 : OWPStatsRec} {r : Bool}
    (hf : PacketBeginFlush st = some (st1, r)) :
    st1.first = st.first ∧ st1.last = st.last ∧ st1.hdr = st.hdr := by
  unfold PacketBeginFlush at hf
  cases hpn : st.pnodes with
  | nil =>
    rw [hpn] at hf
    simp only [Option.some.injEq, Prod.mk.injEq] at hf
    rw [← hf.1]
    exact ⟨rfl, rfl, rfl⟩
  | cons node rest =>
    rw [hpn] at hf
    simp only [] at hf
    obtain ⟨a1, a2, a3, a4, a5, a6, _⟩ := flushAcct_frameG st node
    obtain ⟨_, _, _, s4⟩ := flushAcct_sched st node
    cases rest with
    | cons p tl =>
      simp only [Option.some.injEq, Prod.mk.injEq] at hf
      rw [← hf.1]
      exact ⟨a6, a5, s4⟩
    | nil =>
      simp only [] at hf
      split_ifs at hf with hc
      · cases hg : PacketGet (flushAcct st node) (node.seq + 1) with
        | none =>
          rw [hg] at hf
          cases hf
        | some pr =>
          obtain ⟨st4, n⟩ := pr
          rw [hg] at hf
          simp only [Option.some.injEq, Prod.mk.injEq] at hf
          obtain ⟨i1, i2, i3, _⟩ := PacketGet_bounds hg
          rw [← hf.1]
          exact ⟨by show st4.first = _; rw [i1, a6], by show st4.last = _; rw [i2, a5],
            by show st4.hdr = _; rw [i3, s4]⟩
      · simp only [Option.some.injEq, Prod.mk.injEq] at hf
        rw [← hf.1]
        exact ⟨a6, a5, s4⟩

theorem flushLostLoop_reach (seq : Nat) (fuel : Nat) : ∀ (st st1 : OWPStatsRec),
    (flushLostLoop fuel st seq = Ret.ok st1 →
      ParseReach st st1 ∧ st1.pnodes ≠ [] ∧ st1.first = st.first ∧ st1.last = st.last) ∧
    (flushLostLoop fuel st seq = Ret.fatal st1 → ParseReach st st1) := by
  induction fuel with
  | zero =>
    intro st st1
    constructor <;> intro h <;> simp [flushLostLoop] at h
  | succ fuel ih =>
    intro st st1
    unfold flushLostLoop
    cases hpn : st.pnodes with
    | nil => constructor <;> intro h <;> simp at h
    | cons pb rest =>
      simp only []
      have hne : st.pnodes ≠ [] := by rw [hpn]; simp
      by_cases hc : pb.seq < seq
      · simp only [hc, if_true]
        cases hf : PacketBeginFlush st with
        | none => constructor <;> intro h <;> simp at h
        | some pr =>
          obtain ⟨st2, r⟩ := pr
          have hstep : ParseStep st st2 := ParseStep.flush st st2 r hne hf
          obtain ⟨b1, b2, _⟩ := PacketBeginFlush_bounds hf
          cases r with
          | true =>
            simp only []
            obtain ⟨i1, i2⟩ := ih st2 st1
            constructor
            · intro h
              obtain ⟨j1, j2, j3, j4⟩ := i1 h
              exact ⟨Relation.ReflTransGen.head hstep j1, j2, by rw [j3, b1], by rw [j4, b2]⟩
            · intro h
              exact Relation.ReflTransGen.head hstep (i2 h)
          | false =>
            simp only []
            constructor
            · intro h
              cases h
            · intro h
              simp only [Ret.fatal.injEq] at h
              subst h
              exact Relation.ReflTransGen.single hstep
      · simp only [hc, if_false]
        constructor
        · intro h
          simp only [Ret.ok.injEq] at h
          subst h
          exact ⟨Relation.ReflTransGen.refl, hne, rfl, rfl⟩
        · intro h
          cases h

theorem flushThreshLoop_reach (thresh : Nat) (fuel : Nat) : ∀ (st st1 : OWPStatsRec),
    (flushThreshLoop fuel st thresh = Ret.ok st1 →
      ParseReach st st1 ∧ st1.pnodes ≠ [] ∧ st1.first = st.first ∧ st1.last = st.last) ∧
    (flushThreshLoop fuel st thresh = Ret.fatal st1 → ParseReach st st1) := by
  induction fuel with
  | zero =>
    intro st st1
    constructor <;> intro h <;> simp [flushThreshLoop] at h
  | succ fuel ih =>
    intro st st1
    unfold flushThreshLoop
    cases hpn : st.pnodes with
    | nil => constructor <;> intro h <;> simp at h
    | cons pb rest =>
      simp only []
      have hne : st.pnodes ≠ [] := by rw [hpn]; simp
      by_cases hc : OWPNum64Cmp pb.schedtime thresh < 0
      · simp only [hc, if_true]
        cases hf : PacketBeginFlush st with
        | none => constructor <;> intro h <;> simp at h
        | some pr =>
          obtain ⟨st2, r⟩ := pr
          have hstep : ParseStep st st2 := ParseStep.flush st st2 r hne hf
          obtain ⟨b1, b2, _⟩ := PacketBeginFlush_bounds hf
          cases r with
          | true =>
            simp only []
            obtain ⟨i1, i2⟩ := ih st2 st1
            constructor
            · intro h
              obtain ⟨j1, j2, j3, j4⟩ := i1 h
              exact ⟨Relation.ReflTransGen.head hstep j1, j2, by rw [j3, b1], by rw [j4, b2]⟩
            · intro h
              exact Relation.ReflTransGen.head hstep (i2 h)
          | false =>
            simp only []
            constructor
            · intro h
              cases h
            · intro h
              simp only [Ret.fatal.injEq] at h
              subst h
              exact Relation.ReflTransGen.single hstep
      · simp only [hc, if_false]
        constructor
        · intro h
          simp only [Ret.ok.injEq] at h
          subst h
          exact ⟨Relation.ReflTransGen.refl, hne, rfl, rfl⟩
        · intro h
          cases h

/-- A callback stays inside the reachable states, whether it returns with
success or with the error indicator. -/
theorem iterCore_reach (seq : Nat) (isLost : Bool) (thresh : OWPStatsRec → Nat)
    (postLost : OWPStatsRec → OWPStatsRec) (post : Nat → OWPStatsRec → OWPStatsRec)
    (hL : ∀ st node, node ∈ st.pnodes → node.seen = 0 →
      ParseStep st (postLost (lostUpdate st node)))
    (hR : ∀ st node, node ∈ st.pnodes → node.lost = false →
      ParseStep st (post node.seen (jreorder (seenUpdate st node) seq)))
    (st st' : OWPStatsRec)
    (h : iterCore seq isLost thresh postLost post st = Ret.ok st' ∨
      iterCore seq isLost thresh postLost post st = Ret.fatal st') :
    ParseReach st st' := by
  obtain ⟨m1, m2, m3, m4, m5, _⟩ := markOffset_fields st seq
  have hmark : ParseReach st (markOffset st seq) :=
    Relation.ReflTransGen.single (ParseStep.mark st seq)
  unfold iterCore at h
  simp only [] at h
  by_cases hr : seq < (markOffset st seq).first ∨ seq ≥ (markOffset st seq).last
  · simp only [hr, if_true] at h
    rcases h with h | h
    · simp only [Ret.ok.injEq] at h
      subst h
      exact hmark
    · cases h
  · simp only [hr, if_false] at h
    have hloop : ∀ st1, ((if isLost = true then
          flushLostLoop ((markOffset st seq).last + 1) (markOffset st seq) seq
        else flushThreshLoop ((markOffset st seq).last + 1) (markOffset st seq)
          (thresh (markOffset st seq))) = Ret.ok st1 →
        ParseReach (markOffset st seq) st1 ∧ st1.pnodes ≠ [] ∧
          st1.first = (markOffset st seq).first ∧ st1.last = (markOffset st seq).last) ∧
        ((if isLost = true then
          flushLostLoop ((markOffset st seq).last + 1) (markOffset st seq) seq
        else flushThreshLoop ((markOffset st seq).last + 1) (markOffset st seq)
          (thresh (markOffset st seq))) = Ret.fatal st1 →
        ParseReach (markOffset st seq) st1) := by
      intro st1
      cases isLost with
      | true => exact flushLostLoop_reach seq _ _ st1
      | false => exact flushThreshLoop_reach _ _ _ st1
    cases hl : (if isLost = true then
          flushLostLoop ((markOffset st seq).last + 1) (markOffset st seq) seq
        else flushThreshLoop ((markOffset st seq).last + 1) (markOffset st seq)
          (thresh (markOffset st seq))) with
    | crash =>
      rw [hl] at h
      rcases h with h | h <;> cases h
    | fatal s =>
      rw [hl] at h
      simp only [] at h
      rcases h with h | h
      · cases h
      · simp only [Ret.fatal.injEq] at h
        subst h
        exact Relation.ReflTransGen.trans hmark ((hloop s).2 hl)
    | ok st1 =>
      rw [hl] at h
      simp only [] at h
      obtain ⟨r1, r2, r3, r4⟩ := (hloop st1).1 hl
      have hr1 : ParseReach st st1 := Relation.ReflTransGen.trans hmark r1
      cases hg : PacketGet st1 seq with
      | none =>
        rw [hg] at h
        rcases h with h | h <;> cases h
      | some pr =>
        obtain ⟨st2, n⟩ := pr
        rw [hg] at h
        have hstep : ParseStep st1 st2 :=
          ParseStep.get st1 st2 seq n r2 (by rw [r3]; omega) (by rw [r4]; omega) hg
        have hr2 : ParseReach st st2 := Relation.ReflTransGen.tail hr1 hstep
        obtain ⟨_, _, _, hmem⟩ := PacketGet_bounds hg
        cases n with
        | none =>
          simp only [] at h
          rcases h with h | h
          · cases h
          · simp only [Ret.fatal.injEq] at h
            subst h
            exact hr2
        | some node =>
          simp only [] at h
          have hm := hmem node rfl
          by_cases hsk : skipScan st2 node.seq = true
          · simp only [hsk, if_true] at h
            rcases h with h | h
            · simp only [Ret.ok.injEq] at h
              subst h
              exact hr2
            · cases h
          · simp only [hsk, Bool.false_eq_true, if_false] at h
            cases isLost with
            | true =>
              simp only [if_true] at h
              by_cases hs : node.seen ≠ 0
              · rw [if_pos hs] at h
                rcases h with h | h
                · cases h
                · simp only [Ret.fatal.injEq] at h
                  subst h
                  exact hr2
              · rw [if_neg hs] at h
                rcases h with h | h
                · simp only [Ret.ok.injEq] at h
                  subst h
                  exact Relation.ReflTransGen.tail hr2
                    (hL st2 node hm (by
                      by_contra hc
                      exact hs hc))
                · cases h
            | false =>
              simp only [Bool.false_eq_true, if_false] at h
              by_cases hlo : node.lost = true
              · simp only [hlo, if_true] at h
                rcases h with h | h
                · cases h
                · simp only [Ret.fatal.injEq] at h
                  subst h
                  exact hr2
              · simp only [hlo, Bool.false_eq_true, if_false] at h
                rcases h with h | h
                · simp only [Ret.ok.injEq] at h
                  subst h
                  exact Relation.ReflTransGen.tail hr2
                    (hR st2 node hm (by
                      cases hx : node.lost with
                      | true => exact absurd hx hlo
                      | false => rfl))
                · cases h

theorem IterateSummarizeSession_reach (rec : OWPDataRec) (st st' : OWPStatsRec)
    (h : IterateSummarizeSession rec st = Ret.ok st' ∨
      IterateSummarizeSession rec st = Ret.fatal st') : ParseReach st st' := by
  rw [IterateSummarizeSession_eq] at h
  exact iterCore_reach _ _ _ _ _ (fun s node hm hs => ParseStep.lostOW s rec node hm hs)
    (fun s node hm hl => ParseStep.recvOW s rec node hm hl) st st' h

theorem IterateSummarizeTWSession_reach (rec : OWPTWDataRec) (st st' : OWPStatsRec)
    (h : IterateSummarizeTWSession rec st = Ret.ok st' ∨
      IterateSummarizeTWSession rec st = Ret.fatal st') : ParseReach st st' := by
  rw [IterateSummarizeTWSession_eq] at h
  exact iterCore_reach _ _ _ _ _ (fun s node hm hs => ParseStep.lostTW s rec node hm hs)
    (fun s node hm hl => ParseStep.recvTW s rec node hm hl) st st' h

theorem OWPParseRecords_reach {α : Type} (proc : α → OWPStatsRec → Ret)
    (hproc : ∀ a st st', (proc a st = Ret.ok st' ∨ proc a st = Ret.fatal st') →
      ParseReach st st')
    (recs : List α) : ∀ (st st' : OWPStatsRec),
      (OWPParseRecords proc recs st = Ret.ok st' ∨
        OWPParseRecords proc recs st = Ret.fatal st') → ParseReach st st' := by
  induction recs with
  | nil =>
    intro st st' h
    simp only [OWPParseRecords] at h
    rcases h with h | h
    · simp only [Ret.ok.injEq] at h
      subst h
      exact Relation.ReflTransGen.refl
    · cases h
  | cons a rest ih =>
    intro st st' h
    unfold OWPParseRecords at h
    cases hp : proc a st with
    | crash =>
      rw [hp] at h
      rcases h with h | h <;> cases h
    | fatal s =>
      rw [hp] at h
      simp only [] at h
      rcases h with h | h
      · cases h
      · simp only [Ret.fatal.injEq] at h
        subst h
        exact hproc a st s (Or.inr hp)
    | ok st1 =>
      rw [hp] at h
      simp only [] at h
      exact Relation.ReflTransGen.trans (hproc a st st1 (Or.inl hp)) (ih st1 st' h)

theorem parseIterate_reach (st8 : OWPStatsRec) (file : OWPFile) (st' : OWPStatsRec)
    (h : parseIterate st8 file = Ret.ok st' ∨ parseIterate st8 file = Ret.fatal st') :
    ParseReach st8 st' := by
  unfold parseIterate at h
  split_ifs at h
  · exact OWPParseRecords_reach IterateSummarizeTWSession IterateSummarizeTWSession_reach
      file.twdatarecs st8 st' h
  · exact OWPParseRecords_reach IterateSummarizeSession IterateSummarizeSession_reach
      file.datarecs st8 st' h

theorem drainLoop_reach (fuel : Nat) : ∀ (st st1 : OWPStatsRec),
    drainLoop fuel st = some st1 → ParseReach st st1 := by
  induction fuel with
  | zero =>
    intro st st1 h
    simp [drainLoop] at h
  | succ fuel ih =>
    intro st st1 h
    unfold drainLoop at h
    cases hpn : st.pnodes with
    | nil =>
      rw [hpn] at h
      simp only [Option.some.injEq] at h
      subst h
      exact Relation.ReflTransGen.refl
    | cons pb rest =>
      rw [hpn] at h
      simp only [] at h
      have hne : st.pnodes ≠ [] := by rw [hpn]; simp
      cases hf : PacketBeginFlush st with
      | none =>
        rw [hf] at h
        cases h
      | some pr =>
        obtain ⟨st2, r⟩ := pr
        rw [hf] at h
        have hstep : ParseStep st st2 := ParseStep.flush st st2 r hne hf
        cases r with
        | true =>
          simp only [] at h
          exact Relation.ReflTransGen.head hstep (ih st2 st1 h)
        | false =>
          simp only [Option.some.injEq] at h
          subst h
          exact Relation.ReflTransGen.single hstep

/-- Every state a parse returns lies in the reachable states of its
initialisation: the state of a successful parse, up to the sorted array, and
the state a parse that fails after the range check is left in. -/
theorem parse_reach (st0 : OWPStatsRec) (file : OWPFile) (bo first last0 : Nat)
    (st : OWPStatsRec) :
    (OWPStatsParse st0 file bo first last0 = Ret.ok st →
      ∃ st8 st10, parseInit st0 bo first (parseLast st0 last0) = some st8 ∧
        ParseReach st8 st10 ∧
        st = { st10 with bsort := qsort BucketBufferSortCmp st10.btable }) ∧
    (OWPStatsParse st0 file bo first last0 = Ret.fatal st →
      (st = st0 ∧ (first > parseLast st0 last0 ∨
        parseLast st0 last0 > st0.hdr.test_spec.npackets)) ∨
      ∃ st8, parseInit st0 bo first (parseLast st0 last0) = some st8 ∧
        ParseReach st8 st) := by
  constructor
  · intro h
    obtain ⟨_, _, st8, st9, st10, hi, hit, hd, hst⟩ := parse_shape st0 file bo first last0 st h
    exact ⟨st8, st10, hi, Relation.ReflTransGen.trans
      (parseIterate_reach st8 file st9 (Or.inl hit)) (drainLoop_reach _ st9 st10 hd), hst⟩
  · intro h
    unfold OWPStatsParse at h
    simp only [] at h
    by_cases hv : first > parseLast st0 last0 ∨
        parseLast st0 last0 > st0.hdr.test_spec.npackets
    · simp only [hv, if_true, Ret.fatal.injEq] at h
      exact Or.inl ⟨h.symm, hv⟩
    · simp only [hv, if_false] at h
      right
      cases hi : parseInit st0 bo first (parseLast st0 last0) with
      | none =>
        rw [hi] at h
        cases h
      | some st8 =>
        rw [hi] at h
        simp only [] at h
        refine ⟨st8, rfl, ?_⟩
        have h2 : (match parseIterate st8 file with
          | Ret.crash => Ret.crash
          | Ret.fatal st9 => Ret.fatal st9
          | Ret.ok st9 =>
            match drainLoop (st9.last + 2) st9 with
            | none => Ret.crash
            | some st10 =>
              Ret.ok { st10 with bsort := qsort BucketBufferSortCmp st10.btable }) =
            Ret.fatal st := h
        cases hit : parseIterate st8 file with
        | crash =>
          rw [hit] at h2
          cases h2
        | fatal s =>
          rw [hit] at h2
          simp only [Ret.fatal.injEq] at h2
          subst h2
          exact parseIterate_reach st8 file s (Or.inr hit)
        | ok st9 =>
          rw [hit] at h2
          simp only [] at h2
          cases hd : drainLoop (st9.last + 2) st9 with
          | none =>
            rw [hd] at h2
            cases h2
          | some st10 =>
            rw [hd] at h2
            cases h2

theorem Win_unique {st : OWPStatsRec} {b e : Nat} (hw : Win st b e) {p q : OWPPacketRec}
    (hp : p ∈ st.pnodes) (hq : q ∈ st.pnodes) (h : p.seq = q.seq) : p = q := by
  have hnd : (st.pnodes.map (fun p => p.seq)).Nodup := by
    rw [hw.seqs]
    exact List.nodup_range' _ _
  exact List.inj_on_of_nodup_map hnd hp hq h

theorem Win_nonempty {st : OWPStatsRec} {b e : Nat} (hw : Win st b e) : st.pnodes ≠ [] := by
  obtain ⟨node, tl, hpn, _⟩ := Win_head hw
  rw [hpn]
  simp

theorem WinOK_cases {st : OWPStatsRec} (h : WinOK st) (hne : st.pnodes ≠ []) :
    (∃ b e, Win st b e) ∨ Degen st := by
  rcases h with h | h | h
  · exact absurd h hne
  · exact Or.inl h
  · exact Or.inr h

/-- In a well formed window a sequence number has one record. -/
theorem WinOK_unique {st : OWPStatsRec} (h : WinOK st) {p q : OWPPacketRec}
    (hp : p ∈ st.pnodes) (hq : q ∈ st.pnodes) (hs : p.seq = q.seq) : p = q := by
  rcases h with h | ⟨b, e, h⟩ | ⟨_, node, h, _⟩
  · rw [h] at hp
    cases hp
  · exact Win_unique h hp hq hs
  · rw [h] at hp hq
    simp only [List.mem_singleton] at hp hq
    rw [hp, hq]

/-- What `PacketBeginFlush` does to a window `b .. e`: it returns True and
leaves the window `b+1 .. max e (b+1)`, whose records are old ones or one fresh
record behind `e`, or it returns False and leaves the window empty; `end_time`
is the scheduled time of the flushed record, the record of `b`. -/
theorem PacketBeginFlush_win {st : OWPStatsRec} {b e : Nat} (hw : Win st b e) :
    ∃ st1 r node, st.pnodes.head? = some node ∧ node.seq = b ∧
      PacketBeginFlush st = some (st1, r) ∧ st1.end_time = node.schedtime ∧
      ((r = true ∧ Win st1 (b + 1) (max e (b + 1)) ∧
         (∀ p ∈ st1.pnodes, p ∈ st.pnodes ∨ (p.seen = 0 ∧ p.lost = false ∧ e < p.seq))) ∨
       (r = false ∧ b = e ∧ ¬ (b + 1 < st.last) ∧ st1.pnodes = [])) := by
  obtain ⟨node, tl, hpn, hnb, htl, hfilt⟩ := Win_head hw
  obtain ⟨a1, a2, a3, a4, a5, a6, a7, a8, a9⟩ := flushAcct_frameG st node
  obtain ⟨_, _, s3, _⟩ := flushAcct_sched st node
  have hle := hw.le
  have hll := hw.lt_last
  have hfl := hw.first_le
  have hh : st.pnodes.head? = some node := by rw [hpn]; rfl
  cases tl with
  | cons p tl' =>
    have hbe : b < e := by
      by_contra hc
      have : e - b = 0 := by omega
      rw [this] at htl
      simp at htl
    have hpn1 : (PacketFree (flushAcct st node) node).pnodes = p :: tl' := by
      show (flushAcct st node).pnodes.filter _ = _
      rw [a2]; exact hfilt
    refine ⟨PacketFree (flushAcct st node) node, true, node, hh, hnb,
      PacketBeginFlush_cons_cons st node p tl' hpn, s3, Or.inl ⟨rfl, ?_, ?_⟩⟩
    · have hmax : max e (b + 1) = e := by omega
      rw [hmax]
      refine ⟨?_, by omega, ?_, ?_, ?_, ?_⟩
      · rw [hpn1, htl]
        congr 1
        omega
      · show (if (flushAcct st node).pend = some node.seq then some 0
          else (flushAcct st node).pend) = some e
        rw [a3, hw.pend, hnb]
        have : ¬ (some e = some b) := by
          intro h; cases h; omega
        simp only [this, if_false]
      · show (flushAcct st node).isctx = e + 1
        rw [a4]; exact hw.isctx
      · show (flushAcct st node).first ≤ b + 1
        rw [a6]; omega
      · show e < (flushAcct st node).last
        rw [a5]; exact hll
    · intro q hq
      rw [hpn1] at hq
      left
      rw [hpn]
      exact List.mem_cons_of_mem _ hq
  | nil =>
    have hbe : e = b := by
      have h1 := hw.seqs
      rw [hpn] at h1
      have h2 := congrArg List.length h1
      simp at h2
      omega
    subst hbe
    have hsingle := PacketBeginFlush_single st node hpn
    rw [hnb] at hsingle
    by_cases hlt : e + 1 < st.last
    · simp only [hlt, if_true] at hsingle
      have hw3 : Win (flushAcct st node) e e := Win_congr hw a2 a3 a4 a6 a5
      obtain ⟨st4, news, node4, g1, g2, g3, g4, g5, g6, g7, g8, g9, g10, g11, g12⟩ :=
        PacketGet_spec (flushAcct st node) e e (e + 1) hw3 (by omega) (by rw [a5]; exact hlt)
      simp only [g1] at hsingle
      have hmax : max e (e + 1) = e + 1 := by omega
      rw [hmax] at g7 ⊢
      obtain ⟨nd, tl4, k1, k2, k3, k4⟩ := Win_head g7
      have hcat : st4.pnodes = node :: news := by rw [g4, a2, hpn]; rfl
      have hnd : nd = node ∧ tl4 = news := by
        rw [hcat] at k1
        simp only [List.cons.injEq] at k1
        exact ⟨k1.1.symm, k1.2.symm⟩
      obtain ⟨hnd1, hnd2⟩ := hnd
      subst hnd1; subst hnd2
      have hpn1 : (PacketFree st4 nd).pnodes = tl4 := k4
      refine ⟨PacketFree st4 nd, true, nd, hh, hnb, hsingle, ?_, Or.inl ⟨rfl, ?_, ?_⟩⟩
      · show st4.end_time = _
        rw [g12, s3]
      · refine ⟨?_, le_refl _, ?_, ?_, ?_, ?_⟩
        · rw [hpn1, k3]
          congr 1
          omega
        · show (if st4.pend = some nd.seq then some 0 else st4.pend) = some (e + 1)
          rw [g7.pend, hnb]
          have : ¬ (some (e + 1) = some e) := by
            intro h; simp at h
          simp only [this, if_false]
        · exact g7.isctx
        · show st4.first ≤ e + 1
          rw [frameG_first g8, a6]; omega
        · show e + 1 < st4.last
          rw [frameG_last g8, a5]; exact hlt
      · intro q hq
        rw [hpn1] at hq
        right
        obtain ⟨q1, q2⟩ := g6 q hq
        have hqs : q.seq ∈ tl4.map (fun p => p.seq) := List.mem_map_of_mem _ hq
        rw [g5, List.mem_range'_1] at hqs
        exact ⟨q1, q2, by omega⟩
    · simp only [hlt, if_false] at hsingle
      refine ⟨PacketFree (flushAcct st node) node, false, node, hh, hnb, hsingle, s3,
        Or.inr ⟨rfl, rfl, hlt, ?_⟩⟩
      show (flushAcct st node).pnodes.filter _ = []
      rw [a2]
      exact hfilt

theorem frameW_markOffset (st : OWPStatsRec) (seq : Nat) :
    frameW (markOffset st seq) = frameW st ∧ (markOffset st seq).pnodes = st.pnodes := by
  unfold markOffset
  simp only []
  split_ifs <;> exact ⟨rfl, rfl⟩

theorem frameW_frameP {a b : OWPStatsRec} (h : frameP a = frameP b) :
    frameW a = frameW b ∧ a.pnodes = b.pnodes := by
  constructor
  · have := congrArg frameW h; exact this
  · have := congrArg OWPStatsRec.pnodes h; exact this

/-- A step that only rewrites the flags of the records of one sequence number
keeps the invariant, as long as the record of that sequence number is not left
both lost and seen. -/
theorem RInv_update {st st1 : OWPStatsRec}
    (h : RInv st) (node : OWPPacketRec) (f : OWPPacketRec → OWPPacketRec)
    (hm : node ∈ st.pnodes) (hw : frameW st1 = frameW st)
    (hpn : st1.pnodes = nodeUpdate node.seq f st.pnodes)
    (f1 : ∀ p, (f p).seq = p.seq)
    (f3 : ¬ ((f node).lost = true ∧ 0 < (f node).seen))
    (f4 : ∀ p, p.seen ≤ (f p).seen ∧ (p.lost = true → (f p).lost = true)) :
    RInv st1 ∧ SeenMono st st1 ∧ st1.first = st.first ∧ st1.last = st.last := by
  unfold frameW at hw
  simp only [Prod.mk.injEq] at hw
  obtain ⟨w1, w2, w3, w4, w5, w6, w7⟩ := hw
  have hne : st.pnodes ≠ [] := List.ne_nil_of_mem hm
  refine ⟨⟨?_, ?_⟩, ?_, w3, w4⟩
  · rcases WinOK_cases h.win hne with ⟨b, e, hwin⟩ | ⟨hd1, nd, hd2, hd3⟩
    · right
      left
      exact ⟨b, e, ⟨by rw [hpn, nodeUpdate_seqs _ _ f1]; exact hwin.seqs, hwin.le,
        by rw [w1]; exact hwin.pend, by rw [w2]; exact hwin.isctx,
        by rw [w3]; exact hwin.first_le, by rw [w4]; exact hwin.lt_last⟩⟩
    · right
      right
      refine ⟨by rw [w3, w4]; exact hd1, ?_⟩
      rw [hpn, hd2, w3]
      unfold nodeUpdate
      simp only [List.map_cons, List.map_nil]
      split_ifs
      · exact ⟨_, rfl, by rw [f1]; exact hd3⟩
      · exact ⟨_, rfl, hd3⟩
  · intro p hp
    rw [hpn] at hp
    obtain ⟨q, hq, hcase⟩ := mem_nodeUpdate hp
    rcases hcase with ⟨hs, hpq⟩ | ⟨hs, hpq⟩
    · have : q = node := WinOK_unique h.win hq hm hs
      subst this
      rw [hpq]
      exact f3
    · rw [hpq]
      exact h.excl q hq
  · intro p hp q hq hseq
    rw [hpn] at hq
    obtain ⟨q0, hq0, hcase⟩ := mem_nodeUpdate hq
    rcases hcase with ⟨hs, hpq⟩ | ⟨hs, hpq⟩
    · have hq0p : q0 = p := by
        apply WinOK_unique h.win hq0 hp
        rw [← hseq, hpq, f1]
      subst hq0p
      rw [hpq]
      exact f4 q0
    · have hq0p : q0 = p := by
        apply WinOK_unique h.win hq0 hp
        rw [← hseq, hpq]
      subst hq0p
      rw [hpq]
      exact ⟨le_refl _, fun hx => hx⟩

/-- Every state change of a parse keeps the invariant, keeps `first` and `last`,
and lowers no `seen` count of a record that stays in the window. -/
theorem ParseStep_inv {st st1 : OWPStatsRec} (h : RInv st) (hs : ParseStep st st1) :
    RInv st1 ∧ SeenMono st st1 ∧ st1.first = st.first ∧ st1.last = st.last := by
  cases hs with
  | mark seq =>
    obtain ⟨hw, hpn⟩ := frameW_markOffset st seq
    have hw2 := hw
    unfold frameW at hw2
    simp only [Prod.mk.injEq] at hw2
    obtain ⟨w1, w2, w3, w4, w5, w6, w7⟩ := hw2
    refine ⟨⟨?_, ?_⟩, ?_, w3, w4⟩
    · rcases h.win with hwin | ⟨b, e, hwin⟩ | ⟨hd1, nd, hd2, hd3⟩
      · left
        rw [hpn]; exact hwin
      · right
        left
        exact ⟨b, e, Win_congr hwin hpn w1 w2 w3 w4⟩
      · right
        right
        exact ⟨by rw [w3, w4]; exact hd1, nd, by rw [hpn]; exact hd2, by rw [w3]; exact hd3⟩
    · intro p hp
      rw [hpn] at hp
      exact h.excl p hp
    · intro p hp q hq hseq
      rw [hpn] at hq
      have : q = p := WinOK_unique h.win hq hp hseq
      subst this
      exact ⟨le_refl _, fun hx => hx⟩
  | flush _ r hne hf =>
    obtain ⟨b1, b2, _⟩ := PacketBeginFlush_bounds hf
    rcases WinOK_cases h.win hne with ⟨b, e, hwin⟩ | ⟨hd1, nd, hd2, hd3⟩
    · obtain ⟨st2, r2, node, _, _, hf2, _, hcase⟩ := PacketBeginFlush_win hwin
      rw [hf] at hf2
      simp only [Option.some.injEq, Prod.mk.injEq] at hf2
      obtain ⟨e1, e2⟩ := hf2
      subst e1
      subst e2
      refine ⟨⟨?_, ?_⟩, ?_, b1, b2⟩
      · rcases hcase with ⟨_, hw1, _⟩ | ⟨_, _, _, hp1⟩
        · right
          left
          exact ⟨_, _, hw1⟩
        · left
          exact hp1
      · intro p hp
        rcases hcase with ⟨_, _, hm1⟩ | ⟨_, _, _, hp1⟩
        · rcases hm1 p hp with hx | ⟨hx1, hx2, _⟩
          · exact h.excl p hx
          · intro hc
            rw [hx1] at hc
            exact absurd hc.2 (by omega)
        · rw [hp1] at hp
          cases hp
      · intro p hp q hq hseq
        rcases hcase with ⟨_, _, hm1⟩ | ⟨_, _, _, hp1⟩
        · rcases hm1 q hq with hx | ⟨_, _, hx3⟩
          · have : q = p := Win_unique hwin hx hp hseq
            subst this
            exact ⟨le_refl _, fun hx => hx⟩
          · have := (Win_mem_seq hwin hp).2
            omega
        · rw [hp1] at hq
          cases hq
    · have hsingle := PacketBeginFlush_single st nd hd2
      have hlt : ¬ (nd.seq + 1 < st.last) := by
        rw [hd3, hd1]
        omega
      simp only [hlt, if_false] at hsingle
      rw [hf] at hsingle
      simp only [Option.some.injEq, Prod.mk.injEq] at hsingle
      have hp1 : st1.pnodes = [] := by
        rw [hsingle.1]
        show (flushAcct st nd).pnodes.filter _ = []
        rw [(flushAcct_frameG st nd).2.1, hd2]
        simp
      refine ⟨⟨Or.inl hp1, ?_⟩, ?_, b1, b2⟩
      · intro p hp
        rw [hp1] at hp
        cases hp
      · intro p hp q hq hseq
        rw [hp1] at hq
        cases hq
  | get _ seq n hne h1 h2 hg =>
    obtain ⟨b1, b2, _⟩ := PacketGet_bounds hg
    rcases WinOK_cases h.win hne with ⟨b, e, hwin⟩ | ⟨hd1, nd, hd2, hd3⟩
    · rcases Nat.lt_or_ge seq b with hlt | hge
      · rw [PacketGet_behind st b e seq hwin h1 hlt] at hg
        simp only [Option.some.injEq, Prod.mk.injEq] at hg
        rw [← hg.1]
        refine ⟨h, ?_, rfl, rfl⟩
        intro p hp q hq hseq
        have : q = p := Win_unique hwin hq hp hseq
        subst this
        exact ⟨le_refl _, fun hx => hx⟩
      · obtain ⟨st2, news, node, g1, g2, g3, g4, g5, g6, g7, _⟩ :=
          PacketGet_spec st b e seq hwin hge h2
        rw [hg] at g1
        simp only [Option.some.injEq, Prod.mk.injEq] at g1
        obtain ⟨g1a, _⟩ := g1
        subst g1a
        refine ⟨⟨Or.inr (Or.inl ⟨_, _, g7⟩), ?_⟩, ?_, b1, b2⟩
        · intro p hp
          rw [g4] at hp
          rcases List.mem_append.1 hp with hp | hp
          · exact h.excl p hp
          · intro hc
            rw [(g6 p hp).1] at hc
            exact absurd hc.2 (by omega)
        · intro p hp q hq hseq
          rw [g4] at hq
          rcases List.mem_append.1 hq with hq | hq
          · have : q = p := Win_unique hwin hq hp hseq
            subst this
            exact ⟨le_refl _, fun hx => hx⟩
          · have hqs : q.seq ∈ news.map (fun p => p.seq) := List.mem_map_of_mem _ hq
            rw [g5, List.mem_range'_1] at hqs
            have := (Win_mem_seq hwin hp).2
            omega
    · omega
  | lostOW rec node hm hs0 =>
    obtain ⟨hw, hpn⟩ := frameW_frameP (PostLostOK_OW rec (lostUpdate st node)).1
    exact RInv_update h node (fun p => { p with lost := true }) hm
      (by rw [hw]; rfl) (by rw [hpn]; rfl) (fun _ => rfl)
      (by
        intro hc
        have : node.seen = 0 := hs0
        have h2 : 0 < node.seen := hc.2
        omega)
      (fun p => ⟨le_refl _, fun _ => rfl⟩)
  | lostTW rec node hm hs0 =>
    obtain ⟨hw, hpn⟩ := frameW_frameP (PostLostOK_TW rec (lostUpdate st node)).1
    exact RInv_update h node (fun p => { p with lost := true }) hm
      (by rw [hw]; rfl) (by rw [hpn]; rfl) (fun _ => rfl)
      (by
        intro hc
        have : node.seen = 0 := hs0
        have h2 : 0 < node.seen := hc.2
        omega)
      (fun p => ⟨le_refl _, fun _ => rfl⟩)
  | recvOW rec node hm hl0 =>
    obtain ⟨hw, hpn⟩ := frameW_frameP
      (PostOK_OW rec node.seen (jreorder (seenUpdate st node) rec.seq_no)).1
    exact RInv_update h node (fun p => { p with seen := p.seen + 1 }) hm
      (by rw [hw]; rfl) (by rw [hpn]; rfl) (fun _ => rfl)
      (by
        intro hc
        have h1 : node.lost = true := hc.1
        rw [hl0] at h1
        cases h1)
      (fun p => ⟨Nat.le_succ _, fun hx => hx⟩)
  | recvTW rec node hm hl0 =>
    obtain ⟨hw, hpn⟩ := frameW_frameP
      (PostOK_TW rec node.seen (jreorder (seenUpdate st node) rec.sent.seq_no)).1
    exact RInv_update h node (fun p => { p with seen := p.seen + 1 }) hm
      (by rw [hw]; rfl) (by rw [hpn]; rfl) (fun _ => rfl)
      (by
        intro hc
        have h1 : node.lost = true := hc.1
        rw [hl0] at h1
        cases h1)
      (fun p => ⟨Nat.le_succ _, fun hx => hx⟩)

theorem SchedOK_update {start : Nat} {deltas : Nat → Nat} {st st1 : OWPStatsRec}
    (h : SchedOK start deltas st) (seq : Nat) (f : OWPPacketRec → OWPPacketRec)
    (hw : frameW st1 = frameW st) (hpn : st1.pnodes = nodeUpdate seq f st.pnodes)
    (f1 : ∀ p, (f p).seq = p.seq) (f2 : ∀ p, (f p).schedtime = p.schedtime) :
    SchedOK start deltas st1 := by
  unfold frameW at hw
  simp only [Prod.mk.injEq] at hw
  obtain ⟨w1, w2, w3, w4, w5, w6, w7⟩ := hw
  refine SchedOK_congr h w5 w2 w6 ?_
  intro p hp
  rw [hpn] at hp
  obtain ⟨q, hq, hcase⟩ := mem_nodeUpdate hp
  rcases hcase with ⟨hs, hpq⟩ | ⟨hs, hpq⟩
  · exact ⟨q, hq, by rw [hpq, f1], by rw [hpq, f2]⟩
  · exact ⟨q, hq, by rw [hpq], by rw [hpq]⟩

/-- Every state change of a parse keeps the schedule aligned. -/
theorem ParseStep_sched {start : Nat} {deltas : Nat → Nat} {st st1 : OWPStatsRec}
    (h : SchedOK start deltas st) (hs : ParseStep st st1) : SchedOK start deltas st1 := by
  cases hs with
  | mark seq =>
    obtain ⟨hw, hpn⟩ := frameW_markOffset st seq
    unfold frameW at hw
    simp only [Prod.mk.injEq] at hw
    obtain ⟨w1, w2, w3, w4, w5, w6, w7⟩ := hw
    exact SchedOK_congr h w5 w2 w6 (fun p hp => ⟨p, by rw [← hpn]; exact hp, rfl, rfl⟩)
  | flush _ r hne hf => exact PacketBeginFlush_sched h hf
  | get _ seq n hne h1 h2 hg => exact PacketGet_sched h hg
  | lostOW rec node hm hs0 =>
    obtain ⟨hw, hpn⟩ := frameW_frameP (PostLostOK_OW rec (lostUpdate st node)).1
    exact SchedOK_update h node.seq (fun p => { p with lost := true })
      (by rw [hw]; rfl) (by rw [hpn]; rfl) (fun _ => rfl) (fun _ => rfl)
  | lostTW rec node hm hs0 =>
    obtain ⟨hw, hpn⟩ := frameW_frameP (PostLostOK_TW rec (lostUpdate st node)).1
    exact SchedOK_update h node.seq (fun p => { p with lost := true })
      (by rw [hw]; rfl) (by rw [hpn]; rfl) (fun _ => rfl) (fun _ => rfl)
  | recvOW rec node hm hl0 =>
    obtain ⟨hw, hpn⟩ := frameW_frameP
      (PostOK_OW rec node.seen (jreorder (seenUpdate st node) rec.seq_no)).1
    exact SchedOK_update h node.seq (fun p => { p with seen := p.seen + 1 })
      (by rw [hw]; rfl) (by rw [hpn]; rfl) (fun _ => rfl) (fun _ => rfl)
  | recvTW rec node hm hl0 =>
    obtain ⟨hw, hpn⟩ := frameW_frameP
      (PostOK_TW rec node.seen (jreorder (seenUpdate st node) rec.sent.seq_no)).1
    exact SchedOK_update h node.seq (fun p => { p with seen := p.seen + 1 })
      (by rw [hw]; rfl) (by rw [hpn]; rfl) (fun _ => rfl) (fun _ => rfl)

theorem schedAdvance_cursor {start : Nat} {deltas : Nat → Nat} (k : Nat) :
    ∀ (st : OWPStatsRec), CursorOK start deltas st → CursorOK start deltas (schedAdvance k st) := by
  induction k with
  | zero => intro st h; exact h
  | succ k ih =>
    intro st h
    unfold schedAdvance
    simp only []
    obtain ⟨c1, c2, c3⟩ := CursorOK_next h
    exact ih _ ⟨c2, c3, c1⟩

theorem parseSchedReset_cursor (st0 : OWPStatsRec) (bo first last : Nat)
    (deltas : Nat → Nat)
    (h : CursorOK st0.hdr.test_spec.start_time deltas st0) :
    CursorOK st0.hdr.test_spec.start_time deltas
      (parseSchedReset (parseArgs st0 bo first last) first) ∧
    (parseSchedReset (parseArgs st0 bo first last) first).isctx ≤ first := by
  unfold parseSchedReset
  split_ifs with hc
  · exact ⟨⟨h.deltas_eq, rfl, rfl⟩, Nat.zero_le _⟩
  · refine ⟨⟨h.deltas_eq, h.pos, h.endnum⟩, ?_⟩
    have : (parseArgs st0 bo first last).isctx ≤ first := by omega
    exact this

/-- The initialisation of a parse on an object whose schedule cursor is
consistent: the window is the one record of `first`, with the scheduled send
time of `first`, which is also `start_time`, and the schedule is aligned. -/
theorem parseInit_sched (st0 : OWPStatsRec) (bo first last : Nat) (st8 : OWPStatsRec)
    (deltas : Nat → Nat) (hc : CursorOK st0.hdr.test_spec.start_time deltas st0)
    (h : parseInit st0 bo first last = some st8) :
    SchedOK st0.hdr.test_spec.start_time deltas st8 ∧
    st8.pnodes = [OWPPacketRec.mk first
      (schedSum st0.hdr.test_spec.start_time deltas (first + 1)) 0 false] ∧
    st8.start_time = schedSum st0.hdr.test_spec.start_time deltas (first + 1) ∧
    st8.endnum = schedSum st0.hdr.test_spec.start_time deltas (first + 1) := by
  obtain ⟨p1, p2, _⟩ := parsePosition_spec st0 bo first last
  obtain ⟨r1, r2⟩ := parseSchedReset_cursor st0 bo first last deltas hc
  have hcur : CursorOK st0.hdr.test_spec.start_time deltas
      (parsePosition (parseSchedReset (parseArgs st0 bo first last) first) first) := by
    have := schedAdvance_cursor
      (first + 1 - (parseSchedReset (parseArgs st0 bo first last) first).isctx) _ r1
    exact ⟨this.deltas_eq, this.pos, this.endnum⟩
  have hend : (parsePosition (parseSchedReset (parseArgs st0 bo first last) first) first).endnum
      = schedSum st0.hdr.test_spec.start_time deltas (first + 1) := by
    rw [hcur.endnum, p2]
  have hstart : (parsePosition (parseSchedReset (parseArgs st0 bo first last) first)
      first).start_time =
      (parsePosition (parseSchedReset (parseArgs st0 bo first last) first) first).endnum := rfl
  unfold parseInit at h
  simp only [] at h
  cases hpa : PacketAlloc
      (parsePosition (parseSchedReset (parseArgs st0 bo first last) first) first) first with
  | none => rw [hpa] at h; cases h
  | some pr =>
    obtain ⟨st5, node⟩ := pr
    rw [hpa] at h
    simp only [Option.some.injEq] at h
    obtain ⟨hn, hst5⟩ := PacketAlloc_some hpa
    subst h
    subst hn
    subst hst5
    have hpn : (parseReset
        { parsePosition (parseSchedReset (parseArgs st0 bo first last) first) first with
          pnodes := (parsePosition (parseSchedReset (parseArgs st0 bo first last) first)
            first).pnodes ++ [OWPPacketRec.mk first 0 0 false] }
        (OWPPacketRec.mk first 0 0 false)).pnodes =
        [OWPPacketRec.mk first
          (schedSum st0.hdr.test_spec.start_time deltas (first + 1)) 0 false] := by
      show nodeUpdate first _ (_ ++ _) = _
      rw [p1]
      simp only [nodeUpdate, List.nil_append, List.map_cons, List.map_nil, if_true]
      show [OWPPacketRec.mk first
        (parsePosition (parseSchedReset (parseArgs st0 bo first last) first) first).endnum
        0 false] = _
      rw [hend]
    refine ⟨⟨⟨hcur.deltas_eq, hcur.pos, hcur.endnum⟩, ?_⟩, hpn, ?_, hend⟩
    · intro p hp
      rw [hpn] at hp
      simp only [List.mem_singleton] at hp
      rw [hp]
    · show (parsePosition (parseSchedReset (parseArgs st0 bo first last) first)
        first).start_time = _
      rw [hstart, hend]

/-- The initialisation of a parse establishes the invariant of the reachable
states. -/
theorem parseInit_RInv (st0 : OWPStatsRec) (bo first last : Nat) (st8 : OWPStatsRec)
    (hle : first ≤ last) (h : parseInit st0 bo first last = some st8) : RInv st8 := by
  obtain ⟨⟨T, h1⟩, h2, h3, h4, h5, _⟩ := parseInit_spec st0 bo first last st8 h
  refine ⟨?_, ?_⟩
  · rcases Nat.lt_or_ge first last with hlt | hge
    · right
      left
      exact ⟨first, first, (parseInit_inv st0 bo first last st8 h hlt).win⟩
    · right
      right
      exact ⟨by rw [h4, h5]; omega, _, h1, by rw [h4]⟩
  · intro p hp
    rw [h1] at hp
    simp only [List.mem_singleton] at hp
    rw [hp]
    intro hx
    exact absurd hx.2 (by show ¬ (0 < 0); omega)

/-- The invariant holds in every reachable state of a parse, and `first` and
`last` stay what the initialisation made them. -/
theorem reach_inv {st8 st : OWPStatsRec} (h8 : RInv st8) (hr : ParseReach st8 st) :
    RInv st ∧ st.first = st8.first ∧ st.last = st8.last := by
  induction hr with
  | refl => exact ⟨h8, rfl, rfl⟩
  | tail _ hstep ih =>
    obtain ⟨i1, i2, i3⟩ := ih
    obtain ⟨j1, _, j3, j4⟩ := ParseStep_inv i1 hstep
    exact ⟨j1, by rw [j3, i2], by rw [j4, i3]⟩

/-- The schedule is aligned in every reachable state of a parse. -/
theorem reach_sched {start : Nat} {deltas : Nat → Nat} {st8 st : OWPStatsRec}
    (h8 : SchedOK start deltas st8) (hr : ParseReach st8 st) : SchedOK start deltas st := by
  induction hr with
  | refl => exact h8
  | tail _ hstep ih => exact ParseStep_sched ih hstep

theorem Ret_ok_stateD (r : Ret) (d : OWPStatsRec) (h : r.isOk = true) :
    r = Ret.ok (r.stateD d) := by
  cases r with
  | ok st => rfl
  | fatal s => cases h
  | crash => cases h

theorem Option_some_getD {α : Type} (o : Option α) (d : α) (h : o.isSome = true) :
    o = some (o.getD d) := by
  cases o with
  | none => cases h
  | some x => rfl

theorem scenarioInit_eq : parseInit (scenarioStats []) 0 0 5 = some scenarioInit :=
  Option_some_getD _ _ (by decide!)

theorem scenarioS3Iterated_reach : ParseReach scenarioInit scenarioS3Iterated :=
  parseIterate_reach scenarioInit { datarecs := scenarioS3 } scenarioS3Iterated
    (Or.inl (Ret_ok_stateD _ _ (by decide!)))

/-- Claim C13: in every state a parse reaches after its initialisation (every
state it returns lies among them, by `parse_reach`) no record of the window has
`lost = true` together with `seen > 0`; no state change lowers the `seen` count
or drops the loss mark of a record that stays in the window; hence the record
that `PacketBeginFlush` flushes, the first of the window, never has both
`lost = true` and `seen > 0`. -/
theorem C13_dup_loss_exclusive (st0 : OWPStatsRec) (bo first last : Nat)
    (st8 st : OWPStatsRec) (hle : first ≤ last)
    (hi : parseInit st0 bo first last = some st8) (hr : ParseReach st8 st) :
    Excl st ∧
    (∀ st1, ParseStep st st1 → Excl st1 ∧ SeenMono st st1) ∧
    (∀ node st1 r, st.pnodes.head? = some node → PacketBeginFlush st = some (st1, r) →
      ¬ (node.lost = true ∧ 0 < node.seen)) := by
  obtain ⟨hinv, _, _⟩ := reach_inv (parseInit_RInv st0 bo first last st8 hle hi) hr
  refine ⟨hinv.excl, ?_, ?_⟩
  · intro st1 hs
    obtain ⟨j1, j2, _⟩ := ParseStep_inv hinv hs
    exact ⟨j1.excl, j2⟩
  · intro node st1 r hh _
    apply hinv.excl node
    cases hpn : st.pnodes with
    | nil =>
      rw [hpn] at hh
      cases hh
    | cons x rest =>
      rw [hpn] at hh
      simp only [List.head?_cons, Option.some.injEq] at hh
      rw [← hh]
      exact List.mem_cons_self _ _

/-- Claim C13, witness S3: the state after the callbacks have run over scenario
S3 (packet 3 received twice) is reachable, its window holds no record that is
both lost and seen, and the record of packet 3 has `seen = 2`, `lost = false`. -/
theorem C13_witness_S3 :
    parseInit (scenarioStats []) 0 0 5 = some scenarioInit ∧
    ParseReach scenarioInit scenarioS3Iterated ∧ Excl scenarioS3Iterated ∧
    scenarioS3Iterated.pnodes.map (fun p => (p.seq, p.seen, p.lost)) =
      [(3, 2, false), (4, 1, false)] := by
  refine ⟨scenarioInit_eq, scenarioS3Iterated_reach,
    (C13_dup_loss_exclusive (scenarioStats []) 0 0 5 scenarioInit scenarioS3Iterated
      (by decide) scenarioInit_eq scenarioS3Iterated_reach).1, ?_⟩
  decide!

theorem ParseStep_hdr {st st1 : OWPStatsRec} (hs : ParseStep st st1) : st1.hdr = st.hdr := by
  cases hs with
  | mark seq =>
    have := congrArg (fun x => x.2.2.2.2.2.2) (frameW_markOffset st seq).1
    exact this
  | flush _ r hne hf => exact (PacketBeginFlush_bounds hf).2.2
  | get _ seq n hne h1 h2 hg => exact (PacketGet_bounds hg).2.2.1
  | lostOW rec node hm hs0 => rfl
  | lostTW rec node hm hs0 => rfl
  | recvOW rec node hm hl0 =>
    have := congrArg (fun x => x.2.2.2.2.2.2) (frameW_frameP
      (PostOK_OW rec node.seen (jreorder (seenUpdate st node) rec.seq_no)).1).1
    exact this
  | recvTW rec node hm hl0 =>
    have := congrArg (fun x => x.2.2.2.2.2.2) (frameW_frameP
      (PostOK_TW rec node.seen (jreorder (seenUpdate st node) rec.sent.seq_no)).1).1
    exact this

theorem reach_hdr {st8 st : OWPStatsRec} (hr : ParseReach st8 st) : st.hdr = st8.hdr := by
  induction hr with
  | refl => rfl
  | tail _ hstep ih => rw [ParseStep_hdr hstep, ih]

theorem OWPStatsCreate_cursor (hdr : OWPSessionHeader) (skips : List OWPSkipRec)
    (sctx : OWPScheduleContext) (scale : Char) (bucketwidth rate : ℚ) (st : OWPStatsRec)
    (h : OWPStatsCreate hdr skips sctx scale bucketwidth rate = some st) :
    CursorOK st.hdr.test_spec.start_time st.sctx.deltas st := by
  unfold OWPStatsCreate at h
  split_ifs at h
  all_goals
    simp only [Option.some.injEq] at h
    subst h
    exact ⟨rfl, rfl, rfl⟩

/-- A parse leaves the schedule cursor consistent, whether it returns with
success or with the error indicator. -/
theorem parse_cursor (st0 : OWPStatsRec) (file : OWPFile) (bo first last0 : Nat)
    (st : OWPStatsRec) (hc : CursorOK st0.hdr.test_spec.start_time st0.sctx.deltas st0)
    (h : OWPStatsParse st0 file bo first last0 = Ret.ok st ∨
      OWPStatsParse st0 file bo first last0 = Ret.fatal st) :
    CursorOK st.hdr.test_spec.start_time st.sctx.deltas st := by
  have key : ∀ st8 st10, parseInit st0 bo first (parseLast st0 last0) = some st8 →
      ParseReach st8 st10 →
      CursorOK st0.hdr.test_spec.start_time st0.sctx.deltas st10 ∧ st10.hdr = st0.hdr := by
    intro st8 st10 hi hr
    obtain ⟨s1, _⟩ := parseInit_sched st0 bo first _ st8 _ hc hi
    have h8 : st8.hdr = st0.hdr := by
      obtain ⟨_, _, _, _, _, _, _, _, _, _, _, h12, _⟩ := parseInit_spec st0 bo first _ st8 hi
      exact h12
    exact ⟨(reach_sched s1 hr).cursor, by rw [reach_hdr hr, h8]⟩
  rcases h with h | h
  · obtain ⟨st8, st10, hi, hr, hst⟩ := (parse_reach st0 file bo first last0 st).1 h
    obtain ⟨k1, k2⟩ := key st8 st10 hi hr
    subst hst
    have hd : st10.sctx.deltas = st0.sctx.deltas := k1.deltas_eq
    exact ⟨rfl, k1.pos, by
      show st10.endnum = schedSum st10.hdr.test_spec.start_time st10.sctx.deltas st10.isctx
      rw [k2, hd]
      exact k1.endnum⟩
  · rcases (parse_reach st0 file bo first last0 st).2 h with ⟨hst, _⟩ | ⟨st8, hi, hr⟩
    · rw [hst]
      exact hc
    · obtain ⟨k1, k2⟩ := key st8 st hi hr
      have hd : st.sctx.deltas = st0.sctx.deltas := k1.deltas_eq
      exact ⟨rfl, k1.pos, by rw [k2, hd]; exact k1.endnum⟩

/-- The schedule cursor is consistent in every object a caller can hold. -/
theorem StatsReach_cursor {st : OWPStatsRec} (h : StatsReach st) :
    CursorOK st.hdr.test_spec.start_time st.sctx.deltas st := by
  induction h with
  | create hdr skips sctx scale bucketwidth rate st h =>
    exact OWPStatsCreate_cursor hdr skips sctx scale bucketwidth rate st h
  | parseOk st0 st file bo first last0 _ h ih =>
    exact parse_cursor st0 file bo first last0 st ih (Or.inl h)
  | parseFatal st0 st file bo first last0 _ h ih =>
    exact parse_cursor st0 file bo first last0 st ih (Or.inr h)

/-- Claim C17: on every object a caller can hold, wherever its schedule cursor
stands, the initialisation of a parse gives the record of `first` the scheduled
send time `start_time + delta_0 + ... + delta_first` of the freshly reset
schedule generator (64-bit fixed point additions), and in every state the parse
reaches afterwards every record of the window, so every record `PacketGet`
has created, carries the scheduled send time
`start_time + delta_0 + ... + delta_seq` of its sequence number. -/
theorem C17_schedule_alignment (st0 : OWPStatsRec) (bo first last : Nat)
    (st8 st : OWPStatsRec) (hobj : StatsReach st0)
    (hi : parseInit st0 bo first last = some st8) (hr : ParseReach st8 st) :
    st8.pnodes = [OWPPacketRec.mk first (schedTimeOf st0 first) 0 false] ∧
    st8.pend = some first ∧ st8.endnum = schedTimeOf st0 first ∧
    (∀ p ∈ st.pnodes, p.schedtime = schedTimeOf st0 p.seq) := by
  have hc := StatsReach_cursor hobj
  obtain ⟨s1, s2, _, s4⟩ := parseInit_sched st0 bo first last st8 _ hc hi
  obtain ⟨_, h2, _⟩ := parseInit_spec st0 bo first last st8 hi
  exact ⟨s2, h2, s4, (reach_sched s1 hr).nodes⟩

theorem scenarioStats_reachable (skips : List OWPSkipRec) : StatsReach (scenarioStats skips) :=
  StatsReach.create scenarioHdr skips scenarioSched 'm' (1 / 10000) 1 _
    (scenarioStats_created skips)

/-- Claim C17, witness: in the scenario session (start at 1000 s, every delta
1 s) the record of packet 0 is scheduled at 1001 s, and after the callbacks
have run over scenario S3 the window holds the records of packets 3 and 4,
scheduled at 1004 s and 1005 s. -/
theorem C17_witness :
    StatsReach (scenarioStats []) ∧
    parseInit (scenarioStats []) 0 0 5 = some scenarioInit ∧
    ParseReach scenarioInit scenarioS3Iterated ∧
    scenarioInit.pnodes = [OWPPacketRec.mk 0 (schedTimeOf (scenarioStats []) 0) 0 false] ∧
    schedTimeOf (scenarioStats []) 0 = 1001 * oneSecond ∧
    scenarioS3Iterated.pnodes.map (fun p => (p.seq, p.schedtime)) =
      [(3, 1004 * oneSecond), (4, 1005 * oneSecond)] := by
  refine ⟨scenarioStats_reachable [], scenarioInit_eq, scenarioS3Iterated_reach,
    (C17_schedule_alignment (scenarioStats []) 0 0 5 scenarioInit scenarioS3Iterated
      (scenarioStats_reachable []) scenarioInit_eq scenarioS3Iterated_reach).1, ?_, ?_⟩
  · decide
  · decide!

/-- Claim C24: `_OWPReadn` returns a short count at end of file.  Asked for 16
bytes, it returns 8 when `read` delivers 8 bytes and then 0 (end of file), and
0 when the first `read` returns 0: neither 16 nor -1. -/
theorem C24_readn_short_count_at_end_of_file :
    _OWPReadn [SysResult.count 8, SysResult.count 0] 16 = some 8 ∧
    _OWPReadn [SysResult.count 0] 16 = some 0 ∧
    _OWPWriten false [SysResult.count 8, SysResult.count 0] 16 = some (-1) := by
  decide

/-- Claim C39: `_OWPSendBlocks` and `_OWPReceiveBlocks` never return -1.  With
one block to transfer and a first `write` (`read`) that fails, `_OWPWriten`
(`_OWPReadn`) returns -1 and the block functions return 0, in plain mode
(`mode = 0`) and in cipher mode (`mode = 4` with the mask 6) alike; in general
no result of the block functions is -1. -/
theorem C39_block_functions_report_no_error :
    _OWPWriten false [SysResult.error] 16 = some (-1) ∧
    _OWPSendBlocks 0 6 false [SysResult.error] 1 = some 0 ∧
    _OWPSendBlocks 4 6 false [SysResult.error] 1 = some 0 ∧
    _OWPReadn [SysResult.error] 16 = some (-1) ∧
    _OWPReceiveBlocks 0 6 [SysResult.error] 1 = some 0 ∧
    _OWPReceiveBlocks 4 6 [SysResult.error] 1 = some 0 ∧
    (∀ mode mask eintr results nb, _OWPSendBlocks mode mask eintr results nb ≠ some (-1)) ∧
    (∀ mode mask results nb, _OWPReceiveBlocks mode mask results nb ≠ some (-1)) := by
  refine ⟨by decide, by decide, by decide, by decide, by decide, by decide, ?_, ?_⟩
  · intro mode mask eintr results nb
    unfold _OWPSendBlocks
    split_ifs <;> (split <;> simp)
  · intro mode mask results nb
    unfold _OWPReceiveBlocks
    split_ifs <;> (split <;> simp)

theorem land_dscp_mask (x : Nat) (hx : x < 2 ^ 32) :
    x &&& 0xC0FFFFFF = 2 ^ 30 * (x / 2 ^ 30) + x % 2 ^ 24 := by
  apply Nat.eq_of_testBit_eq
  intro j
  have hm : (0xC0FFFFFF : Nat) = 2 ^ 30 * 3 + (2 ^ 24 - 1) := by norm_num
  have h3 : (3 : Nat) = 2 ^ 2 - 1 := by norm_num
  rw [Nat.testBit_and, hm, Nat.testBit_mul_pow_two_add 3 (by norm_num : 2 ^ 24 - 1 < 2 ^ 30),
    Nat.testBit_mul_pow_two_add (x / 2 ^ 30) (lt_trans (Nat.mod_lt x (by norm_num)) (by norm_num)),
    Nat.testBit_two_pow_sub_one, h3, Nat.testBit_two_pow_sub_one, Nat.testBit_mod_two_pow,
    ← Nat.shiftRight_eq_div_pow, Nat.testBit_shiftRight]
  by_cases h30 : j < 30
  · simp [h30]
    by_cases h24 : j < 24 <;> simp [h24]
  · simp [h30]
    by_cases h32 : j - 30 < 2
    · simp [h32]
      congr 1
      omega
    · simp [h32]
      have hj : 30 + (j - 30) = j := by omega
      have : x < 2 ^ j := lt_of_lt_of_le hx (Nat.pow_le_pow_right (by norm_num) (by omega))
      rw [hj, Nat.testBit_lt_two_pow this]

/-- Claim C23, counterexample: for `typeP = 0x01000000` the line `DSCP` is
printed with the value 1, while the six high-order bits of the 32-bit `typeP`
(`typeP >> 26`) are 0; for `typeP = 0x3F000000` the value printed is 63 and the
six high-order bits are 15. -/
theorem C23_counterexample_dscp_is_not_the_top_six_bits :
    machineDSCP (statsWithTypeP 0x01000000) = some 1 ∧ 0x01000000 >>> 26 = 0 ∧
    machineDSCP (statsWithTypeP 0x3F000000) = some 63 ∧ 0x3F000000 >>> 26 = 15 := by
  decide

/-- Claim C23, amended: `OWPStatsPrintMachine` prints the line `DSCP` exactly
when the 32-bit `typeP` has no bit set outside the bits 24 .. 29 (the low-order
six bits of its high-order byte), and the value printed is `typeP >> 24`, the
number these six bits form; it is below 64. -/
theorem C23_dscp_line (st : OWPStatsRec) :
    machineDSCP st =
      (if (st.hdr.test_spec.typeP % 2 ^ 32) % 2 ^ 24 = 0 ∧
          st.hdr.test_spec.typeP % 2 ^ 32 < 2 ^ 30
       then some (st.hdr.test_spec.typeP % 2 ^ 32 / 2 ^ 24) else none) ∧
    (∀ v, machineDSCP st = some v →
      v < 64 ∧ v = (st.hdr.test_spec.typeP / 2 ^ 24) % 64 ∧
      st.hdr.test_spec.typeP % 2 ^ 32 = v * 2 ^ 24) := by
  have hx : st.hdr.test_spec.typeP % 2 ^ 32 < 2 ^ 32 := Nat.mod_lt _ (by norm_num)
  have key : machineDSCP st =
      (if (st.hdr.test_spec.typeP % 2 ^ 32) % 2 ^ 24 = 0 ∧
          st.hdr.test_spec.typeP % 2 ^ 32 < 2 ^ 30
       then some (st.hdr.test_spec.typeP % 2 ^ 32 / 2 ^ 24) else none) := by
    unfold machineDSCP
    simp only []
    rw [land_dscp_mask _ hx, Nat.shiftRight_eq_div_pow]
    by_cases h : (st.hdr.test_spec.typeP % 2 ^ 32) % 2 ^ 24 = 0 ∧
        st.hdr.test_spec.typeP % 2 ^ 32 < 2 ^ 30
    · rw [if_pos h, if_pos (by omega)]
      congr 1
      omega
    · rw [if_neg h, if_neg (by omega)]
  refine ⟨key, ?_⟩
  intro v hv
  rw [key] at hv
  split_ifs at hv with h
  simp only [Option.some.injEq] at hv
  omega

/-- Claim C33, failing input: for the scenario session (loss timeout 2 s) and
a bucket width of 0.1 s, `OWPStatsCreate` sets `blistlen` to 2048, not to
`2 / 0.1 = 20`: the quotient it clamps is the raw 64-bit fixed point value of
the timeout, `2 * 2^32`, divided by the width.  `plistlen` next to it converts
the timeout to seconds first. -/
theorem C33_blistlen_from_raw_fixed_point_timeout :
    (OWPStatsCreate scenarioHdr [] scenarioSched 'm' (1 / 10) 1).map
      (fun st => (st.blistlen, st.plistlen)) = some (2048, 10) ∧
    OWPNum64ToDouble scenarioHdr.test_spec.loss_timeout = 2 ∧
    ⌊OWPNum64ToDouble scenarioHdr.test_spec.loss_timeout / (1 / 10 : ℚ)⌋ = 20 ∧
    (scenarioHdr.test_spec.loss_timeout : ℚ) / (1 / 10) = 85899345920 := by
  refine ⟨?_, ?_, ?_, ?_⟩
  · decide!
  · decide!
  · decide!
  · decide!

/-- Claim C31, failing input: for the buckets `2^30` and `-2^30 - 1` the
difference `b1->b - b2->b` does not fit the 32-bit `int`: `BucketBufferSortCmp`
returns a negative value although `b1 > b2` (and a positive one for the
arguments swapped), and after the parse of the clock-skew records `bsort` is
in descending order of `b`. -/
theorem C31_comparator_overflow_leaves_bsort_descending :
    BucketBufferSortCmp (OWPBucketRec.mk 1073741824 1) (OWPBucketRec.mk (-1073741825) 1) < 0 ∧
    0 < BucketBufferSortCmp (OWPBucketRec.mk (-1073741825) 1) (OWPBucketRec.mk 1073741824 1) ∧
    (-1073741825 : Int) < 1073741824 ∧
    (OWPStatsParse skewStats { datarecs := skewRecs } 0 0 2).read
      (fun st => st.bsort.map (fun x => x.b)) = some [1073741824, -1073741825] := by
  refine ⟨by decide, by decide, by decide, ?_⟩
  decide!

/-- Outside the closed range `[first, last]` a lookup of a sequence number other
than `pend->seq` returns NULL and leaves the state as it is. -/
theorem PacketGet_out_of_range (st : OWPStatsRec) (seq pe : Nat) (hp : st.pend = some pe)
    (hne : seq ≠ pe) (h : seq < st.first ∨ seq > st.last) :
    PacketGet st seq = some (st, none) := by
  unfold PacketGet
  rw [hp]
  simp only []
  rw [if_neg hne, if_pos h]

/-- Claim C21, counterexample: in the state the initialisation of the parse of
`[0,5)` leaves (`pend->seq = 0`, one delta drawn), `PacketGet(stats,5)`, a
lookup of `seq = last`, returns a record for 5 after allocating the records
1 .. 5 and drawing five more deltas; only for `seq = 6 > last` does it return
NULL with the window and the schedule cursor untouched. -/
theorem C21_lookup_at_last_materializes_records :
    (scenarioInit.first, scenarioInit.last, scenarioInit.pend, scenarioInit.sctx.pos) =
      (0, 5, some 0, 1) ∧
    (PacketGet scenarioInit 5).map (fun r =>
        (r.1.pnodes.map (fun p => p.seq), r.1.pend, r.1.sctx.pos, r.2.map (fun p => p.seq))) =
      some ([0, 1, 2, 3, 4, 5], some 5, 6, some 5) ∧
    (PacketGet scenarioInit 6).map (fun r =>
        (r.1.pnodes.map (fun p => p.seq), r.1.pend, r.1.sctx.pos, r.2.map (fun p => p.seq))) =
      some ([0], some 0, 1, none) := by
  refine ⟨by decide, by decide, by decide⟩

/-- Claim C21, amended: for a sequence number other than `pend->seq`,
`PacketGet` returns NULL and leaves the object as it is (no record is
allocated, no delta is drawn) for every `seq < first` and every `seq > last`.
The sequence number `last` itself is not refused, the range tests of
`PacketGet` and `PacketAlloc` being `seq > last`: on a well formed window
`b .. pend->seq` the lookup of `last` allocates the records
`pend->seq + 1 .. last`, draws a delta for each and returns the record of
`last`. -/
theorem C21_lookup_outside_closed_range (st : OWPStatsRec) (seq pe : Nat)
    (hp : st.pend = some pe) (hne : seq ≠ pe) :
    ((seq < st.first ∨ seq > st.last) → PacketGet st seq = some (st, none)) ∧
    (∀ b, Win st b pe → seq = st.last →
      ∃ st1 news node, PacketGet st seq = some (st1, some node) ∧ node.seq = st.last ∧
        node ∈ st1.pnodes ∧ st1.pnodes = st.pnodes ++ news ∧
        news.map (fun p => p.seq) = List.range' (pe + 1) (st.last - pe) ∧
        st1.pend = some st.last ∧ st1.isctx = st.last + 1) := by
  constructor
  · intro h
    unfold PacketGet
    rw [hp]
    simp only []
    rw [if_neg hne, if_pos h]
  · intro b hw hseq
    have hle := hw.le
    have hfl := hw.first_le
    have hll := hw.lt_last
    unfold PacketGet
    simp only [hw.pend]
    simp only [hne, if_false]
    have hr : ¬ (seq < st.first ∨ seq > st.last) := by omega
    simp only [hr, if_false]
    have hgt : seq > pe := by omega
    simp only [hgt, if_true]
    obtain ⟨st1, news, g1, g2, g3, _, _, g6, _⟩ :=
      PacketGetLoop_spec (seq - pe) st pe pe hw.pend (le_refl _) hw.isctx (by omega)
        (fun p hp => (Win_mem_seq hw hp).2)
    have hes : pe + (seq - pe) = seq := by omega
    rw [hes] at g1 g6
    simp only [g1]
    have hseqs : st1.pnodes.map (fun p => p.seq) = List.range' b (seq + 1 - b) := by
      rw [g2, List.map_append, hw.seqs, g3]
      have h3 : seq + 1 - b = (seq - pe) + (pe + 1 - b) := by omega
      have h4 : pe + 1 = b + (pe + 1 - b) := by omega
      rw [h3, ← List.range'_append_1, ← h4]
    obtain ⟨node, hf, hns, hmem⟩ :=
      find_seq st1.pnodes b (seq + 1 - b) seq hseqs (by omega) (by omega)
    refine ⟨{ st1 with pend := some seq }, news, node, by simp [hf], ?_, hmem, g2, ?_, ?_, ?_⟩
    · rw [hns, hseq]
    · rw [g3, hseq]
    · rw [hseq]
    · rw [← hseq]
      exact g6

/-- Claim C21, witness: in the state the initialisation of the parse of `[0,5)`
leaves (`pend->seq = 0`), the lookup of 6 returns NULL and leaves the object
as it is. -/
theorem C21_witness :
    scenarioInit.pend = some 0 ∧ (6 : Nat) ≠ 0 ∧
    ((6 : Nat) < scenarioInit.first ∨ 6 > scenarioInit.last) ∧
    PacketGet scenarioInit 6 = some (scenarioInit, none) := by
  have hp : scenarioInit.pend = some 0 := by decide
  have hr : (6 : Nat) < scenarioInit.first ∨ 6 > scenarioInit.last := Or.inr (by decide)
  exact ⟨hp, by decide, hr,
    (C21_lookup_outside_closed_range scenarioInit 6 0 hp (by decide)).1 hr⟩

/-- The result of `PacketBeginFlush` on a well formed window `node :: rest`:
it returns False exactly when the node has no successor and `node.seq + 1` is
not below `last`; when it returns True the window then begins with the record
of `node.seq + 1`; `end_time` is the scheduled time of the node. -/
theorem PacketBeginFlush_result {st : OWPStatsRec} (hw : WinOK st) (node : OWPPacketRec)
    (rest : List OWPPacketRec) (hp : st.pnodes = node :: rest) :
    ∃ st1 r, PacketBeginFlush st = some (st1, r) ∧
      (r = false ↔ (rest = [] ∧ node.seq + 1 ≥ st.last)) ∧
      (r = true → ∃ nb tl, st1.pnodes = nb :: tl ∧ nb.seq = node.seq + 1) ∧
      (r = false → st1.pnodes = []) ∧
      st1.end_time = node.schedtime := by
  have hne : st.pnodes ≠ [] := by rw [hp]; simp
  rcases WinOK_cases hw hne with ⟨b, e, hwin⟩ | ⟨hd1, nd, hd2, hd3⟩
  · obtain ⟨st1, r, node1, k1, k2, k3, k4, hcase⟩ := PacketBeginFlush_win hwin
    have hn : node1 = node := by
      rw [hp] at k1
      simp only [List.head?_cons, Option.some.injEq] at k1
      exact k1.symm
    subst hn
    refine ⟨st1, r, k3, ?_, ?_, ?_, k4⟩
    · constructor
      · intro hr
        rcases hcase with ⟨c1, _, _⟩ | ⟨_, c2, c3, _⟩
        · rw [hr] at c1; cases c1
        · subst c2
          have h1 := congrArg List.length hwin.seqs
          rw [hp] at h1
          simp only [List.map_cons, List.length_cons, List.length_map, List.length_range'] at h1
          have hn2 : node1.seq + 1 ≥ st.last := by rw [k2]; omega
          exact ⟨List.eq_nil_of_length_eq_zero (by omega), hn2⟩
      · rintro ⟨hr1, hr2⟩
        subst hr1
        have hs := PacketBeginFlush_single st node1 hp
        rw [if_neg (by omega)] at hs
        rw [hs] at k3
        simp only [Option.some.injEq, Prod.mk.injEq] at k3
        exact k3.2.symm
    · intro hr
      rcases hcase with ⟨_, c2, _⟩ | ⟨c1, _, _, _⟩
      · obtain ⟨nb, tl, q1, q2, _, _⟩ := Win_head c2
        exact ⟨nb, tl, q1, by rw [q2, k2]⟩
      · rw [hr] at c1; cases c1
    · intro hr
      rcases hcase with ⟨c1, _, _⟩ | ⟨_, _, _, c4⟩
      · rw [hr] at c1; cases c1
      · exact c4
  · have hn : nd = node ∧ rest = [] := by
      rw [hp] at hd2
      simp only [List.cons.injEq] at hd2
      exact ⟨hd2.1.symm, hd2.2⟩
    obtain ⟨hn1, hn2⟩ := hn
    subst hn1
    subst hn2
    have hs := PacketBeginFlush_single st nd hp
    have hlt : ¬ (nd.seq + 1 < st.last) := by rw [hd3, hd1]; omega
    rw [if_neg hlt] at hs
    refine ⟨_, false, hs, ?_, ?_, ?_, ?_⟩
    · constructor
      · intro _
        exact ⟨rfl, by omega⟩
      · intro _
        rfl
    · intro hr
      cases hr
    · intro _
      show (flushAcct st nd).pnodes.filter _ = []
      rw [(flushAcct_frameG st nd).2.1, hp]
      simp
    · exact (flushAcct_sched st nd).2.2.1

/-- Claim C27: in every state of a parse in which the window is not empty,
`PacketBeginFlush` returns a result; for the node `node` at the beginning of
the window it returns False if and only if the node has no linked successor
and `node.seq + 1 >= last`; whenever it returns True the window afterwards
begins with the record of `node.seq + 1`; and in both cases `end_time` is the
scheduled send time of `node`. -/
theorem C27_flush_result (st0 : OWPStatsRec) (bo first last : Nat) (st8 st : OWPStatsRec)
    (node : OWPPacketRec) (rest : List OWPPacketRec)
    (hle : first ≤ last) (hi : parseInit st0 bo first last = some st8)
    (hr : ParseReach st8 st) (hp : st.pnodes = node :: rest) :
    ∃ st1 r, PacketBeginFlush st = some (st1, r) ∧
      (r = false ↔ (rest = [] ∧ node.seq + 1 ≥ st.last)) ∧
      (r = true → ∃ nb tl, st1.pnodes = nb :: tl ∧ nb.seq = node.seq + 1) ∧
      st1.end_time = node.schedtime := by
  obtain ⟨hinv, _, _⟩ := reach_inv (parseInit_RInv st0 bo first last st8 hle hi) hr
  obtain ⟨st1, r, h1, h2, h3, _, h5⟩ := PacketBeginFlush_result hinv.win node rest hp
  exact ⟨st1, r, h1, h2, h3, h5⟩

/-- Claim C27, witness: right after the initialisation of the parse of `[0,5)`
of the scenario session the window is the single record of packet 0; the flush
returns True, the window then begins with packet 1, and `end_time` is 1001 s. -/
theorem C27_witness :
    (0 : Nat) ≤ 5 ∧ parseInit (scenarioStats []) 0 0 5 = some scenarioInit ∧
    ParseReach scenarioInit scenarioInit ∧
    scenarioInit.pnodes = OWPPacketRec.mk 0 (1001 * oneSecond) 0 false :: [] ∧
    (PacketBeginFlush scenarioInit).map
      (fun x => (x.2, x.1.pnodes.map (fun p => p.seq), x.1.end_time)) =
      some (true, [1], 1001 * oneSecond) ∧
    ∃ st1 r, PacketBeginFlush scenarioInit = some (st1, r) ∧
      (r = false ↔ (([] : List OWPPacketRec) = [] ∧ 0 + 1 ≥ scenarioInit.last)) ∧
      (r = true → ∃ nb tl, st1.pnodes = nb :: tl ∧ nb.seq = 0 + 1) ∧
      st1.end_time = 1001 * oneSecond :=
  ⟨by decide, scenarioInit_eq, Relation.ReflTransGen.refl, by decide, by decide,
    C27_flush_result (scenarioStats []) 0 0 5 scenarioInit scenarioInit
      (OWPPacketRec.mk 0 (1001 * oneSecond) 0 false) [] (by decide) scenarioInit_eq
      Relation.ReflTransGen.refl (by decide)⟩

/-- On a well formed window `b .. e` the loop that flushes the records below
`seq < last` ends normally, with the window beginning at `max b seq`. -/
theorem flushLostLoop_win (seq : Nat) (fuel : Nat) :
    ∀ (st : OWPStatsRec) (b e : Nat), Win st b e → seq < st.last → st.last - b ≤ fuel →
      ∃ st1 e1, flushLostLoop (fuel + 1) st seq = Ret.ok st1 ∧ Win st1 (max b seq) e1 ∧
        e ≤ e1 ∧ st1.last = st.last ∧ st1.first = st.first := by
  induction fuel with
  | zero =>
    intro st b e hw hs hf
    have := hw.lt_last
    have := hw.le
    omega
  | succ fuel ih =>
    intro st b e hw hs hf
    obtain ⟨node, tl, hpn, hnb, _, _⟩ := Win_head hw
    unfold flushLostLoop
    rw [hpn]
    simp only []
    by_cases hlt : node.seq < seq
    · rw [if_pos hlt]
      obtain ⟨st1, r, _, _, _, k3, _, hcase⟩ := PacketBeginFlush_win hw
      obtain ⟨b1, b2, _⟩ := PacketBeginFlush_bounds k3
      rw [k3]
      rcases hcase with ⟨c1, c2, _⟩ | ⟨_, c2, c3, _⟩
      · subst c1
        simp only []
        obtain ⟨st2, e2, i1, i2, i3, i4, i5⟩ := ih st1 (b + 1) (max e (b + 1)) c2
          (by rw [b2]; exact hs) (by rw [b2]; omega)
        have hmax : max (b + 1) seq = max b seq := by omega
        rw [hmax] at i2
        exact ⟨st2, e2, i1, i2, by omega, by rw [i4, b2], by rw [i5, b1]⟩
      · omega
    · rw [if_neg hlt]
      have hmax : max b seq = b := by omega
      rw [hmax]
      exact ⟨st, e, rfl, hw, le_refl _, rfl, rfl⟩

/-- Claim C35: when the callback handles a loss record with
`first <= seq < last` in a state whose window is well formed (it holds the
records `b .. e` in order, `pend` is the record of `e` and the schedule cursor
stands behind it), the loop `while(pbegin->seq < seq)` ends normally: no call of
`PacketBeginFlush` in it returns False, so the branch "Unable to flush lost
packets" is not taken, and the window then begins at `max b seq`. -/
theorem C35_loss_flush_cannot_fail (st : OWPStatsRec) (b e seq : Nat)
    (hw : Win st b e) (h1 : st.first ≤ seq) (h2 : seq < st.last) :
    ∃ st1 pb tl, flushLostLoop ((markOffset st seq).last + 1) (markOffset st seq) seq
        = Ret.ok st1 ∧
      st1.pnodes = pb :: tl ∧ pb.seq = max b seq ∧ ∃ e1, Win st1 (max b seq) e1 := by
  have _ := h1
  obtain ⟨m1, m2, m3, m4, m5, _⟩ := markOffset_fields st seq
  have hwm : Win (markOffset st seq) b e := Win_congr hw m1 m2 m3 m4 m5
  obtain ⟨st1, e1, k1, k2, _, _, _⟩ :=
    flushLostLoop_win seq (markOffset st seq).last (markOffset st seq) b e hwm
      (by rw [m5]; exact h2) (by omega)
  obtain ⟨pb, tl, q1, q2, _, _⟩ := Win_head k2
  exact ⟨st1, pb, tl, k1, q1, q2, e1, k2⟩

/-- Claim C35, witness: after three records of scenario S1 the window holds the
records 1 .. 2; for a loss record of packet 4 the loop flushes the records
1, 2 and 3 and ends with the window beginning at 4. -/
theorem C35_witness :
    Win scenarioS1Three 1 2 ∧ scenarioS1Three.first ≤ 4 ∧ 4 < scenarioS1Three.last ∧
    (flushLostLoop ((markOffset scenarioS1Three 4).last + 1) (markOffset scenarioS1Three 4)
      4).read (fun st => st.pnodes.map (fun p => p.seq)) = some [4] ∧
    ∃ st1 pb tl, flushLostLoop ((markOffset scenarioS1Three 4).last + 1)
        (markOffset scenarioS1Three 4) 4 = Ret.ok st1 ∧
      st1.pnodes = pb :: tl ∧ pb.seq = max 1 4 ∧ ∃ e1, Win st1 (max 1 4) e1 := by
  have hw : Win scenarioS1Three 1 2 :=
    ⟨by decide!, by decide, by decide!, by decide!, by decide!, by decide!⟩
  have h1 : scenarioS1Three.first ≤ 4 := by decide!
  have h2 : 4 < scenarioS1Three.last := by decide!
  exact ⟨hw, h1, h2, by decide!, C35_loss_flush_cannot_fail scenarioS1Three 1 2 4 hw h1 h2⟩

theorem ParseStep_degen {st st1 : OWPStatsRec} (h : RInv st) (hfl : st.first = st.last)
    (hd : DegenC st) (hs : ParseStep st st1) : DegenC st1 := by
  have hframe : ∀ s : OWPStatsRec, frameW s = frameW st → s.pnodes ≠ [] → st.pnodes ≠ [] →
      DegenC s := by
    intro s hw _ hne
    unfold frameW at hw
    simp only [Prod.mk.injEq] at hw
    obtain ⟨w1, w2, w3, _⟩ := hw
    rcases hd with hd | ⟨hd1, hd2⟩
    · exact absurd hd hne
    · right
      rw [w1, w2, w3]
      exact ⟨hd1, hd2⟩
  have hupd : ∀ (s : OWPStatsRec) (node : OWPPacketRec), node ∈ st.pnodes →
      frameW s = frameW st → DegenC s := by
    intro s node hm hw
    by_cases hs1 : s.pnodes = []
    · exact Or.inl hs1
    · exact hframe s hw hs1 (List.ne_nil_of_mem hm)
  cases hs with
  | mark seq =>
    obtain ⟨hw, hpn⟩ := frameW_markOffset st seq
    by_cases hs1 : st.pnodes = []
    · left
      rw [hpn]; exact hs1
    · exact hframe _ hw (by rw [hpn]; exact hs1) hs1
  | flush _ r hne hf =>
    rcases WinOK_cases h.win hne with ⟨b, e, hwin⟩ | ⟨_, nd, hd2, hd3⟩
    · have := hwin.first_le
      have := hwin.le
      have := hwin.lt_last
      omega
    · have hs := PacketBeginFlush_single st nd hd2
      rw [if_neg (by rw [hd3, hfl]; omega)] at hs
      rw [hf] at hs
      simp only [Option.some.injEq, Prod.mk.injEq] at hs
      left
      rw [hs.1]
      show (flushAcct st nd).pnodes.filter _ = []
      rw [(flushAcct_frameG st nd).2.1, hd2]
      simp
  | get _ seq n hne h1 h2 hg => omega
  | lostOW rec node hm hs0 =>
    exact hupd _ node hm (frameW_frameP (PostLostOK_OW rec (lostUpdate st node)).1).1
  | lostTW rec node hm hs0 =>
    exact hupd _ node hm (frameW_frameP (PostLostOK_TW rec (lostUpdate st node)).1).1
  | recvOW rec node hm hl0 =>
    exact hupd _ node hm (frameW_frameP
      (PostOK_OW rec node.seen (jreorder (seenUpdate st node) rec.seq_no)).1).1
  | recvTW rec node hm hl0 =>
    exact hupd _ node hm (frameW_frameP
      (PostOK_TW rec node.seen (jreorder (seenUpdate st node) rec.sent.seq_no)).1).1

theorem reach_degen {st8 st : OWPStatsRec} (h8 : RInv st8) (hfl : st8.first = st8.last)
    (hd : DegenC st8) (hr : ParseReach st8 st) : DegenC st := by
  induction hr with
  | refl => exact hd
  | tail hr1 hs ih =>
    obtain ⟨i1, i2, i3⟩ := reach_inv h8 hr1
    exact ParseStep_degen i1 (by rw [i2, i3]; exact hfl) ih hs

/-- In the states of a parse with a window that is not empty, the window is
`pbegin->seq .. pend->seq` and the schedule cursor is aligned with its end. -/
theorem reach_window (st0 : OWPStatsRec) (bo first last : Nat) (st8 st : OWPStatsRec)
    (hle : first ≤ last) (hi : parseInit st0 bo first last = some st8)
    (hr : ParseReach st8 st) (hne : st.pnodes ≠ []) : WindowOK st := by
  have h8 := parseInit_RInv st0 bo first last st8 hle hi
  obtain ⟨hinv, e1, e2⟩ := reach_inv h8 hr
  obtain ⟨_, s2, s3, s4, s5, _⟩ := parseInit_spec st0 bo first last st8 hi
  rcases WinOK_cases hinv.win hne with ⟨b, e, hwin⟩ | ⟨hd1, nd, hd2, hd3⟩
  · exact ⟨b, e, hwin.le, hwin.seqs, hwin.pend, hwin.isctx⟩
  · have hfl : st8.first = st8.last := by rw [← e1, ← e2]; exact hd1
    have hdc : DegenC st8 := Or.inr ⟨by rw [s2, s4], by rw [s3, s4]⟩
    rcases reach_degen h8 hfl hdc hr with hx | ⟨hx1, hx2⟩
    · exact absurd hx hne
    · refine ⟨st.first, st.first, le_refl _, ?_, hx1, hx2⟩
      rw [hd2]
      simp [hd3]

/-- With a window that is well formed and not empty, `PacketGet` returns for
every sequence number: the `assert` holds and `PacketAlloc` does not refuse. -/
theorem PacketGet_total {st : OWPStatsRec} (hw : WindowOK st) (hne : st.pnodes ≠ [])
    (seq : Nat) : (PacketGet st seq).isSome = true := by
  obtain ⟨b, e, hle, hseqs, hpend, hisctx⟩ := hw
  unfold PacketGet
  rw [hpend]
  simp only []
  by_cases h1 : seq = e
  · rw [if_pos h1]; rfl
  rw [if_neg h1]
  by_cases h2 : seq < st.first ∨ seq > st.last
  · rw [if_pos h2]; rfl
  rw [if_neg h2]
  by_cases h3 : seq > e
  · rw [if_pos h3]
    have hmem : ∀ p ∈ st.pnodes, p.seq ≤ e := by
      intro p hp
      have hps : p.seq ∈ st.pnodes.map (fun p => p.seq) := List.mem_map_of_mem _ hp
      rw [hseqs, List.mem_range'_1] at hps
      omega
    obtain ⟨st1, news, k1, _⟩ := PacketGetLoop_spec (seq - e) st e e hpend (le_refl _) hisctx
      (by omega) hmem
    rw [k1]
    rfl
  · rw [if_neg h3]
    cases hpn : st.pnodes with
    | nil => exact absurd hpn hne
    | cons pb tl =>
      simp only [List.head?_cons]
      split_ifs <;> rfl

/-- Claim C25: in every state a parse runs through with a window that is not
empty (after the initial allocation, after every `PacketGet` and after every
`PacketBeginFlush` that returns True), the window holds exactly the sequence
numbers `b .. e` with `b = pbegin->seq` and `e = pend->seq`, one record each in
increasing order, and `pend->seq + 1 == isctx`; so `PacketGet` returns for
every sequence number (the `assert` does not fail, `PacketAlloc` does not
refuse). -/
theorem C25_window_invariant (st0 : OWPStatsRec) (bo first last : Nat) (st8 st : OWPStatsRec)
    (hle : first ≤ last) (hi : parseInit st0 bo first last = some st8)
    (hr : ParseReach st8 st) (hne : st.pnodes ≠ []) :
    (∃ b e, b ≤ e ∧ st.pnodes.map (fun p => p.seq) = List.range' b (e + 1 - b) ∧
      st.pend = some e ∧ st.isctx = e + 1) ∧
    (∀ seq, (PacketGet st seq).isSome = true) := by
  have hw := reach_window st0 bo first last st8 st hle hi hr hne
  exact ⟨hw, PacketGet_total hw hne⟩

/-- Claim C25, witness: after the callbacks have run over scenario S3 the window
holds the records 3 .. 4, `pend` is the record of 4 and `isctx` is 5. -/
theorem C25_witness :
    (0 : Nat) ≤ 5 ∧ parseInit (scenarioStats []) 0 0 5 = some scenarioInit ∧
    ParseReach scenarioInit scenarioS3Iterated ∧ scenarioS3Iterated.pnodes ≠ [] ∧
    (scenarioS3Iterated.pnodes.map (fun p => p.seq), scenarioS3Iterated.pend,
      scenarioS3Iterated.isctx) = ([3, 4], some 4, 5) ∧
    (∃ b e, b ≤ e ∧
      scenarioS3Iterated.pnodes.map (fun p => p.seq) = List.range' b (e + 1 - b) ∧
      scenarioS3Iterated.pend = some e ∧ scenarioS3Iterated.isctx = e + 1) ∧
    (∀ seq, (PacketGet scenarioS3Iterated seq).isSome = true) := by
  have hne : scenarioS3Iterated.pnodes ≠ [] := by decide!
  obtain ⟨h1, h2⟩ := C25_window_invariant (scenarioStats []) 0 0 5 scenarioInit
    scenarioS3Iterated (by decide) scenarioInit_eq scenarioS3Iterated_reach hne
  exact ⟨by decide, scenarioInit_eq, scenarioS3Iterated_reach, hne, by decide!, h1, h2⟩

theorem PacketGetLoop_frame (k : Nat) :
    ∀ (st : OWPStatsRec) (nseq : Nat) (st1 : OWPStatsRec) (n1 : Nat),
    PacketGetLoop k st nseq = some (st1, n1) → frameG st1 = frameG st := by
  induction k with
  | zero =>
    intro st nseq st1 n1 hg
    simp only [PacketGetLoop, Option.some.injEq, Prod.mk.injEq] at hg
    rw [← hg.1]
  | succ k ih =>
    intro st nseq st1 n1 hg
    unfold PacketGetLoop at hg
    by_cases hne : nseq + 1 ≠ st.isctx
    · rw [if_pos hne] at hg
      cases hg
    · rw [if_neg hne] at hg
      simp only [] at hg
      cases hal : PacketAlloc
          { st with endnum := OWPNum64Add st.endnum (OWPScheduleContextGenerateNextDelta st.sctx).1,
                    sctx := (OWPScheduleContextGenerateNextDelta st.sctx).2,
                    isctx := st.isctx + 1 } (nseq + 1) with
      | none =>
        rw [hal] at hg
        cases hg
      | some pr =>
        obtain ⟨st2, node⟩ := pr
        rw [hal] at hg
        simp only [] at hg
        obtain ⟨hn, hs2⟩ := PacketAlloc_some hal
        have i1 := ih _ _ st1 n1 hg
        subst hs2
        exact i1

/-- Source `PacketGet` writes only the window and the schedule cursor. -/
theorem PacketGet_frame {st st1 : OWPStatsRec} {seq : Nat} {n : Option OWPPacketRec}
    (hg : PacketGet st seq = some (st1, n)) : frameG st1 = frameG st := by
  unfold PacketGet at hg
  cases hpe : st.pend with
  | none =>
    rw [hpe] at hg
    cases hg
  | some pe =>
    rw [hpe] at hg
    simp only [] at hg
    split_ifs at hg with c1 c2 c3
    · simp only [Option.some.injEq, Prod.mk.injEq] at hg
      rw [← hg.1]
    · simp only [Option.some.injEq, Prod.mk.injEq] at hg
      rw [← hg.1]
    · cases hl : PacketGetLoop (seq - pe) st pe with
      | none =>
        rw [hl] at hg
        cases hg
      | some pr =>
        obtain ⟨st2, nseq⟩ := pr
        rw [hl] at hg
        simp only [Option.some.injEq, Prod.mk.injEq] at hg
        have i1 := PacketGetLoop_frame _ _ _ _ _ hl
        rw [← hg.1]
        exact i1
    · cases hh : st.pnodes.head? with
      | none =>
        rw [hh] at hg
        cases hg
      | some pb =>
        rw [hh] at hg
        simp only [] at hg
        split_ifs at hg
        · simp only [Option.some.injEq, Prod.mk.injEq] at hg
          rw [← hg.1]
        · simp only [Option.some.injEq, Prod.mk.injEq] at hg
          rw [← hg.1]

/-- Source `PacketBeginFlush` writes, besides the window and the schedule cursor,
only `iskip`, `lost`, `dups` and `end_time`; `iskip` is moved by the skip loop
for the node at the beginning of the window. -/
theorem PacketBeginFlush_frame {st st1 : OWPStatsRec} {r : Bool}
    (hf : PacketBeginFlush st = some (st1, r)) :
    frameF st1 = frameF st ∧
    (∀ node rest, st.pnodes = node :: rest →
      st1.iskip = skipForward node.seq (st.skips.drop st.iskip) st.iskip ∧
      st1.lost = (flushAcct st node).lost ∧ st1.dups = (flushAcct st node).dups) := by
  unfold PacketBeginFlush at hf
  cases hpn : st.pnodes with
  | nil =>
    rw [hpn] at hf
    simp only [Option.some.injEq, Prod.mk.injEq] at hf
    rw [← hf.1]
    exact ⟨rfl, fun _ _ h => by cases h⟩
  | cons node rest =>
    rw [hpn] at hf
    simp only [] at hf
    obtain ⟨a1, _⟩ := flushAcct_frameG st node
    have hk := flushAcct_iskip st node
    have key : ∀ st4 : OWPStatsRec, frameG st4 = frameG (flushAcct st node) →
        st1 = PacketFree st4 node →
        frameF st1 = frameF st ∧
        (∀ node' rest', node :: rest = node' :: rest' →
          st1.iskip = skipForward node'.seq (st.skips.drop st.iskip) st.iskip ∧
          st1.lost = (flushAcct st node').lost ∧ st1.dups = (flushAcct st node').dups) := by
      intro st4 h4 h1
      obtain ⟨_, _, _, _, _, m6, m7, m8, _⟩ := frameG_more h4
      subst h1
      refine ⟨?_, ?_⟩
      · rw [← a1]
        exact Eq.trans rfl (frameF_of_frameG h4)
      · intro node' rest' he
        simp only [List.cons.injEq] at he
        obtain ⟨he1, _⟩ := he
        subst he1
        exact ⟨by show st4.iskip = _; rw [m6, hk], m7, m8⟩
    cases rest with
    | cons p tl =>
      simp only [Option.some.injEq, Prod.mk.injEq] at hf
      exact key _ rfl hf.1.symm
    | nil =>
      simp only [] at hf
      split_ifs at hf with hc
      · cases hg : PacketGet (flushAcct st node) (node.seq + 1) with
        | none =>
          rw [hg] at hf
          cases hf
        | some pr =>
          obtain ⟨st4, n⟩ := pr
          rw [hg] at hf
          simp only [Option.some.injEq, Prod.mk.injEq] at hf
          exact key st4 (PacketGet_frame hg) hf.1.symm
      · simp only [Option.some.injEq, Prod.mk.injEq] at hf
        exact key _ rfl hf.1.symm

theorem WinOK_head_le {st : OWPStatsRec} (hw : WinOK st) (nb : OWPPacketRec)
    (tl : List OWPPacketRec) (hp : st.pnodes = nb :: tl) :
    ∀ p ∈ st.pnodes, nb.seq ≤ p.seq := by
  intro p hm
  have hne : st.pnodes ≠ [] := by rw [hp]; simp
  rcases WinOK_cases hw hne with ⟨b, e, hwin⟩ | ⟨_, nd, hd2, _⟩
  · obtain ⟨node, tl1, q1, q2, _, _⟩ := Win_head hwin
    rw [hp] at q1
    simp only [List.cons.injEq] at q1
    rw [q1.1, q2]
    exact (Win_mem_seq hwin hm).1
  · rw [hd2] at hm hp
    simp only [List.cons.injEq] at hp
    simp only [List.mem_singleton] at hm
    rw [hm, hp.1]

theorem SkipOK_update {st st1 : OWPStatsRec} (h : SkipOK st) (seq : Nat)
    (f : OWPPacketRec → OWPPacketRec) (f1 : ∀ p, (f p).seq = p.seq)
    (hpn : st1.pnodes = nodeUpdate seq f st.pnodes) (hi : st1.iskip = st.iskip)
    (hk : st1.skips = st.skips) : SkipOK st1 := by
  intro j r hj hg p hp
  rw [hpn] at hp
  rw [hi] at hj
  rw [hk] at hg
  obtain ⟨q, hq, hc⟩ := mem_nodeUpdate hp
  have := h j r hj hg q hq
  rcases hc with ⟨_, hc⟩ | ⟨_, hc⟩
  · rw [hc, f1]; exact this
  · rw [hc]; exact this

theorem ParseStep_skip {st st1 : OWPStatsRec} (h : RInv st) (hk : SkipOK st)
    (hs : ParseStep st st1) : SkipOK st1 ∧ st1.skips = st.skips := by
  obtain ⟨hinv1, _, _, _⟩ := ParseStep_inv h hs
  cases hs with
  | mark seq =>
    obtain ⟨m1, _, _, _, _, m6, m7, _⟩ := markOffset_fields st seq
    refine ⟨?_, m7⟩
    intro j r hj hg p hp
    rw [m1] at hp
    rw [m6] at hj
    rw [m7] at hg
    exact hk j r hj hg p hp
  | flush _ r hne hf =>
    obtain ⟨f1, f2⟩ := PacketBeginFlush_frame hf
    have hsk := frameF_skips f1
    refine ⟨?_, hsk⟩
    obtain ⟨node, rest, hp⟩ := List.exists_cons_of_ne_nil hne
    obtain ⟨st2, r2, k1, k2, k3, k4, _⟩ := PacketBeginFlush_result h.win node rest hp
    rw [hf] at k1
    simp only [Option.some.injEq, Prod.mk.injEq] at k1
    obtain ⟨e1, e2⟩ := k1
    subst e1
    subst e2
    cases r with
    | false =>
      intro j r hj hg p hp1
      rw [k4 rfl] at hp1
      cases hp1
    | true =>
      obtain ⟨nb, tl, q1, q2⟩ := k3 rfl
      have hle := WinOK_head_le hinv1.win nb tl q1
      obtain ⟨s1, s2, _⟩ := skipForward_spec node.seq st.skips (st.skips.drop st.iskip)
        st.iskip rfl
      intro j r hj hg p hp1
      have hps := hle p hp1
      rw [hsk] at hg
      rw [(f2 node rest hp).1] at hj
      by_cases hjo : j < st.iskip
      · have := hk j r hjo hg node (by rw [hp]; exact List.mem_cons_self _ _)
        omega
      · have := s2 j r (by omega) hj hg
        omega
  | get _ seq n hne h1 h2 hg =>
    have fg := PacketGet_frame hg
    have hsk := frameG_skips fg
    have hik := (frameG_more fg).2.2.2.2.2.1
    refine ⟨?_, hsk⟩
    obtain ⟨node, rest, hp⟩ := List.exists_cons_of_ne_nil hne
    have hnode : node ∈ st.pnodes := by rw [hp]; exact List.mem_cons_self _ _
    rcases WinOK_cases h.win hne with ⟨b, e, hwin⟩ | ⟨hd1, nd, hd2, hd3⟩
    · rcases Nat.lt_or_ge seq b with hlt | hge
      · rw [PacketGet_behind st b e seq hwin h1 hlt] at hg
        simp only [Option.some.injEq, Prod.mk.injEq] at hg
        rw [← hg.1]
        exact hk
      · obtain ⟨st2, news, node2, g1, g2, g3, g4, g5, g6, g7, _⟩ :=
          PacketGet_spec st b e seq hwin hge h2
        rw [hg] at g1
        simp only [Option.some.injEq, Prod.mk.injEq] at g1
        obtain ⟨g1a, _⟩ := g1
        subst g1a
        intro j r hj hgj p hp1
        rw [hik] at hj
        rw [hsk] at hgj
        have hb := hk j r hj hgj node hnode
        have hnb := (Win_mem_seq hwin hnode)
        obtain ⟨nd, tl1, q1, q2, _, _⟩ := Win_head hwin
        rw [hp] at q1
        simp only [List.cons.injEq] at q1
        have := (Win_mem_seq g7 hp1).1
        rw [q1.1, q2] at hb
        omega
    · omega
  | lostOW rec node hm hs0 =>
    obtain ⟨p1, _, _, _, _, p6, p7, _⟩ := frameP_fields (PostLostOK_OW rec (lostUpdate st node)).1
    exact ⟨SkipOK_update hk node.seq (fun p => { p with lost := true }) (fun _ => rfl)
      (by rw [p1]; rfl) (by rw [p6]; rfl) (by rw [p7]; rfl), by rw [p7]; rfl⟩
  | lostTW rec node hm hs0 =>
    obtain ⟨p1, _, _, _, _, p6, p7, _⟩ := frameP_fields (PostLostOK_TW rec (lostUpdate st node)).1
    exact ⟨SkipOK_update hk node.seq (fun p => { p with lost := true }) (fun _ => rfl)
      (by rw [p1]; rfl) (by rw [p6]; rfl) (by rw [p7]; rfl), by rw [p7]; rfl⟩
  | recvOW rec node hm hl0 =>
    obtain ⟨p1, _, _, _, _, p6, p7, _⟩ := frameP_fields
      (PostOK_OW rec node.seen (jreorder (seenUpdate st node) rec.seq_no)).1
    exact ⟨SkipOK_update hk node.seq (fun p => { p with seen := p.seen + 1 }) (fun _ => rfl)
      (by rw [p1]; rfl) (by rw [p6]; rfl) (by rw [p7]; rfl), by rw [p7]; rfl⟩
  | recvTW rec node hm hl0 =>
    obtain ⟨p1, _, _, _, _, p6, p7, _⟩ := frameP_fields
      (PostOK_TW rec node.seen (jreorder (seenUpdate st node) rec.sent.seq_no)).1
    exact ⟨SkipOK_update hk node.seq (fun p => { p with seen := p.seen + 1 }) (fun _ => rfl)
      (by rw [p1]; rfl) (by rw [p6]; rfl) (by rw [p7]; rfl), by rw [p7]; rfl⟩

theorem reach_skip {st8 st : OWPStatsRec} (h8 : RInv st8) (hk : SkipOK st8)
    (hr : ParseReach st8 st) : SkipOK st ∧ st.skips = st8.skips := by
  induction hr with
  | refl => exact ⟨hk, rfl⟩
  | tail hr1 hstep ih =>
    obtain ⟨i1, _, _⟩ := reach_inv h8 hr1
    obtain ⟨j1, j2⟩ := ParseStep_skip i1 ih.1 hstep
    exact ⟨j1, by rw [j2, ih.2]⟩

/-- Claim C30: in every state a parse runs through, for every record `node` of
the window (the record that reaches the skip test of a callback is one, the
one `PacketGet` returned), scanning `skips[iskip ..]` gives the same verdict as
testing `node.seq` against all the skip ranges of the session, whatever the
skip list is, since every range with an index below `iskip` ends below the
sequence numbers of the window, `pbegin->seq` first of all. -/
theorem C30_skip_scan_covers_all_ranges (st0 : OWPStatsRec) (bo first last : Nat)
    (st8 st : OWPStatsRec) (node : OWPPacketRec)
    (hle : first ≤ last) (hi : parseInit st0 bo first last = some st8)
    (hr : ParseReach st8 st) (hm : node ∈ st.pnodes) :
    skipScan st node.seq = inSkip st0.skips node.seq ∧ st.skips = st0.skips ∧
    (∀ j r, j < st.iskip → st.skips.get? j = some r →
      r.end_ < node.seq ∧ ∀ pb, st.pnodes.head? = some pb → r.end_ < pb.seq) := by
  have h8 := parseInit_RInv st0 bo first last st8 hle hi
  obtain ⟨_, _, _, _, _, s6, s7, _⟩ := parseInit_spec st0 bo first last st8 hi
  have hk8 : SkipOK st8 := by
    intro j r hj
    rw [s7] at hj
    omega
  obtain ⟨hk, hsk⟩ := reach_skip h8 hk8 hr
  have hsk0 : st.skips = st0.skips := by rw [hsk, s6]
  refine ⟨?_, hsk0, ?_⟩
  · rw [← hsk0]
    exact skipScan_eq_inSkip st node.seq node.seq (fun j r hj hg => hk j r hj hg node hm)
      (le_refl _)
  · intro j r hj hg
    refine ⟨hk j r hj hg node hm, ?_⟩
    intro pb hpb
    exact hk j r hj hg pb (List.mem_of_mem_head? hpb)

theorem scenarioInitSkip_eq :
    parseInit (scenarioStats scenarioSkipOne) 0 0 5 = some scenarioInitSkip :=
  Option_some_getD _ _ (by decide!)

theorem scenarioSkipIterated_reach : ParseReach scenarioInitSkip scenarioSkipIterated :=
  parseIterate_reach scenarioInitSkip { datarecs := scenarioS2 } scenarioSkipIterated
    (Or.inl (Ret_ok_stateD _ _ (by decide!)))

/-- Claim C30, witness: after the callbacks have run over scenario S2 with the
skip range `[1,1]`, `iskip` has moved past that range, the window holds the
records 3 .. 4, and for the record of packet 4 the scan from `iskip` and the
test against all ranges both say "not skipped". -/
theorem C30_witness :
    (0 : Nat) ≤ 5 ∧
    parseInit (scenarioStats scenarioSkipOne) 0 0 5 = some scenarioInitSkip ∧
    ParseReach scenarioInitSkip scenarioSkipIterated ∧
    OWPPacketRec.mk 4 (1005 * oneSecond) 1 false ∈ scenarioSkipIterated.pnodes ∧
    (scenarioSkipIterated.iskip, scenarioSkipIterated.pnodes.map (fun p => p.seq)) = (1, [3, 4]) ∧
    skipScan scenarioSkipIterated 4 = inSkip scenarioSkipOne 4 ∧
    inSkip scenarioSkipOne 4 = false := by
  have hm : OWPPacketRec.mk 4 (1005 * oneSecond) 1 false ∈ scenarioSkipIterated.pnodes := by
    decide!
  exact ⟨by decide, scenarioInitSkip_eq, scenarioSkipIterated_reach, hm, by decide!,
    (C30_skip_scan_covers_all_ranges (scenarioStats scenarioSkipOne) 0 0 5 scenarioInitSkip
      scenarioSkipIterated _ (by decide) scenarioInitSkip_eq scenarioSkipIterated_reach hm).1,
    by decide⟩

theorem getD_set_nat (l : List Nat) (i j a : Nat) (hi : i < l.length) :
    (l.set i a).getD j 0 = if j = i then a else l.getD j 0 := by
  rw [List.getD_eq_getElem?_getD, List.getD_eq_getElem?_getD, List.getElem?_set]
  by_cases h : i = j
  · subst h
    simp [hi]
  · have h2 : ¬ j = i := fun hx => h hx.symm
    simp [h, h2]

/-- The loop of the j-reordering block adds one to the counters of a range
`i .. i + m - 1`, for some `m` of at most the number of rounds. -/
theorem reorderLoop_getD (st : OWPStatsRec) (s : Nat) : ∀ (k i : Nat) (rn : List Nat),
    i + k ≤ rn.length →
    ∃ m, m ≤ k ∧ ∀ j, (reorderLoop st s k i rn).getD j 0 =
      rn.getD j 0 + (if i ≤ j ∧ j < i + m then 1 else 0) := by
  intro k
  induction k with
  | zero =>
    intro i rn _
    refine ⟨0, le_refl _, ?_⟩
    intro j
    have : ¬ (i ≤ j ∧ j < i + 0) := by omega
    simp [reorderLoop, this]
  | succ k ih =>
    intro i rn hlen
    by_cases hc : s < st.rseqno.getD (rseqindex st.rlistlen ((st.rindex : Int) - i - 1)).toNat 0
    · rw [reorderLoop_go st s k i rn hc]
      obtain ⟨m, hm, hj⟩ := ih (i + 1) (rn.set i (rn.getD i 0 + 1))
        (by rw [List.length_set]; omega)
      refine ⟨m + 1, by omega, ?_⟩
      intro j
      rw [hj j, getD_set_nat rn i j _ (by omega)]
      by_cases hji : j = i
      · subst hji
        have h1 : ¬ (j + 1 ≤ j ∧ j < j + 1 + m) := by omega
        have h2 : j ≤ j ∧ j < j + (m + 1) := by omega
        simp [h1, h2]
      · rw [if_neg hji]
        by_cases h1 : i + 1 ≤ j ∧ j < i + 1 + m
        · have h2 : i ≤ j ∧ j < i + (m + 1) := by omega
          simp [h1, h2]
        · have h2 : ¬ (i ≤ j ∧ j < i + (m + 1)) := by omega
          simp [h1, h2]
    · rw [reorderLoop_stop st s k i rn hc]
      refine ⟨0, by omega, ?_⟩
      intro j
      have : ¬ (i ≤ j ∧ j < i + 0) := by omega
      simp [this]

theorem RnNested_jreorder {st : OWPStatsRec} (hwf : TrackerWF st) (h : RnNested st)
    (s : Nat) : RnNested (jreorder st s) := by
  obtain ⟨j1, _, _, j4, j5⟩ := jreorder_fields st s
  obtain ⟨m, _, hm⟩ := reorderLoop_getD st s (min st.rnumseqno st.rlistlen) 0 st.rn
    (by rw [hwf.len_rn]; omega)
  unfold RnNested
  rw [j1, j4, j5]
  refine ⟨?_, ?_⟩
  · intro i hi
    rw [hm, hm]
    have := h.1 i hi
    by_cases h1 : 0 ≤ i + 1 ∧ i + 1 < 0 + m
    · have h2 : 0 ≤ i ∧ i < 0 + m := by omega
      simp only [h1, h2, and_self, if_true]
      omega
    · rw [if_neg h1]
      split_ifs <;> omega
  · rw [hm]
    have := h.2
    split_ifs <;> omega

theorem RnNested_run (seqs : List Nat) : ∀ (st : OWPStatsRec), TrackerWF st → RnNested st →
    RnNested (trackerRun st seqs) := by
  induction seqs with
  | nil =>
    intro st _ h
    exact h
  | cons s rest ih =>
    intro st hwf h
    rw [trackerRun_cons]
    exact ih _ (TrackerWF_jreorder hwf s) (RnNested_jreorder hwf h s)

theorem nested_chain (l : List Nat)
    (h : ∀ j, j + 1 < l.length → l.getD (j + 1) 0 ≤ l.getD j 0) :
    ∀ b, b < l.length → ∀ a, a ≤ b → l.getD b 0 ≤ l.getD a 0 := by
  intro b
  induction b with
  | zero =>
    intro _ a ha
    have : a = 0 := by omega
    subst this
    exact le_refl _
  | succ b ih =>
    intro hb a ha
    rcases Nat.lt_or_ge a (b + 1) with hlt | hge
    · exact le_trans (h b hb) (ih (by omega) a (by omega))
    · have : a = b + 1 := by omega
      subst this
      exact le_refl _

/-- On nested counters the report loop, which stops at the first zero, prints
a line for every counter that is not zero. -/
theorem reorderLines_covers (n : Nat) : ∀ (l : List Nat) (i0 : Nat),
    (∀ j, j + 1 < l.length → l.getD (j + 1) 0 ≤ l.getD j 0) →
    ∀ j, j < l.length → l.getD j 0 ≠ 0 →
      (i0 + j + 1, 100 * (l.getD j 0 : ℚ) / n) ∈ reorderLines n l i0 := by
  intro l
  induction l with
  | nil =>
    intro i0 _ j hj
    simp at hj
  | cons x rest ih =>
    intro i0 hn j hj hne
    have hx : x ≠ 0 := by
      have := nested_chain (x :: rest) hn j hj 0 (by omega)
      simp only [List.getD_cons_zero] at this
      omega
    unfold reorderLines
    rw [if_neg hx]
    cases j with
    | zero =>
      simp only [List.getD_cons_zero, Nat.add_zero]
      exact List.mem_cons_self _ _
    | succ j =>
      have hrest : ∀ k, k + 1 < rest.length → rest.getD (k + 1) 0 ≤ rest.getD k 0 := by
        intro k hk
        have := hn (k + 1) (by simp only [List.length_cons]; omega)
        simpa using this
      have := ih (i0 + 1) hrest j (by simp only [List.length_cons] at hj; omega)
        (by simpa using hne)
      simp only [List.getD_cons_succ]
      have he : i0 + (j + 1) + 1 = i0 + 1 + j + 1 := by omega
      rw [he]
      exact List.mem_cons_of_mem _ this

/-- Claim C37: in every state the tracker reaches from its reset state by
tracker steps, `rn[i+1] <= rn[i]` for every `i` with `i + 1 < rlistlen`, and
`rn[0] <= rnumseqno`; so below a counter that is not zero no counter is zero,
and the loop of the reports, which stops at the first `rn[i] == 0`, prints the
line of every counter that is not zero. -/
theorem C37_reorder_counters_nested (st : OWPStatsRec) (seqs : List Nat)
    (h : TrackerReset st) :
    (∀ i, i + 1 < (trackerRun st seqs).rlistlen →
      (trackerRun st seqs).rn.getD (i + 1) 0 ≤ (trackerRun st seqs).rn.getD i 0) ∧
    (trackerRun st seqs).rn.getD 0 0 ≤ (trackerRun st seqs).rnumseqno ∧
    (∀ i, i < (trackerRun st seqs).rlistlen → (trackerRun st seqs).rn.getD i 0 ≠ 0 →
      (∀ j, j ≤ i → (trackerRun st seqs).rn.getD j 0 ≠ 0) ∧
      (i + 1, 100 * ((trackerRun st seqs).rn.getD i 0 : ℚ) / (trackerRun st seqs).rnumseqno)
        ∈ summaryReordering (trackerRun st seqs)) := by
  have hwf := TrackerWF_of_reset h
  have h0 : RnNested st := by
    unfold RnNested
    rw [h.rn]
    refine ⟨?_, ?_⟩
    · intro i _
      rw [replicate_getD_zero, replicate_getD_zero]
    · rw [replicate_getD_zero]
      omega
  obtain ⟨n1, n2⟩ := RnNested_run seqs st hwf h0
  obtain ⟨w1, _⟩ := trackerRun_fields seqs st hwf
  have hlen := w1.len_rn
  have hnest : ∀ j, j + 1 < (trackerRun st seqs).rn.length →
      (trackerRun st seqs).rn.getD (j + 1) 0 ≤ (trackerRun st seqs).rn.getD j 0 := by
    intro j hj
    exact n1 j (by rw [← hlen]; exact hj)
  refine ⟨n1, n2, ?_⟩
  intro i hi hne
  refine ⟨?_, ?_⟩
  · intro j hj hz
    have := nested_chain _ hnest i (by rw [hlen]; exact hi) j hj
    omega
  · unfold summaryReordering
    have htake : (trackerRun st seqs).rn.take (trackerRun st seqs).rlistlen
        = (trackerRun st seqs).rn := by
      rw [← hlen]
      exact List.take_length _
    rw [htake]
    have := reorderLines_covers (trackerRun st seqs).rnumseqno (trackerRun st seqs).rn 0 hnest
      i (by rw [hlen]; exact hi) hne
    simpa using this

/-- Claim C37, witness S4: the tracker of the scenario object, run over the
sequence numbers 0, 1, 2, 4, 3, ends with `rn = [1, 0, ..., 0]` and
`rnumseqno = 5`; the report prints the one line of 1-reordering, 20 %. -/
theorem C37_witness_S4 :
    TrackerReset (scenarioStats []) ∧
    ((trackerRun (scenarioStats []) [0, 1, 2, 4, 3]).rn,
      (trackerRun (scenarioStats []) [0, 1, 2, 4, 3]).rnumseqno) =
      ([1, 0, 0, 0, 0, 0, 0, 0, 0, 0], 5) ∧
    summaryReordering (trackerRun (scenarioStats []) [0, 1, 2, 4, 3]) = [(1, 20)] ∧
    (trackerRun (scenarioStats []) [0, 1, 2, 4, 3]).rn.getD 0 0 ≤
      (trackerRun (scenarioStats []) [0, 1, 2, 4, 3]).rnumseqno :=
  ⟨scenarioStats_reset [], by decide, by decide!,
    (C37_reorder_counters_nested (scenarioStats []) [0, 1, 2, 4, 3]
      (scenarioStats_reset [])).2.1⟩

theorem schedTotal_mono (start : Nat) (deltas : Nat → Nat) {a b : Nat} (h : a ≤ b) :
    schedTotal start deltas a ≤ schedTotal start deltas b := by
  induction b with
  | zero =>
    have : a = 0 := by omega
    subst this
    exact le_refl _
  | succ b ih =>
    rcases Nat.lt_or_ge a (b + 1) with hlt | hge
    · have := ih (by omega)
      show _ ≤ schedTotal start deltas b + deltas b % 2 ^ 64
      omega
    · have : a = b + 1 := by omega
      subst this
      exact le_refl _

theorem schedSum_eq_total (start : Nat) (deltas : Nat → Nat) : ∀ (n : Nat),
    schedTotal start deltas n < 2 ^ 64 → schedSum start deltas n = schedTotal start deltas n := by
  intro n
  induction n with
  | zero =>
    intro _
    rfl
  | succ n ih =>
    intro h
    have h1 : schedTotal start deltas (n + 1) = schedTotal start deltas n + deltas n % 2 ^ 64 :=
      rfl
    have hn := ih (by omega)
    show OWPNum64Add (schedSum start deltas n) (deltas n % 2 ^ 64) = _
    unfold OWPNum64Add
    rw [hn, h1]
    exact Nat.mod_eq_of_lt (by omega)

/-- While the schedule does not wrap, it is monotone. -/
theorem schedSum_mono (start : Nat) (deltas : Nat → Nat) {a b : Nat} (h : a ≤ b)
    (hb : schedTotal start deltas b < 2 ^ 64) :
    schedSum start deltas a ≤ schedSum start deltas b := by
  have ha := schedTotal_mono start deltas h
  rw [schedSum_eq_total start deltas b hb, schedSum_eq_total start deltas a (by omega)]
  exact ha

theorem wrapStats_created :
    OWPStatsCreate scenarioHdr [] wrapSched 'm' (1 / 10000) 1 = some wrapStats := by
  have hc : 'm'.toLower = 'm' := by decide
  have h1 : ¬ ('m' = 'n') := by decide
  have h2 : ¬ ('m' = 'u') := by decide
  norm_num [OWPStatsCreate, OWPStatsScaleFactor, scenarioHdr, wrapStats, OWPNum64ToDouble,
    oneSecond, OWPScheduleContextReset, wrapSched, hc, h1, h2]

theorem wrapInit_eq : parseInit wrapStats 0 0 5 = some wrapInit :=
  Option_some_getD _ _ (by decide!)

theorem wrapIterated_reach : ParseReach wrapInit wrapIterated :=
  parseIterate_reach wrapInit { datarecs := [received 1 0] } wrapIterated
    (Or.inl (Ret_ok_stateD _ _ (by decide!)))

/-- Claim C26, counterexample: with a schedule generator whose deltas are all
`2^63`, the parse of `[0,5)` materializes, for a record of packet 1, the window
records 0 and 1 with the scheduled times `1000 s + 2^63` and `1000 s`
(the sum `1000 s + 2^64` wrapped at 64 bits): packet 0 is scheduled after
packet 1. -/
theorem C26_counterexample_schedule_wraps :
    OWPStatsCreate scenarioHdr [] wrapSched 'm' (1 / 10000) 1 = some wrapStats ∧
    parseInit wrapStats 0 0 5 = some wrapInit ∧
    parseIterate wrapInit { datarecs := [received 1 0] } = Ret.ok wrapIterated ∧
    wrapIterated.pnodes.map (fun p => (p.seq, p.schedtime)) =
      [(0, 1000 * oneSecond + 2 ^ 63), (1, 1000 * oneSecond)] ∧
    ¬ (1000 * oneSecond + 2 ^ 63 ≤ 1000 * oneSecond) :=
  ⟨wrapStats_created, wrapInit_eq, Ret_ok_stateD _ _ (by decide!), by decide!, by decide⟩

/-- Claim C26, amended: the records a parse materializes carry the scheduled
send times of their sequence numbers, and for two of them, `p` and `q` with
`p.seq < q.seq`, taken from any two states of the parse, the scheduled time of
`p` is at most that of `q`, provided the start time plus the deltas up to the
one of `q.seq` stays below `2^64`, so that the 64-bit sum has not wrapped. -/
theorem C26_schedule_monotone_until_wrap (st0 : OWPStatsRec) (bo first last : Nat)
    (st8 st st' : OWPStatsRec) (p q : OWPPacketRec)
    (hobj : StatsReach st0) (hi : parseInit st0 bo first last = some st8)
    (hr : ParseReach st8 st) (hr' : ParseReach st8 st')
    (hp : p ∈ st.pnodes) (hq : q ∈ st'.pnodes) (hlt : p.seq < q.seq)
    (hno : schedTotal st0.hdr.test_spec.start_time st0.sctx.deltas (q.seq + 1) < 2 ^ 64) :
    p.schedtime = schedTimeOf st0 p.seq ∧ q.schedtime = schedTimeOf st0 q.seq ∧
    p.schedtime ≤ q.schedtime := by
  have hc := StatsReach_cursor hobj
  obtain ⟨s1, _⟩ := parseInit_sched st0 bo first last st8 _ hc hi
  have e1 := (reach_sched s1 hr).nodes p hp
  have e2 := (reach_sched s1 hr').nodes q hq
  refine ⟨e1, e2, ?_⟩
  rw [e1, e2]
  exact schedSum_mono _ _ (by omega) hno

/-- Claim C26, witness: in the scenario session (every delta 1 s) the window
after scenario S3 holds the records 3 and 4, scheduled at 1004 s and 1005 s. -/
theorem C26_witness :
    StatsReach (scenarioStats []) ∧ parseInit (scenarioStats []) 0 0 5 = some scenarioInit ∧
    ParseReach scenarioInit scenarioS3Iterated ∧
    OWPPacketRec.mk 3 (1004 * oneSecond) 2 false ∈ scenarioS3Iterated.pnodes ∧
    OWPPacketRec.mk 4 (1005 * oneSecond) 1 false ∈ scenarioS3Iterated.pnodes ∧
    schedTotal (scenarioStats []).hdr.test_spec.start_time (scenarioStats []).sctx.deltas
      (4 + 1) < 2 ^ 64 ∧
    1004 * oneSecond ≤ 1005 * oneSecond := by
  have hp : OWPPacketRec.mk 3 (1004 * oneSecond) 2 false ∈ scenarioS3Iterated.pnodes := by
    decide!
  have hq : OWPPacketRec.mk 4 (1005 * oneSecond) 1 false ∈ scenarioS3Iterated.pnodes := by
    decide!
  have hno : schedTotal (scenarioStats []).hdr.test_spec.start_time
      (scenarioStats []).sctx.deltas (4 + 1) < 2 ^ 64 := by decide
  exact ⟨scenarioStats_reachable [], scenarioInit_eq, scenarioS3Iterated_reach, hp, hq, hno,
    (C26_schedule_monotone_until_wrap (scenarioStats []) 0 0 5 scenarioInit
      scenarioS3Iterated scenarioS3Iterated _ _ (scenarioStats_reachable []) scenarioInit_eq
      scenarioS3Iterated_reach scenarioS3Iterated_reach hp hq (by decide) hno).2.2⟩

theorem ParseStep_start_time {st st1 : OWPStatsRec} (hs : ParseStep st st1) :
    st1.start_time = st.start_time := by
  cases hs with
  | mark seq =>
    unfold markOffset
    simp only []
    split_ifs <;> rfl
  | flush _ r hne hf =>
    have := congrArg OWPStatsRec.start_time (PacketBeginFlush_frame hf).1
    exact this
  | get _ seq n hne h1 h2 hg =>
    have := congrArg OWPStatsRec.start_time (PacketGet_frame hg)
    exact this
  | lostOW rec node hm hs0 => rfl
  | lostTW rec node hm hs0 => rfl
  | recvOW rec node hm hl0 =>
    have := congrArg OWPStatsRec.start_time
      (PostOK_OW rec node.seen (jreorder (seenUpdate st node) rec.seq_no)).1
    exact this
  | recvTW rec node hm hl0 =>
    have := congrArg OWPStatsRec.start_time
      (PostOK_TW rec node.seen (jreorder (seenUpdate st node) rec.sent.seq_no)).1
    exact this

theorem reach_start_time {st8 st : OWPStatsRec} (hr : ParseReach st8 st) :
    st.start_time = st8.start_time := by
  induction hr with
  | refl => rfl
  | tail _ hstep ih => rw [ParseStep_start_time hstep, ih]

/-- The final flush loop ends with `end_time` at the scheduled time of the
packet `last - 1`. -/
theorem drainLoop_end_time {start : Nat} {deltas : Nat → Nat} (fuel : Nat) :
    ∀ (st : OWPStatsRec) (b e : Nat), Win st b e → SchedOK start deltas st →
      ∀ st', drainLoop fuel st = some st' →
        st'.end_time = schedSum start deltas st.last ∧ st'.pnodes = [] := by
  induction fuel with
  | zero =>
    intro st b e _ _ st' h
    simp [drainLoop] at h
  | succ fuel ih =>
    intro st b e hw hs st' h
    obtain ⟨node, tl, hpn, hnb, _, _⟩ := Win_head hw
    obtain ⟨st1, r, node1, k1, k2, k3, k4, hcase⟩ := PacketBeginFlush_win hw
    have hn : node1 = node := by
      rw [hpn] at k1
      simp only [List.head?_cons, Option.some.injEq] at k1
      exact k1.symm
    subst hn
    unfold drainLoop at h
    rw [hpn] at h
    simp only [] at h
    rw [k3] at h
    rcases hcase with ⟨c1, c2, _⟩ | ⟨c1, c2, c3, c4⟩
    · subst c1
      simp only [] at h
      obtain ⟨i1, i2⟩ := ih st1 _ _ c2 (PacketBeginFlush_sched hs k3) st' h
      rw [(PacketBeginFlush_bounds k3).2.1] at i1
      exact ⟨i1, i2⟩
    · subst c1
      simp only [Option.some.injEq] at h
      subst h
      refine ⟨?_, c4⟩
      rw [k4, hs.nodes node1 (by rw [hpn]; exact List.mem_cons_self _ _), k2]
      have := hw.lt_last
      congr 1
      omega

/-- Claim C34: after a successful parse of a range `first < last` on an object
a caller can hold, `start_time` is the scheduled send time of the packet
`first` and `end_time` the scheduled send time of the packet `last - 1`,
whatever records the stream holds. -/
theorem C34_summary_time_range (st0 : OWPStatsRec) (file : OWPFile) (bo first last0 : Nat)
    (st : OWPStatsRec) (hobj : StatsReach st0)
    (h : OWPStatsParse st0 file bo first last0 = Ret.ok st)
    (hlt : first < parseLast st0 last0) :
    st.start_time = schedTimeOf st0 first ∧
    st.end_time = schedTimeOf st0 (parseLast st0 last0 - 1) := by
  obtain ⟨_, _, st8, st9, st10, hi, hit, hd, hst⟩ := parse_shape st0 file bo first last0 st h
  have hc := StatsReach_cursor hobj
  obtain ⟨s1, _, s3, _⟩ := parseInit_sched st0 bo first _ st8 _ hc hi
  have hinv8 := parseInit_inv st0 bo first _ st8 hi hlt
  obtain ⟨b1, e1, hinv9, _, l9, _⟩ := parseIterate_inv st8 file first first hinv8 st9 hit
  have hr9 := parseIterate_reach st8 file st9 (Or.inl hit)
  have hs9 := reach_sched s1 hr9
  obtain ⟨d1, _⟩ := drainLoop_end_time _ st9 b1 e1 hinv9.win hs9 st10 hd
  have hr10 := drainLoop_reach _ st9 st10 hd
  have l8 := (parseInit_spec st0 bo first _ st8 hi).2.2.2.2.1
  subst hst
  refine ⟨?_, ?_⟩
  · show st10.start_time = _
    rw [reach_start_time hr10, reach_start_time hr9, s3]
    rfl
  · show st10.end_time = _
    rw [d1, l9, l8]
    unfold schedTimeOf
    congr 1
    omega

/-- Claim C34, witness S2: the parse of `[0,5)` of scenario S2 (packet 2 lost)
ends with `start_time` = 1001 s, the scheduled time of packet 0, and
`end_time` = 1005 s, the scheduled time of packet 4. -/
theorem C34_witness_S2 :
    StatsReach (scenarioStats []) ∧
    (OWPStatsParse (scenarioStats []) { datarecs := scenarioS2 } 0 0 5).isOk = true ∧
    0 < parseLast (scenarioStats []) 5 ∧
    (OWPStatsParse (scenarioStats []) { datarecs := scenarioS2 } 0 0 5).read
      (fun st => (st.start_time, st.end_time)) = some (1001 * oneSecond, 1005 * oneSecond) ∧
    (schedTimeOf (scenarioStats []) 0, schedTimeOf (scenarioStats []) (5 - 1)) =
      (1001 * oneSecond, 1005 * oneSecond) := by
  have hok : (OWPStatsParse (scenarioStats []) { datarecs := scenarioS2 } 0 0 5).isOk = true := by
    decide!
  have hl : 0 < parseLast (scenarioStats []) 5 := by decide
  obtain ⟨st, h⟩ := Ret_ok_of_isOk _ hok
  obtain ⟨h1, h2⟩ := C34_summary_time_range (scenarioStats []) { datarecs := scenarioS2 } 0 0 5
    st (scenarioStats_reachable []) h hl
  refine ⟨scenarioStats_reachable [], hok, hl, ?_, by decide⟩
  rw [read_eq_of_ok _ _ st h, h1, h2]
  decide

theorem frameO_of_frameF {a b : OWPStatsRec} (h : frameF a = frameF b) :
    frameO a = frameO b := by
  have h1 := congrArg OWPStatsRec.i h
  have h2 := congrArg OWPStatsRec.next_oset h
  have h3 := congrArg OWPStatsRec.begin_oset h
  have h4 := congrArg OWPStatsRec.hdr h
  have h5 := congrArg OWPStatsRec.last h
  unfold frameO
  exact Prod.ext h1 (Prod.ext h2 (Prod.ext h3 (Prod.ext h4 h5)))

theorem frameO_of_frameP {a b : OWPStatsRec} (h : frameP a = frameP b) :
    frameO a = frameO b := by
  have h1 := congrArg OWPStatsRec.i h
  have h2 := congrArg OWPStatsRec.next_oset h
  have h3 := congrArg OWPStatsRec.begin_oset h
  have h4 := congrArg OWPStatsRec.hdr h
  have h5 := congrArg OWPStatsRec.last h
  unfold frameO
  exact Prod.ext h1 (Prod.ext h2 (Prod.ext h3 (Prod.ext h4 h5)))

theorem flushLostLoop_frame (seq : Nat) (fuel : Nat) : ∀ (st st1 : OWPStatsRec),
    (flushLostLoop fuel st seq = Ret.ok st1 ∨ flushLostLoop fuel st seq = Ret.fatal st1) →
    frameF st1 = frameF st := by
  induction fuel with
  | zero =>
    intro st st1 h
    simp [flushLostLoop] at h
  | succ fuel ih =>
    intro st st1 h
    unfold flushLostLoop at h
    cases hpn : st.pnodes with
    | nil =>
      rw [hpn] at h
      simp at h
    | cons pb tl =>
      rw [hpn] at h
      simp only [] at h
      split_ifs at h with hc
      · cases hf : PacketBeginFlush st with
        | none =>
          rw [hf] at h
          simp at h
        | some pr =>
          obtain ⟨st2, r⟩ := pr
          rw [hf] at h
          have f1 := (PacketBeginFlush_frame hf).1
          cases r with
          | true =>
            simp only [] at h
            rw [ih st2 st1 h, f1]
          | false =>
            simp only [] at h
            rcases h with h | h
            · cases h
            · simp only [Ret.fatal.injEq] at h
              rw [← h, f1]
      · rcases h with h | h
        · simp only [Ret.ok.injEq] at h
          rw [← h]
        · cases h

theorem flushThreshLoop_frame (thresh : Nat) (fuel : Nat) : ∀ (st st1 : OWPStatsRec),
    (flushThreshLoop fuel st thresh = Ret.ok st1 ∨
      flushThreshLoop fuel st thresh = Ret.fatal st1) →
    frameF st1 = frameF st := by
  induction fuel with
  | zero =>
    intro st st1 h
    simp [flushThreshLoop] at h
  | succ fuel ih =>
    intro st st1 h
    unfold flushThreshLoop at h
    cases hpn : st.pnodes with
    | nil =>
      rw [hpn] at h
      simp at h
    | cons pb tl =>
      rw [hpn] at h
      simp only [] at h
      split_ifs at h with hc
      · cases hf : PacketBeginFlush st with
        | none =>
          rw [hf] at h
          simp at h
        | some pr =>
          obtain ⟨st2, r⟩ := pr
          rw [hf] at h
          have f1 := (PacketBeginFlush_frame hf).1
          cases r with
          | true =>
            simp only [] at h
            rw [ih st2 st1 h, f1]
          | false =>
            simp only [] at h
            rcases h with h | h
            · cases h
            · simp only [Ret.fatal.injEq] at h
              rw [← h, f1]
      · rcases h with h | h
        · simp only [Ret.ok.injEq] at h
          rw [← h]
        · cases h

theorem drainLoop_frame (fuel : Nat) : ∀ (st st1 : OWPStatsRec),
    drainLoop fuel st = some st1 → frameF st1 = frameF st := by
  induction fuel with
  | zero =>
    intro st st1 h
    simp [drainLoop] at h
  | succ fuel ih =>
    intro st st1 h
    unfold drainLoop at h
    cases hpn : st.pnodes with
    | nil =>
      rw [hpn] at h
      simp only [Option.some.injEq] at h
      rw [← h]
    | cons pb tl =>
      rw [hpn] at h
      simp only [] at h
      cases hf : PacketBeginFlush st with
      | none =>
        rw [hf] at h
        simp at h
      | some pr =>
        obtain ⟨st2, r⟩ := pr
        rw [hf] at h
        have f1 := (PacketBeginFlush_frame hf).1
        cases r with
        | true =>
          simp only [] at h
          rw [ih st2 st1 h, f1]
        | false =>
          simp only [Option.some.injEq] at h
          rw [← h, f1]

/-- The ways through a callback, one disjunct for each `return`. -/
theorem iterCore_cases (seq : Nat) (isLost : Bool) (thresh : OWPStatsRec → Nat)
    (postLost : OWPStatsRec → OWPStatsRec) (post : Nat → OWPStatsRec → OWPStatsRec)
    (st : OWPStatsRec) :
    ((seq < (markOffset st seq).first ∨ seq ≥ (markOffset st seq).last) ∧
      iterCore seq isLost thresh postLost post st = Ret.ok (markOffset st seq)) ∨
    (¬ (seq < (markOffset st seq).first ∨ seq ≥ (markOffset st seq).last) ∧
      ((callbackFlush seq isLost thresh (markOffset st seq) = Ret.crash ∧
          iterCore seq isLost thresh postLost post st = Ret.crash) ∨
       (∃ st1, callbackFlush seq isLost thresh (markOffset st seq) = Ret.fatal st1 ∧
          iterCore seq isLost thresh postLost post st = Ret.fatal st1) ∨
       (∃ st1, callbackFlush seq isLost thresh (markOffset st seq) = Ret.ok st1 ∧
          ((PacketGet st1 seq = none ∧
              iterCore seq isLost thresh postLost post st = Ret.crash) ∨
           (∃ st2, PacketGet st1 seq = some (st2, none) ∧
              iterCore seq isLost thresh postLost post st = Ret.fatal st2) ∨
           (∃ st2 node, PacketGet st1 seq = some (st2, some node) ∧
              ((skipScan st2 node.seq = true ∧
                  iterCore seq isLost thresh postLost post st = Ret.ok st2) ∨
               (skipScan st2 node.seq = false ∧ isLost = true ∧ node.seen ≠ 0 ∧
                  iterCore seq isLost thresh postLost post st = Ret.fatal st2) ∨
               (skipScan st2 node.seq = false ∧ isLost = true ∧ node.seen = 0 ∧
                  iterCore seq isLost thresh postLost post st =
                    Ret.ok (postLost (lostUpdate st2 node))) ∨
               (skipScan st2 node.seq = false ∧ isLost = false ∧ node.lost = true ∧
                  iterCore seq isLost thresh postLost post st = Ret.fatal st2) ∨
               (skipScan st2 node.seq = false ∧ isLost = false ∧ node.lost = false ∧
                  iterCore seq isLost thresh postLost post st =
                    Ret.ok (post node.seen (jreorder (seenUpdate st2 node) seq))))))))) := by
  by_cases hr : seq < (markOffset st seq).first ∨ seq ≥ (markOffset st seq).last
  · left
    refine ⟨hr, ?_⟩
    unfold iterCore
    simp only []
    rw [if_pos hr]
  · right
    refine ⟨hr, ?_⟩
    have hu : iterCore seq isLost thresh postLost post st =
        match callbackFlush seq isLost thresh (markOffset st seq) with
        | Ret.crash => Ret.crash
        | Ret.fatal st1 => Ret.fatal st1
        | Ret.ok st1 =>
          match PacketGet st1 seq with
          | none => Ret.crash
          | some (st2, none) => Ret.fatal st2
          | some (st2, some node) =>
            if skipScan st2 node.seq then Ret.ok st2
            else if isLost then
              if node.seen ≠ 0 then Ret.fatal st2
              else Ret.ok (postLost (lostUpdate st2 node))
            else if node.lost then Ret.fatal st2
            else Ret.ok (post node.seen (jreorder (seenUpdate st2 node) seq)) := by
      unfold iterCore callbackFlush
      simp only []
      rw [if_neg hr]
    rw [hu]
    cases hl : callbackFlush seq isLost thresh (markOffset st seq) with
    | crash => exact Or.inl ⟨rfl, rfl⟩
    | fatal st1 => exact Or.inr (Or.inl ⟨st1, rfl, rfl⟩)
    | ok st1 =>
      refine Or.inr (Or.inr ⟨st1, rfl, ?_⟩)
      simp only []
      cases hg : PacketGet st1 seq with
      | none => exact Or.inl ⟨rfl, rfl⟩
      | some pr =>
        obtain ⟨st2, n⟩ := pr
        cases n with
        | none => exact Or.inr (Or.inl ⟨st2, rfl, rfl⟩)
        | some node =>
          refine Or.inr (Or.inr ⟨st2, node, rfl, ?_⟩)
          simp only []
          cases hsk : skipScan st2 node.seq with
          | true => exact Or.inl ⟨rfl, by simp⟩
          | false =>
            right
            cases isLost with
            | true =>
              by_cases hs : node.seen ≠ 0
              · exact Or.inl ⟨rfl, rfl, hs, by simp [hs]⟩
              · have hs0 : node.seen = 0 := by
                  by_contra hc
                  exact hs hc
                exact Or.inr (Or.inl ⟨rfl, rfl, hs0, by simp [hs0]⟩)
            | false =>
              cases hlo : node.lost with
              | true => exact Or.inr (Or.inr (Or.inl ⟨rfl, rfl, rfl, by simp⟩))
              | false => exact Or.inr (Or.inr (Or.inr ⟨rfl, rfl, rfl, by simp⟩))

theorem callbackFlush_frame (seq : Nat) (isLost : Bool) (thresh : OWPStatsRec → Nat)
    (stm st1 : OWPStatsRec)
    (h : callbackFlush seq isLost thresh stm = Ret.ok st1 ∨
      callbackFlush seq isLost thresh stm = Ret.fatal st1) : frameF st1 = frameF stm := by
  unfold callbackFlush at h
  cases isLost with
  | true => exact flushLostLoop_frame _ _ _ _ h
  | false => exact flushThreshLoop_frame _ _ _ _ h

/-- A callback leaves the record index and the offset mark as its first lines
(`markOffset`) set them, whether it returns 0 or -1. -/
theorem iterCore_frameO (seq : Nat) (isLost : Bool) (thresh : OWPStatsRec → Nat)
    (postLost : OWPStatsRec → OWPStatsRec) (post : Nat → OWPStatsRec → OWPStatsRec)
    (hpl : PostLostOK postLost) (hpo : PostOK post) (st st' : OWPStatsRec)
    (h : iterCore seq isLost thresh postLost post st = Ret.ok st' ∨
      iterCore seq isLost thresh postLost post st = Ret.fatal st') :
    frameO st' = frameO (markOffset st seq) := by
  have hres : ∀ {x : OWPStatsRec}, (iterCore seq isLost thresh postLost post st = Ret.ok x ∨
      iterCore seq isLost thresh postLost post st = Ret.fatal x) → st' = x := by
    intro x hx
    rcases h with h | h <;> rcases hx with hx | hx <;> rw [h] at hx <;> cases hx <;> rfl
  rcases iterCore_cases seq isLost thresh postLost post st with
    ⟨_, c⟩ | ⟨_, ⟨_, c⟩ | ⟨st1, c1, c⟩ | ⟨st1, c1, ⟨_, c⟩ | ⟨st2, c2, c⟩ | ⟨st2, node, c2, c3⟩⟩⟩
  · rw [hres (Or.inl c)]
  · rw [c] at h
    rcases h with h | h <;> cases h
  · rw [hres (Or.inr c)]
    exact frameO_of_frameF (callbackFlush_frame _ _ _ _ _ (Or.inr c1))
  · rw [c] at h
    rcases h with h | h <;> cases h
  · rw [hres (Or.inr c)]
    exact Eq.trans (frameO_of_frameF (frameF_of_frameG (PacketGet_frame c2)))
      (frameO_of_frameF (callbackFlush_frame _ _ _ _ _ (Or.inl c1)))
  · have f2 : frameO st2 = frameO (markOffset st seq) :=
      Eq.trans (frameO_of_frameF (frameF_of_frameG (PacketGet_frame c2)))
        (frameO_of_frameF (callbackFlush_frame _ _ _ _ _ (Or.inl c1)))
    rcases c3 with ⟨_, c⟩ | ⟨_, _, _, c⟩ | ⟨_, _, _, c⟩ | ⟨_, _, _, c⟩ | ⟨_, _, _, c⟩
    · rw [hres (Or.inl c)]; exact f2
    · rw [hres (Or.inr c)]; exact f2
    · rw [hres (Or.inl c), frameO_of_frameP (hpl _).1, ← f2]
      rfl
    · rw [hres (Or.inr c)]; exact f2
    · rw [hres (Or.inl c), frameO_of_frameP (hpo _ _).1, ← f2]
      rfl

theorem firstBeyond_append (last : Nat) (r : OWPDataRec) : ∀ (done : List OWPDataRec),
    firstBeyond last (done ++ [r]) =
      match firstBeyond last done with
      | some i => some i
      | none => if r.seq_no ≥ last then some done.length else none := by
  intro done
  induction done with
  | nil =>
    simp only [List.nil_append, firstBeyond, List.length_nil]
    split_ifs <;> rfl
  | cons x rest ih =>
    simp only [List.cons_append, firstBeyond, List.length_cons, List.append_eq]
    by_cases hx : x.seq_no ≥ last
    · simp only [hx, if_true]
    · simp only [hx, if_false]
      rw [ih]
      cases firstBeyond last rest with
      | some i => rfl
      | none =>
        simp only [Option.map_none']
        split_ifs <;> rfl

theorem OffsetOK_step {st st' : OWPStatsRec} {done : List OWPDataRec} (r : OWPDataRec)
    (hb : 0 < st.begin_oset) (h : OffsetOK st done)
    (hf : frameO st' = frameO (markOffset st r.seq_no)) :
    OffsetOK st' (done ++ [r]) ∧ st'.begin_oset = st.begin_oset ∧ st'.hdr = st.hdr ∧
      st'.last = st.last := by
  obtain ⟨h1, h2⟩ := h
  unfold frameO at hf
  simp only [Prod.mk.injEq] at hf
  obtain ⟨f1, f2, f3, f4, f5⟩ := hf
  have m3 : (markOffset st r.seq_no).begin_oset = st.begin_oset := by
    unfold markOffset; simp only []; split_ifs <;> rfl
  have m4 : (markOffset st r.seq_no).hdr = st.hdr := by
    unfold markOffset; simp only []; split_ifs <;> rfl
  have m5 : (markOffset st r.seq_no).last = st.last := by
    unfold markOffset; simp only []; split_ifs <;> rfl
  have m1 : (markOffset st r.seq_no).i = st.i + 1 := by
    unfold markOffset; simp only []; split_ifs <;> rfl
  have m2 : (markOffset st r.seq_no).next_oset =
      if st.next_oset = 0 ∧ r.seq_no ≥ st.last then st.begin_oset + st.i * st.hdr.rec_size
      else st.next_oset := by
    unfold markOffset; simp only []; split_ifs <;> rfl
  rw [m3] at f3
  rw [m4] at f4
  rw [m5] at f5
  refine ⟨⟨?_, ?_⟩, f3, f4, f5⟩
  · rw [f1, m1, h1]
    simp
  · rw [f2, m2, f3, f4, f5, firstBeyond_append]
    cases hfb : firstBeyond st.last done with
    | some k =>
      rw [hfb] at h2
      simp only [] at h2 ⊢
      have : ¬ (st.next_oset = 0 ∧ r.seq_no ≥ st.last) := by
        intro hc
        rw [hc.1] at h2
        have := (Nat.add_eq_zero_iff.1 h2.symm).1
        omega
      rw [if_neg this, h2]
    | none =>
      rw [hfb] at h2
      simp only [] at h2 ⊢
      by_cases hc : r.seq_no ≥ st.last
      · rw [if_pos ⟨h2, hc⟩, if_pos hc, h1]
      · rw [if_neg (fun hx => hc hx.2), if_neg hc, h2]

theorem OWPParseRecords_offset {α : Type} (proc : α → OWPStatsRec → Ret)
    (view : α → OWPDataRec)
    (hproc : ∀ a st, ∃ thresh postLost post, PostLostOK postLost ∧ PostOK post ∧
      proc a st = iterCore (view a).seq_no (OWPIsLostRecord (view a)) thresh postLost post st)
    (recs : List α) : ∀ (st : OWPStatsRec) (done : List OWPDataRec),
      0 < st.begin_oset → OffsetOK st done →
      ∀ st', OWPParseRecords proc recs st = Ret.ok st' →
        OffsetOK st' (done ++ recs.map view) ∧ st'.begin_oset = st.begin_oset ∧
          st'.hdr = st.hdr ∧ st'.last = st.last := by
  induction recs with
  | nil =>
    intro st done _ h st' hp
    simp only [OWPParseRecords, Ret.ok.injEq] at hp
    subst hp
    exact ⟨by simpa using h, rfl, rfl, rfl⟩
  | cons a rest ih =>
    intro st done hb h st' hp
    unfold OWPParseRecords at hp
    cases hpa : proc a st with
    | crash =>
      rw [hpa] at hp
      cases hp
    | fatal s =>
      rw [hpa] at hp
      cases hp
    | ok st1 =>
      rw [hpa] at hp
      simp only [] at hp
      obtain ⟨thresh, postLost, post, hpl, hpo, he⟩ := hproc a st
      rw [he] at hpa
      have hf := iterCore_frameO _ _ thresh postLost post hpl hpo st st1 (Or.inl hpa)
      obtain ⟨o1, o2, o3, o4⟩ := OffsetOK_step (view a) hb h hf
      obtain ⟨i1, i2, i3, i4⟩ := ih st1 (done ++ [view a]) (by rw [o2]; exact hb) o1 st' hp
      refine ⟨?_, by rw [i2, o2], by rw [i3, o3], by rw [i4, o4]⟩
      simpa using i1

theorem parseIterate_offset (st8 : OWPStatsRec) (file : OWPFile) (hb : 0 < st8.begin_oset)
    (h : OffsetOK st8 []) (st9 : OWPStatsRec) (hit : parseIterate st8 file = Ret.ok st9) :
    OffsetOK st9 (streamOf st8.hdr file) ∧ st9.begin_oset = st8.begin_oset ∧
      st9.hdr = st8.hdr ∧ st9.last = st8.last := by
  unfold parseIterate at hit
  unfold streamOf
  by_cases htw : st8.hdr.twoway = true
  · rw [if_pos htw] at hit
    rw [if_pos htw]
    have := OWPParseRecords_offset IterateSummarizeTWSession (fun r => r.sent) hproc_TW
      file.twdatarecs st8 [] hb h st9 hit
    simpa using this
  · rw [if_neg htw] at hit
    rw [if_neg htw]
    have := OWPParseRecords_offset IterateSummarizeSession (fun r => r) hproc_OW
      file.datarecs st8 [] hb h st9 hit
    simpa using this

theorem parseInit_offset (st0 : OWPStatsRec) (bo first last : Nat) (st8 : OWPStatsRec)
    (h : parseInit st0 bo first last = some st8) :
    st8.i = 0 ∧ st8.next_oset = 0 ∧ st8.begin_oset = max bo st0.hdr.oset_datarecs := by
  obtain ⟨_, s2, _, _⟩ := schedAdvance_spec
    (first + 1 - (parseSchedReset (parseArgs st0 bo first last) first).isctx)
    (parseSchedReset (parseArgs st0 bo first last) first)
  have hr : frameG (parseSchedReset (parseArgs st0 bo first last) first) =
      frameG (parseArgs st0 bo first last) := by
    unfold parseSchedReset
    split_ifs <;> rfl
  have h2 := Eq.trans s2 hr
  have g1 := congrArg OWPStatsRec.i h2
  have g2 := congrArg OWPStatsRec.next_oset h2
  have g3 := congrArg OWPStatsRec.begin_oset h2
  unfold parseInit at h
  simp only [] at h
  cases hpa : PacketAlloc
      (parsePosition (parseSchedReset (parseArgs st0 bo first last) first) first) first with
  | none => rw [hpa] at h; cases h
  | some pr =>
    obtain ⟨st5, node⟩ := pr
    rw [hpa] at h
    simp only [Option.some.injEq] at h
    obtain ⟨hn, hst5⟩ := PacketAlloc_some hpa
    subst h
    subst hn
    subst hst5
    refine ⟨g1, g2, ?_⟩
    refine Eq.trans g3 ?_
    show (if bo < st0.hdr.oset_datarecs then st0.hdr.oset_datarecs else bo) = _
    split_ifs <;> omega

/-- Claim C22, amended: after a successful parse of a session file whose data
records start behind the file header (`oset_datarecs > 0`, or a positive `begin_oset`
is given), `next_oset` is `max(begin_oset, oset_datarecs) + i * rec_size` for
the position `i` (from 0) in the stream of the first record with
`seq >= last`, and 0 when the stream has no such record; the records that
follow the first one do not change it. -/
theorem C22_next_oset_chaining (st0 : OWPStatsRec) (file : OWPFile) (bo first last0 : Nat)
    (st : OWPStatsRec) (h : OWPStatsParse st0 file bo first last0 = Ret.ok st)
    (hpos : 0 < bo ∨ 0 < st0.hdr.oset_datarecs) :
    st.next_oset =
      match firstBeyond (parseLast st0 last0) (streamOf st0.hdr file) with
      | some i => max bo st0.hdr.oset_datarecs + i * st0.hdr.rec_size
      | none => 0 := by
  obtain ⟨_, _, st8, st9, st10, hi, hit, hd, hst⟩ := parse_shape st0 file bo first last0 st h
  obtain ⟨o1, o2, o3⟩ := parseInit_offset st0 bo first _ st8 hi
  obtain ⟨_, _, _, _, s5, _, _, _, _, _, _, s12, _⟩ := parseInit_spec st0 bo first _ st8 hi
  have h8 : OffsetOK st8 [] := ⟨o1, by rw [o2]; rfl⟩
  obtain ⟨⟨_, q2⟩, q3, q4, q5⟩ := parseIterate_offset st8 file (by rw [o3]; omega) h8 st9 hit
  have hf := frameO_of_frameF (drainLoop_frame _ st9 st10 hd)
  unfold frameO at hf
  simp only [Prod.mk.injEq] at hf
  subst hst
  show st10.next_oset = _
  rw [hf.2.1, q2, q5, s5, q3, o3, q4, s12]

/-- Claim C22, witness: for a session file whose data records start at offset
200 (record size 25), the parse of `[0,3)` of scenario S1 ends with
`next_oset = 200 + 3 * 25`: the record of packet 3 is the fourth of the
stream. -/
theorem C22_witness :
    (OWPStatsParse offsetStats { datarecs := scenarioS1 } 0 0 3).isOk = true ∧
    ((0 : Nat) < 0 ∨ 0 < offsetStats.hdr.oset_datarecs) ∧
    firstBeyond (parseLast offsetStats 3) (streamOf offsetStats.hdr { datarecs := scenarioS1 })
      = some 3 ∧
    (OWPStatsParse offsetStats { datarecs := scenarioS1 } 0 0 3).read
      (fun st => st.next_oset) = some 275 := by
  have hok : (OWPStatsParse offsetStats { datarecs := scenarioS1 } 0 0 3).isOk = true := by
    decide!
  have hpos : (0 : Nat) < 0 ∨ 0 < offsetStats.hdr.oset_datarecs := Or.inr (by decide)
  have hfb : firstBeyond (parseLast offsetStats 3)
      (streamOf offsetStats.hdr { datarecs := scenarioS1 }) = some 3 := by decide
  obtain ⟨st, h⟩ := Ret_ok_of_isOk _ hok
  have h1 := C22_next_oset_chaining offsetStats { datarecs := scenarioS1 } 0 0 3 st h hpos
  refine ⟨hok, hpos, hfb, ?_⟩
  rw [read_eq_of_ok _ _ st h, h1, hfb]
  decide

/-- Claim C22, counterexample: for the scenario object, whose header gives the
offset 0 for the data records, and `begin_oset = 0`, the parse of `[0,3)` of a
stream that holds the records of the packets 3 and 4 only succeeds; the first
record with `seq >= last` is at position 0, for which the claim gives
`next_oset = 0 + 0 * 25 = 0`, but the callback reads the 0 it has stored as
"not set" and sets `next_oset` again at the record behind it: it ends as 25. -/
theorem C22_counterexample_offset_zero_is_set_again :
    (scenarioStats []).hdr.oset_datarecs = 0 ∧ (scenarioStats []).hdr.rec_size = 25 ∧
    firstBeyond (parseLast (scenarioStats []) 3)
      (streamOf (scenarioStats []).hdr
        { datarecs := [received 3 107374182, received 4 128849018] }) = some 0 ∧
    (OWPStatsParse (scenarioStats [])
      { datarecs := [received 3 107374182, received 4 128849018] } 0 0 3).read
      (fun st => st.next_oset) = some 25 := by
  refine ⟨by decide, by decide, by decide, by decide!⟩

theorem contribAll_append (skips : List OWPSkipRec) (first last : Nat)
    (done : List OWPDataRec) (r : OWPDataRec) :
    contribAll skips first last (done ++ [r]) =
      if first ≤ r.seq_no ∧ r.seq_no < last ∧ inSkip skips r.seq_no = false
      then contribAll skips first last done ++ [r] else contribAll skips first last done := by
  unfold contribAll
  rw [List.filter_append, List.filter_cons, List.filter_nil]
  by_cases h : first ≤ r.seq_no ∧ r.seq_no < last ∧ inSkip skips r.seq_no = false
  · rw [if_pos h]
    obtain ⟨h1, h2, h3⟩ := h
    have : (decide (first ≤ r.seq_no ∧ r.seq_no < last) && !inSkip skips r.seq_no) = true := by
      simp [h1, h2, h3]
    rw [if_pos this]
  · rw [if_neg h]
    have : ¬ ((decide (first ≤ r.seq_no ∧ r.seq_no < last) && !inSkip skips r.seq_no) = true) := by
      cases hs : inSkip skips r.seq_no with
      | true => simp
      | false =>
        simp only [Bool.not_false, Bool.and_true, decide_eq_true_eq]
        intro hc
        exact h ⟨hc.1, hc.2, hs⟩
    rw [if_neg this, List.append_nil]

theorem postOW_sync (rec : OWPDataRec) (seen : Nat) (st4 : OWPStatsRec) :
    (postOW rec seen st4).sync = if rec.send.sync && rec.recv.sync then st4.sync else 0 := by
  unfold postOW
  simp only []
  split_ifs <;> rfl

theorem OW_step_sync (st : OWPStatsRec) (done : List OWPDataRec) (b e : Nat)
    (r : OWPDataRec) (st' : OWPStatsRec) (hinv : Inv st done b e) (hp : SyncInv st done)
    (h : IterateSummarizeSession r st = Ret.ok st') : SyncInv st' (done ++ [r]) := by
  rw [IterateSummarizeSession_eq] at h
  obtain ⟨_, _, _, k1, k2, k3⟩ :=
    iterCore_inv hinv r _ _ _ (PostLostOK_OW r) (PostOK_OW r) st' h
  have hm : (markOffset st r.seq_no).sync = st.sync := by
    unfold markOffset; simp only []; split_ifs <;> rfl
  unfold SyncInv at hp ⊢
  rw [k1, k2, k3, contribAll_append]
  rcases iterCore_shape hinv r.seq_no (OWPIsLostRecord r) _ _ _ st' h with
    ⟨hout, hst⟩ | ⟨hin1, hin2, st2, b1, e1, node, _, _, _, _, hfr, _, _, hcase⟩
  · have : ¬ (st.first ≤ r.seq_no ∧ r.seq_no < st.last ∧ inSkip st.skips r.seq_no = false) :=
      fun hc => hout ⟨hc.1, hc.2.1⟩
    rw [if_neg this, hst, hm]
    exact hp
  · have hs2 : st2.sync = st.sync := by
      have := congrArg OWPStatsRec.sync hfr
      exact Eq.trans this hm
    rcases hcase with ⟨hsk, hst⟩ | ⟨hsk, hl, _, hst⟩ | ⟨hsk, hl, _, hst⟩
    · have : ¬ (st.first ≤ r.seq_no ∧ r.seq_no < st.last ∧ inSkip st.skips r.seq_no = false) := by
        intro hc
        rw [hsk] at hc
        exact absurd hc.2.2 (by simp)
      rw [if_neg this, hst, hs2]
      exact hp
    · have hc : st.first ≤ r.seq_no ∧ r.seq_no < st.last ∧ inSkip st.skips r.seq_no = false :=
        ⟨hin1, hin2, hsk⟩
      rw [if_pos hc, hst]
      show (if r.recv.sync = true then st2.sync else 0) = _
      rw [hs2, hp, List.all_append]
      simp only [List.all_cons, List.all_nil, Bool.and_true, syncOK, hl, if_true]
      cases r.recv.sync <;> cases (contribAll st.skips st.first st.last done).all syncOK <;> simp
    · have hc : st.first ≤ r.seq_no ∧ r.seq_no < st.last ∧ inSkip st.skips r.seq_no = false :=
        ⟨hin1, hin2, hsk⟩
      rw [if_pos hc, hst, postOW_sync]
      show (if (r.send.sync && r.recv.sync) = true then st2.sync else 0) = _
      rw [hs2, hp, List.all_append]
      simp only [List.all_cons, List.all_nil, Bool.and_true, syncOK, hl,
        Bool.false_eq_true, if_false]
      cases (r.send.sync && r.recv.sync) <;>
        cases (contribAll st.skips st.first st.last done).all syncOK <;> simp

theorem parseInit_sync (st0 : OWPStatsRec) (bo first last : Nat) (st8 : OWPStatsRec)
    (h : parseInit st0 bo first last = some st8) : st8.sync = 1 := by
  unfold parseInit at h
  simp only [] at h
  cases hpa : PacketAlloc
      (parsePosition (parseSchedReset (parseArgs st0 bo first last) first) first) first with
  | none => rw [hpa] at h; cases h
  | some pr =>
    obtain ⟨st5, node⟩ := pr
    rw [hpa] at h
    simp only [Option.some.injEq] at h
    subst h
    rfl

theorem contribAll_empty_range (skips : List OWPSkipRec) (first last : Nat) (hle : last ≤ first)
    (recs : List OWPDataRec) : contribAll skips first last recs = [] := by
  unfold contribAll
  rw [List.filter_eq_nil_iff]
  intro r _
  have : ¬ (first ≤ r.seq_no ∧ r.seq_no < last) := by omega
  simp [this]

/-- After a successful one-way parse `sync` is 1 if every record that counts
passed the test of the callback, and 0 otherwise. -/
theorem parse_sync (st0 : OWPStatsRec) (file : OWPFile) (bo first last0 : Nat)
    (st : OWPStatsRec) (h : OWPStatsParse st0 file bo first last0 = Ret.ok st)
    (htw : st0.hdr.twoway = false) :
    st.sync = if (contribAll st0.skips first (parseLast st0 last0) file.datarecs).all syncOK
      then 1 else 0 := by
  obtain ⟨hle, _, st8, st9, st10, hi, hit, hd, hst⟩ := parse_shape st0 file bo first last0 st h
  obtain ⟨_, _, _, s4, s5, s6, _, _, _, _, _, s12, _⟩ := parseInit_spec st0 bo first _ st8 hi
  have h8 := parseInit_sync st0 bo first _ st8 hi
  have hf := congrArg OWPStatsRec.sync (drainLoop_frame _ st9 st10 hd)
  have hf' : st10.sync = st9.sync := hf
  have htw8 : st8.hdr.twoway = false := by rw [s12]; exact htw
  subst hst
  show st10.sync = _
  rw [hf']
  rcases Nat.lt_or_ge first (parseLast st0 last0) with hlt | hge
  · have hinv8 := parseInit_inv st0 bo first _ st8 hi hlt
    have hp8 : SyncInv st8 [] := by
      unfold SyncInv contribAll
      rw [h8]
      rfl
    obtain ⟨_, _, _, l1, l2, l3⟩ := parseIterate_inv st8 file first first hinv8 st9 hit
    unfold parseIterate at hit
    rw [htw8] at hit
    simp only [Bool.false_eq_true, if_false] at hit
    have := OWPParseRecords_induct IterateSummarizeSession (fun r => r) hproc_OW SyncInv
      (fun st done b e a st' hinv hp hs => OW_step_sync st done b e a st' hinv hp hs)
      file.datarecs st8 [] first first hinv8 hp8 st9 hit
    unfold SyncInv at this
    rw [this, l1, l2, l3, s4, s5, s6]
    simp
  · have hfm := parseIterate_empty_range st8 file (by rw [s4, s5]; exact hge) st9 hit
    have hs9 : st9.sync = st8.sync := by
      have := congrArg OWPStatsRec.sync hfm
      exact this
    rw [hs9, h8, contribAll_empty_range _ _ _ hge]
    rfl

/-- Claim C32, counterexample: in scenario S2 with a loss record for packet 2
whose `send.sync` is false (and whose `recv.sync` is true) the parse succeeds
with `sync = 1`, although this record is in range, is not skipped, and does
not have both sync flags true. -/
theorem C32_counterexample_loss_record_send_sync :
    (OWPStatsParse (scenarioStats [])
      { datarecs := [received 0 42949672, received 1 85899345, lossRecordUnsync 2,
          received 3 107374182, received 4 128849018] } 0 0 5).read
      (fun st => (st.sync, st.sent, st.lost)) = some (1, 5, 1) ∧
    lossRecordUnsync 2 ∈ contribAll [] 0 5
      [received 0 42949672, received 1 85899345, lossRecordUnsync 2,
        received 3 107374182, received 4 128849018] ∧
    ((lossRecordUnsync 2).send.sync, (lossRecordUnsync 2).recv.sync) = (false, true) := by
  refine ⟨by decide!, ?_, by decide⟩
  simp [contribAll, received, lossRecordUnsync, inSkip]

/-- Claim C32, amended: after a successful one-way parse, `sync` is 1 if and
only if every record of the stream that is in range and not skipped has
`recv.sync` true and, when it is a received record, `send.sync` true as well
(the `send.sync` of a loss record is not looked at); otherwise `sync` is 0:
nothing sets it back to 1 within the parse. -/
theorem C32_sync_flag_one_way (st0 : OWPStatsRec) (file : OWPFile) (bo first last0 : Nat)
    (st : OWPStatsRec) (h : OWPStatsParse st0 file bo first last0 = Ret.ok st)
    (htw : st0.hdr.twoway = false) :
    (st.sync = 1 ↔
      ∀ r ∈ file.datarecs, first ≤ r.seq_no → r.seq_no < parseLast st0 last0 →
        inSkip st0.skips r.seq_no = false →
        r.recv.sync = true ∧ (OWPIsLostRecord r = false → r.send.sync = true)) ∧
    (st.sync = 1 ∨ st.sync = 0) := by
  have hs := parse_sync st0 file bo first last0 st h htw
  have hall : (contribAll st0.skips first (parseLast st0 last0) file.datarecs).all syncOK = true ↔
      ∀ r ∈ file.datarecs, first ≤ r.seq_no → r.seq_no < parseLast st0 last0 →
        inSkip st0.skips r.seq_no = false →
        r.recv.sync = true ∧ (OWPIsLostRecord r = false → r.send.sync = true) := by
    rw [List.all_eq_true]
    unfold contribAll
    constructor
    · intro hx r hr h1 h2 h3
      have := hx r (by
        rw [List.mem_filter]
        exact ⟨hr, by simp [h1, h2, h3]⟩)
      unfold syncOK at this
      cases hl : OWPIsLostRecord r with
      | true =>
        rw [hl] at this
        simp only [if_true] at this
        exact ⟨this, fun hc => by cases hc⟩
      | false =>
        rw [hl] at this
        simp only [Bool.false_eq_true, if_false, Bool.and_eq_true] at this
        exact ⟨this.2, fun _ => this.1⟩
    · intro hx r hr
      rw [List.mem_filter] at hr
      obtain ⟨hr1, hr2⟩ := hr
      simp only [Bool.and_eq_true, decide_eq_true_eq, Bool.not_eq_true'] at hr2
      obtain ⟨q1, q2⟩ := hx r hr1 hr2.1.1 hr2.1.2 hr2.2
      unfold syncOK
      cases hl : OWPIsLostRecord r with
      | true => simp [q1]
      | false => simp [q1, q2 hl]
  rw [hs]
  by_cases hc : (contribAll st0.skips first (parseLast st0 last0) file.datarecs).all syncOK = true
  · rw [if_pos hc]
    exact ⟨⟨fun _ => hall.1 hc, fun _ => rfl⟩, Or.inl rfl⟩
  · rw [if_neg hc]
    refine ⟨⟨fun hx => ?_, fun hx => absurd (hall.2 hx) hc⟩, Or.inr rfl⟩
    exact absurd hx (by decide)

/-- Claim C32, witness S2: in scenario S2 all records are synchronised; the
parse ends with `sync = 1`. -/
theorem C32_witness_S2 :
    (OWPStatsParse (scenarioStats []) { datarecs := scenarioS2 } 0 0 5).isOk = true ∧
    (scenarioStats []).hdr.twoway = false ∧
    (OWPStatsParse (scenarioStats []) { datarecs := scenarioS2 } 0 0 5).read
      (fun st => st.sync) = some 1 ∧
    (∀ r ∈ scenarioS2, r.recv.sync = true ∧ r.send.sync = true) := by
  have hok : (OWPStatsParse (scenarioStats []) { datarecs := scenarioS2 } 0 0 5).isOk = true := by
    decide!
  have hall : ∀ r ∈ scenarioS2, r.recv.sync = true ∧ r.send.sync = true := by decide
  obtain ⟨st, h⟩ := Ret_ok_of_isOk _ hok
  have h1 := (C32_sync_flag_one_way (scenarioStats []) { datarecs := scenarioS2 } 0 0 5 st h
    rfl).1
  refine ⟨hok, rfl, ?_, hall⟩
  rw [read_eq_of_ok _ _ st h]
  congr 1
  apply h1.2
  intro r hr _ _ _
  exact ⟨(hall r hr).1, fun _ => (hall r hr).2⟩

theorem PacketBeginFlush_keeps {st st1 : OWPStatsRec} {b e : Nat} {r : Bool} (hw : Win st b e)
    (hf : PacketBeginFlush st = some (st1, r)) :
    ∀ p ∈ st.pnodes, p.seq ≠ b → p ∈ st1.pnodes := by
  intro p hp hne
  obtain ⟨node, tl, hpn, hnb, htl, hfilt⟩ := Win_head hw
  cases tl with
  | nil =>
    rw [hpn] at hp
    simp only [List.mem_singleton] at hp
    rw [hp, hnb] at hne
    exact absurd rfl hne
  | cons q tl' =>
    rw [PacketBeginFlush_cons_cons st node q tl' hpn] at hf
    simp only [Option.some.injEq, Prod.mk.injEq] at hf
    rw [← hf.1]
    show p ∈ (flushAcct st node).pnodes.filter _
    rw [(flushAcct_frameG st node).2.1, hfilt]
    rw [hpn] at hp
    rcases List.mem_cons.1 hp with hx | hx
    · rw [hx, hnb] at hne
      exact absurd rfl hne
    · exact hx

/-- The threshold loop of the callbacks on a well formed window: it does not
crash; when it ends normally the window is well formed, begins with a record
whose scheduled time is not below the threshold, and the records it holds are
old ones, unchanged, or fresh ones; when it fails the window is empty. -/
theorem flushThreshLoop_win (thresh : Nat) (fuel : Nat) :
    ∀ (st : OWPStatsRec) (b e : Nat), Win st b e → st.last - b ≤ fuel →
      (∃ st1 b1 e1, flushThreshLoop (fuel + 1) st thresh = Ret.ok st1 ∧ Win st1 b1 e1 ∧
        b ≤ b1 ∧ e ≤ e1 ∧ NodesKept st st1 e ∧
        (∃ pb tl, st1.pnodes = pb :: tl ∧ thresh ≤ pb.schedtime)) ∨
      (∃ st1, flushThreshLoop (fuel + 1) st thresh = Ret.fatal st1 ∧ st1.pnodes = []) := by
  induction fuel with
  | zero =>
    intro st b e hw hf
    have := hw.lt_last
    have := hw.le
    omega
  | succ fuel ih =>
    intro st b e hw hf
    obtain ⟨node, tl, hpn, hnb, _, _⟩ := Win_head hw
    unfold flushThreshLoop
    rw [hpn]
    simp only []
    by_cases hlt : OWPNum64Cmp node.schedtime thresh < 0
    · rw [if_pos hlt]
      obtain ⟨st1, r, _, _, _, k3, _, hcase⟩ := PacketBeginFlush_win hw
      obtain ⟨b1, b2, _⟩ := PacketBeginFlush_bounds k3
      rw [k3]
      rcases hcase with ⟨c1, c2, c3⟩ | ⟨c1, _, _, c4⟩
      · subst c1
        simp only []
        rcases ih st1 (b + 1) (max e (b + 1)) c2 (by rw [b2]; omega) with
          ⟨st2, b2', e2, i1, i2, i3, i4, i5, i6⟩ | ⟨st2, i1, i2⟩
        · left
          refine ⟨st2, b2', e2, i1, i2, by omega, by omega, ?_, i6⟩
          intro p hp
          rcases i5 p hp with hx | ⟨hx1, hx2, hx3⟩
          · exact c3 p hx
          · exact Or.inr ⟨hx1, hx2, by omega⟩
        · right
          exact ⟨st2, i1, i2⟩
      · subst c1
        right
        exact ⟨st1, rfl, c4⟩
    · rw [if_neg hlt]
      left
      refine ⟨st, b, e, rfl, hw, le_refl _, le_refl _, fun p hp => Or.inl hp, node, tl, hpn, ?_⟩
      unfold OWPNum64Cmp at hlt
      by_contra hc
      rw [if_pos (by omega)] at hlt
      exact hlt (by decide)

/-- The loss loop of the callbacks on a well formed window ends normally with
the window beginning at `max b seq`; the records it holds are old ones,
unchanged, or fresh ones, and no record from `seq` on has been removed. -/
theorem flushLostLoop_nodes (seq : Nat) (fuel : Nat) :
    ∀ (st : OWPStatsRec) (b e : Nat), Win st b e → seq < st.last → st.last - b ≤ fuel →
      ∃ st1 e1, flushLostLoop (fuel + 1) st seq = Ret.ok st1 ∧ Win st1 (max b seq) e1 ∧
        e ≤ e1 ∧ NodesKept st st1 e ∧ (∀ p ∈ st.pnodes, seq ≤ p.seq → p ∈ st1.pnodes) := by
  induction fuel with
  | zero =>
    intro st b e hw hs hf
    have := hw.lt_last
    have := hw.le
    omega
  | succ fuel ih =>
    intro st b e hw hs hf
    obtain ⟨node, tl, hpn, hnb, _, _⟩ := Win_head hw
    unfold flushLostLoop
    rw [hpn]
    simp only []
    by_cases hlt : node.seq < seq
    · rw [if_pos hlt]
      obtain ⟨st1, r, _, _, _, k3, _, hcase⟩ := PacketBeginFlush_win hw
      obtain ⟨b1, b2, _⟩ := PacketBeginFlush_bounds k3
      have hkeep := PacketBeginFlush_keeps hw k3
      rw [k3]
      rcases hcase with ⟨c1, c2, c3⟩ | ⟨_, c2, c3, _⟩
      · subst c1
        simp only []
        obtain ⟨st2, e2, i1, i2, i3, i4, i5⟩ := ih st1 (b + 1) (max e (b + 1)) c2
          (by rw [b2]; exact hs) (by rw [b2]; omega)
        have hmax : max (b + 1) seq = max b seq := by omega
        rw [hmax] at i2
        refine ⟨st2, e2, i1, i2, by omega, ?_, ?_⟩
        · intro p hp
          rcases i4 p hp with hx | ⟨hx1, hx2, hx3⟩
          · exact c3 p hx
          · exact Or.inr ⟨hx1, hx2, by omega⟩
        · intro p hp hps
          exact i5 p (hkeep p (by rw [hpn]; exact hp) (by omega)) hps
      · omega
    · rw [if_neg hlt]
      have hmax : max b seq = b := by omega
      rw [hmax]
      exact ⟨st, e, rfl, hw, le_refl _, fun p hp => Or.inl hp,
        fun p hp _ => by rw [hpn]; exact hp⟩

theorem OWPParseRecords_append {α : Type} (proc : α → OWPStatsRec → Ret) (r : α)
    (post : List α) : ∀ (pre : List α) (st : OWPStatsRec),
    OWPParseRecords proc (pre ++ r :: post) st =
      match OWPParseRecords proc pre st with
      | Ret.ok st1 =>
        (match proc r st1 with
         | Ret.ok st2 => OWPParseRecords proc post st2
         | Ret.fatal s => Ret.fatal s
         | Ret.crash => Ret.crash)
      | Ret.fatal s => Ret.fatal s
      | Ret.crash => Ret.crash := by
  intro pre
  induction pre with
  | nil =>
    intro st
    cases hp : proc r st <;> simp [OWPParseRecords, hp]
  | cons a rest ih =>
    intro st
    cases hp : proc a st <;> simp [OWPParseRecords, hp, ih]

/-- A received record that comes more than the loss timeout after the scheduled
send time of its packet makes the one-way callback return -1: with scheduled
times that do not decrease up to this packet, the threshold loop flushes the
packet (or empties the window) before the lookup. -/
theorem late_record_fatal {start : Nat} {deltas : Nat → Nat} (st : OWPStatsRec) (b e : Nat)
    (hw : Win st b e) (hs : SchedOK start deltas st) (rec : OWPDataRec)
    (hnl : OWPIsLostRecord rec = false) (h1 : st.first ≤ rec.seq_no)
    (h2 : rec.seq_no < st.last)
    (hmono : ∀ a, a ≤ rec.seq_no →
      schedSum start deltas (a + 1) ≤ schedSum start deltas (rec.seq_no + 1))
    (hlate : schedSum start deltas (rec.seq_no + 1) <
      OWPNum64Sub rec.recv.owptime st.hdr.test_spec.loss_timeout) :
    ∃ st', IterateSummarizeSession rec st = Ret.fatal st' := by
  rw [IterateSummarizeSession_eq]
  obtain ⟨m1, m2, m3, m4, m5, _⟩ := markOffset_fields st rec.seq_no
  have hwm : Win (markOffset st rec.seq_no) b e := Win_congr hw m1 m2 m3 m4 m5
  have hsm : SchedOK start deltas (markOffset st rec.seq_no) :=
    ParseStep_sched hs (ParseStep.mark st rec.seq_no)
  have hhdr : (markOffset st rec.seq_no).hdr = st.hdr := ParseStep_hdr (ParseStep.mark st rec.seq_no)
  have hfl : callbackFlush rec.seq_no (OWPIsLostRecord rec)
      (fun st => OWPNum64Sub rec.recv.owptime st.hdr.test_spec.loss_timeout)
      (markOffset st rec.seq_no) =
      flushThreshLoop ((markOffset st rec.seq_no).last + 1) (markOffset st rec.seq_no)
        (OWPNum64Sub rec.recv.owptime st.hdr.test_spec.loss_timeout) := by
    unfold callbackFlush
    rw [hnl]
    simp only [Bool.false_eq_true, if_false]
    rw [hhdr]
  rcases iterCore_cases rec.seq_no (OWPIsLostRecord rec)
      (fun st => OWPNum64Sub rec.recv.owptime st.hdr.test_spec.loss_timeout)
      (postLostOW rec) (postOW rec) st with
    ⟨hout, _⟩ | ⟨_, ⟨c1, _⟩ | ⟨st1, _, c⟩ | ⟨st1, c1, c2⟩⟩
  · rw [m4, m5] at hout
    omega
  · rw [hfl] at c1
    rcases flushThreshLoop_win _ (markOffset st rec.seq_no).last _ b e hwm (by omega) with
      ⟨s1, _, _, k, _⟩ | ⟨s1, k, _⟩ <;> rw [k] at c1 <;> cases c1
  · exact ⟨st1, c⟩
  · rw [hfl] at c1
    rcases flushThreshLoop_win _ (markOffset st rec.seq_no).last _ b e hwm (by omega) with
      ⟨s1, b1, e1, k, hw1, _, _, _, pb, tl, hp, hth⟩ | ⟨s1, k, _⟩
    · rw [k] at c1
      simp only [Ret.ok.injEq] at c1
      subst c1
      obtain ⟨r1, _, r3, r4⟩ := (flushThreshLoop_reach _ _ _ s1).1 k
      have hs1 := reach_sched hsm r1
      obtain ⟨nd, tl1, q1, q2, _, _⟩ := Win_head hw1
      rw [hp] at q1
      simp only [List.cons.injEq] at q1
      have hpb : pb.schedtime = schedSum start deltas (b1 + 1) := by
        rw [hs1.nodes pb (by rw [hp]; exact List.mem_cons_self _ _), q1.1, q2]
      have hlt : rec.seq_no < b1 := by
        by_contra hc
        have := hmono b1 (by omega)
        omega
      have hg := PacketGet_behind s1 b1 e1 rec.seq_no hw1 (by rw [r3, m4]; exact h1) hlt
      rcases c2 with ⟨c3, _⟩ | ⟨st2, _, c⟩ | ⟨st2, node, c3, _⟩
      · rw [hg] at c3
        cases c3
      · exact ⟨st2, c⟩
      · rw [hg] at c3
        cases c3
    · rw [k] at c1
      cases c1

/-- Claim C29, amended: in a one-way parse on an object a caller can hold (a
fresh one, or with `first` not 0), with scheduled send times that do not decrease over
the packets below `last`, a received record `r` with `first <= r.seq < last`
whose receive time minus the loss timeout (the 64-bit value the callback
computes) is above the scheduled send time of its packet makes the callback
return -1 in whatever state the records before it have left, and the parse
returns False. -/
theorem C29_late_record_is_fatal (st0 : OWPStatsRec) (file : OWPFile) (bo first last0 : Nat)
    (pre post : List OWPDataRec) (r : OWPDataRec)
    (hobj : StatsReach st0) (htw : st0.hdr.twoway = false)
    (hfresh : st0.pend = none ∨ first ≠ 0)
    (hmono : ∀ a b, a ≤ b → b < parseLast st0 last0 → schedTimeOf st0 a ≤ schedTimeOf st0 b)
    (hfile : file.datarecs = pre ++ r :: post) (hnl : OWPIsLostRecord r = false)
    (h1 : first ≤ r.seq_no) (h2 : r.seq_no < parseLast st0 last0)
    (hlate : schedTimeOf st0 r.seq_no <
      OWPNum64Sub r.recv.owptime st0.hdr.test_spec.loss_timeout) :
    (OWPStatsParse st0 file bo first last0).isFatal = true ∧
    (∀ st8 stk, parseInit st0 bo first (parseLast st0 last0) = some st8 →
      OWPParseRecords IterateSummarizeSession pre st8 = Ret.ok stk →
      (IterateSummarizeSession r stk).isFatal = true) := by
  have hlt : first < parseLast st0 last0 := by omega
  have hc := StatsReach_cursor hobj
  have key : ∀ st8 stk, parseInit st0 bo first (parseLast st0 last0) = some st8 →
      OWPParseRecords IterateSummarizeSession pre st8 = Ret.ok stk →
      ∃ st', IterateSummarizeSession r stk = Ret.fatal st' := by
    intro st8 stk hi hk
    obtain ⟨s1, _⟩ := parseInit_sched st0 bo first _ st8 _ hc hi
    obtain ⟨_, _, _, s4, s5, _, _, _, _, _, _, s12, _⟩ := parseInit_spec st0 bo first _ st8 hi
    have hinv8 := parseInit_inv st0 bo first _ st8 hi hlt
    obtain ⟨bk, ek, hinvk, k1, k2, _⟩ := OWPParseRecords_inv IterateSummarizeSession
      (fun x => x) hproc_OW pre st8 [] first first hinv8 stk hk
    have hrk : ParseReach st8 stk := OWPParseRecords_reach IterateSummarizeSession
      IterateSummarizeSession_reach pre st8 stk (Or.inl hk)
    have hsk := reach_sched s1 hrk
    have hhk : stk.hdr = st0.hdr := by rw [reach_hdr hrk, s12]
    exact late_record_fatal stk bk ek hinvk.win hsk r hnl (by rw [k1, s4]; exact h1)
      (by rw [k2, s5]; exact h2) (fun a ha => hmono a r.seq_no ha h2)
      (by rw [hhk]; exact hlate)
  refine ⟨?_, ?_⟩
  · unfold OWPStatsParse
    simp only []
    by_cases hrange : first > parseLast st0 last0 ∨
        parseLast st0 last0 > st0.hdr.test_spec.npackets
    · rw [if_pos hrange]
      rfl
    · rw [if_neg hrange]
      cases hi : parseInit st0 bo first (parseLast st0 last0) with
      | none =>
        have := (parseInit_none_iff st0 bo first _ (by omega)).1 hi
        rcases hfresh with hf | hf
        · exact absurd hf this.1
        · exact absurd this.2 hf
      | some st8 =>
        simp only []
        obtain ⟨_, _, _, _, _, _, _, _, _, _, _, s12, _⟩ :=
          parseInit_spec st0 bo first _ st8 hi
        have htw8 : st8.hdr.twoway = false := by rw [s12]; exact htw
        have hinv8 := parseInit_inv st0 bo first _ st8 hi hlt
        rw [htw8, hfile, OWPParseRecords_append]
        simp only [Bool.false_eq_true, if_false]
        cases hk : OWPParseRecords IterateSummarizeSession pre st8 with
        | crash =>
          exact absurd hk (OWPParseRecords_no_crash IterateSummarizeSession (fun x => x)
            hproc_OW pre st8 [] first first hinv8)
        | fatal s => rfl
        | ok stk =>
          obtain ⟨st', hf⟩ := key st8 stk hi hk
          simp only [hf]
          rfl
  · intro st8 stk hi hk
    obtain ⟨st', hf⟩ := key st8 stk hi hk
    rw [hf]
    rfl

/-- Claim C29, witness: in the scenario session a record of packet 0 received
at 1006 s, 5 s after its scheduled time of 1001 s and so more than the loss
timeout of 2 s late, makes the parse of `[0,5)` return False. -/
theorem C29_witness :
    StatsReach (scenarioStats []) ∧
    schedTimeOf (scenarioStats []) (received 0 (5 * oneSecond)).seq_no <
      OWPNum64Sub (received 0 (5 * oneSecond)).recv.owptime
        (scenarioStats []).hdr.test_spec.loss_timeout ∧
    (OWPStatsParse (scenarioStats [])
      { datarecs := [] ++ received 0 (5 * oneSecond) :: [received 1 85899345] } 0 0 5).isFatal
      = true := by
  have hlate : schedTimeOf (scenarioStats []) (received 0 (5 * oneSecond)).seq_no <
      OWPNum64Sub (received 0 (5 * oneSecond)).recv.owptime
        (scenarioStats []).hdr.test_spec.loss_timeout := by decide
  have hmono : ∀ a b, a ≤ b → b < parseLast (scenarioStats []) 5 →
      schedTimeOf (scenarioStats []) a ≤ schedTimeOf (scenarioStats []) b := by
    intro a b hab hb
    have hb5 : b < 5 := hb
    exact schedSum_mono _ _ (by omega)
      (lt_of_le_of_lt (schedTotal_mono _ _ (by omega : b + 1 ≤ 5)) (by decide))
  exact ⟨scenarioStats_reachable [], hlate,
    (C29_late_record_is_fatal (scenarioStats [])
      { datarecs := [] ++ received 0 (5 * oneSecond) :: [received 1 85899345] } 0 0 5
      [] [received 1 85899345] (received 0 (5 * oneSecond))
      (scenarioStats_reachable []) rfl (Or.inl rfl) hmono rfl rfl (by decide) (by decide)
      hlate).1⟩

/-- Claim C29, counterexample: the scenario object has parsed `[0,5)` of
scenario S1 with success, so `pend` is left aimed at a freed node.  A second
one-way parse of `[0,5)` on it, of a stream whose record of packet 0 is
received at 1006 s, more than the loss timeout after its scheduled time of
1001 s, does not return False: it crashes in the initialisation, before any
record is handed to the callback. -/
theorem C29_counterexample_reused_object_crashes :
    schedTimeOf (scenarioStats []) (received 0 (5 * oneSecond)).seq_no <
      OWPNum64Sub (received 0 (5 * oneSecond)).recv.owptime
        (scenarioStats []).hdr.test_spec.loss_timeout ∧
    (OWPStatsParse (scenarioStats []) { datarecs := scenarioS1 } 0 0 5).read
      (fun st => (st.pend, st.hdr.twoway,
        (OWPStatsParse st
          { datarecs := [received 0 (5 * oneSecond), received 1 85899345] } 0 0 5).isFatal,
        (OWPStatsParse st
          { datarecs := [received 0 (5 * oneSecond), received 1 85899345] } 0 0 5).isCrash,
        (parseInit st 0 0 (parseLast st 5)).isNone)) =
      some (some 0, false, false, true, true) := by
  refine ⟨by decide, by decide!⟩

theorem iterCore_eval_fatal (seq : Nat) (isLost : Bool) (thresh : OWPStatsRec → Nat)
    (postLost : OWPStatsRec → OWPStatsRec) (post : Nat → OWPStatsRec → OWPStatsRec)
    (st st1 : OWPStatsRec)
    (hr : ¬ (seq < (markOffset st seq).first ∨ seq ≥ (markOffset st seq).last))
    (hfl : callbackFlush seq isLost thresh (markOffset st seq) = Ret.fatal st1) :
    iterCore seq isLost thresh postLost post st = Ret.fatal st1 := by
  rcases iterCore_cases seq isLost thresh postLost post st with
    ⟨hout, _⟩ | ⟨_, ⟨c1, _⟩ | ⟨s1, c1, c⟩ | ⟨s1, c1, _⟩⟩
  · exact absurd hout hr
  · rw [hfl] at c1
    cases c1
  · rw [hfl] at c1
    simp only [Ret.fatal.injEq] at c1
    rw [c, c1]
  · rw [hfl] at c1
    cases c1

theorem iterCore_eval_none (seq : Nat) (isLost : Bool) (thresh : OWPStatsRec → Nat)
    (postLost : OWPStatsRec → OWPStatsRec) (post : Nat → OWPStatsRec → OWPStatsRec)
    (st st1 st2 : OWPStatsRec)
    (hr : ¬ (seq < (markOffset st seq).first ∨ seq ≥ (markOffset st seq).last))
    (hfl : callbackFlush seq isLost thresh (markOffset st seq) = Ret.ok st1)
    (hg : PacketGet st1 seq = some (st2, none)) :
    iterCore seq isLost thresh postLost post st = Ret.fatal st2 := by
  rcases iterCore_cases seq isLost thresh postLost post st with
    ⟨hout, _⟩ | ⟨_, ⟨c1, _⟩ | ⟨s1, c1, c⟩ | ⟨s1, c1, c2⟩⟩
  · exact absurd hout hr
  · rw [hfl] at c1
    cases c1
  · rw [hfl] at c1
    cases c1
  · rw [hfl] at c1
    simp only [Ret.ok.injEq] at c1
    subst c1
    rcases c2 with ⟨c3, _⟩ | ⟨s2, c3, c⟩ | ⟨s2, node, c3, _⟩
    · rw [hg] at c3
      cases c3
    · rw [hg] at c3
      simp only [Option.some.injEq, Prod.mk.injEq, and_true] at c3
      rw [c, c3]
    · rw [hg] at c3
      simp at c3

theorem iterCore_eval_forbidden (seq : Nat) (isLost : Bool) (thresh : OWPStatsRec → Nat)
    (postLost : OWPStatsRec → OWPStatsRec) (post : Nat → OWPStatsRec → OWPStatsRec)
    (st st1 st2 : OWPStatsRec) (node : OWPPacketRec)
    (hr : ¬ (seq < (markOffset st seq).first ∨ seq ≥ (markOffset st seq).last))
    (hfl : callbackFlush seq isLost thresh (markOffset st seq) = Ret.ok st1)
    (hg : PacketGet st1 seq = some (st2, some node))
    (hsk : skipScan st2 node.seq = false)
    (hbad : (isLost = true ∧ node.seen ≠ 0) ∨ (isLost = false ∧ node.lost = true)) :
    iterCore seq isLost thresh postLost post st = Ret.fatal st2 := by
  rcases iterCore_cases seq isLost thresh postLost post st with
    ⟨hout, _⟩ | ⟨_, ⟨c1, _⟩ | ⟨s1, c1, c⟩ | ⟨s1, c1, c2⟩⟩
  · exact absurd hout hr
  · rw [hfl] at c1
    cases c1
  · rw [hfl] at c1
    cases c1
  · rw [hfl] at c1
    simp only [Ret.ok.injEq] at c1
    subst c1
    rcases c2 with ⟨c3, _⟩ | ⟨s2, c3, c⟩ | ⟨s2, nd, c3, c4⟩
    · rw [hg] at c3
      cases c3
    · rw [hg] at c3
      simp at c3
    · rw [hg] at c3
      simp only [Option.some.injEq, Prod.mk.injEq] at c3
      obtain ⟨e1, e2⟩ := c3
      subst e1
      subst e2
      rcases c4 with ⟨d0, _⟩ | ⟨_, _, _, c⟩ | ⟨_, d1, d2, _⟩ | ⟨_, _, _, c⟩ | ⟨_, d1, d2, _⟩
      · rw [hsk] at d0
        cases d0
      · exact c
      · rcases hbad with ⟨_, hb⟩ | ⟨hb, _⟩
        · exact absurd d2 hb
        · rw [d1] at hb
          cases hb
      · exact c
      · rcases hbad with ⟨hb, _⟩ | ⟨_, hb⟩
        · rw [d1] at hb
          cases hb
        · rw [d2] at hb
          cases hb

theorem skipScan_false_of_not_inSkip (st : OWPStatsRec) (skips : List OWPSkipRec) (s : Nat)
    (hk : st.skips = skips) (h : inSkip skips s = false) : skipScan st s = false := by
  unfold skipScan
  rw [hk]
  cases hx : (skips.drop st.iskip).any (fun r => decide (s ≥ r.begin_ ∧ s ≤ r.end_)) with
  | false => rfl
  | true =>
    rw [List.any_eq_true] at hx
    obtain ⟨r, hr, hp⟩ := hx
    have : inSkip skips s = true := by
      unfold inSkip
      rw [List.any_eq_true]
      exact ⟨r, List.mem_of_mem_drop hr, hp⟩
    rw [h] at this
    cases this

theorem news_nil_of_le {news : List OWPPacketRec} {e1 seq : Nat}
    (h : news.map (fun p => p.seq) = List.range' (e1 + 1) (seq - e1)) (hle : seq ≤ e1) :
    news = [] := by
  have h0 : seq - e1 = 0 := by omega
  rw [h0] at h
  simpa using h

/-- Claim C28, amended: when the window is well formed and holds the record
`node` of the sequence number of `rec`, which lies in no skip range, then a loss
record `rec` with `node.seen > 0`, and a received record `rec` with `node`
marked lost, each make the one-way callback return -1.  `sent` is as before;
the records still in the window are records of the window before, unchanged
(so with the `seen` count and the `lost` flag they had), or fresh ones; after
a loss record `node` itself is still in the window.  `lost` and `dups` are the
values the flush loop at the start of the callback has left: they change only
by the accounting of the records that this loop removed from the window. -/
theorem C28_forbidden_transitions_fatal (st : OWPStatsRec) (b e : Nat) (rec : OWPDataRec)
    (node : OWPPacketRec) (hw : Win st b e) (hm : node ∈ st.pnodes)
    (hseq : node.seq = rec.seq_no) (hsk : inSkip st.skips rec.seq_no = false)
    (hbad : (OWPIsLostRecord rec = true ∧ 0 < node.seen) ∨
      (OWPIsLostRecord rec = false ∧ node.lost = true)) :
    ∃ st' st1, IterateSummarizeSession rec st = Ret.fatal st' ∧ st'.sent = st.sent ∧
      (∀ p ∈ st'.pnodes, p ∈ st.pnodes ∨ (p.seen = 0 ∧ p.lost = false ∧ e < p.seq)) ∧
      (OWPIsLostRecord rec = true → node ∈ st'.pnodes) ∧
      (callbackFlush rec.seq_no (OWPIsLostRecord rec)
          (fun s => OWPNum64Sub rec.recv.owptime s.hdr.test_spec.loss_timeout)
          (markOffset st rec.seq_no) = Ret.ok st1 ∨
        callbackFlush rec.seq_no (OWPIsLostRecord rec)
          (fun s => OWPNum64Sub rec.recv.owptime s.hdr.test_spec.loss_timeout)
          (markOffset st rec.seq_no) = Ret.fatal st1) ∧
      st'.lost = st1.lost ∧ st'.dups = st1.dups := by
  rw [IterateSummarizeSession_eq]
  obtain ⟨m1, m2, m3, m4, m5, _, m7, m8, _⟩ := markOffset_fields st rec.seq_no
  have hwm : Win (markOffset st rec.seq_no) b e := Win_congr hw m1 m2 m3 m4 m5
  obtain ⟨hb1, hb2⟩ := Win_mem_seq hw hm
  rw [hseq] at hb1 hb2
  have hfirst := hw.first_le
  have hlast := hw.lt_last
  have hr : ¬ (rec.seq_no < (markOffset st rec.seq_no).first ∨
      rec.seq_no ≥ (markOffset st rec.seq_no).last) := by
    rw [m4, m5]
    omega
  have hsent : ∀ s1 : OWPStatsRec, frameF s1 = frameF (markOffset st rec.seq_no) →
      s1.sent = st.sent ∧ s1.skips = st.skips := by
    intro s1 hf
    exact ⟨by rw [frameF_sent hf, m8], by rw [frameF_skips hf, m7]⟩
  cases hl : OWPIsLostRecord rec with
  | true =>
    have hseen : node.seen ≠ 0 := by
      rcases hbad with ⟨_, hx⟩ | ⟨hx, _⟩
      · omega
      · rw [hl] at hx
        cases hx
    obtain ⟨st1, e1, k1, k2, k3, k4, k5⟩ := flushLostLoop_nodes rec.seq_no
      (markOffset st rec.seq_no).last (markOffset st rec.seq_no) b e hwm
      (by rw [m5]; omega) (by omega)
    have hmax : max b rec.seq_no = rec.seq_no := by omega
    rw [hmax] at k2
    have hfl : callbackFlush rec.seq_no true
        (fun s => OWPNum64Sub rec.recv.owptime s.hdr.test_spec.loss_timeout)
        (markOffset st rec.seq_no) = Ret.ok st1 := by
      unfold callbackFlush
      simp only [if_true]
      exact k1
    have hf1 := callbackFlush_frame _ _ _ _ _ (Or.inl hfl)
    have hn1 : node ∈ st1.pnodes := k5 node (by rw [m1]; exact hm) (by rw [hseq])
    obtain ⟨st2, news, node2, g1, g2, g3, g4, g5, _, g7, g8, _, g10, g11, _⟩ :=
      PacketGet_spec st1 rec.seq_no e1 rec.seq_no k2 (le_refl _)
        (by rw [frameF_last hf1, m5]; omega)
    have hnews := news_nil_of_le g5 k2.le
    rw [hnews, List.append_nil] at g4
    have hn2 : node2 = node :=
      Win_unique k2 (by rw [← g4]; exact g3) hn1 (by rw [g2, hseq])
    subst hn2
    have hf2 := frameF_of_frameG g8
    obtain ⟨q1, q2⟩ := hsent st2 (Eq.trans hf2 hf1)
    have hskip := skipScan_false_of_not_inSkip st2 st.skips node2.seq q2 (by rw [hseq]; exact hsk)
    refine ⟨st2, st1, iterCore_eval_forbidden _ _ _ _ _ st st1 st2 node2 hr hfl g1 hskip
      (Or.inl ⟨rfl, hseen⟩), q1, ?_, (fun _ => by rw [g4]; exact hn1), Or.inl hfl, g10, g11⟩
    intro p hp
    rw [g4] at hp
    rcases k4 p hp with hx | hx
    · exact Or.inl (by rw [← m1]; exact hx)
    · exact Or.inr hx
  | false =>
    have hlost : node.lost = true := by
      rcases hbad with ⟨hx, _⟩ | ⟨_, hx⟩
      · rw [hl] at hx
        cases hx
      · exact hx
    have hfl0 : callbackFlush rec.seq_no false
        (fun s => OWPNum64Sub rec.recv.owptime s.hdr.test_spec.loss_timeout)
        (markOffset st rec.seq_no) =
        flushThreshLoop ((markOffset st rec.seq_no).last + 1) (markOffset st rec.seq_no)
          (OWPNum64Sub rec.recv.owptime (markOffset st rec.seq_no).hdr.test_spec.loss_timeout) := by
      unfold callbackFlush
      simp only [Bool.false_eq_true, if_false]
    rcases flushThreshLoop_win
        (OWPNum64Sub rec.recv.owptime (markOffset st rec.seq_no).hdr.test_spec.loss_timeout)
        (markOffset st rec.seq_no).last (markOffset st rec.seq_no) b e hwm (by omega) with
      ⟨st1, b1, e1, k1, k2, k3, k4, k5, _⟩ | ⟨st1, k1, k2⟩
    · have hfl := Eq.trans hfl0 k1
      have hf1 := callbackFlush_frame _ _ _ _ _ (Or.inl hfl)
      have hkept : ∀ p ∈ st1.pnodes, p ∈ st.pnodes ∨ (p.seen = 0 ∧ p.lost = false ∧ e < p.seq) := by
        intro p hp
        rcases k5 p hp with hx | hx
        · exact Or.inl (by rw [← m1]; exact hx)
        · exact Or.inr hx
      rcases Nat.lt_or_ge rec.seq_no b1 with hlt | hge
      · have hg := PacketGet_behind st1 b1 e1 rec.seq_no k2
          (by rw [frameF_first hf1, m4]; omega) hlt
        obtain ⟨q1, _⟩ := hsent st1 hf1
        exact ⟨st1, st1, iterCore_eval_none _ _ _ _ _ st st1 st1 hr hfl hg, q1, hkept,
          (fun hx => by cases hx), Or.inl hfl, rfl, rfl⟩
      · obtain ⟨st2, news, node2, g1, g2, g3, g4, g5, _, g7, g8, _, g10, g11, _⟩ :=
          PacketGet_spec st1 b1 e1 rec.seq_no k2 hge
            (by rw [frameF_last hf1, m5]; omega)
        have hnews := news_nil_of_le g5 (by omega)
        rw [hnews, List.append_nil] at g4
        have hn2 : node2 = node := by
          rcases hkept node2 (by rw [← g4]; exact g3) with hx | ⟨_, _, hx⟩
          · exact Win_unique hw hx hm (by rw [g2, hseq])
          · omega
        subst hn2
        have hf2 := frameF_of_frameG g8
        obtain ⟨q1, q2⟩ := hsent st2 (Eq.trans hf2 hf1)
        have hskip := skipScan_false_of_not_inSkip st2 st.skips node2.seq q2
          (by rw [hseq]; exact hsk)
        refine ⟨st2, st1, iterCore_eval_forbidden _ _ _ _ _ st st1 st2 node2 hr hfl g1 hskip
          (Or.inr ⟨rfl, hlost⟩), q1, ?_, (fun hx => by cases hx), Or.inl hfl, g10, g11⟩
        intro p hp
        rw [g4] at hp
        exact hkept p hp
    · have hfl := Eq.trans hfl0 k1
      have hf1 := callbackFlush_frame _ _ _ _ _ (Or.inr hfl)
      obtain ⟨q1, _⟩ := hsent st1 hf1
      refine ⟨st1, st1, iterCore_eval_fatal _ _ _ _ _ st st1 hr hfl, q1, ?_,
        (fun hx => by cases hx), Or.inr hfl, rfl, rfl⟩
      intro p hp
      rw [k2] at hp
      cases hp

/-- Claim C28, counterexample: with the window holding packet 0 (seen twice)
and packet 1 (seen once), `sent = 2`, `lost = 0`, `dups = 0`, a loss record for
packet 1 makes the callback return -1, but `dups` is then 1: before it looks
the record of packet 1 up, the callback has flushed packet 0 and counted its
duplicate. -/
theorem C28_counterexample_flush_changes_dups :
    scenarioDupState.pnodes.map (fun p => (p.seq, p.seen, p.lost)) =
      [(0, 2, false), (1, 1, false)] ∧
    (scenarioDupState.sent, scenarioDupState.lost, scenarioDupState.dups) = (2, 0, 0) ∧
    inSkip scenarioDupState.skips 1 = false ∧
    (IterateSummarizeSession (lossRecord 1) scenarioDupState).readFatal
      (fun st => (st.sent, st.lost, st.dups)) = some (2, 0, 1) ∧
    (IterateSummarizeSession (lossRecord 1) scenarioDupState).readFatal
      (fun st => st.pnodes.map (fun p => (p.seq, p.seen, p.lost))) = some [(1, 1, false)] := by
  refine ⟨by decide!, by decide!, by decide!, by decide!, by decide!⟩

/-- Claim C28, witness: the same state and loss record; the record of packet 1
(seen once) stays in the window as it was and `sent` stays 2. -/
theorem C28_witness :
    Win scenarioDupState 0 1 ∧
    OWPPacketRec.mk 1 (1002 * oneSecond) 1 false ∈ scenarioDupState.pnodes ∧
    inSkip scenarioDupState.skips (lossRecord 1).seq_no = false ∧
    ∃ st' st1, IterateSummarizeSession (lossRecord 1) scenarioDupState = Ret.fatal st' ∧
      st'.sent = scenarioDupState.sent ∧
      (∀ p ∈ st'.pnodes, p ∈ scenarioDupState.pnodes ∨
        (p.seen = 0 ∧ p.lost = false ∧ 1 < p.seq)) ∧
      (OWPIsLostRecord (lossRecord 1) = true →
        OWPPacketRec.mk 1 (1002 * oneSecond) 1 false ∈ st'.pnodes) ∧
      (callbackFlush (lossRecord 1).seq_no (OWPIsLostRecord (lossRecord 1))
          (fun s => OWPNum64Sub (lossRecord 1).recv.owptime s.hdr.test_spec.loss_timeout)
          (markOffset scenarioDupState (lossRecord 1).seq_no) = Ret.ok st1 ∨
        callbackFlush (lossRecord 1).seq_no (OWPIsLostRecord (lossRecord 1))
          (fun s => OWPNum64Sub (lossRecord 1).recv.owptime s.hdr.test_spec.loss_timeout)
          (markOffset scenarioDupState (lossRecord 1).seq_no) = Ret.fatal st1) ∧
      st'.lost = st1.lost ∧ st'.dups = st1.dups := by
  have hw : Win scenarioDupState 0 1 :=
    ⟨by decide!, by decide, by decide!, by decide!, by decide!, by decide!⟩
  have hm : OWPPacketRec.mk 1 (1002 * oneSecond) 1 false ∈ scenarioDupState.pnodes := by
    decide!
  have hsk : inSkip scenarioDupState.skips (lossRecord 1).seq_no = false := by decide!
  exact ⟨hw, hm, hsk,
    C28_forbidden_transitions_fatal scenarioDupState 0 1 (lossRecord 1) _ hw hm rfl hsk
      (Or.inl ⟨rfl, by decide⟩)⟩

theorem run_reach {st8 st : OWPStatsRec} {log : List Nat} (h : ParseRun st8 log st) :
    ParseReach st8 st := by
  induction h with
  | start => exact Relation.ReflTransGen.refl
  | step st1 st2 log _ hs ih => exact Relation.ReflTransGen.tail ih hs

theorem reach_run {st8 st : OWPStatsRec} (h : ParseReach st8 st) :
    ∃ log, ParseRun st8 log st := by
  induction h with
  | refl => exact ⟨[], ParseRun.start st8⟩
  | tail _ hs ih =>
    obtain ⟨log, hl⟩ := ih
    exact ⟨_, ParseRun.step _ _ _ log hl hs⟩

theorem same_head {st st1 : OWPStatsRec} (hl : st1.last = st.last)
    (h : ∀ node tl, st.pnodes = node :: tl →
      ∃ nd tl1, st1.pnodes = nd :: tl1 ∧ nd.seq = node.seq)
    (h0 : st.pnodes = [] → st1.pnodes = []) :
    flushedBy st st1 = [] ∧ winBegin st1 = winBegin st := by
  unfold flushedBy winBegin
  cases hp : st.pnodes with
  | nil =>
    rw [h0 hp]
    exact ⟨rfl, hl⟩
  | cons node tl =>
    obtain ⟨nd, tl1, q1, q2⟩ := h node tl hp
    rw [q1]
    have hany : (nd :: tl1).any (fun p => decide (p.seq = node.seq)) = true := by
      simp [q2]
    simp only []
    rw [if_pos hany]
    exact ⟨rfl, q2⟩

theorem same_head_update {st st1 : OWPStatsRec} (hl : st1.last = st.last) (seq : Nat)
    (f : OWPPacketRec → OWPPacketRec) (f1 : ∀ p, (f p).seq = p.seq)
    (hpn : st1.pnodes = nodeUpdate seq f st.pnodes) :
    flushedBy st st1 = [] ∧ winBegin st1 = winBegin st := by
  apply same_head hl
  · intro node tl hp
    rw [hpn, hp]
    unfold nodeUpdate
    simp only [List.map_cons]
    refine ⟨_, _, rfl, ?_⟩
    split_ifs
    · exact f1 node
    · rfl
  · intro hp
    rw [hpn, hp]
    rfl

/-- A state change of a parse of a range `first < last` either leaves the
beginning of the window where it is and flushes nothing, or is a flush of the
record the window begins with, after which the window begins one further. -/
theorem ParseStep_flushed {st st1 : OWPStatsRec} (h : RInv st) (hlt : st.first < st.last)
    (hs : ParseStep st st1) :
    (flushedBy st st1 = [] ∧ winBegin st1 = winBegin st) ∨
    (flushedBy st st1 = [winBegin st] ∧ winBegin st1 = winBegin st + 1 ∧
      winBegin st < st.last) := by
  obtain ⟨_, _, _, hl⟩ := ParseStep_inv h hs
  cases hs with
  | mark seq =>
    left
    obtain ⟨m1, _⟩ := markOffset_fields st seq
    apply same_head hl
    · intro node tl hp
      exact ⟨node, tl, by rw [m1]; exact hp, rfl⟩
    · intro hp
      rw [m1]; exact hp
  | flush _ r hne hf =>
    right
    rcases WinOK_cases h.win hne with ⟨b, e, hwin⟩ | ⟨hd1, _⟩
    · obtain ⟨st2, r2, node, k1, k2, k3, _, hcase⟩ := PacketBeginFlush_win hwin
      rw [hf] at k3
      simp only [Option.some.injEq, Prod.mk.injEq] at k3
      obtain ⟨e1, e2⟩ := k3
      subst e1
      subst e2
      obtain ⟨nd, tl, hp, hnb, _, _⟩ := Win_head hwin
      have hwb : winBegin st = b := by
        unfold winBegin
        rw [hp]
        exact hnb
      have hle := hwin.le
      have hll := hwin.lt_last
      rcases hcase with ⟨_, c2, _⟩ | ⟨_, c2, c3, c4⟩
      · obtain ⟨nd1, tl1, hp1, hnb1, _, _⟩ := Win_head c2
        refine ⟨?_, ?_, by omega⟩
        · unfold flushedBy
          rw [hp]
          simp only []
          have hany : st1.pnodes.any (fun p => decide (p.seq = nd.seq)) = false := by
            rw [List.any_eq_false]
            intro p hpm
            have := (Win_mem_seq c2 hpm).1
            simp only [decide_eq_true_eq]
            omega
          rw [hany, hwb, hnb]
          rfl
        · unfold winBegin
          rw [hp1, hp]
          simp only []
          omega
      · refine ⟨?_, ?_, by omega⟩
        · unfold flushedBy
          rw [hp, c4]
          simp only [List.any_nil, Bool.false_eq_true, if_false]
          rw [hwb, hnb]
        · unfold winBegin
          rw [c4, hp]
          simp only []
          omega
    · omega
  | get _ seq n hne h1 h2 hg =>
    left
    rcases WinOK_cases h.win hne with ⟨b, e, hwin⟩ | ⟨hd1, _⟩
    · rcases Nat.lt_or_ge seq b with hlt1 | hge
      · rw [PacketGet_behind st b e seq hwin h1 hlt1] at hg
        simp only [Option.some.injEq, Prod.mk.injEq] at hg
        rw [← hg.1]
        exact same_head rfl (fun node tl hp => ⟨node, tl, hp, rfl⟩) (fun hp => hp)
      · obtain ⟨st2, news, node, g1, _, _, g4, _⟩ := PacketGet_spec st b e seq hwin hge h2
        rw [hg] at g1
        simp only [Option.some.injEq, Prod.mk.injEq] at g1
        obtain ⟨g1a, _⟩ := g1
        subst g1a
        apply same_head hl
        · intro nd tl hp
          exact ⟨nd, tl ++ news, by rw [g4, hp]; rfl, rfl⟩
        · intro hp
          exact absurd hp hne
    · omega
  | lostOW rec node hm hs0 =>
    left
    obtain ⟨p1, _⟩ := frameP_fields (PostLostOK_OW rec (lostUpdate st node)).1
    exact same_head_update hl node.seq (fun p => { p with lost := true }) (fun _ => rfl)
      (by rw [p1]; rfl)
  | lostTW rec node hm hs0 =>
    left
    obtain ⟨p1, _⟩ := frameP_fields (PostLostOK_TW rec (lostUpdate st node)).1
    exact same_head_update hl node.seq (fun p => { p with lost := true }) (fun _ => rfl)
      (by rw [p1]; rfl)
  | recvOW rec node hm hl0 =>
    left
    obtain ⟨p1, _⟩ := frameP_fields
      (PostOK_OW rec node.seen (jreorder (seenUpdate st node) rec.seq_no)).1
    exact same_head_update hl node.seq (fun p => { p with seen := p.seen + 1 }) (fun _ => rfl)
      (by rw [p1]; rfl)
  | recvTW rec node hm hl0 =>
    left
    obtain ⟨p1, _⟩ := frameP_fields
      (PostOK_TW rec node.seen (jreorder (seenUpdate st node) rec.sent.seq_no)).1
    exact same_head_update hl node.seq (fun p => { p with seen := p.seen + 1 }) (fun _ => rfl)
      (by rw [p1]; rfl)

/-- Along every run of a parse of a range `first < last`, the log is the run of
sequence numbers from the beginning of the first window to the beginning of
the last one: each was flushed once, in increasing order. -/
theorem run_log {st8 st : OWPStatsRec} {log : List Nat} (h8 : RInv st8)
    (hlt : st8.first < st8.last) (h : ParseRun st8 log st) :
    winBegin st8 ≤ winBegin st ∧
    log = List.range' (winBegin st8) (winBegin st - winBegin st8) := by
  induction h with
  | start =>
    refine ⟨le_refl _, ?_⟩
    simp
  | step st1 st2 log hrun hs ih =>
    obtain ⟨i1, i2⟩ := ih
    obtain ⟨j1, j2, j3⟩ := reach_inv h8 (run_reach hrun)
    rcases ParseStep_flushed j1 (by rw [j2, j3]; exact hlt) hs with ⟨f1, f2⟩ | ⟨f1, f2, _⟩
    · rw [f1, f2, List.append_nil]
      exact ⟨i1, i2⟩
    · rw [f1, f2]
      refine ⟨by omega, ?_⟩
      have he : winBegin st1 + 1 - winBegin st8 = (winBegin st1 - winBegin st8) + 1 := by omega
      rw [he, List.range'_1_concat, ← i2]
      congr 2
      omega

/-- Claim C36: in a parse of a range `first < last` on which the callbacks have
succeeded for every record, the final loop `while(pbegin && PacketBeginFlush)`
ends (with the fuel `last + 2` of the model), leaving the window empty, and
along the run of the parse, from the state after the initialisation to the end
of this loop, `PacketBeginFlush` has flushed exactly the sequence numbers
`first, first + 1, ..., last - 1`, each once and in this order: `last - first`
flushes in all.  (A run is a chain of state changes; the run of the parse
exists, and every chain between these two states has this log.) -/
theorem C36_every_packet_flushed_once (st0 : OWPStatsRec) (file : OWPFile)
    (bo first last : Nat) (st8 st9 : OWPStatsRec)
    (hi : parseInit st0 bo first last = some st8)
    (hit : parseIterate st8 file = Ret.ok st9) (hlt : first < last) :
    ∃ st10, drainLoop (st9.last + 2) st9 = some st10 ∧ st10.pnodes = [] ∧
      (∃ log, ParseRun st8 log st10) ∧
      (∀ log, ParseRun st8 log st10 →
        log = List.range' first (last - first) ∧ log.length = last - first) := by
  obtain ⟨⟨T, s1⟩, _, _, s4, s5, _⟩ := parseInit_spec st0 bo first last st8 hi
  have hinv8 := parseInit_inv st0 bo first last st8 hi hlt
  have h8 := parseInit_RInv st0 bo first last st8 (le_of_lt hlt) hi
  obtain ⟨b1, e1, hinv9, _, l9, _⟩ := parseIterate_inv st8 file first first hinv8 st9 hit
  have hsome := drainLoop_no_crash (streamOf st8.hdr file) (st9.last + 1) st9 b1 e1 hinv9
    (by omega)
  cases hd : drainLoop (st9.last + 1 + 1) st9 with
  | none => exact absurd hd hsome
  | some st10 =>
    obtain ⟨_, hp10, _⟩ := drainLoop_inv _ _ st9 b1 e1 hinv9 st10 hd
    have hr : ParseReach st8 st10 :=
      Relation.ReflTransGen.trans (parseIterate_reach st8 file st9 (Or.inl hit))
        (drainLoop_reach _ st9 st10 hd)
    obtain ⟨_, _, l10⟩ := reach_inv h8 hr
    refine ⟨st10, rfl, hp10, reach_run hr, ?_⟩
    intro log hrun
    obtain ⟨_, hlog⟩ := run_log h8 (by rw [s4, s5]; exact hlt) hrun
    have w8 : winBegin st8 = first := by
      unfold winBegin
      rw [s1]
    have w10 : winBegin st10 = last := by
      unfold winBegin
      rw [hp10]
      simp only []
      rw [l10, s5]
    rw [w8, w10] at hlog
    refine ⟨hlog, ?_⟩
    rw [hlog, List.length_range']

/-- Claim C36, witness S3: for the parse of `[0,5)` of scenario S3 the final
loop ends with an empty window, and the log of the run is 0, 1, 2, 3, 4. -/
theorem C36_witness_S3 :
    parseInit (scenarioStats []) 0 0 5 = some scenarioInit ∧
    parseIterate scenarioInit { datarecs := scenarioS3 } = Ret.ok scenarioS3Iterated ∧
    (0 : Nat) < 5 ∧
    ∃ st10, drainLoop (scenarioS3Iterated.last + 2) scenarioS3Iterated = some st10 ∧
      st10.pnodes = [] ∧ (∃ log, ParseRun scenarioInit log st10) ∧
      (∀ log, ParseRun scenarioInit log st10 →
        log = List.range' 0 (5 - 0) ∧ log.length = 5 - 0) := by
  have hit : parseIterate scenarioInit { datarecs := scenarioS3 } = Ret.ok scenarioS3Iterated :=
    Ret_ok_stateD _ _ (by decide!)
  exact ⟨scenarioInit_eq, hit, by decide,
    C36_every_packet_flushed_once (scenarioStats []) { datarecs := scenarioS3 } 0 0 5
      scenarioInit scenarioS3Iterated scenarioInit_eq hit (by decide)⟩

end Owamp
